import Mathlib

/-!
ScriptCanvas `Node` core: slot management, bindings and graph traversals.

Shallow embedding of `dev/Gems/ScriptCanvas/Code/Include/ScriptCanvas/Core/Node.cpp`.

Modelling conventions

* `AZStd::list` elements carry a `Cell`: the identity of the list node, which is what a
  `SlotIterator` / `VariableIterator` denotes.  A new element takes the cell `m_nextCell`,
  a counter that only grows, so live elements never share a cell.
* `AZStd::unordered_map` is an association list; `find` returns the entry with the key,
  `emplace` does nothing when the key is present, `operator[]` assigns or adds.
* `AZStd::unordered_multimap` is an association list too; `find` returns the first entry
  with the key, and where `emplace` puts a new entry relative to the entries with an equal
  key is the parameter `EqualKeyOrder`.
* Identifiers generated by constructors that are not part of `Node.cpp` (`Slot`,
  `VariableDatumBase`) are arguments of the inserting operation.
* Bus notifications are returned as a list of events.
-/

namespace ScriptCanvas

/-! ## Identifiers -/

/-- Slot identifier; `m_id = 0` is the null uuid of a default constructed `SlotId`. -/
structure SlotId where
  m_id : Nat
deriving DecidableEq, Repr

/-- Variable identifier; `m_id = 0` is the null uuid of a default constructed `VariableId`. -/
structure VariableId where
  m_id : Nat
deriving DecidableEq, Repr

/-- Entity identifier (`AZ::EntityId`), also used as node `ID`. -/
structure EntityId where
  m_id : Nat
deriving DecidableEq, Repr

/-- The id `SlotId{}`. -/
def SlotId.empty : SlotId := ⟨0⟩

/-- The id `VariableId{}`. -/
def VariableId.empty : VariableId := ⟨0⟩

/-- The id `AZ::EntityId()` (`InvalidEntityId`). -/
def EntityId.invalid : EntityId := ⟨4294967295⟩

/-- Embeds `SlotId::IsValid`: the uuid is not null. -/
def SlotId.IsValid (s : SlotId) : Bool := s.m_id != 0

/-- Embeds `VariableId::IsValid`: the uuid is not null. -/
def VariableId.IsValid (v : VariableId) : Bool := v.m_id != 0

/-- Identity of an `AZStd::list` element: the value of an iterator into the list. -/
abbrev Cell := Nat

/-! ## Slots, data and variables -/

/-- Modelled from the spec: the `SlotType` enumeration (declared in `Slot.h`), with the
four kinds of section 3 of the specification. -/
inductive SlotType where
  | ExecutionIn
  | ExecutionOut
  | DataIn
  | DataOut
deriving DecidableEq, Repr

/-- Embeds `Data::Type`, identified by a tag; tag `0` is `Data::Type::Invalid()`. -/
structure DataType where
  tag : Nat
deriving DecidableEq, Repr

/-- The type `Data::Type::Invalid()`. -/
def DataType.Invalid : DataType := ⟨0⟩

/-- Embeds `Data::Type::IsValid`. -/
def DataType.IsValid (t : DataType) : Bool := t.tag != 0

/-- A `ContractDescriptor`: the factory of one contract of a slot.  The factories that
`Node.cpp` builds are named; any other factory is `custom`. -/
inductive ContractDescriptor where
  | typeContract (type : Option DataType)
  | dynamicTypeContract
  | exclusivePureDataContract
  | custom (tag : Nat)
deriving DecidableEq, Repr

/-- Embeds `SlotConfiguration`, fields in the order of its aggregate initialiser. -/
structure SlotConfiguration where
  m_name : String
  m_toolTip : String
  m_type : SlotType
  m_contractDescs : List ContractDescriptor
  m_addUniqueSlotByNameAndType : Bool
deriving DecidableEq, Repr

/-- A `Slot`. -/
structure Slot where
  m_id : SlotId
  m_name : String
  m_toolTip : String
  m_type : SlotType
  m_contracts : List ContractDescriptor
  m_nodeId : EntityId
deriving DecidableEq, Repr

/-- A `Datum`: type, stored value, label and the entity notified of changes. -/
structure Datum where
  m_type : DataType
  m_value : Int
  m_label : String
  m_notificationId : EntityId
deriving DecidableEq, Repr

/-- Embeds `Datum::SetLabel`. -/
def Datum.SetLabel (d : Datum) (name : String) : Datum := { d with m_label := name }

/-- Embeds `Datum::SetNotificationsTarget`. -/
def Datum.SetNotificationsTarget (d : Datum) (target : EntityId) : Datum :=
  { d with m_notificationId := target }

/-- A `VariableDatumBase`: a datum with the id of the variable. -/
structure VariableDatumBase where
  m_id : VariableId
  m_data : Datum
deriving DecidableEq, Repr

/-- Embeds `VariableInfo`: the active and the owned variable of a slot and its declared type. -/
structure VariableInfo where
  m_currentVariableId : VariableId
  m_ownedVariableId : VariableId
  m_dataType : DataType
deriving DecidableEq, Repr

/-- The variables that answer on the `VariableRequestBus` (variables managed outside the
node), looked up by id. -/
abbrev VariableRegistry := List VariableDatumBase

/-- Embeds `VariableRequests::GetVariableDatum` addressed to `id`. -/
def VariableRegistry.GetVariableDatum (reg : VariableRegistry) (id : VariableId) :
    Option VariableDatumBase :=
  reg.find? (fun v => v.m_id == id)

/-- Embeds `VariableInfo::VariableInfo(const VariableId&)`: both ids are the given id, the type is
the answer of `VariableRequests::GetType` and stays invalid when nothing answers. -/
def VariableInfo.ofVariableId (reg : VariableRegistry) (nodeOwnedVarId : VariableId) :
    VariableInfo :=
  { m_currentVariableId := nodeOwnedVarId
    m_ownedVariableId := nodeOwnedVarId
    m_dataType :=
      match reg.GetVariableDatum nodeOwnedVarId with
      | some v => v.m_data.m_type
      | none => DataType.Invalid }

/-- Embeds `VariableInfo::VariableInfo(const Data::Type&)`: both ids stay empty. -/
def VariableInfo.ofDataType (dataType : DataType) : VariableInfo :=
  { m_currentVariableId := VariableId.empty
    m_ownedVariableId := VariableId.empty
    m_dataType := dataType }

/-! ## Containers -/

/-- Where `unordered_multimap::emplace` puts an entry among the entries with an equal key;
`find` returns the first of them. -/
inductive EqualKeyOrder where
  | newestFirst
  | oldestFirst
deriving DecidableEq, Repr

/-- Embeds `unordered_map::find` / `unordered_multimap::find`. -/
def mapFind {K V : Type} [DecidableEq K] (m : List (K × V)) (k : K) : Option (K × V) :=
  m.find? (fun e => decide (e.1 = k))

/-- Embeds `unordered_map::emplace`: no insertion when the key is present. -/
def mapEmplace {K V : Type} [DecidableEq K] (m : List (K × V)) (k : K) (v : V) :
    List (K × V) :=
  match mapFind m k with
  | some _ => m
  | none => m ++ [(k, v)]

/-- Embeds `unordered_map::operator[]` followed by assignment. -/
def mapAssign {K V : Type} [DecidableEq K] : List (K × V) → K → V → List (K × V)
  | [], k, v => [(k, v)]
  | e :: m, k, v => if e.1 = k then (k, v) :: m else e :: mapAssign m k v

/-- Embeds `unordered_map::erase(iterator)` for the iterator that `find k` returned. -/
def mapErase {K V : Type} [DecidableEq K] (m : List (K × V)) (k : K) : List (K × V) :=
  m.eraseP (fun e => decide (e.1 = k))

/-- Embeds `unordered_multimap::emplace`. -/
def multimapEmplace {K V : Type} (order : EqualKeyOrder) (m : List (K × V)) (k : K) (v : V) :
    List (K × V) :=
  match order with
  | EqualKeyOrder.newestFirst => (k, v) :: m
  | EqualKeyOrder.oldestFirst => m ++ [(k, v)]

/-- Embeds `unordered_multimap::equal_range`: the entries with the key, in `find` order. -/
def multimapEqualRange {K V : Type} [DecidableEq K] (m : List (K × V)) (k : K) :
    List (K × V) :=
  m.filter (fun e => decide (e.1 = k))

/-- Dereference of a list iterator: the element stored in the cell. -/
def cellDeref {A : Type} (l : List (Cell × A)) (c : Cell) : Option A :=
  (l.find? (fun e => decide (e.1 = c))).map Prod.snd

/-- Embeds `list::erase(iterator)`. -/
def cellErase {A : Type} (l : List (Cell × A)) (c : Cell) : List (Cell × A) :=
  l.eraseP (fun e => decide (e.1 = c))

/-- Embeds `AZStd::distance(list.begin(), iterator)`; the length of the list for `end()` . -/
def cellDistance {A : Type} (l : List (Cell × A)) (c : Cell) : Nat :=
  l.findIdx (fun e => decide (e.1 = c))

/-- Embeds `list::emplace(insertIter, x)` for the `insertIter` of `Node::InsertSlotInternal`:
`end()` when `insertIndex < 0` or `insertIndex >= size()`, else
`AZStd::next(begin(), insertIndex)`. -/
def emplaceAtIndex {A : Type} (l : List A) (insertIndex : Int) (x : A) : List A :=
  if insertIndex < 0 ∨ insertIndex ≥ (l.length : Int) then l ++ [x]
  else l.take insertIndex.toNat ++ x :: l.drop insertIndex.toNat

/-! ## Endpoints and the graph collaborator -/

/-- An `Endpoint`: a slot of a node. -/
structure Endpoint where
  m_nodeId : EntityId
  m_slotId : SlotId
deriving DecidableEq, Repr

/-- A connection of the graph, between a source and a target endpoint. -/
structure Connection where
  m_sourceEndpoint : Endpoint
  m_targetEndpoint : Endpoint
deriving DecidableEq, Repr

/-- Modelled from the spec: the `Graph` collaborator (`Graph.cpp`), reduced to the
connectivity it owns, stored as endpoint to endpoint edges (section 3). -/
structure Graph where
  m_connections : List Connection
deriving DecidableEq, Repr

/-- Whether a connection has `e` at one of its two ends. -/
def Connection.touches (c : Connection) (e : Endpoint) : Bool :=
  decide (c.m_sourceEndpoint = e) || decide (c.m_targetEndpoint = e)

/-- Whether a connection joins `a` and `b`, in either direction. -/
def Connection.joins (c : Connection) (a b : Endpoint) : Bool :=
  (decide (c.m_sourceEndpoint = a) && decide (c.m_targetEndpoint = b))
    || (decide (c.m_sourceEndpoint = b) && decide (c.m_targetEndpoint = a))

/-- The end of a connection opposite to `e`, for a connection that touches `e`. -/
def Connection.other (c : Connection) (e : Endpoint) : Endpoint :=
  if c.m_sourceEndpoint = e then c.m_targetEndpoint else c.m_sourceEndpoint

/-- Modelled from the spec: `Graph::GetConnectedEndpoints` (`Graph.cpp`), the ordered list
of the endpoints connected to `e` (section 6), one per connection at `e`. -/
def Graph.GetConnectedEndpoints (g : Graph) (e : Endpoint) : List Endpoint :=
  (g.m_connections.filter (fun c => c.touches e)).map (fun c => c.other e)

/-- Modelled from the spec: `Graph::DisconnectByEndpoint` (`Graph.cpp`), which removes the
connection between the two endpoints when there is one. -/
def Graph.DisconnectByEndpoint (g : Graph) (a b : Endpoint) : Graph :=
  { m_connections := g.m_connections.eraseP (fun c => c.joins a b) }

/-! ## Notifications -/

/-- Events of the `NodeNotificationsBus`, with the bus address they are sent to. -/
inductive NodeNotification where
  | OnSlotAdded (address : EntityId) (slotId : SlotId)
  | OnSlotRemoved (address : EntityId) (slotId : SlotId)
  | OnSlotActiveVariableChanged (address : EntityId) (slotId : SlotId)
      (oldVariableId newVariableId : VariableId)
  | OnInputChanged (address : EntityId) (slotId : SlotId)
deriving DecidableEq, Repr

/-! ## The node -/

/-- The class of a node as far as `Node.cpp` inspects it through `azrtti_cast` and the
virtual `IsEventHandler`. -/
inductive NodeClass where
  | plain
  | pureData
  | eBusEventHandler (eventSlotIds : List SlotId)
deriving DecidableEq, Repr

/-- The state of a `Node`. -/
structure Node where
  /-- The entity the component is attached to, `none` when `GetEntity()` is null. -/
  m_entity : Option EntityId
  m_executionUniqueId : EntityId
  m_class : NodeClass
  m_slots : List (Cell × Slot)
  m_varDatums : List (Cell × VariableDatumBase)
  m_slotIdMap : List (SlotId × Cell)
  m_slotNameMap : List (String × Cell)
  m_varIdMap : List (VariableId × Cell)
  m_slotIdVarInfoMap : List (SlotId × VariableInfo)
  m_possiblyStaleInput : List SlotId
  /-- The cell the next list element takes. -/
  m_nextCell : Cell
deriving DecidableEq, Repr

namespace Node

/-- A freshly constructed node (`Node::Node()`): no slots, no variables, empty indices. -/
def empty (entity : Option EntityId) (cls : NodeClass) : Node :=
  { m_entity := entity
    m_executionUniqueId := EntityId.invalid
    m_class := cls
    m_slots := []
    m_varDatums := []
    m_slotIdMap := []
    m_slotNameMap := []
    m_varIdMap := []
    m_slotIdVarInfoMap := []
    m_possiblyStaleInput := []
    m_nextCell := 0 }

/-- Embeds `GetEntityId()`: the id of the entity, the invalid id without an entity. -/
def GetEntityId (self : Node) : EntityId := self.m_entity.getD EntityId.invalid

/-- The bus address `(GetEntity() != nullptr) ? GetEntityId() : AZ::EntityId()`. -/
def notificationAddress (self : Node) : EntityId :=
  match self.m_entity with
  | some e => e
  | none => EntityId.invalid

/-- The id of the slot an iterator points to, `SlotId{}` for `end()`. -/
def slotIdAt (self : Node) (iter : Option Cell) : SlotId :=
  match iter with
  | none => SlotId.empty
  | some c =>
    match cellDeref self.m_slots c with
    | some s => s.m_id
    | none => SlotId.empty

/-- Outcome of `InsertSlotInternal`: success flag, the iterator left in `iterOut`
(`none` is `m_slots.end()`), and the node afterwards. -/
structure InsertSlotOutcome where
  success : Bool
  iterOut : Option Cell
  node : Node
deriving DecidableEq, Repr

/-- The slot `m_slots.emplace` constructs from the configuration, after `SetNodeId`.
`newSlotId` is the id the `Slot` constructor generates. -/
def constructSlot (self : Node) (slotConfiguration : SlotConfiguration) (newSlotId : SlotId) :
    Slot :=
  { m_id := newSlotId
    m_name := slotConfiguration.m_name
    m_toolTip := slotConfiguration.m_toolTip
    m_type := slotConfiguration.m_type
    m_contracts :=
      if slotConfiguration.m_type = SlotType.DataIn then
        slotConfiguration.m_contractDescs ++ [ContractDescriptor.exclusivePureDataContract]
      else slotConfiguration.m_contractDescs
    m_nodeId := self.notificationAddress }

/-- The part of `Node::InsertSlotInternal` after the two rejections: the slot is emplaced
before `insertIter` and entered into the id index and the name index. -/
def emplaceSlot (order : EqualKeyOrder) (self : Node) (insertIndex : Int)
    (slotConfiguration : SlotConfiguration) (newSlotId : SlotId) : Node :=
  { self with
    m_slots :=
      emplaceAtIndex self.m_slots insertIndex
        (self.m_nextCell, self.constructSlot slotConfiguration newSlotId)
    m_slotIdMap := mapEmplace self.m_slotIdMap newSlotId self.m_nextCell
    m_slotNameMap :=
      multimapEmplace order self.m_slotNameMap slotConfiguration.m_name self.m_nextCell
    m_nextCell := self.m_nextCell + 1 }

/-- The test `slotNameIter != m_slotNameMap.end() && slotNameIter->second->GetType() ==
slotConfiguration.m_type` of `Node::InsertSlotInternal`. -/
def nameIterHasType (self : Node) (slotNameIter : Option (String × Cell)) (type : SlotType) :
    Bool :=
  match slotNameIter with
  | some e =>
    (match cellDeref self.m_slots e.2 with
     | some s => decide (s.m_type = type)
     | none => false)
  | none => false

/-- Embeds `Node::InsertSlotInternal`.  `newSlotId` is the id the `Slot` constructor generates. -/
def InsertSlotInternal (order : EqualKeyOrder) (self : Node) (insertIndex : Int)
    (slotConfiguration : SlotConfiguration) (newSlotId : SlotId) (iterOut : Option Cell) :
    InsertSlotOutcome :=
  if slotConfiguration.m_name.isEmpty then
    { success := false, iterOut := iterOut, node := self }
  else
    let slotNameIter := mapFind self.m_slotNameMap slotConfiguration.m_name
    if slotConfiguration.m_addUniqueSlotByNameAndType
        && self.nameIterHasType slotNameIter slotConfiguration.m_type then
      { success := false, iterOut := slotNameIter.map Prod.snd, node := self }
    else
      { success := true
        iterOut := some self.m_nextCell
        node := self.emplaceSlot order insertIndex slotConfiguration newSlotId }

/-- Result of a public slot insertion: the returned id, the node afterwards and the
notifications sent. -/
structure InsertResult where
  slotId : SlotId
  node : Node
  events : List NodeNotification
deriving DecidableEq, Repr

/-- Embeds `Node::InsertSlot`. -/
def InsertSlot (order : EqualKeyOrder) (self : Node) (index : Int)
    (slotConfig : SlotConfiguration) (newSlotId : SlotId) : InsertResult :=
  let r := InsertSlotInternal order self index slotConfig newSlotId none
  { slotId := r.node.slotIdAt r.iterOut
    node := r.node
    events :=
      if r.success then
        [NodeNotification.OnSlotAdded r.node.notificationAddress (r.node.slotIdAt r.iterOut)]
      else [] }

/-- Embeds `Node::AddSlot`. -/
def AddSlot (order : EqualKeyOrder) (self : Node) (slotConfiguration : SlotConfiguration)
    (newSlotId : SlotId) : InsertResult :=
  InsertSlot order self (-1) slotConfiguration newSlotId

/-- The variable `m_varDatums.emplace` constructs from the initial datum, after `SetLabel`
and `SetNotificationsTarget`.  `newVarId` is the id the `VariableDatumBase` constructor
generates. -/
def constructVariable (self : Node) (slotConfig : SlotConfiguration) (initialDatum : Datum)
    (newVarId : VariableId) : VariableDatumBase :=
  { m_id := newVarId
    m_data := (initialDatum.SetLabel slotConfig.m_name).SetNotificationsTarget self.GetEntityId }

/-- Embeds `Node::InsertInputDatumSlotInternal`.  `newVarId` is the id the `VariableDatumBase`
constructor generates for the variable that takes over `initialDatum`. -/
def InsertInputDatumSlotInternal (order : EqualKeyOrder) (reg : VariableRegistry) (self : Node)
    (index : Int) (slotConfig : SlotConfiguration) (initialDatum : Datum) (newSlotId : SlotId)
    (newVarId : VariableId) (slotIterOut : Option Cell) : InsertSlotOutcome :=
  let insertSlotOutcome := InsertSlotInternal order self index slotConfig newSlotId slotIterOut
  if insertSlotOutcome.success then
    let n := insertSlotOutcome.node
    let varCell := n.m_nextCell
    let varDatums :=
      n.m_varDatums ++ [(varCell, n.constructVariable slotConfig initialDatum newVarId)]
    let n1 : Node :=
      { n with
        m_varDatums := varDatums
        m_varIdMap := mapEmplace n.m_varIdMap newVarId varCell
        m_nextCell := varCell + 1 }
    let varId : VariableId :=
      match cellDeref n1.m_varDatums varCell with
      | some v => v.m_id
      | none => VariableId.empty
    { insertSlotOutcome with
      node :=
        { n1 with
          m_slotIdVarInfoMap :=
            mapAssign n1.m_slotIdVarInfoMap (n1.slotIdAt insertSlotOutcome.iterOut)
              (VariableInfo.ofVariableId reg varId) } }
  else insertSlotOutcome

/-- Embeds `Node::InsertInputDatumSlot`. -/
def InsertInputDatumSlot (order : EqualKeyOrder) (reg : VariableRegistry) (self : Node)
    (insertIndex : Int) (slotConfig : SlotConfiguration) (initialDatum : Datum)
    (newSlotId : SlotId) (newVarId : VariableId) : InsertResult :=
  let r := InsertInputDatumSlotInternal order reg self insertIndex slotConfig initialDatum
    newSlotId newVarId none
  { slotId := r.node.slotIdAt r.iterOut
    node := r.node
    events :=
      if r.success then
        [NodeNotification.OnSlotAdded r.node.notificationAddress (r.node.slotIdAt r.iterOut)]
      else [] }

/-- Embeds `Node::AddInputDatumSlot(const SlotConfiguration&, Datum&&)`. -/
def AddInputDatumSlot (order : EqualKeyOrder) (reg : VariableRegistry) (self : Node)
    (slotConfig : SlotConfiguration) (initialDatum : Datum) (newSlotId : SlotId)
    (newVarId : VariableId) : InsertResult :=
  InsertInputDatumSlot order reg self (-1) slotConfig initialDatum newSlotId newVarId

/-- Embeds `Node::InsertDataTypeSlotInternal`; the index argument is not used by the source, which
passes `-1` on. -/
def InsertDataTypeSlotInternal (order : EqualKeyOrder) (self : Node) (_index : Int)
    (slotConfig : SlotConfiguration) (dataType : DataType) (newSlotId : SlotId)
    (slotIterOut : Option Cell) : InsertSlotOutcome :=
  let insertSlotOutcome := InsertSlotInternal order self (-1) slotConfig newSlotId slotIterOut
  if insertSlotOutcome.success then
    let n := insertSlotOutcome.node
    { insertSlotOutcome with
      node :=
        { n with
          m_slotIdVarInfoMap :=
            mapAssign n.m_slotIdVarInfoMap (n.slotIdAt insertSlotOutcome.iterOut)
              (VariableInfo.ofDataType dataType) } }
  else insertSlotOutcome

/-- The `InputTypeContract` argument of `AddInputTypeSlot`. -/
inductive InputTypeContract where
  | CustomType
  | DatumType
  | None
deriving DecidableEq, Repr

/-- Embeds `Node::AddInputTypeSlot(name, toolTip, const Data::Type&, contractType, unique)`. -/
def AddInputTypeSlot (order : EqualKeyOrder) (self : Node) (name toolTip : String)
    (type : DataType) (contractType : InputTypeContract) (addUniqueSlotByNameAndType : Bool)
    (newSlotId : SlotId) : InsertResult :=
  let contracts : List ContractDescriptor :=
    match contractType with
    | InputTypeContract.CustomType => [ContractDescriptor.typeContract (some type)]
    | InputTypeContract.DatumType => [ContractDescriptor.typeContract none]
    | InputTypeContract.None => []
  let r := InsertDataTypeSlotInternal order self (-1)
    { m_name := name, m_toolTip := toolTip, m_type := SlotType.DataIn,
      m_contractDescs := contracts,
      m_addUniqueSlotByNameAndType := addUniqueSlotByNameAndType } type newSlotId none
  { slotId := r.node.slotIdAt r.iterOut
    node := r.node
    events :=
      if r.success then
        [NodeNotification.OnSlotAdded r.node.notificationAddress (r.node.slotIdAt r.iterOut)]
      else [] }

/-- Embeds `Node::AddOutputTypeSlot`; a rejected insertion returns `SlotId{}`. -/
def AddOutputTypeSlot (order : EqualKeyOrder) (self : Node) (name toolTip : String)
    (type : DataType) (addUniqueSlotByNameAndType : Bool) (newSlotId : SlotId) :
    InsertResult :=
  let r := InsertDataTypeSlotInternal order self (-1)
    { m_name := name, m_toolTip := toolTip, m_type := SlotType.DataOut,
      m_contractDescs := [],
      m_addUniqueSlotByNameAndType := addUniqueSlotByNameAndType } type newSlotId none
  if r.success then
    { slotId := r.node.slotIdAt r.iterOut
      node := r.node
      events :=
        [NodeNotification.OnSlotAdded r.node.notificationAddress (r.node.slotIdAt r.iterOut)] }
  else
    { slotId := SlotId.empty, node := r.node, events := [] }

/-- Result of `RemoveSlot`: the returned flag, the node and the graph afterwards and the
notifications sent. -/
structure RemoveResult where
  removed : Bool
  node : Node
  graph : Option Graph
  events : List NodeNotification
deriving DecidableEq, Repr

/-- The loop of `RemoveSlot` over `graph->GetConnectedEndpoints(baseEndpoint)`. -/
def disconnectAll (graph : Graph) (baseEndpoint : Endpoint) : Graph :=
  (graph.GetConnectedEndpoints baseEndpoint).foldl
    (fun g connectedEndpoint => g.DisconnectByEndpoint baseEndpoint connectedEndpoint) graph

/-- Embeds `Node::RemoveSlot`.  `graph` is the result of `GetGraph()`, `none` for a null graph. -/
def RemoveSlot (self : Node) (graph : Option Graph) (slotId : SlotId) : RemoveResult :=
  match mapFind self.m_slotIdMap slotId with
  | none => { removed := false, node := self, graph := graph, events := [] }
  | some slotIdIt =>
    let slotIt : Cell := slotIdIt.2
    let graph1 := graph.map (fun g => disconnectAll g ⟨self.GetEntityId, slotId⟩)
    let n1 : Node :=
      match mapFind self.m_slotIdVarInfoMap slotId with
      | none => self
      | some slotIdVarIdIt =>
        let nodeVarId := slotIdVarIdIt.2.m_ownedVariableId
        let n0 : Node :=
          match mapFind self.m_varIdMap nodeVarId with
          | none => self
          | some varIdIt =>
            { self with
              m_varDatums := cellErase self.m_varDatums varIdIt.2
              m_varIdMap := mapErase self.m_varIdMap nodeVarId }
        { n0 with m_slotIdVarInfoMap := mapErase n0.m_slotIdVarInfoMap slotId }
    let n2 : Node :=
      { n1 with
        m_slotIdMap := mapErase n1.m_slotIdMap slotId
        m_slotNameMap := n1.m_slotNameMap.eraseP (fun e => decide (e.2 = slotIt))
        m_slots := cellErase n1.m_slots slotIt }
    { removed := true
      node := n2
      graph := graph1
      events := [NodeNotification.OnSlotRemoved self.notificationAddress slotId] }

/-- The entry of the id to variable index that `RemoveSlot` erases for `slotId`: the entry
of the owned variable of the binding of the slot, when the slot has a binding and the
variable is stored on the node. -/
def ownedVariableEntry (self : Node) (slotId : SlotId) : Option (VariableId × Cell) :=
  match mapFind self.m_slotIdVarInfoMap slotId with
  | none => none
  | some slotIdVarIdIt => mapFind self.m_varIdMap slotIdVarIdIt.2.m_ownedVariableId

/-- Embeds `Node::FindSlotIndex`; `none` is the failure outcome. -/
def FindSlotIndex (self : Node) (slotId : SlotId) : Option Int :=
  match mapFind self.m_slotIdMap slotId with
  | some slotIdIter => some (cellDistance self.m_slots slotIdIter.2 : Int)
  | none => none

end Node

/-! ## The runtime collaborator and the graph traversals -/

/-- Modelled from the spec: the handler of the `RuntimeRequestBus` (section 6), with the
nodes `FindNode` resolves and the connectivity `GetConnectedEndpoints` answers from.  All
nodes of a graph carry the graph's unique id, so the traversals address one handler; a node
whose `m_executionUniqueId` has no handler sees the runtime without nodes and connections. -/
structure Runtime where
  m_nodes : List Node
  m_graph : Graph
deriving DecidableEq, Repr

/-- Modelled from the spec: `RuntimeRequests::FindNode` (section 6), the node attached to
the entity `id`, `none` when there is none. -/
def Runtime.FindNode (rt : Runtime) (id : EntityId) : Option Node :=
  rt.m_nodes.find? (fun n => decide (n.m_entity = some id))

/-- Modelled from the spec: `RuntimeRequests::GetConnectedEndpoints` (section 6). -/
def Runtime.GetConnectedEndpoints (rt : Runtime) (e : Endpoint) : List Endpoint :=
  rt.m_graph.GetConnectedEndpoints e

/-- The set `AZStd::unordered_set<ID>` of the nodes a traversal has visited. -/
abbrev Path := List EntityId

/-- A `for` loop over `items` that returns `true` at the first item whose visit returns
`true` and `false` after the last one; the visited set is handed from visit to visit.
`none` when a visit does not return. -/
def anyConnected {A : Type} (visit : A → Path → Option (Bool × Path)) :
    List A → Path → Option (Bool × Path)
  | [], path => some (false, path)
  | x :: rest, path =>
    match visit x path with
    | none => none
    | some (true, path1) => some (true, path1)
    | some (false, path1) => anyConnected visit rest path1

namespace Node

/-- Embeds `Node::GetEndpointsByType`. -/
def GetEndpointsByType (rt : Runtime) (self : Node) (slotType : SlotType) : List Endpoint :=
  (self.m_slots.map (fun e =>
    if e.2.m_type = slotType then rt.GetConnectedEndpoints ⟨self.GetEntityId, e.2.m_id⟩
    else [])).flatten

/-- Embeds `Node::GetConnectedNodesByType`. -/
def GetConnectedNodesByType (rt : Runtime) (self : Node) (slotType : SlotType) : List Node :=
  (self.GetEndpointsByType rt slotType).filterMap (fun endpoint => rt.FindNode endpoint.m_nodeId)

/-- Embeds `Node::GetConnectedNodesAndSlotsByType`. -/
def GetConnectedNodesAndSlotsByType (rt : Runtime) (self : Node) (slotType : SlotType) :
    List (Node × SlotId) :=
  (self.GetEndpointsByType rt slotType).filterMap (fun endpoint =>
    (rt.FindNode endpoint.m_nodeId).map (fun n => (n, endpoint.m_slotId)))

/-- The recursive `Node::IsInEventHandlingScope(eventHandler, eventSlots, connectionSlot,
path)`.  `fuel` bounds the depth of the recursion; `none` when it runs out.  The result
carries the visited set the call leaves in `path`. -/
def IsInEventHandlingScopeRec (rt : Runtime) (eventHandler : EntityId)
    (eventSlots : List SlotId) : Nat → Node → SlotId → Path → Option (Bool × Path)
  | 0, _, _, _ => none
  | fuel + 1, self, connectionSlot, path =>
    let candidateNodeId := self.GetEntityId
    if candidateNodeId = eventHandler then
      some (decide (connectionSlot ∈ eventSlots), path)
    else if candidateNodeId ∈ path then
      some (false, path)
    else
      anyConnected
        (fun node p => IsInEventHandlingScopeRec rt eventHandler eventSlots fuel node.1 node.2 p)
        (self.GetConnectedNodesAndSlotsByType rt SlotType.ExecutionIn) (candidateNodeId :: path)

/-- Embeds `Node::IsInEventHandlingScope(const ID& possibleEventHandler)`. -/
def IsInEventHandlingScope (rt : Runtime) (fuel : Nat) (self : Node)
    (possibleEventHandler : EntityId) : Option Bool :=
  match rt.FindNode possibleEventHandler with
  | some node =>
    match node.m_class with
    | NodeClass.eBusEventHandler eventSlots =>
      (IsInEventHandlingScopeRec rt possibleEventHandler eventSlots fuel self SlotId.empty []).map
        Prod.fst
    | _ => some false
  | none => some false

/-- The recursive `Node::IsTargetInDataFlowPath(targetNodeId, path)`.  `scopeFuel` is the
fuel of each nested `IsInEventHandlingScope` call, `fuel` bounds the depth of this
recursion. -/
def IsTargetInDataFlowPathRec (rt : Runtime) (scopeFuel : Nat) (targetNodeId : EntityId) :
    Nat → Node → Path → Option (Bool × Path)
  | 0, _, _ => none
  | fuel + 1, self, path =>
    let candidateNodeId := self.GetEntityId
    if candidateNodeId = targetNodeId then
      some (true, path)
    else
      match self.IsInEventHandlingScope rt scopeFuel targetNodeId with
      | none => none
      | some true => some (true, path)
      | some false =>
        if candidateNodeId ∈ path then
          some (false, path)
        else
          anyConnected
            (fun node p => IsTargetInDataFlowPathRec rt scopeFuel targetNodeId fuel node p)
            (self.GetConnectedNodesByType rt SlotType.ExecutionOut) (candidateNodeId :: path)

/-- Embeds `Node::IsTargetInDataFlowPath(const Node* targetNode)`; `none` as target is the null
pointer. -/
def IsTargetInDataFlowPath (rt : Runtime) (scopeFuel fuel : Nat) (self : Node)
    (targetNode : Option Node) : Option Bool :=
  if self.m_class = NodeClass.pureData then some true
  else
    match targetNode with
    | none => some false
    | some target =>
      if target.m_class = NodeClass.pureData then some true
      else
        (IsTargetInDataFlowPathRec rt scopeFuel target.GetEntityId fuel self []).map Prod.fst

end Node

/-- The number of nodes of the runtime that a traversal with visited set `path` has not
visited: the measure that decreases along the recursion of the traversals. -/
def Runtime.unvisited (rt : Runtime) (path : Path) : Nat :=
  (rt.m_nodes.filter (fun n => decide (n.GetEntityId ∉ path))).length

/-- A runtime with a cycle of execution edges: node 1 (an event handler with event slot 10)
triggers node 2, node 2 triggers node 3, node 3 triggers node 2 again and itself. -/
def Runtime.cyclicSample : Runtime :=
  { m_nodes :=
      [{ Node.empty (some ⟨1⟩) (NodeClass.eBusEventHandler [⟨10⟩]) with
         m_slots := [(0, ⟨⟨10⟩, "OnEvent", "", SlotType.ExecutionOut, [], ⟨1⟩⟩)] },
       { Node.empty (some ⟨2⟩) NodeClass.plain with
         m_slots := [(0, ⟨⟨20⟩, "In", "", SlotType.ExecutionIn, [], ⟨2⟩⟩),
                     (1, ⟨⟨21⟩, "Out", "", SlotType.ExecutionOut, [], ⟨2⟩⟩)] },
       { Node.empty (some ⟨3⟩) NodeClass.plain with
         m_slots := [(0, ⟨⟨30⟩, "In", "", SlotType.ExecutionIn, [], ⟨3⟩⟩),
                     (1, ⟨⟨31⟩, "Out", "", SlotType.ExecutionOut, [], ⟨3⟩⟩)] }]
    m_graph :=
      ⟨[⟨⟨⟨1⟩, ⟨10⟩⟩, ⟨⟨2⟩, ⟨20⟩⟩⟩, ⟨⟨⟨2⟩, ⟨21⟩⟩, ⟨⟨3⟩, ⟨30⟩⟩⟩,
        ⟨⟨⟨3⟩, ⟨31⟩⟩, ⟨⟨2⟩, ⟨20⟩⟩⟩, ⟨⟨⟨3⟩, ⟨31⟩⟩, ⟨⟨3⟩, ⟨30⟩⟩⟩]⟩ }

/-- The node of the cyclic sample runtime with the given id. -/
def Runtime.cyclicNode (id : Nat) : Node :=
  (Runtime.cyclicSample.FindNode ⟨id⟩).getD (Node.empty none NodeClass.plain)

/-! ## Consistency of the indices and sequences of slot operations -/

namespace Node

/-- The ids of the slots in the slot list, in list order. -/
def slotIds (self : Node) : List SlotId := self.m_slots.map (fun e => e.2.m_id)

/-- The ids of the variables in the variable list, in list order. -/
def variableIds (self : Node) : List VariableId := self.m_varDatums.map (fun e => e.2.m_id)

/-- The three indices hold exactly the live slots and variables: each index is, up to the
order of its entries, the list of one entry per element of the list it indexes, from the
key of the element to the iterator of the element. -/
structure IndicesConsistent (n : Node) : Prop where
  slotIdMap : n.m_slotIdMap.Perm (n.m_slots.map (fun e => (e.2.m_id, e.1)))
  slotNameMap : n.m_slotNameMap.Perm (n.m_slots.map (fun e => (e.2.m_name, e.1)))
  varIdMap : n.m_varIdMap.Perm (n.m_varDatums.map (fun e => (e.2.m_id, e.1)))

/-- The invariant of a node: consistent indices, list elements in distinct cells below the
next cell, distinct slot ids, distinct variable ids, and a binding map with one entry per
key whose keys are ids of slots of the node. -/
structure WellFormed (n : Node) : Prop where
  indices : n.IndicesConsistent
  slotCells : (n.m_slots.map Prod.fst).Nodup
  varCells : (n.m_varDatums.map Prod.fst).Nodup
  slotCellsBelow : ∀ e ∈ n.m_slots, e.1 < n.m_nextCell
  varCellsBelow : ∀ e ∈ n.m_varDatums, e.1 < n.m_nextCell
  slotIdsNodup : n.slotIds.Nodup
  variableIdsNodup : n.variableIds.Nodup
  bindingKeys : (n.m_slotIdVarInfoMap.map Prod.fst).Nodup
  bindingSlots : ∀ e ∈ n.m_slotIdVarInfoMap, e.1 ∈ n.slotIds

/-- Equality of two node states in everything but the allocation counter `m_nextCell`. -/
def SameState (a b : Node) : Prop := a = { b with m_nextCell := a.m_nextCell }

/-- One call of a slot mutation, with the ids its constructors generate. -/
inductive SlotOp where
  | insertSlot (index : Int) (slotConfig : SlotConfiguration) (newSlotId : SlotId)
  | insertInputDatumSlot (index : Int) (slotConfig : SlotConfiguration) (initialDatum : Datum)
      (newSlotId : SlotId) (newVarId : VariableId)
  | addInputTypeSlot (name toolTip : String) (type : DataType)
      (contractType : InputTypeContract) (addUniqueSlotByNameAndType : Bool)
      (newSlotId : SlotId)
  | addOutputTypeSlot (name toolTip : String) (type : DataType)
      (addUniqueSlotByNameAndType : Bool) (newSlotId : SlotId)
  | removeSlot (graph : Option Graph) (slotId : SlotId)
deriving DecidableEq, Repr

/-- The node after one slot mutation. -/
def SlotOp.apply (order : EqualKeyOrder) (reg : VariableRegistry) (self : Node) :
    SlotOp → Node
  | SlotOp.insertSlot index slotConfig newSlotId =>
    (self.InsertSlot order index slotConfig newSlotId).node
  | SlotOp.insertInputDatumSlot index slotConfig initialDatum newSlotId newVarId =>
    (self.InsertInputDatumSlot order reg index slotConfig initialDatum newSlotId newVarId).node
  | SlotOp.addInputTypeSlot name toolTip type contractType unique newSlotId =>
    (self.AddInputTypeSlot order name toolTip type contractType unique newSlotId).node
  | SlotOp.addOutputTypeSlot name toolTip type unique newSlotId =>
    (self.AddOutputTypeSlot order name toolTip type unique newSlotId).node
  | SlotOp.removeSlot graph slotId => (self.RemoveSlot graph slotId).node

/-- The ids a slot mutation generates are fresh for the node: no slot of the node has the
new slot id and no variable of the node has the new variable id. -/
def SlotOp.Fresh (self : Node) : SlotOp → Prop
  | SlotOp.insertSlot _ _ newSlotId => newSlotId ∉ self.slotIds
  | SlotOp.insertInputDatumSlot _ _ _ newSlotId newVarId =>
    newSlotId ∉ self.slotIds ∧ newVarId ∉ self.variableIds
  | SlotOp.addInputTypeSlot _ _ _ _ _ newSlotId => newSlotId ∉ self.slotIds
  | SlotOp.addOutputTypeSlot _ _ _ _ newSlotId => newSlotId ∉ self.slotIds
  | SlotOp.removeSlot _ _ => True

instance SlotOp.decidableFresh (self : Node) (op : SlotOp) : Decidable (op.Fresh self) := by
  cases op <;> unfold SlotOp.Fresh <;> infer_instance

/-- The node after a sequence of slot mutations. -/
def runOps (order : EqualKeyOrder) (reg : VariableRegistry) : Node → List SlotOp → Node
  | self, [] => self
  | self, op :: ops => runOps order reg (op.apply order reg self) ops

/-- Every mutation of the sequence generates ids that are fresh for the node it is
applied to. -/
def FreshRun (order : EqualKeyOrder) (reg : VariableRegistry) : Node → List SlotOp → Prop
  | _, [] => True
  | self, op :: ops => op.Fresh self ∧ FreshRun order reg (op.apply order reg self) ops

instance decidableFreshRun (order : EqualKeyOrder) (reg : VariableRegistry) :
    (self : Node) → (ops : List SlotOp) → Decidable (FreshRun order reg self ops)
  | _, [] => isTrue trivial
  | self, op :: ops =>
    have := decidableFreshRun order reg (op.apply order reg self) ops
    inferInstanceAs (Decidable (op.Fresh self ∧ FreshRun order reg (op.apply order reg self) ops))

end Node

namespace Node

/-- Four `InsertSlot` calls on an empty node, all with the unique-by-name-and-kind flag and
all with the name `x`: kinds `DataOut`, `DataIn`, `DataIn`, `DataOut`. -/
def uniqueInsertions : List SlotOp :=
  [SlotOp.insertSlot (-1) ⟨"x", "", SlotType.DataOut, [], true⟩ ⟨1⟩,
   SlotOp.insertSlot (-1) ⟨"x", "", SlotType.DataIn, [], true⟩ ⟨2⟩,
   SlotOp.insertSlot (-1) ⟨"x", "", SlotType.DataIn, [], true⟩ ⟨3⟩,
   SlotOp.insertSlot (-1) ⟨"x", "", SlotType.DataOut, [], true⟩ ⟨4⟩]

/-- Three insertions on an empty node: a `DataOut` slot `x`, a `DataIn` slot `y` with a
datum of value 5 inserted at the front, and an `ExecutionIn` slot `In` inserted at index 1. -/
def sampleInsertions : List SlotOp :=
  [SlotOp.insertSlot (-1) ⟨"x", "", SlotType.DataOut, [], true⟩ ⟨1⟩,
   SlotOp.insertInputDatumSlot 0 ⟨"y", "", SlotType.DataIn, [], true⟩ ⟨⟨3⟩, 5, "", ⟨0⟩⟩
     ⟨2⟩ ⟨100⟩,
   SlotOp.insertSlot 1 ⟨"In", "", SlotType.ExecutionIn, [], false⟩ ⟨3⟩]

/-- The node after `sampleInsertions`. -/
def sampleNode (order : EqualKeyOrder) : Node :=
  runOps order [] (Node.empty (some ⟨7⟩) NodeClass.plain) sampleInsertions

/-- The `(id, name, kind)` of the slots of a node, in list order. -/
def slotSummary (self : Node) : List (SlotId × String × SlotType) :=
  self.m_slots.map (fun e => (e.2.m_id, e.2.m_name, e.2.m_type))

end Node

/-! ## Sample graphs -/

/-- The node with the given entity id and class after the slot mutations `ops`. -/
def Node.build (id : Nat) (cls : NodeClass) (ops : List Node.SlotOp) : Node :=
  Node.runOps EqualKeyOrder.newestFirst [] (Node.empty (some ⟨id⟩) cls) ops

/-- A runtime with a cycle of data connections through node 1.  Node 1 has the data-in
slots 10 and 12, the data-out slot 11 and an execution-out slot; node 2 has the data-in
slot 20, the data-out slot 21 and an execution-out slot; node 3 has only the data-out
slot 31.  Node 2 feeds slot 10 of node 1, node 1 feeds node 2, node 3 feeds slot 12 of
node 1. -/
def Runtime.dataCycleSample : Runtime :=
  { m_nodes :=
      [Node.build 1 NodeClass.plain
         [Node.SlotOp.insertSlot (-1) ⟨"A", "", SlotType.DataIn, [], false⟩ ⟨10⟩,
          Node.SlotOp.insertSlot (-1) ⟨"Result", "", SlotType.DataOut, [], false⟩ ⟨11⟩,
          Node.SlotOp.insertSlot (-1) ⟨"B", "", SlotType.DataIn, [], false⟩ ⟨12⟩,
          Node.SlotOp.insertSlot (-1) ⟨"Out", "", SlotType.ExecutionOut, [], false⟩ ⟨13⟩],
       Node.build 2 NodeClass.plain
         [Node.SlotOp.insertSlot (-1) ⟨"A", "", SlotType.DataIn, [], false⟩ ⟨20⟩,
          Node.SlotOp.insertSlot (-1) ⟨"Result", "", SlotType.DataOut, [], false⟩ ⟨21⟩,
          Node.SlotOp.insertSlot (-1) ⟨"Out", "", SlotType.ExecutionOut, [], false⟩ ⟨22⟩],
       Node.build 3 NodeClass.plain
         [Node.SlotOp.insertSlot (-1) ⟨"Get", "", SlotType.DataOut, [], false⟩ ⟨31⟩]]
    m_graph :=
      ⟨[⟨⟨⟨2⟩, ⟨21⟩⟩, ⟨⟨1⟩, ⟨10⟩⟩⟩, ⟨⟨⟨1⟩, ⟨11⟩⟩, ⟨⟨2⟩, ⟨20⟩⟩⟩,
        ⟨⟨⟨3⟩, ⟨31⟩⟩, ⟨⟨1⟩, ⟨12⟩⟩⟩]⟩ }

/-- The node of the data cycle sample runtime with the given id. -/
def Runtime.dataCycleNode (id : Nat) : Node :=
  (Runtime.dataCycleSample.FindNode ⟨id⟩).getD (Node.empty none NodeClass.plain)

/-- A runtime with one node without execution slots whose data-out slot 11 is connected to
its own data-in slot 10. -/
def Runtime.selfLoopSample : Runtime :=
  { m_nodes :=
      [Node.build 1 NodeClass.plain
         [Node.SlotOp.insertSlot (-1) ⟨"A", "", SlotType.DataIn, [], false⟩ ⟨10⟩,
          Node.SlotOp.insertSlot (-1) ⟨"Result", "", SlotType.DataOut, [], false⟩ ⟨11⟩]]
    m_graph := ⟨[⟨⟨⟨1⟩, ⟨11⟩⟩, ⟨⟨1⟩, ⟨10⟩⟩⟩]⟩ }

/-- The node of the self loop sample runtime. -/
def Runtime.selfLoopNode : Node :=
  (Runtime.selfLoopSample.FindNode ⟨1⟩).getD (Node.empty none NodeClass.plain)

/-- The scenario of the specification: node 1 is a pure-data constant of type 1 whose
data-out slot 11 is connected to the dynamic data-in slot 22 of node 2; node 2 also has an
execution-in slot 20, an execution-out slot 21 and the data-out slot 23; node 3 is a second
constant of type 1, not connected. -/
def Runtime.scenarioSample : Runtime :=
  { m_nodes :=
      [Node.build 1 NodeClass.pureData
         [Node.SlotOp.addOutputTypeSlot "Get" "" ⟨1⟩ false ⟨11⟩],
       Node.build 2 NodeClass.plain
         [Node.SlotOp.insertSlot (-1) ⟨"In", "", SlotType.ExecutionIn, [], false⟩ ⟨20⟩,
          Node.SlotOp.insertSlot (-1) ⟨"Out", "", SlotType.ExecutionOut, [], false⟩ ⟨21⟩,
          Node.SlotOp.addInputTypeSlot "S1" "" DataType.Invalid Node.InputTypeContract.None
            false ⟨22⟩,
          Node.SlotOp.addOutputTypeSlot "Result" "" DataType.Invalid false ⟨23⟩],
       Node.build 3 NodeClass.pureData
         [Node.SlotOp.addOutputTypeSlot "Get" "" ⟨1⟩ false ⟨31⟩]]
    m_graph := ⟨[⟨⟨⟨1⟩, ⟨11⟩⟩, ⟨⟨2⟩, ⟨22⟩⟩⟩]⟩ }

/-- The node of the scenario sample runtime with the given id. -/
def Runtime.scenarioNode (id : Nat) : Node :=
  (Runtime.scenarioSample.FindNode ⟨id⟩).getD (Node.empty none NodeClass.plain)

/-- The slot of the node with the given id, looked up in the slot list. -/
def Node.cellDerefSlot (self : Node) (slotId : SlotId) : Option Slot :=
  (self.m_slots.find? (fun e => decide (e.2.m_id = slotId))).map Prod.snd

/-- The slot of the node with the given id, a slot with the empty id when there is none. -/
def Node.slotById (self : Node) (slotId : SlotId) : Slot :=
  (self.cellDerefSlot slotId).getD ⟨SlotId.empty, "", "", SlotType.DataIn, [], EntityId.invalid⟩

/-- The slot of node 2 of the scenario sample runtime with the given id. -/
def Runtime.scenarioSlot (id : Nat) : Slot := (Runtime.scenarioNode 2).slotById ⟨id⟩

/-- A node with one data-in slot 40 that owns a variable 400 holding a datum of type 1. -/
def Node.datumSample : Node :=
  Node.build 4 NodeClass.plain
    [Node.SlotOp.insertInputDatumSlot (-1) ⟨"Value", "", SlotType.DataIn, [], false⟩
      ⟨⟨1⟩, 0, "", ⟨0⟩⟩ ⟨40⟩ ⟨400⟩]

/-- A node with one data-in slot 50 of declared type 1 and no datum. -/
def Node.typedSample : Node :=
  Node.build 5 NodeClass.plain
    [Node.SlotOp.addInputTypeSlot "Value" "" ⟨1⟩ Node.InputTypeContract.None false ⟨50⟩]

/-! ## Type algebra, bindings and type acceptance -/

/-- Modelled from the spec: the type relations of `Data::Type` (declared in `Data.h`), taken
as parameters.  `IS_A a b` is the member call `a.IS_A(b)`, read "`a` is-a `b`";
`IsConvertibleTo a b` is `a.IsConvertibleTo(b)` and `IsConvertibleFrom a b` is
`a.IsConvertibleFrom(b)`. -/
structure TypeAlgebra where
  IS_A : DataType → DataType → Bool
  IsConvertibleTo : DataType → DataType → Bool
  IsConvertibleFrom : DataType → DataType → Bool

/-- Modelled from the spec: the free function `Data::IS_A(candidate, reference)` (declared
in `Data.h`), the candidate is-a the reference. -/
def Data.IS_A (alg : TypeAlgebra) (candidate reference : DataType) : Bool :=
  alg.IS_A candidate reference

/-- Modelled from the spec: `Datum::IsConvertibleFrom` (`Datum.cpp`), the type of the datum
is convertible from the given type. -/
def Datum.IsConvertibleFrom (alg : TypeAlgebra) (d : Datum) (type : DataType) : Bool :=
  alg.IsConvertibleFrom d.m_type type

/-- A type algebra without subtypes and conversions: is-a is equality of types. -/
def TypeAlgebra.exact : TypeAlgebra :=
  { IS_A := fun a b => decide (a = b)
    IsConvertibleTo := fun _ _ => false
    IsConvertibleFrom := fun _ _ => false }

/-- A type algebra with one proper subtype: type 2 is-a type 1, and every type is-a
itself; no conversions. -/
def TypeAlgebra.oneSubtype : TypeAlgebra :=
  { IS_A := fun a b => decide (a = b) || (decide (a = ⟨2⟩) && decide (b = ⟨1⟩))
    IsConvertibleTo := fun _ _ => false
    IsConvertibleFrom := fun _ _ => false }

/-- The argument `DynamicTypeArity` of the dynamic type checks. -/
inductive DynamicTypeArity where
  | Single
  | Multiple
deriving DecidableEq, Repr

namespace Node

/-- Embeds `Node::GetVariableId`: the active variable of the binding of the slot. -/
def GetVariableId (self : Node) (slotId : SlotId) : VariableId :=
  match mapFind self.m_slotIdVarInfoMap slotId with
  | some slotIdVarInfoIter => slotIdVarInfoIter.2.m_currentVariableId
  | none => VariableId.empty

/-- Embeds `Node::GetActiveVariableDatum`: the variable on the node with the active id,
else the answer of `VariableRequests::GetVariableDatum`; `none` is the null pointer. -/
def GetActiveVariableDatum (reg : VariableRegistry) (self : Node) (slotId : SlotId) :
    Option VariableDatumBase :=
  let varId := self.GetVariableId slotId
  if varId.IsValid then
    match mapFind self.m_varIdMap varId with
    | some varIdIter => cellDeref self.m_varDatums varIdIter.2
    | none => reg.GetVariableDatum varId
  else none

/-- Embeds `Node::GetInput(const SlotId&)`. -/
def GetInput (reg : VariableRegistry) (self : Node) (slotID : SlotId) : Option Datum :=
  (self.GetActiveVariableDatum reg slotID).map (fun varDatum => varDatum.m_data)

/-- Embeds `Node::GetSlotDataType`. -/
def GetSlotDataType (reg : VariableRegistry) (self : Node) (slotId : SlotId) : DataType :=
  match mapFind self.m_slotIdVarInfoMap slotId with
  | some slotIdVarInfoIt =>
    match self.GetActiveVariableDatum reg slotId with
    | some varInput => varInput.m_data.m_type
    | none => slotIdVarInfoIt.2.m_dataType
  | none => DataType.Invalid

/-- Embeds `Node::FindSlotIterator(const SlotId&)`; `none` is the failure outcome. -/
def FindSlotIterator (self : Node) (slotId : SlotId) : Option Cell :=
  (mapFind self.m_slotIdMap slotId).map Prod.snd

/-- Embeds `Node::GetSlot(const SlotId&)`; `none` is the null pointer. -/
def GetSlot (self : Node) (slotId : SlotId) : Option Slot :=
  if slotId.IsValid then
    match self.FindSlotIterator slotId with
    | some slotIter => cellDeref self.m_slots slotIter
    | none => none
  else none

/-- Modelled from the spec: `Slot::GetDataType` (`Slot.cpp`).  A slot stores no type; it
asks its node for the data type of the slot (section 4.2, `GetSlotDataType`). -/
def slotGetDataType (reg : VariableRegistry) (self : Node) (slot : Slot) : DataType :=
  self.GetSlotDataType reg slot.m_id

/-- Embeds `Node::SlotAcceptsType`. -/
def SlotAcceptsType (alg : TypeAlgebra) (reg : VariableRegistry) (self : Node)
    (slotID : SlotId) (type : DataType) : Bool :=
  match self.GetSlot slotID with
  | some slotIter =>
    if slotIter.m_type = SlotType.DataIn then
      match self.GetInput reg slotID with
      | some datum => Data.IS_A alg type datum.m_type || datum.IsConvertibleFrom alg type
      | none =>
        let inputType := self.slotGetDataType reg slotIter
        inputType.IsValid && (Data.IS_A alg inputType type || alg.IsConvertibleFrom inputType type)
    else
      let outputType := self.slotGetDataType reg slotIter
      outputType.IsValid && (Data.IS_A alg outputType type || alg.IsConvertibleTo outputType type)
  | none => false

/-- Embeds `Node::GetConnectedNodes(const Slot&)`: the resolvable nodes at the other end of
the connections of the slot, each with the id of its slot. -/
def GetConnectedNodes (rt : Runtime) (self : Node) (slot : Slot) : List (Node × SlotId) :=
  (rt.GetConnectedEndpoints ⟨self.GetEntityId, slot.m_id⟩).filterMap (fun endpoint =>
    (rt.FindNode endpoint.m_nodeId).map (fun n => (n, endpoint.m_slotId)))

/-- Modelled from the spec: the virtual `IsEventHandler`, which `Node` answers with false
and the event handler class (`EBusEventHandler.h`) overrides. -/
def IsEventHandler (self : Node) : Bool :=
  match self.m_class with
  | NodeClass.eBusEventHandler _ => true
  | _ => false

/-- Modelled from the spec: `IsExecutionOut` (declared in `Slot.h`) for the four slot kinds
of the specification. -/
def IsExecutionOut (type : SlotType) : Bool := decide (type = SlotType.ExecutionOut)

/-- Embeds `Node::IsPureData`: no slot of the node is an execution-out slot. -/
def IsPureData (self : Node) : Bool :=
  self.m_slots.all (fun e => !IsExecutionOut e.2.m_type)

/-- Embeds `Node::IsOnPureDataThreadHelper`.  `fuel` bounds the depth of the recursion;
the result carries the visited set the call leaves in `path`. -/
def IsOnPureDataThreadHelper (rt : Runtime) : Nat → Node → Path → Option (Bool × Path)
  | 0, _, _ => none
  | fuel + 1, self, path =>
    if self.GetEntityId ∈ path then
      some (false, path)
    else if self.IsEventHandler then
      some (false, self.GetEntityId :: path)
    else if self.IsPureData then
      some (true, self.GetEntityId :: path)
    else
      anyConnected (fun node p => IsOnPureDataThreadHelper rt fuel node p)
        (self.GetConnectedNodesByType rt SlotType.DataIn) (self.GetEntityId :: path)

/-- Embeds `Node::IsOnPureDataThread`. -/
def IsOnPureDataThread (rt : Runtime) (fuel : Nat) (self : Node) (slotId : SlotId) :
    Option Bool :=
  match self.GetSlot slotId with
  | some slot =>
    if slot.m_type = SlotType.DataIn then
      (anyConnected (fun node p => IsOnPureDataThreadHelper rt fuel node.1 p)
        (self.GetConnectedNodes rt slot) [self.GetEntityId]).map Prod.fst
    else some false
  | none => some false

/-- Embeds `Node::DynamicSlotInputAcceptsType`. -/
def DynamicSlotInputAcceptsType (alg : TypeAlgebra) (reg : VariableRegistry) (rt : Runtime)
    (self : Node) (_slotID : SlotId) (type : DataType) (arity : DynamicTypeArity)
    (inputSlot : Slot) : Bool :=
  let inputs := self.GetConnectedNodes rt inputSlot
  if arity = DynamicTypeArity.Single ∧ inputs ≠ [] then false
  else
    inputs.all (fun iter =>
      let previousInputType := iter.1.GetSlotDataType reg iter.2
      alg.IS_A previousInputType type || alg.IS_A type previousInputType)

/-- Embeds `Node::DynamicSlotAcceptsType`. -/
def DynamicSlotAcceptsType (alg : TypeAlgebra) (reg : VariableRegistry) (rt : Runtime)
    (self : Node) (slotID : SlotId) (type : DataType) (arity : DynamicTypeArity)
    (outputSlot : Slot) (inputSlots : List Slot) : Bool :=
  if type.IsValid then
    let groupAccepts : Bool :=
      if inputSlots.any (fun slot => decide (slot.m_id = slotID)) then
        inputSlots.all (fun slot =>
          self.DynamicSlotInputAcceptsType alg reg rt slotID type arity slot)
      else if slotID = outputSlot.m_id then
        inputSlots.all (fun inputSlot =>
          (self.GetConnectedNodes rt inputSlot).all (fun input =>
            alg.IS_A (input.1.GetSlotDataType reg input.2) type))
      else true
    if groupAccepts then
      (self.GetConnectedNodes rt outputSlot).all (fun output =>
        alg.IS_A type (output.1.GetSlotDataType reg output.2))
    else false
  else false

end Node

/-! ## Paths of the graph, in the words of the specification -/

/-- The runtime resolves the id of the node to the node itself: the node is a node of the
graph. -/
def Runtime.Resolves (rt : Runtime) (m : Node) : Prop := rt.FindNode m.GetEntityId = some m

instance Runtime.decidableResolves (rt : Runtime) (m : Node) : Decidable (rt.Resolves m) := by
  unfold Runtime.Resolves; infer_instance

/-- A chain of one or more execution edges that leads backward from an execution-in slot of
the node to the handler `h`, through resolvable nodes none of which is `h`, the last edge
attached to one of the event slots of `h`. -/
inductive EventChain (rt : Runtime) (h : EntityId) (eventSlots : List SlotId) : Node → Prop
  | arrive (m : Node) (x : Node × SlotId) :
      m.GetEntityId ≠ h → x ∈ m.GetConnectedNodesAndSlotsByType rt SlotType.ExecutionIn →
      x.1.GetEntityId = h → x.2 ∈ eventSlots → EventChain rt h eventSlots m
  | step (m : Node) (x : Node × SlotId) :
      m.GetEntityId ≠ h → x ∈ m.GetConnectedNodesAndSlotsByType rt SlotType.ExecutionIn →
      EventChain rt h eventSlots x.1 → EventChain rt h eventSlots m

/-- Reachability by zero or more execution-out edges, through resolvable nodes. -/
inductive ExecReach (rt : Runtime) : Node → Node → Prop
  | refl (m : Node) : ExecReach rt m m
  | step (m c k : Node) :
      c ∈ m.GetConnectedNodesByType rt SlotType.ExecutionOut → ExecReach rt c k →
      ExecReach rt m k

/-- A backward path along data-in connections that starts at the node and reaches a node
for which `IsPureData` holds, no node on the path up to and including that node being an
event handler. -/
inductive PureDataPath (rt : Runtime) : Node → Prop
  | here (v : Node) : v.IsEventHandler = false → v.IsPureData = true → PureDataPath rt v
  | step (v p : Node) :
      v.IsEventHandler = false → p ∈ v.GetConnectedNodesByType rt SlotType.DataIn →
      PureDataPath rt p → PureDataPath rt v

/-- A `PureDataPath` none of whose nodes has the id `start` (the id of the node whose slot
is queried). -/
inductive PureDataPathAvoiding (rt : Runtime) (start : EntityId) : Node → Prop
  | here (v : Node) :
      v.GetEntityId ≠ start → v.IsEventHandler = false → v.IsPureData = true →
      PureDataPathAvoiding rt start v
  | step (v p : Node) :
      v.GetEntityId ≠ start → v.IsEventHandler = false →
      p ∈ v.GetConnectedNodesByType rt SlotType.DataIn →
      PureDataPathAvoiding rt start p → PureDataPathAvoiding rt start v

/-! ## Invariants of the depth-first searches -/

/-- The visited set `S1` is closed over `S0` for the property `P`: every node of the graph
whose id entered the visited set after `S0` satisfies `P` with respect to `S1`. -/
def Runtime.ClosedOver (rt : Runtime) (P : Node → Path → Prop) (S1 S0 : Path) : Prop :=
  ∀ m, rt.Resolves m → m.GetEntityId ∈ S1 → m.GetEntityId ∉ S0 → P m S1

/-- The event-scope search from the node, entered through the slot `x.2` of the node, has
found the handler: the search stands at the handler on one of its event slots, or a chain
leads from the node to the handler. -/
def EventScopeWin (rt : Runtime) (h : EntityId) (eventSlots : List SlotId)
    (x : Node × SlotId) : Prop :=
  (x.1.GetEntityId = h ∧ x.2 ∈ eventSlots)
    ∨ (x.1.GetEntityId ≠ h ∧ EventChain rt h eventSlots x.1)

/-- The event-scope search from the node has failed: at the handler the slot is not an
event slot, elsewhere the node is in the visited set. -/
def EventScopeLose (h : EntityId) (eventSlots : List SlotId) (x : Node × SlotId)
    (S : Path) : Prop :=
  (x.1.GetEntityId = h → x.2 ∉ eventSlots) ∧ (x.1.GetEntityId ≠ h → x.1.GetEntityId ∈ S)

/-- All execution parents of the node have failed. -/
def EventScopeDone (rt : Runtime) (h : EntityId) (eventSlots : List SlotId) (m : Node)
    (S : Path) : Prop :=
  ∀ x ∈ m.GetConnectedNodesAndSlotsByType rt SlotType.ExecutionIn,
    EventScopeLose h eventSlots x S

/-- The node ends the data-flow search with true: it is the target or lies in the event
handling scope of the target. -/
def DataFlowHit (rt : Runtime) (scopeFuel : Nat) (target : EntityId) (m : Node) : Prop :=
  m.GetEntityId = target ∨ m.IsInEventHandlingScope rt scopeFuel target = some true

/-- The node does not end the data-flow search and none of its execution children does;
all the children are in the visited set. -/
def DataFlowDone (rt : Runtime) (scopeFuel : Nat) (target : EntityId) (m : Node)
    (S : Path) : Prop :=
  ¬ DataFlowHit rt scopeFuel target m
    ∧ ∀ c ∈ m.GetConnectedNodesByType rt SlotType.ExecutionOut,
        ¬ DataFlowHit rt scopeFuel target c ∧ c.GetEntityId ∈ S

/-- The node does not start a pure-data path: it is an event handler, or it is not pure
data and all its data producers are in the visited set. -/
def PureDataDone (rt : Runtime) (m : Node) (S : Path) : Prop :=
  m.IsEventHandler = true
    ∨ (m.IsPureData = false
        ∧ ∀ c ∈ m.GetConnectedNodesByType rt SlotType.DataIn, c.GetEntityId ∈ S)

/-! ## Queries by name, redirection of bindings, stale inputs and execution signalling -/

/-- Assignment through the iterator that `find k` returned: the value of the first entry
with the key is replaced by its image under `f`. -/
def mapModify {K V : Type} [DecidableEq K] : List (K × V) → K → (V → V) → List (K × V)
  | [], _, _ => []
  | e :: m, k, f => if e.1 = k then (e.1, f e.2) :: m else e :: mapModify m k f

/-- Embeds `unordered_set::insert`: no insertion when the key is present. -/
def setInsert {K : Type} [DecidableEq K] (s : List K) (k : K) : List K :=
  if k ∈ s then s else s ++ [k]

/-- Requests a node sends on the `ExecutionRequestBus`. -/
inductive ExecutionRequest where
  | AddToExecutionStack (node : Node) (slotId : SlotId)
  | Execute
deriving DecidableEq, Repr

/-- Modelled from the spec: the handler of `ExecutionRequests::AddToExecutionStack`
(section 6), which is not under the sources at hand, appends the entry to the shared
execution stack; these are the entries a sequence of requests appends, in order. -/
def ExecutionRequest.pushes : List ExecutionRequest → List (Node × SlotId)
  | [] => []
  | ExecutionRequest.AddToExecutionStack node slotId :: rest =>
    (node, slotId) :: ExecutionRequest.pushes rest
  | ExecutionRequest.Execute :: rest => ExecutionRequest.pushes rest

/-- The local state of the loop of `Node::SignalOutput`: the requests sent so far and the
flag `executionCheckRequired`. -/
structure SignalState where
  requests : List ExecutionRequest
  executionCheckRequired : Bool
deriving DecidableEq, Repr

/-- Result of a redirection of a binding: the node afterwards and the notifications sent. -/
structure BindingResult where
  node : Node
  events : List NodeNotification
deriving DecidableEq, Repr

namespace Node

/-- Embeds `Node::GetSlotName`. -/
def GetSlotName (self : Node) (slotId : SlotId) : String :=
  if slotId.IsValid then
    match self.GetSlot slotId with
    | some slot => slot.m_name
    | none => ""
  else ""

/-- Embeds `Node::GetSlotVariableId`. -/
def GetSlotVariableId (self : Node) (slotId : SlotId) : VariableId :=
  match mapFind self.m_slotIdVarInfoMap slotId with
  | some slotIdVarInfoIt => slotIdVarInfoIt.2.m_currentVariableId
  | none => VariableId.empty

/-- Embeds `Node::GetSlotId(AZStd::string_view)`. -/
def GetSlotId (self : Node) (slotName : String) : SlotId :=
  match mapFind self.m_slotNameMap slotName with
  | some slotNameIter => self.slotIdAt (some slotNameIter.2)
  | none => SlotId.empty

/-- Embeds `Node::GetSlotIdByType`. -/
def GetSlotIdByType (self : Node) (slotName : String) (slotType : SlotType) : SlotId :=
  let slotNameRange := multimapEqualRange self.m_slotNameMap slotName
  match slotNameRange.find? (fun nameSlotPair =>
      match cellDeref self.m_slots nameSlotPair.2 with
      | some slot => decide (slotType = slot.m_type)
      | none => false) with
  | some nameSlotIt => self.slotIdAt (some nameSlotIt.2)
  | none => SlotId.empty

/-- Embeds `Node::SetSlotVariableId`. -/
def SetSlotVariableId (self : Node) (slotId : SlotId) (variableId : VariableId) :
    BindingResult :=
  match mapFind self.m_slotIdVarInfoMap slotId with
  | some slotIdVarInfoIt =>
    if slotIdVarInfoIt.2.m_currentVariableId ≠ variableId then
      let oldVariableId := slotIdVarInfoIt.2.m_currentVariableId
      { node :=
          { self with
            m_slotIdVarInfoMap :=
              mapModify self.m_slotIdVarInfoMap slotId
                (fun info => { info with m_currentVariableId := variableId }) }
        events :=
          [NodeNotification.OnSlotActiveVariableChanged self.notificationAddress slotId
            oldVariableId variableId] }
    else { node := self, events := [] }
  | none => { node := self, events := [] }

/-- Embeds `Node::ResetSlotVariableId`. -/
def ResetSlotVariableId (self : Node) (slotId : SlotId) : BindingResult :=
  match mapFind self.m_slotIdVarInfoMap slotId with
  | some slotIdVarInfoIt => self.SetSlotVariableId slotId slotIdVarInfoIt.2.m_ownedVariableId
  | none => { node := self, events := [] }

/-- The node after a sequence of `SetSlotVariableId` calls, each a slot with the variable
id its binding is redirected to. -/
def redirect (self : Node) (calls : List (SlotId × VariableId)) : Node :=
  calls.foldl (fun n call => (n.SetSlotVariableId call.1 call.2).node) self

/-- The body of the loop of `Node::MarkDefaultableInput` for one entry of `m_slotIdMap`;
`stale` is `m_possiblyStaleInput`. -/
def markDefaultableEntry (rt : Runtime) (self : Node) (stale : List SlotId)
    (slotIdIterPair : SlotId × Cell) : List SlotId :=
  match cellDeref self.m_slots slotIdIterPair.2 with
  | some inputSlot =>
    if inputSlot.m_type = SlotType.DataIn then
      let connections := self.GetConnectedNodes rt inputSlot
      if connections ≠ [] then
        let isConnectedToPureData :=
          connections.any (fun nodePtrSlotId =>
            decide (nodePtrSlotId.1.m_class = NodeClass.pureData))
        if isConnectedToPureData then stale else setInsert stale slotIdIterPair.1
      else stale
    else stale
  | none => stale

/-- Embeds `Node::MarkDefaultableInput`. -/
def MarkDefaultableInput (rt : Runtime) (self : Node) : Node :=
  { self with
    m_possiblyStaleInput :=
      self.m_slotIdMap.foldl (markDefaultableEntry rt self) self.m_possiblyStaleInput }

/-- The body of the loop of `Node::SignalOutput` for one connected endpoint; the log
notifications are left out. -/
def signalEndpoint (rt : Runtime) (st : SignalState) (endpoint : Endpoint) : SignalState :=
  match rt.FindNode endpoint.m_nodeId with
  | some connectedNode =>
    { requests :=
        st.requests ++ [ExecutionRequest.AddToExecutionStack connectedNode endpoint.m_slotId]
      executionCheckRequired := true }
  | none => st

/-- Embeds `Node::SignalOutput`: the requests sent on the `ExecutionRequestBus`, in order.
`isInErrorState` is the answer that the macro `SCRIPTCANVAS_RETURN_IF_ERROR_STATE`, which
is not under the sources at hand, tests before anything else. -/
def SignalOutput (rt : Runtime) (isInErrorState : Bool) (self : Node) (slotId : SlotId) :
    List ExecutionRequest :=
  if isInErrorState then []
  else
    let start : SignalState := { requests := [], executionCheckRequired := false }
    let st : SignalState :=
      if slotId.IsValid then
        if (mapFind self.m_slotIdMap slotId).isSome then
          (rt.GetConnectedEndpoints ⟨self.GetEntityId, slotId⟩).foldl (signalEndpoint rt) start
        else start
      else start
    if st.executionCheckRequired then st.requests ++ [ExecutionRequest.Execute]
    else st.requests

/-- The configuration a slot insertion hands to `InsertSlotInternal`, the id generated for
the new slot, and whether `InsertSlotInternal` accepts it; `none` for a removal. -/
def SlotOp.insertion (order : EqualKeyOrder) (self : Node) :
    SlotOp → Option (SlotConfiguration × SlotId × Bool)
  | SlotOp.insertSlot index slotConfig newSlotId =>
    some (slotConfig, newSlotId,
      (InsertSlotInternal order self index slotConfig newSlotId none).success)
  | SlotOp.insertInputDatumSlot index slotConfig _ newSlotId _ =>
    some (slotConfig, newSlotId,
      (InsertSlotInternal order self index slotConfig newSlotId none).success)
  | SlotOp.addInputTypeSlot name toolTip type contractType unique newSlotId =>
    let contracts : List ContractDescriptor :=
      match contractType with
      | InputTypeContract.CustomType => [ContractDescriptor.typeContract (some type)]
      | InputTypeContract.DatumType => [ContractDescriptor.typeContract none]
      | InputTypeContract.None => []
    let slotConfig : SlotConfiguration := ⟨name, toolTip, SlotType.DataIn, contracts, unique⟩
    some (slotConfig, newSlotId,
      (InsertSlotInternal order self (-1) slotConfig newSlotId none).success)
  | SlotOp.addOutputTypeSlot name toolTip _ unique newSlotId =>
    let slotConfig : SlotConfiguration := ⟨name, toolTip, SlotType.DataOut, [], unique⟩
    some (slotConfig, newSlotId,
      (InsertSlotInternal order self (-1) slotConfig newSlotId none).success)
  | SlotOp.removeSlot _ _ => none

end Node

/-- A runtime for the dynamic output check: the data-out slot 11 (type 1) of the constant
node 1 feeds the data-in slot 50 (declared type 1) of node 5. -/
def Runtime.typedChainSample : Runtime :=
  { m_nodes :=
      [Node.build 1 NodeClass.pureData
         [Node.SlotOp.addOutputTypeSlot "Get" "" ⟨1⟩ false ⟨11⟩],
       Node.typedSample]
    m_graph := ⟨[⟨⟨⟨1⟩, ⟨11⟩⟩, ⟨⟨5⟩, ⟨50⟩⟩⟩]⟩ }

/-- The node of the typed chain sample runtime with the given id. -/
def Runtime.typedChainNode (id : Nat) : Node :=
  (Runtime.typedChainSample.FindNode ⟨id⟩).getD (Node.empty none NodeClass.plain)

/-- A runtime for signalling and stale inputs.  Node 1 has the execution slots 10 (in) and
11 (out) and the data-in slots 12, 13, 14 and 15; node 2 has the execution-in slot 20, the
data-out slot 21 and the execution-out slot 22; node 3 is a constant with the data-out
slot 31.  Slot 11 of node 1 is connected, in this order, to slot 20 of node 2, to slot 90
of the missing node 9 and to slot 10 of node 1.  Node 2 feeds slot 12, the constant feeds
slot 13, slot 14 is not connected and the missing node 9 feeds slot 15. -/
def Runtime.signalSample : Runtime :=
  { m_nodes :=
      [Node.build 1 NodeClass.plain
         [Node.SlotOp.insertSlot (-1) ⟨"In", "", SlotType.ExecutionIn, [], false⟩ ⟨10⟩,
          Node.SlotOp.insertSlot (-1) ⟨"Out", "", SlotType.ExecutionOut, [], false⟩ ⟨11⟩,
          Node.SlotOp.insertSlot (-1) ⟨"A", "", SlotType.DataIn, [], false⟩ ⟨12⟩,
          Node.SlotOp.insertSlot (-1) ⟨"B", "", SlotType.DataIn, [], false⟩ ⟨13⟩,
          Node.SlotOp.insertSlot (-1) ⟨"C", "", SlotType.DataIn, [], false⟩ ⟨14⟩,
          Node.SlotOp.insertSlot (-1) ⟨"D", "", SlotType.DataIn, [], false⟩ ⟨15⟩],
       Node.build 2 NodeClass.plain
         [Node.SlotOp.insertSlot (-1) ⟨"In", "", SlotType.ExecutionIn, [], false⟩ ⟨20⟩,
          Node.SlotOp.insertSlot (-1) ⟨"Result", "", SlotType.DataOut, [], false⟩ ⟨21⟩,
          Node.SlotOp.insertSlot (-1) ⟨"Out", "", SlotType.ExecutionOut, [], false⟩ ⟨22⟩],
       Node.build 3 NodeClass.pureData
         [Node.SlotOp.addOutputTypeSlot "Get" "" ⟨1⟩ false ⟨31⟩]]
    m_graph :=
      ⟨[⟨⟨⟨1⟩, ⟨11⟩⟩, ⟨⟨2⟩, ⟨20⟩⟩⟩, ⟨⟨⟨1⟩, ⟨11⟩⟩, ⟨⟨9⟩, ⟨90⟩⟩⟩,
        ⟨⟨⟨1⟩, ⟨11⟩⟩, ⟨⟨1⟩, ⟨10⟩⟩⟩, ⟨⟨⟨2⟩, ⟨21⟩⟩, ⟨⟨1⟩, ⟨12⟩⟩⟩,
        ⟨⟨⟨3⟩, ⟨31⟩⟩, ⟨⟨1⟩, ⟨13⟩⟩⟩, ⟨⟨⟨9⟩, ⟨91⟩⟩, ⟨⟨1⟩, ⟨15⟩⟩⟩]⟩ }

/-- The node of the signal sample runtime with the given id. -/
def Runtime.signalNode (id : Nat) : Node :=
  (Runtime.signalSample.FindNode ⟨id⟩).getD (Node.empty none NodeClass.plain)

/-- A runtime with a constant that is not of the `PureData` class.  Node 1 has the
execution slots 10 (in) and 13 (out) and the data-in slots 11 and 12; node 2 is of the plain
class and has the data-out slot 20 and no other slot.  Node 2 feeds slot 11, and the
missing node 9 feeds slot 12. -/
def Runtime.constantSample : Runtime :=
  { m_nodes :=
      [Node.build 1 NodeClass.plain
         [Node.SlotOp.insertSlot (-1) ⟨"In", "", SlotType.ExecutionIn, [], false⟩ ⟨10⟩,
          Node.SlotOp.insertSlot (-1) ⟨"A", "", SlotType.DataIn, [], false⟩ ⟨11⟩,
          Node.SlotOp.insertSlot (-1) ⟨"B", "", SlotType.DataIn, [], false⟩ ⟨12⟩,
          Node.SlotOp.insertSlot (-1) ⟨"Out", "", SlotType.ExecutionOut, [], false⟩ ⟨13⟩],
       Node.build 2 NodeClass.plain
         [Node.SlotOp.insertSlot (-1) ⟨"Get", "", SlotType.DataOut, [], false⟩ ⟨20⟩]]
    m_graph :=
      ⟨[⟨⟨⟨2⟩, ⟨20⟩⟩, ⟨⟨1⟩, ⟨11⟩⟩⟩, ⟨⟨⟨9⟩, ⟨90⟩⟩, ⟨⟨1⟩, ⟨12⟩⟩⟩]⟩ }

/-- The node of the constant sample runtime with the given id. -/
def Runtime.constantNode (id : Nat) : Node :=
  (Runtime.constantSample.FindNode ⟨id⟩).getD (Node.empty none NodeClass.plain)

/-- The test the loop body of `Node::MarkDefaultableInput` makes on a slot: it is a data-in
slot, `GetConnectedNodes` returns at least one node for it, and none of the returned nodes
is of the `PureData` class (`azrtti_cast<const PureData*>`). -/
def Node.MarksSlot (rt : Runtime) (self : Node) (slot : Slot) : Prop :=
  slot.m_type = SlotType.DataIn ∧ self.GetConnectedNodes rt slot ≠ []
    ∧ ∀ x ∈ self.GetConnectedNodes rt slot, x.1.m_class ≠ NodeClass.pureData

instance Node.decidableMarksSlot (rt : Runtime) (self : Node) (slot : Slot) :
    Decidable (self.MarksSlot rt slot) := by
  unfold Node.MarksSlot; infer_instance

/-- In the words of the specification (glossary): a pure-data node is a node with no
execution pins, neither an execution-in nor an execution-out slot. -/
def Node.HasNoExecutionPins (self : Node) : Bool :=
  self.m_slots.all (fun e =>
    decide (e.2.m_type ≠ SlotType.ExecutionIn ∧ e.2.m_type ≠ SlotType.ExecutionOut))

/-- In the words of the specification (section 4.6): a connection is pure-data-sourced when
its producer, the node at the other end, is a pure-data node. -/
def Runtime.PureDataSourced (rt : Runtime) (upstream : Endpoint) : Bool :=
  match rt.FindNode upstream.m_nodeId with
  | some producer => producer.HasNoExecutionPins
  | none => false

/-- In the words of the specification (section 4.7): the slot is a data-in slot that has at
least one upstream connection and none of whose connections is pure-data-sourced.  The
connections of the slot are the endpoints the graph holds for it. -/
def Node.PossiblyStale (rt : Runtime) (self : Node) (slot : Slot) : Prop :=
  slot.m_type = SlotType.DataIn
    ∧ rt.GetConnectedEndpoints ⟨self.GetEntityId, slot.m_id⟩ ≠ []
    ∧ ∀ upstream ∈ rt.GetConnectedEndpoints ⟨self.GetEntityId, slot.m_id⟩,
        rt.PureDataSourced upstream = false

instance Node.decidablePossiblyStale (rt : Runtime) (self : Node) (slot : Slot) :
    Decidable (self.PossiblyStale rt slot) := by
  unfold Node.PossiblyStale; infer_instance

/-! ## Writing inputs, lookup by variable and sequences of node operations -/

/-- Assignment through a list iterator: the element stored in the cell is replaced by its
image under `f`. -/
def cellModify {A : Type} : List (Cell × A) → Cell → (A → A) → List (Cell × A)
  | [], _, _ => []
  | e :: l, c, f => if e.1 = c then (e.1, f e.2) :: l else e :: cellModify l c f

/-- Modelled from the spec: `Datum::SetDefaultValue` (`Datum.cpp`), which re-applies the
default value of the type of the datum (section 4.7); the default value is 0 here. -/
def Datum.SetDefaultValue (d : Datum) : Datum := { d with m_value := 0 }

/-- A node with one execution-in slot 60 and no other slot. -/
def Node.executionInSample : Node :=
  Node.build 6 NodeClass.plain
    [Node.SlotOp.insertSlot (-1) ⟨"In", "", SlotType.ExecutionIn, [], false⟩ ⟨60⟩]

namespace Node

/-- Embeds `Node::WriteInput(Datum&, const Datum&)`, the assignment `destination = source`;
the result is the datum the destination holds afterwards. -/
def WriteInput (_destination : Datum) (source : Datum) : Datum := source

/-- Embeds `Node::SetInput(const Datum&, const SlotId&)`.  The virtual hook
`OnInputChanged` is the one of the base class, which changes nothing. -/
def SetInput (self : Node) (newInput : Datum) (slotId : SlotId) : Node :=
  match mapFind self.m_slotIdVarInfoMap slotId with
  | some foundSlotVarInfoIt =>
    match mapFind self.m_varIdMap foundSlotVarInfoIt.2.m_ownedVariableId with
    | some varIdIter =>
      { self with
        m_varDatums :=
          cellModify self.m_varDatums varIdIter.2
            (fun varDatum => { varDatum with m_data := WriteInput varDatum.m_data newInput }) }
    | none => self
  | none => self

/-- Embeds `Node::SetDefault`, as far as the node is concerned: `ModInput` is the datum of
the active variable; when that variable is stored on the node its datum is reset, when it
is a variable of the registry the node does not change. -/
def SetDefault (self : Node) (slotID : SlotId) : Node :=
  let varId := self.GetVariableId slotID
  if varId.IsValid then
    match mapFind self.m_varIdMap varId with
    | some varIdIter =>
      { self with
        m_varDatums :=
          cellModify self.m_varDatums varIdIter.2
            (fun varDatum => { varDatum with m_data := varDatum.m_data.SetDefaultValue }) }
    | none => self
  else self

/-- Embeds `Node::RefreshInput`. -/
def RefreshInput (self : Node) : Node :=
  self.m_possiblyStaleInput.foldl (fun n slotID => n.SetDefault slotID) self

/-- Embeds `Node::SignalInput`, as far as the node is concerned.  The virtual hook
`OnInputSignal` is the one of the base class, which changes nothing; the log notification
and the error handling macro are left out. -/
def SignalInput (self : Node) (_slotId : SlotId) : Node := self.RefreshInput

/-- Embeds `Node::GetSlotId(const VariableId&)`: the first binding whose owned id is the
id, else the first binding whose active id is the id, else `SlotId{}`. -/
def GetSlotIdForVariable (self : Node) (varId : VariableId) : SlotId :=
  match self.m_slotIdVarInfoMap.find? (fun slotIdVarIdPair =>
      decide (varId = slotIdVarIdPair.2.m_ownedVariableId)) with
  | some slotIdVarInfoIter => slotIdVarInfoIter.1
  | none =>
    match self.m_slotIdVarInfoMap.find? (fun slotIdVarIdPair =>
        decide (varId = slotIdVarIdPair.2.m_currentVariableId)) with
    | some slotIdVarInfoIter => slotIdVarInfoIter.1
    | none => SlotId.empty

/-- One call of an operation of the node that the claims about bindings range over.  A
slot mutation carries the variable registry as it is at the time of the call. -/
inductive NodeOp where
  | slotOp (reg : VariableRegistry) (op : SlotOp)
  | setSlotVariableId (slotId : SlotId) (variableId : VariableId)
  | resetSlotVariableId (slotId : SlotId)
  | setInput (newInput : Datum) (slotId : SlotId)
  | signalInput (slotId : SlotId)
deriving DecidableEq, Repr

/-- The node after one operation. -/
def NodeOp.apply (order : EqualKeyOrder) (self : Node) : NodeOp → Node
  | NodeOp.slotOp reg op => op.apply order reg self
  | NodeOp.setSlotVariableId slotId variableId => (self.SetSlotVariableId slotId variableId).node
  | NodeOp.resetSlotVariableId slotId => (self.ResetSlotVariableId slotId).node
  | NodeOp.setInput newInput slotId => self.SetInput newInput slotId
  | NodeOp.signalInput slotId => self.SignalInput slotId

/-- The ids an operation generates are fresh for the node. -/
def NodeOp.Fresh (self : Node) : NodeOp → Prop
  | NodeOp.slotOp _ op => op.Fresh self
  | _ => True

instance NodeOp.decidableFresh (self : Node) (op : NodeOp) : Decidable (op.Fresh self) := by
  cases op <;> unfold NodeOp.Fresh <;> infer_instance

/-- The operation is a `RemoveSlot` call for the slot `s`. -/
def NodeOp.Removes (s : SlotId) : NodeOp → Prop
  | NodeOp.slotOp _ (SlotOp.removeSlot _ slotId) => slotId = s
  | _ => False

instance NodeOp.decidableRemoves (s : SlotId) (op : NodeOp) : Decidable (op.Removes s) := by
  cases op with
  | slotOp reg op => cases op <;> unfold NodeOp.Removes <;> infer_instance
  | setSlotVariableId _ _ => unfold NodeOp.Removes; infer_instance
  | resetSlotVariableId _ => unfold NodeOp.Removes; infer_instance
  | setInput _ _ => unfold NodeOp.Removes; infer_instance
  | signalInput _ => unfold NodeOp.Removes; infer_instance

/-- The node after a sequence of operations. -/
def runNodeOps (order : EqualKeyOrder) : Node → List NodeOp → Node
  | self, [] => self
  | self, op :: ops => runNodeOps order (op.apply order self) ops

/-- Every operation of the sequence generates ids that are fresh for the node it is
applied to. -/
def FreshNodeRun (order : EqualKeyOrder) : Node → List NodeOp → Prop
  | _, [] => True
  | self, op :: ops => op.Fresh self ∧ FreshNodeRun order (op.apply order self) ops

instance decidableFreshNodeRun (order : EqualKeyOrder) :
    (self : Node) → (ops : List NodeOp) → Decidable (FreshNodeRun order self ops)
  | _, [] => isTrue trivial
  | self, op :: ops =>
    have := decidableFreshNodeRun order (op.apply order self) ops
    inferInstanceAs (Decidable (op.Fresh self ∧ FreshNodeRun order (op.apply order self) ops))

/-- The owned variable ids of the bindings of the node, in the order of the binding map. -/
def ownedIds (self : Node) : List VariableId :=
  self.m_slotIdVarInfoMap.map (fun e => e.2.m_ownedVariableId)

/-- The owned variables of the bindings are in place: an owned id that is valid is the id
of a variable of the node, and no two bindings share a valid owned id. -/
structure OwnedVariablesLive (n : Node) : Prop where
  present : ∀ id ∈ n.ownedIds, id.IsValid = true → id ∈ n.variableIds
  distinct : (n.ownedIds.filter (fun id => id.IsValid)).Nodup

/-- The bindings and the variables of `n'` are those of `n`, or those of `n` with one
binding and the variable it owns appended, or those of `n` with one binding without an
owned variable appended; the new binding is for a slot id that is new to `n`. -/
def Grown (n n' : Node) : Prop :=
  (n'.m_slotIdVarInfoMap = n.m_slotIdVarInfoMap ∧ n'.m_varDatums = n.m_varDatums)
    ∨ (∃ id info cell var, id ∉ n.slotIds ∧ var.m_id ∉ n.variableIds
        ∧ info.m_ownedVariableId = var.m_id
        ∧ n'.m_slotIdVarInfoMap = n.m_slotIdVarInfoMap ++ [(id, info)]
        ∧ n'.m_varDatums = n.m_varDatums ++ [(cell, var)])
    ∨ (∃ id info, id ∉ n.slotIds ∧ info.m_ownedVariableId = VariableId.empty
        ∧ n'.m_slotIdVarInfoMap = n.m_slotIdVarInfoMap ++ [(id, info)]
        ∧ n'.m_varDatums = n.m_varDatums)

/-- A node with two data-in slots that own a variable each: slot 40 owns the variable 400
(type 1, value 0) and slot 41 owns the variable 410 (type 1, value 3). -/
def twoDatumSample : Node :=
  Node.build 4 NodeClass.plain
    [SlotOp.insertInputDatumSlot (-1) ⟨"A", "", SlotType.DataIn, [], false⟩
      ⟨⟨1⟩, 0, "", ⟨0⟩⟩ ⟨40⟩ ⟨400⟩,
     SlotOp.insertInputDatumSlot (-1) ⟨"B", "", SlotType.DataIn, [], false⟩
      ⟨⟨1⟩, 3, "", ⟨0⟩⟩ ⟨41⟩ ⟨410⟩]

/-- A node with datum slots and typed slots: the data-in slots 40 and 41 own the variables
400 and 410, and the data-out slots 42 and 43, created by `AddOutputTypeSlot`, have a
binding without an owned variable (the empty owned id). -/
def mixedSample : Node :=
  Node.build 4 NodeClass.plain
    [SlotOp.insertInputDatumSlot (-1) ⟨"A", "", SlotType.DataIn, [], false⟩
      ⟨⟨1⟩, 0, "", ⟨0⟩⟩ ⟨40⟩ ⟨400⟩,
     SlotOp.addOutputTypeSlot "P" "" ⟨1⟩ false ⟨42⟩,
     SlotOp.addOutputTypeSlot "Q" "" ⟨1⟩ false ⟨43⟩,
     SlotOp.insertInputDatumSlot (-1) ⟨"B", "", SlotType.DataIn, [], false⟩
      ⟨⟨1⟩, 3, "", ⟨0⟩⟩ ⟨41⟩ ⟨410⟩]

end Node

end ScriptCanvas

namespace GraphCanvas

/-! ## The prioritized state controller -/

/-- A pointer `StateSetter<T>*`, identified by its address. -/
abbrev StateSetterPtr := Nat

/-- Modelled from the spec: `AZStd::multiset::insert` (`AzCore/std/containers/set.h`, not in
the sources at hand), which follows the standard container: the element is inserted after
the elements it does not precede under `Compare`; the list is the set in iteration order. -/
def multisetInsert {T : Type} (comp : T → T → Bool) : List T → T → List T
  | [], x => [x]
  | y :: l, x => if comp x y then x :: y :: l else y :: multisetInsert comp l x

/-- Modelled from the spec: `AZStd::multiset::erase(const key_type&)`
(`AzCore/std/containers/set.h`, not in the sources at hand), which follows the standard
container: every element equivalent to the key under `Compare` is erased. -/
def multisetEraseKey {T : Type} (comp : T → T → Bool) (l : List T) (key : T) : List T :=
  l.filter (fun y => comp y key || comp key y)

/-- The state of a `PrioritizedStateController<T, Compare>`. -/
structure PrioritizedStateController (T : Type) where
  m_valueSet : List T
  m_valueMapping : List (StateSetterPtr × T)

namespace PrioritizedStateController

/-- A freshly constructed controller. -/
def empty {T : Type} : PrioritizedStateController T :=
  { m_valueSet := [], m_valueMapping := [] }

/-- Embeds `PrioritizedStateController::HasState`. -/
def HasState {T : Type} (self : PrioritizedStateController T) : Bool := !self.m_valueSet.isEmpty

/-- Embeds `PrioritizedStateController::OnPushState`: the returned flag and the controller
afterwards. -/
def OnPushState {T : Type} (comp : T → T → Bool) (self : PrioritizedStateController T)
    (stateSetter : StateSetterPtr) (state : T) : Bool × PrioritizedStateController T :=
  match ScriptCanvas.mapFind self.m_valueMapping stateSetter with
  | some _ => (false, self)
  | none =>
    (true,
      { m_valueSet := multisetInsert comp self.m_valueSet state
        m_valueMapping := self.m_valueMapping ++ [(stateSetter, state)] })

/-- Embeds `PrioritizedStateController::OnReleaseState`: the returned flag and the
controller afterwards. -/
def OnReleaseState {T : Type} (comp : T → T → Bool) (self : PrioritizedStateController T)
    (stateSetter : StateSetterPtr) : Bool × PrioritizedStateController T :=
  match ScriptCanvas.mapFind self.m_valueMapping stateSetter with
  | some valueIter =>
    (true,
      { m_valueSet := multisetEraseKey comp self.m_valueSet valueIter.2
        m_valueMapping := ScriptCanvas.mapErase self.m_valueMapping stateSetter })
  | none => (false, self)

/-- Embeds `PrioritizedStateController::GetCalculatedState`: the first element of the value
set; `none` stands for the dereference of `begin()` of an empty set. -/
def GetCalculatedState {T : Type} (self : PrioritizedStateController T) : Option T :=
  self.m_valueSet.head?

/-- One call on the controller. -/
inductive Call (T : Type) where
  | push (stateSetter : StateSetterPtr) (state : T)
  | release (stateSetter : StateSetterPtr)

/-- The controller after a sequence of `OnPushState` and `OnReleaseState` calls. -/
def run {T : Type} (comp : T → T → Bool) :
    PrioritizedStateController T → List (Call T) → PrioritizedStateController T
  | self, [] => self
  | self, Call.push stateSetter state :: calls =>
    run comp (OnPushState comp self stateSetter state).2 calls
  | self, Call.release stateSetter :: calls =>
    run comp (OnReleaseState comp self stateSetter).2 calls

/-- The comparison `AZStd::less<T>` for natural numbers, the default `Compare`. -/
def less (a b : Nat) : Bool := decide (a < b)

/-- Two setters push the value 5 and the first releases its state. -/
def equalValuesRun : List (Call Nat) := [Call.push 1 5, Call.push 2 5, Call.release 1]

/-- Two setters push the value 5, a third pushes 7, and the first releases its state. -/
def priorityRun : List (Call Nat) :=
  [Call.push 1 5, Call.push 2 5, Call.push 3 7, Call.release 1]

end PrioritizedStateController

end GraphCanvas

namespace CloudGemFramework

/-! ## Multipart form data -/

/-- An `AZStd::string` or a byte buffer: the sequence of its chars; `length()` is the
length of the list. -/
abbrev AzString := List Char

namespace Detail

/-- The format `Detail::FIELD_HEADER_FMT`. -/
def FIELD_HEADER_FMT : String :=
  "--%s\r\nContent-Disposition: form-data; name=\"%s\"\r\n\r\n"

/-- The format `Detail::FILE_HEADER_FMT`. -/
def FILE_HEADER_FMT : String :=
  "--%s\r\nContent-Disposition: form-data; name=\"%s\"; filename=\"%s\"\r\n\r\n"

/-- The format `Detail::FOOTER_FMT`. -/
def FOOTER_FMT : String := "--%s--\r\n"

/-- The separator `Detail::ENTRY_SEPARATOR`. -/
def ENTRY_SEPARATOR : String := "\r\n"

end Detail

/-- The value of `sizeof` for a `const char[]` initialised from a literal: the chars of
the literal and the terminating zero. -/
def sizeofLiteral (s : String) : Nat := s.length + 1

/-- The chars a `const char*` gives to `%s` and to `append`: those before the first zero
char. -/
def c_str (s : AzString) : AzString := s.takeWhile (fun c => c != Char.ofNat 0)

/-- The expansion of a format whose only conversion is `%s`, each taking the next
argument. -/
def formatChars : List Char → List AzString → AzString
  | '%' :: 's' :: rest, arg :: args => arg ++ formatChars rest args
  | c :: rest, args => c :: formatChars rest args
  | [], _ => []

/-- Embeds `AZStd::string::format` for the formats of this file; the arguments are passed
as `c_str()`. -/
def format (fmt : String) (args : List AzString) : AzString :=
  formatChars fmt.toList (args.map c_str)

/-- A `Field`. -/
structure Field where
  m_fieldName : AzString
  m_value : AzString

/-- A `FileField`. -/
structure FileField where
  m_fieldName : AzString
  m_fileName : AzString
  m_fileData : AzString

/-- The state of a `MultipartFormData`. -/
structure MultipartFormData where
  m_boundary : AzString
  m_fields : List Field
  m_fileFields : List FileField

namespace MultipartFormData

/-- The number of values of `size_t`. -/
def sizeRange : Nat := 2 ^ 64

/-- Embeds `MultipartFormData::Prepare`; `generated` is the text of the random id. -/
def Prepare (self : MultipartFormData) (generated : AzString) : MultipartFormData :=
  if self.m_boundary = [] then { self with m_boundary := generated } else self

/-- Embeds `MultipartFormData::EstimateBodySize`, in the arithmetic of `size_t`. -/
def EstimateBodySize (self : MultipartFormData) : Nat :=
  let boundarySize := self.m_boundary.length
  let individualFieldBaseSize :=
    (boundarySize + sizeofLiteral Detail.FIELD_HEADER_FMT
      + sizeofLiteral Detail.ENTRY_SEPARATOR) % sizeRange
  let individualFileBaseSize :=
    (boundarySize + sizeofLiteral Detail.FILE_HEADER_FMT
      + sizeofLiteral Detail.ENTRY_SEPARATOR) % sizeRange
  let estimatedSize := (sizeofLiteral Detail.FOOTER_FMT + boundarySize) % sizeRange
  let estimatedSize :=
    self.m_fields.foldl (fun size field =>
      (size + (individualFieldBaseSize + field.m_fieldName.length + field.m_value.length)
        % sizeRange) % sizeRange) estimatedSize
  self.m_fileFields.foldl (fun size fileField =>
    (size + (individualFileBaseSize + fileField.m_fieldName.length
      + fileField.m_fileName.length + fileField.m_fileData.length) % sizeRange) % sizeRange)
    estimatedSize

/-- The estimate in exact arithmetic: the sum `EstimateBodySize` forms, without the
reduction to the range of `size_t`. -/
def estimateExact (self : MultipartFormData) : Nat :=
  sizeofLiteral Detail.FOOTER_FMT + self.m_boundary.length
    + (self.m_fields.map (fun field =>
        self.m_boundary.length + sizeofLiteral Detail.FIELD_HEADER_FMT
          + sizeofLiteral Detail.ENTRY_SEPARATOR + field.m_fieldName.length
          + field.m_value.length)).sum
    + (self.m_fileFields.map (fun fileField =>
        self.m_boundary.length + sizeofLiteral Detail.FILE_HEADER_FMT
          + sizeofLiteral Detail.ENTRY_SEPARATOR + fileField.m_fieldName.length
          + fileField.m_fileName.length + fileField.m_fileData.length)).sum

/-- Embeds `MultipartFormData::ComposeForm`: the content of the result.  The call of
`reserve` does not change the content; the two metadata strings are left out. -/
def ComposeForm (self : MultipartFormData) (generated : AzString) : AzString :=
  let prepared := self.Prepare generated
  let content : AzString := []
  let content :=
    prepared.m_fields.foldl (fun content field =>
      ((content ++ format Detail.FIELD_HEADER_FMT [prepared.m_boundary, field.m_fieldName])
        ++ field.m_value) ++ c_str Detail.ENTRY_SEPARATOR.toList) content
  let content :=
    prepared.m_fileFields.foldl (fun content fileField =>
      ((content ++ format Detail.FILE_HEADER_FMT
          [prepared.m_boundary, fileField.m_fieldName, fileField.m_fileName])
        ++ fileField.m_fileData) ++ c_str Detail.ENTRY_SEPARATOR.toList) content
  content ++ format Detail.FOOTER_FMT [prepared.m_boundary]

/-- In the words of the specification: the part of one field. -/
def fieldPart (boundary : AzString) (field : Field) : AzString :=
  "--".toList ++ boundary ++ "\r\n".toList
    ++ "Content-Disposition: form-data; name=\"".toList ++ field.m_fieldName ++ "\"".toList
    ++ "\r\n\r\n".toList ++ field.m_value ++ "\r\n".toList

/-- In the words of the specification: the part of one file field. -/
def filePart (boundary : AzString) (fileField : FileField) : AzString :=
  "--".toList ++ boundary ++ "\r\n".toList
    ++ "Content-Disposition: form-data; name=\"".toList ++ fileField.m_fieldName
    ++ "\"; filename=\"".toList ++ fileField.m_fileName ++ "\"".toList
    ++ "\r\n\r\n".toList ++ fileField.m_fileData ++ "\r\n".toList

/-- In the words of the specification: the body, one part per field, then one part per
file field, then the footer. -/
def bodyInWords (self : MultipartFormData) : AzString :=
  (self.m_fields.map (fieldPart self.m_boundary)).flatten
    ++ (self.m_fileFields.map (filePart self.m_boundary)).flatten
    ++ ("--".toList ++ self.m_boundary ++ "--".toList ++ "\r\n".toList)

/-- The string has no zero char. -/
def NoZero (s : AzString) : Prop := ∀ c ∈ s, c ≠ Char.ofNat 0

/-- A form with the boundary `xyz`, one field and one file field. -/
def sample : MultipartFormData :=
  { m_boundary := "xyz".toList
    m_fields := [⟨"name".toList, "value".toList⟩]
    m_fileFields := [⟨"file".toList, "a.txt".toList, "data".toList⟩] }

end MultipartFormData

end CloudGemFramework

namespace ScriptCanvas

/-! ## Container lemmas -/

theorem eraseP_congr_mem {A : Type} (p q : A → Bool) (l : List A)
    (h : ∀ x ∈ l, p x = q x) : l.eraseP p = l.eraseP q := by
  induction l with
  | nil => rfl
  | cons a t ih =>
    have ha : p a = q a := h a (List.mem_cons_self a t)
    have ht : ∀ x ∈ t, p x = q x := fun x hx => h x (List.mem_cons_of_mem a hx)
    simp only [List.eraseP_cons, ha, ih ht]

theorem emplaceAtIndex_perm {A : Type} (l : List A) (i : Int) (x : A) :
    (emplaceAtIndex l i x).Perm (x :: l) := by
  unfold emplaceAtIndex
  split
  · exact List.perm_append_singleton x l
  · have h := @List.perm_middle _ x (l.take i.toNat) (l.drop i.toNat)
    simpa [List.take_append_drop] using h

theorem mem_emplaceAtIndex {A : Type} (l : List A) (i : Int) (x y : A) :
    y ∈ emplaceAtIndex l i x ↔ y = x ∨ y ∈ l :=
  (emplaceAtIndex_perm l i x).mem_iff.trans List.mem_cons

theorem mapFind_eq_none_iff {K V : Type} [DecidableEq K] (m : List (K × V)) (k : K) :
    mapFind m k = none ↔ k ∉ m.map Prod.fst := by
  unfold mapFind
  rw [List.find?_eq_none]
  constructor
  · intro h hk
    obtain ⟨e, he, rfl⟩ := List.mem_map.1 hk
    exact h e he (by simp)
  · intro h e he hk
    exact h (List.mem_map.2 ⟨e, he, by simpa using hk⟩)

theorem mapFind_some {K V : Type} [DecidableEq K] {m : List (K × V)} {k : K} {e : K × V}
    (h : mapFind m k = some e) : e ∈ m ∧ e.1 = k := by
  unfold mapFind at h
  exact ⟨List.mem_of_find?_eq_some h, by simpa using List.find?_some h⟩

theorem mapFind_isSome_of_mem {K V : Type} [DecidableEq K] {m : List (K × V)} {k : K}
    (h : k ∈ m.map Prod.fst) : ∃ e, mapFind m k = some e := by
  cases hf : mapFind m k with
  | none => exact absurd h ((mapFind_eq_none_iff m k).1 hf)
  | some e => exact ⟨e, rfl⟩

theorem mapEmplace_of_not_mem {K V : Type} [DecidableEq K] (m : List (K × V)) (k : K) (v : V)
    (h : k ∉ m.map Prod.fst) : mapEmplace m k v = m ++ [(k, v)] := by
  unfold mapEmplace
  rw [(mapFind_eq_none_iff m k).2 h]

theorem mapAssign_of_not_mem {K V : Type} [DecidableEq K] (m : List (K × V)) (k : K) (v : V)
    (h : k ∉ m.map Prod.fst) : mapAssign m k v = m ++ [(k, v)] := by
  induction m with
  | nil => rfl
  | cons e t ih =>
    have h1 : e.1 ≠ k := fun he => h (by simp [he])
    have h2 : k ∉ t.map Prod.fst := fun hk => h (by simp at hk ⊢; exact Or.inr hk)
    simp [mapAssign, h1, ih h2]

theorem multimapEmplace_perm {K V : Type} (o : EqualKeyOrder) (m : List (K × V)) (k : K)
    (v : V) : (multimapEmplace o m k v).Perm ((k, v) :: m) := by
  cases o
  · exact List.Perm.refl _
  · exact List.perm_append_singleton _ m

theorem mapErase_append_singleton {K V : Type} [DecidableEq K] (m : List (K × V)) (k : K)
    (v : V) (h : k ∉ m.map Prod.fst) : mapErase (m ++ [(k, v)]) k = m := by
  unfold mapErase
  rw [List.eraseP_append_right]
  · simp
  · intro e he hk
    exact h (List.mem_map.2 ⟨e, he, by simpa using hk⟩)

/-- Erasing from an index the entry of the element in cell `c` and the element itself from
the list keeps the index a permutation of the entries of the list. -/
theorem index_eraseP_perm {A B : Type} (f : Cell × A → B) (p : B → Bool)
    (l : List (Cell × A)) (m : List B) (c : Cell) (hm : m.Perm (l.map f))
    (hcells : (l.map Prod.fst).Nodup) (hp : ∀ x ∈ l, p (f x) = decide (x.1 = c)) :
    (m.eraseP p).Perm ((cellErase l c).map f) := by
  have pw0 : l.Pairwise (fun a b => a.1 ≠ b.1) := List.pairwise_map.1 hcells
  have pw : (l.map f).Pairwise (fun a b => p a = true → p b = true → False) := by
    rw [List.pairwise_map]
    refine List.Pairwise.imp_of_mem ?_ pw0
    intro a b ha hb hab h1 h2
    rw [hp a ha] at h1
    rw [hp b hb] at h2
    exact hab ((of_decide_eq_true h1).trans (of_decide_eq_true h2).symm)
  have h1 := (List.Perm.eraseP p pw hm.symm).symm
  rw [List.eraseP_map] at h1
  have h2 : l.eraseP (p ∘ f) = cellErase l c := by
    unfold cellErase
    exact eraseP_congr_mem _ _ l (fun x hx => hp x hx)
  rw [h2] at h1
  exact h1

theorem cellErase_sublist {A : Type} (l : List (Cell × A)) (c : Cell) :
    (cellErase l c).Sublist l := List.eraseP_sublist l

theorem mem_cellErase_of_ne {A : Type} (l : List (Cell × A)) (c : Cell) (x : Cell × A)
    (h : x.1 ≠ c) : x ∈ cellErase l c ↔ x ∈ l := by
  unfold cellErase
  exact List.mem_eraseP_of_neg (by simpa using h)

theorem cell_not_mem_cellErase {A : Type} (l : List (Cell × A)) (c : Cell)
    (hcells : (l.map Prod.fst).Nodup) : c ∉ (cellErase l c).map Prod.fst := by
  induction l with
  | nil => simp [cellErase]
  | cons a t ih =>
    rw [List.map_cons, List.nodup_cons] at hcells
    by_cases hac : a.1 = c
    · have : cellErase (a :: t) c = t := by simp [cellErase, hac]
      rw [this, ← hac]
      exact hcells.1
    · have : cellErase (a :: t) c = a :: cellErase t c := by simp [cellErase, hac]
      rw [this, List.map_cons, List.mem_cons]
      rintro (h | h)
      · exact hac h.symm
      · exact ih hcells.2 h

theorem cellErase_of_not_mem {A : Type} (l : List (Cell × A)) (c : Cell)
    (h : c ∉ l.map Prod.fst) : cellErase l c = l := by
  unfold cellErase
  apply List.eraseP_of_forall_not
  intro e he hc
  exact h (List.mem_map.2 ⟨e, he, by simpa using hc⟩)

theorem cellErase_emplaceAtIndex {A : Type} (l : List (Cell × A)) (i : Int) (c : Cell) (x : A)
    (h : c ∉ l.map Prod.fst) : cellErase (emplaceAtIndex l i (c, x)) c = l := by
  have hno : ∀ (t : List (Cell × A)), (∀ e ∈ t, e ∈ l) →
      ∀ e ∈ t, ¬ (decide (e.1 = c) = true) := by
    intro t ht e he hc
    exact h (List.mem_map.2 ⟨e, ht e he, by simpa using hc⟩)
  unfold emplaceAtIndex cellErase
  split
  · rw [List.eraseP_append_right _ (hno l (fun e he => he))]
    simp
  · rw [List.eraseP_append_right _
      (hno (l.take i.toNat) (fun e he => List.mem_of_mem_take he))]
    simp [List.take_append_drop]

namespace Node

/-! ## Lemmas about the slot mutations -/

theorem keys_slotIdMap {n : Node} (h : n.IndicesConsistent) :
    (n.m_slotIdMap.map Prod.fst).Perm n.slotIds := by
  have h1 := h.slotIdMap.map Prod.fst
  simpa [slotIds, List.map_map, Function.comp_def] using h1

theorem keys_varIdMap {n : Node} (h : n.IndicesConsistent) :
    (n.m_varIdMap.map Prod.fst).Perm n.variableIds := by
  have h1 := h.varIdMap.map Prod.fst
  simpa [variableIds, List.map_map, Function.comp_def] using h1

theorem nextCell_not_mem_slots {n : Node} (h : n.WellFormed) :
    n.m_nextCell ∉ n.m_slots.map Prod.fst := by
  intro hc
  obtain ⟨e, he, hec⟩ := List.mem_map.1 hc
  have hlt := h.slotCellsBelow e he
  rw [hec] at hlt
  exact Nat.lt_irrefl _ hlt

theorem nextCell_not_mem_vars {n : Node} (h : n.WellFormed) :
    n.m_nextCell ∉ n.m_varDatums.map Prod.fst := by
  intro hc
  obtain ⟨e, he, hec⟩ := List.mem_map.1 hc
  have hlt := h.varCellsBelow e he
  rw [hec] at hlt
  exact Nat.lt_irrefl _ hlt

/-- The two ways `InsertSlotInternal` ends. -/
theorem InsertSlotInternal_cases (o : EqualKeyOrder) (n : Node) (i : Int)
    (cfg : SlotConfiguration) (id : SlotId) (it : Option Cell) :
    ((InsertSlotInternal o n i cfg id it).success = false
        ∧ (InsertSlotInternal o n i cfg id it).node = n)
      ∨ ((InsertSlotInternal o n i cfg id it).success = true
        ∧ (InsertSlotInternal o n i cfg id it).iterOut = some n.m_nextCell
        ∧ (InsertSlotInternal o n i cfg id it).node = n.emplaceSlot o i cfg id) := by
  unfold InsertSlotInternal
  by_cases h1 : cfg.m_name.isEmpty = true
  · left; simp [h1]
  · by_cases h2 : (cfg.m_addUniqueSlotByNameAndType
        && n.nameIterHasType (mapFind n.m_slotNameMap cfg.m_name) cfg.m_type) = true
    · left; simp only [h1, h2]; simp
    · right; simp only [h1, h2]; simp

theorem slotIds_emplaceSlot (o : EqualKeyOrder) (n : Node) (i : Int)
    (cfg : SlotConfiguration) (id : SlotId) :
    (n.emplaceSlot o i cfg id).slotIds.Perm (id :: n.slotIds) := by
  have h := (emplaceAtIndex_perm n.m_slots i (n.m_nextCell, n.constructSlot cfg id)).map
    (fun e => e.2.m_id)
  simpa [slotIds, emplaceSlot, constructSlot] using h

theorem emplaceSlot_wellFormed (o : EqualKeyOrder) (n : Node) (i : Int)
    (cfg : SlotConfiguration) (id : SlotId) (h : n.WellFormed) (hf : id ∉ n.slotIds) :
    (n.emplaceSlot o i cfg id).WellFormed := by
  have hkey : id ∉ n.m_slotIdMap.map Prod.fst :=
    fun hk => hf ((keys_slotIdMap h.indices).mem_iff.1 hk)
  have hcell := nextCell_not_mem_slots h
  have hp := emplaceAtIndex_perm n.m_slots i (n.m_nextCell, n.constructSlot cfg id)
  refine ⟨⟨?_, ?_, ?_⟩, ?_, ?_, ?_, ?_, ?_, ?_, ?_, ?_⟩
  · show (mapEmplace n.m_slotIdMap id n.m_nextCell).Perm
      ((emplaceAtIndex n.m_slots i (n.m_nextCell, n.constructSlot cfg id)).map
        (fun e => (e.2.m_id, e.1)))
    rw [mapEmplace_of_not_mem _ _ _ hkey]
    refine (List.perm_append_singleton _ _).trans ?_
    refine List.Perm.trans ?_ (hp.map _).symm
    exact h.indices.slotIdMap.cons _
  · show (multimapEmplace o n.m_slotNameMap cfg.m_name n.m_nextCell).Perm
      ((emplaceAtIndex n.m_slots i (n.m_nextCell, n.constructSlot cfg id)).map
        (fun e => (e.2.m_name, e.1)))
    refine (multimapEmplace_perm _ _ _ _).trans ?_
    refine List.Perm.trans ?_ (hp.map _).symm
    exact h.indices.slotNameMap.cons _
  · exact h.indices.varIdMap
  · show ((emplaceAtIndex n.m_slots i (n.m_nextCell, n.constructSlot cfg id)).map
      Prod.fst).Nodup
    rw [(hp.map Prod.fst).nodup_iff, List.map_cons, List.nodup_cons]
    exact ⟨hcell, h.slotCells⟩
  · exact h.varCells
  · intro e he
    show e.1 < n.m_nextCell + 1
    rcases (mem_emplaceAtIndex _ _ _ _).1 he with rfl | he
    · exact Nat.lt_succ_self _
    · exact Nat.lt_succ_of_lt (h.slotCellsBelow e he)
  · intro e he
    exact Nat.lt_succ_of_lt (h.varCellsBelow e he)
  · rw [(slotIds_emplaceSlot o n i cfg id).nodup_iff, List.nodup_cons]
    exact ⟨hf, h.slotIdsNodup⟩
  · exact h.variableIdsNodup
  · exact h.bindingKeys
  · intro e he
    exact (slotIds_emplaceSlot o n i cfg id).mem_iff.2
      (List.mem_cons_of_mem _ (h.bindingSlots e he))

theorem cellDeref_emplaceAtIndex {A : Type} (l : List (Cell × A)) (i : Int) (c : Cell) (x : A)
    (h : c ∉ l.map Prod.fst) : cellDeref (emplaceAtIndex l i (c, x)) c = some x := by
  have hno : ∀ (t : List (Cell × A)), (∀ e ∈ t, e ∈ l) →
      t.find? (fun e => decide (e.1 = c)) = none := by
    intro t ht
    rw [List.find?_eq_none]
    intro e he hc
    exact h (List.mem_map.2 ⟨e, ht e he, by simpa using hc⟩)
  unfold emplaceAtIndex cellDeref
  split
  · rw [List.find?_append, hno l (fun e he => he)]
    simp
  · rw [List.find?_append, hno (l.take i.toNat) (fun e he => List.mem_of_mem_take he)]
    simp

theorem slotIdAt_emplaceSlot (o : EqualKeyOrder) (n : Node) (i : Int)
    (cfg : SlotConfiguration) (id : SlotId) (h : n.m_nextCell ∉ n.m_slots.map Prod.fst) :
    (n.emplaceSlot o i cfg id).slotIdAt (some n.m_nextCell) = id := by
  show (match cellDeref (emplaceAtIndex n.m_slots i (n.m_nextCell, n.constructSlot cfg id))
      n.m_nextCell with
    | some s => s.m_id
    | none => SlotId.empty) = id
  rw [cellDeref_emplaceAtIndex _ _ _ _ h]
  rfl

/-- The node a successful `InsertInputDatumSlotInternal` leaves, for a well-formed node. -/
theorem slotIdAt_congr (a b : Node) (it : Option Cell) (hab : a.m_slots = b.m_slots) :
    a.slotIdAt it = b.slotIdAt it := by
  simp only [slotIdAt, hab]

theorem InsertInputDatumSlotInternal_node (o : EqualKeyOrder) (reg : VariableRegistry)
    (n : Node) (i : Int) (cfg : SlotConfiguration) (d : Datum) (id : SlotId)
    (vid : VariableId) (it : Option Cell) (h : n.WellFormed)
    (hs : (InsertSlotInternal o n i cfg id it).success = true) :
    (InsertInputDatumSlotInternal o reg n i cfg d id vid it).node
      = { n.emplaceSlot o i cfg id with
          m_varDatums := n.m_varDatums ++ [(n.m_nextCell + 1, n.constructVariable cfg d vid)]
          m_varIdMap := mapEmplace n.m_varIdMap vid (n.m_nextCell + 1)
          m_nextCell := n.m_nextCell + 2
          m_slotIdVarInfoMap :=
            mapAssign n.m_slotIdVarInfoMap id (VariableInfo.ofVariableId reg vid) } := by
  rcases InsertSlotInternal_cases o n i cfg id it with ⟨h0, _⟩ | ⟨_, h1, h2⟩
  · rw [h0] at hs; exact absurd hs (by decide)
  · have hv : cellDeref (n.m_varDatums ++ [(n.m_nextCell + 1, n.constructVariable cfg d vid)])
        (n.m_nextCell + 1) = some (n.constructVariable cfg d vid) := by
      unfold cellDeref
      rw [List.find?_append]
      have hnone : n.m_varDatums.find? (fun e => decide (e.1 = n.m_nextCell + 1)) = none := by
        rw [List.find?_eq_none]
        intro e he hc
        have hlt := h.varCellsBelow e he
        have heq : e.1 = n.m_nextCell + 1 := of_decide_eq_true hc
        rw [heq] at hlt
        exact absurd hlt (by simp)
      rw [hnone]
      simp
    have hsid := slotIdAt_emplaceSlot o n i cfg id (nextCell_not_mem_slots h)
    unfold InsertInputDatumSlotInternal
    simp only [hs, if_true, h1, h2]
    have e1 : (n.emplaceSlot o i cfg id).m_nextCell = n.m_nextCell + 1 := rfl
    have e2 : (n.emplaceSlot o i cfg id).m_varDatums = n.m_varDatums := rfl
    have e3 : (n.emplaceSlot o i cfg id).m_varIdMap = n.m_varIdMap := rfl
    have e4 : (n.emplaceSlot o i cfg id).m_slotIdVarInfoMap = n.m_slotIdVarInfoMap := rfl
    have e5 : (n.emplaceSlot o i cfg id).constructVariable cfg d vid
        = n.constructVariable cfg d vid := rfl
    simp only [e1, e2, e3, e4, e5, hv]
    congr 2


/-- The node a successful `InsertDataTypeSlotInternal` leaves, for a well-formed node. -/
theorem InsertDataTypeSlotInternal_node (o : EqualKeyOrder) (n : Node) (i : Int)
    (cfg : SlotConfiguration) (t : DataType) (id : SlotId) (it : Option Cell)
    (h : n.WellFormed) (hs : (InsertSlotInternal o n (-1) cfg id it).success = true) :
    (InsertDataTypeSlotInternal o n i cfg t id it).node
      = { n.emplaceSlot o (-1) cfg id with
          m_slotIdVarInfoMap :=
            mapAssign n.m_slotIdVarInfoMap id (VariableInfo.ofDataType t) } := by
  rcases InsertSlotInternal_cases o n (-1) cfg id it with ⟨h0, _⟩ | ⟨_, h1, h2⟩
  · rw [h0] at hs; exact absurd hs (by decide)
  · have hsid := slotIdAt_emplaceSlot o n (-1) cfg id (nextCell_not_mem_slots h)
    unfold InsertDataTypeSlotInternal
    simp only [hs, if_true, h1, h2, hsid]
    rfl

theorem InsertDataTypeSlotInternal_failure (o : EqualKeyOrder) (n : Node) (i : Int)
    (cfg : SlotConfiguration) (t : DataType) (id : SlotId) (it : Option Cell)
    (hs : (InsertSlotInternal o n (-1) cfg id it).success = false) :
    (InsertDataTypeSlotInternal o n i cfg t id it).node = n := by
  rcases InsertSlotInternal_cases o n (-1) cfg id it with ⟨_, h1⟩ | ⟨h0, _⟩
  · unfold InsertDataTypeSlotInternal
    simp only [hs]
    simpa using h1
  · rw [h0] at hs; exact absurd hs (by decide)

theorem InsertInputDatumSlotInternal_failure (o : EqualKeyOrder) (reg : VariableRegistry)
    (n : Node) (i : Int) (cfg : SlotConfiguration) (d : Datum) (id : SlotId)
    (vid : VariableId) (it : Option Cell)
    (hs : (InsertSlotInternal o n i cfg id it).success = false) :
    (InsertInputDatumSlotInternal o reg n i cfg d id vid it)
      = InsertSlotInternal o n i cfg id it := by
  unfold InsertInputDatumSlotInternal
  simp only [hs]
  simp

/-- Adding a binding for a slot of the node keeps the node well formed. -/
theorem assignBinding_wellFormed (n : Node) (id : SlotId) (info : VariableInfo)
    (h : n.WellFormed) (hid : id ∈ n.slotIds) (hk : id ∉ n.m_slotIdVarInfoMap.map Prod.fst) :
    ({ n with m_slotIdVarInfoMap := mapAssign n.m_slotIdVarInfoMap id info } :
      Node).WellFormed := by
  rw [mapAssign_of_not_mem _ _ _ hk]
  refine ⟨⟨h.indices.slotIdMap, h.indices.slotNameMap, h.indices.varIdMap⟩, h.slotCells,
    h.varCells, h.slotCellsBelow, h.varCellsBelow, h.slotIdsNodup, h.variableIdsNodup, ?_, ?_⟩
  · show (List.map Prod.fst (n.m_slotIdVarInfoMap ++ [(id, info)])).Nodup
    rw [List.map_append, List.map_singleton]
    exact List.Nodup.append h.bindingKeys (List.nodup_singleton _)
      (by
        intro a ha hb
        rw [List.mem_singleton] at hb
        have hb2 : a = id := hb
        exact hk (hb2 ▸ ha))
  · intro e he
    show e.1 ∈ n.slotIds
    rcases List.mem_append.1 he with he | he
    · exact h.bindingSlots e he
    · rw [List.mem_singleton] at he
      rw [he]; exact hid

/-- Appending a variable with a fresh id keeps the node well formed. -/
theorem appendVariable_wellFormed (n : Node) (v : VariableDatumBase) (h : n.WellFormed)
    (hv : v.m_id ∉ n.variableIds) :
    ({ n with
       m_varDatums := n.m_varDatums ++ [(n.m_nextCell, v)]
       m_varIdMap := mapEmplace n.m_varIdMap v.m_id n.m_nextCell
       m_nextCell := n.m_nextCell + 1 } : Node).WellFormed := by
  have hkey : v.m_id ∉ n.m_varIdMap.map Prod.fst :=
    fun hk => hv ((keys_varIdMap h.indices).mem_iff.1 hk)
  refine ⟨⟨h.indices.slotIdMap, h.indices.slotNameMap, ?_⟩, h.slotCells, ?_, ?_, ?_,
    h.slotIdsNodup, ?_, h.bindingKeys, h.bindingSlots⟩
  · show (mapEmplace n.m_varIdMap v.m_id n.m_nextCell).Perm
      ((n.m_varDatums ++ [(n.m_nextCell, v)]).map (fun e => (e.2.m_id, e.1)))
    rw [mapEmplace_of_not_mem _ _ _ hkey, List.map_append, List.map_singleton]
    exact h.indices.varIdMap.append_right _
  · show ((n.m_varDatums ++ [(n.m_nextCell, v)]).map Prod.fst).Nodup
    rw [List.map_append, List.map_singleton]
    exact List.Nodup.append h.varCells (List.nodup_singleton _)
      (by
        intro a ha hb
        rw [List.mem_singleton] at hb
        have hb2 : a = n.m_nextCell := hb
        exact nextCell_not_mem_vars h (hb2 ▸ ha))
  · intro e he
    exact Nat.lt_succ_of_lt (h.slotCellsBelow e he)
  · intro e he
    show e.1 < n.m_nextCell + 1
    rcases List.mem_append.1 he with he | he
    · exact Nat.lt_succ_of_lt (h.varCellsBelow e he)
    · rw [List.mem_singleton] at he
      rw [he]; exact Nat.lt_succ_self _
  · show ((n.m_varDatums ++ [(n.m_nextCell, v)]).map (fun e => e.2.m_id)).Nodup
    rw [List.map_append, List.map_singleton]
    exact List.Nodup.append h.variableIdsNodup (List.nodup_singleton _)
      (by
        intro a ha hb
        rw [List.mem_singleton] at hb
        have hb2 : a = v.m_id := hb
        exact hv (hb2 ▸ ha))

end Node

theorem key_not_mem_mapErase {K V : Type} [DecidableEq K] (m : List (K × V)) (k : K)
    (hk : (m.map Prod.fst).Nodup) : k ∉ (mapErase m k).map Prod.fst := by
  induction m with
  | nil => simp [mapErase]
  | cons a t ih =>
    rw [List.map_cons, List.nodup_cons] at hk
    by_cases hac : a.1 = k
    · have : mapErase (a :: t) k = t := by simp [mapErase, hac]
      rw [this, ← hac]
      exact hk.1
    · have : mapErase (a :: t) k = a :: mapErase t k := by simp [mapErase, hac]
      rw [this, List.map_cons, List.mem_cons]
      rintro (h | h)
      · exact hac h.symm
      · exact ih hk.2 h

theorem mem_mapErase_of_ne {K V : Type} [DecidableEq K] (m : List (K × V)) (k : K)
    (x : K × V) (h : x.1 ≠ k) : x ∈ mapErase m k ↔ x ∈ m := by
  unfold mapErase
  exact List.mem_eraseP_of_neg (by simpa using h)

theorem mapErase_of_find_none {K V : Type} [DecidableEq K] (m : List (K × V)) (k : K)
    (h : mapFind m k = none) : mapErase m k = m := by
  unfold mapErase
  apply List.eraseP_of_forall_not
  unfold mapFind at h
  rw [List.find?_eq_none] at h
  exact h

theorem mapErase_sublist {K V : Type} [DecidableEq K] (m : List (K × V)) (k : K) :
    (mapErase m k).Sublist m := List.eraseP_sublist m

namespace Node

/-- The result of `RemoveSlot` for an id the id index knows. -/
theorem RemoveSlot_of_find (n : Node) (g : Option Graph) (s : SlotId) (e : SlotId × Cell)
    (hf : mapFind n.m_slotIdMap s = some e) :
    n.RemoveSlot g s =
      { removed := true
        node :=
          { n with
            m_slots := cellErase n.m_slots e.2
            m_slotIdMap := mapErase n.m_slotIdMap s
            m_slotNameMap := n.m_slotNameMap.eraseP (fun x => decide (x.2 = e.2))
            m_varDatums :=
              match n.ownedVariableEntry s with
              | some v => cellErase n.m_varDatums v.2
              | none => n.m_varDatums
            m_varIdMap :=
              match n.ownedVariableEntry s with
              | some v => mapErase n.m_varIdMap v.1
              | none => n.m_varIdMap
            m_slotIdVarInfoMap := mapErase n.m_slotIdVarInfoMap s }
        graph := g.map (fun g => disconnectAll g ⟨n.GetEntityId, s⟩)
        events := [NodeNotification.OnSlotRemoved n.notificationAddress s] } := by
  unfold RemoveSlot ownedVariableEntry
  rw [hf]
  cases hb : mapFind n.m_slotIdVarInfoMap s with
  | none =>
    simp only [mapErase_of_find_none _ _ hb]
  | some b =>
    cases hv : mapFind n.m_varIdMap b.2.m_ownedVariableId with
    | none => simp only [hv]
    | some v =>
      have hv1 : v.1 = b.2.m_ownedVariableId := (mapFind_some hv).2
      simp only [hv, hv1]

theorem RemoveSlot_of_find_none (n : Node) (g : Option Graph) (s : SlotId)
    (hf : mapFind n.m_slotIdMap s = none) :
    n.RemoveSlot g s = { removed := false, node := n, graph := g, events := [] } := by
  unfold RemoveSlot
  rw [hf]

end Node

/-- In a consistent index with distinct cells and distinct keys, the entry `find` returns
for `k` points at the one element with key `k`. -/
theorem index_find_spec {A K : Type} [DecidableEq K] (key : A → K) (l : List (Cell × A))
    (m : List (K × Cell)) (k : K) (e : K × Cell)
    (hm : m.Perm (l.map (fun x => (key x.2, x.1))))
    (hcells : (l.map Prod.fst).Nodup) (hkeys : (l.map (fun x => key x.2)).Nodup)
    (hf : mapFind m k = some e) :
    (∃ x ∈ l, x.1 = e.2 ∧ key x.2 = k) ∧ ∀ y ∈ l, (key y.2 = k ↔ y.1 = e.2) := by
  obtain ⟨hem, hek⟩ := mapFind_some hf
  obtain ⟨x, hx, hxe⟩ := List.mem_map.1 (hm.mem_iff.1 hem)
  have hx1 : x.1 = e.2 := by rw [← hxe]
  have hx2 : key x.2 = k := by rw [← hek, ← hxe]
  refine ⟨⟨x, hx, hx1, hx2⟩, ?_⟩
  intro y hy
  constructor
  · intro hyk
    have : y = x := List.inj_on_of_nodup_map hkeys hy hx (hyk.trans hx2.symm)
    rw [this]; exact hx1
  · intro hyc
    have : y = x := List.inj_on_of_nodup_map hcells hy hx (hyc.trans hx1.symm)
    rw [this]; exact hx2

/-- Erasing the entry of key `k` from a consistent index and the element it points at from
the list leaves a consistent index. -/
theorem index_mapErase_perm {A K : Type} [DecidableEq K] (key : A → K) (l : List (Cell × A))
    (m : List (K × Cell)) (k : K) (e : K × Cell)
    (hm : m.Perm (l.map (fun x => (key x.2, x.1))))
    (hcells : (l.map Prod.fst).Nodup) (hkeys : (l.map (fun x => key x.2)).Nodup)
    (hf : mapFind m k = some e) :
    (mapErase m k).Perm ((cellErase l e.2).map (fun x => (key x.2, x.1))) := by
  have hspec := (index_find_spec key l m k e hm hcells hkeys hf).2
  unfold mapErase
  refine index_eraseP_perm (fun x => (key x.2, x.1)) (fun b => decide (b.1 = k)) l m e.2 hm
    hcells ?_
  intro x hx
  exact decide_eq_decide.2 (hspec x hx)

namespace Node

theorem ownedVariableEntry_find {n : Node} {s : SlotId} {v : VariableId × Cell}
    (h : n.ownedVariableEntry s = some v) : mapFind n.m_varIdMap v.1 = some v := by
  unfold ownedVariableEntry at h
  cases hb : mapFind n.m_slotIdVarInfoMap s with
  | none => rw [hb] at h; exact absurd h (by simp)
  | some b =>
    rw [hb] at h
    simp only at h
    rw [(mapFind_some h).2]
    exact h

/-- Removal: `RemoveSlot` keeps a node well formed. -/
theorem RemoveSlot_wellFormed (n : Node) (g : Option Graph) (s : SlotId) (h : n.WellFormed) :
    (n.RemoveSlot g s).node.WellFormed := by
  cases hf : mapFind n.m_slotIdMap s with
  | none => rw [RemoveSlot_of_find_none n g s hf]; exact h
  | some e =>
    rw [RemoveSlot_of_find n g s e hf]
    have hspec := index_find_spec (fun x : Slot => x.m_id) n.m_slots n.m_slotIdMap s e
      h.indices.slotIdMap h.slotCells h.slotIdsNodup hf
    have hvars : (match n.ownedVariableEntry s with
          | some v => mapErase n.m_varIdMap v.1
          | none => n.m_varIdMap).Perm
        ((match n.ownedVariableEntry s with
          | some v => cellErase n.m_varDatums v.2
          | none => n.m_varDatums).map
            (fun x : Cell × VariableDatumBase => (x.2.m_id, x.1))) := by
      cases hv : n.ownedVariableEntry s with
      | none => exact h.indices.varIdMap
      | some v =>
        exact index_mapErase_perm (fun x : VariableDatumBase => x.m_id) n.m_varDatums
          n.m_varIdMap v.1 v h.indices.varIdMap h.varCells h.variableIdsNodup
          (ownedVariableEntry_find hv)
    have hvsub : (match n.ownedVariableEntry s with
          | some v => cellErase n.m_varDatums v.2
          | none => n.m_varDatums).Sublist n.m_varDatums := by
      cases n.ownedVariableEntry s with
      | none => exact List.Sublist.refl _
      | some v => exact cellErase_sublist _ _
    have hssub := cellErase_sublist n.m_slots e.2
    refine ⟨⟨?_, ?_, hvars⟩, ?_, ?_, ?_, ?_, ?_, ?_, ?_, ?_⟩
    · exact index_mapErase_perm (fun x : Slot => x.m_id) n.m_slots n.m_slotIdMap s e
        h.indices.slotIdMap h.slotCells h.slotIdsNodup hf
    · exact index_eraseP_perm (fun x : Cell × Slot => (x.2.m_name, x.1))
        (fun b => decide (b.2 = e.2)) n.m_slots n.m_slotNameMap e.2 h.indices.slotNameMap
        h.slotCells (fun x _ => rfl)
    · exact h.slotCells.sublist (hssub.map _)
    · exact h.varCells.sublist (hvsub.map _)
    · intro x hx
      exact h.slotCellsBelow x (hssub.subset hx)
    · intro x hx
      exact h.varCellsBelow x (hvsub.subset hx)
    · exact h.slotIdsNodup.sublist (hssub.map _)
    · exact h.variableIdsNodup.sublist (hvsub.map _)
    · exact h.bindingKeys.sublist ((mapErase_sublist _ _).map _)
    · intro b hb
      have hbs : b.1 ≠ s := by
        intro hbs
        exact key_not_mem_mapErase n.m_slotIdVarInfoMap s h.bindingKeys
          (List.mem_map.2 ⟨b, hb, hbs⟩)
      have hb0 : b ∈ n.m_slotIdVarInfoMap := (mapErase_sublist _ _).subset hb
      obtain ⟨x, hx, hxb⟩ := List.mem_map.1 (h.bindingSlots b hb0)
      have hxc : x.1 ≠ e.2 := fun hc => hbs (hxb ▸ (hspec.2 x hx).2 hc)
      exact List.mem_map.2 ⟨x, (mem_cellErase_of_ne _ _ _ hxc).2 hx, hxb⟩

end Node

namespace Node

theorem empty_wellFormed (entity : Option EntityId) (cls : NodeClass) :
    (Node.empty entity cls).WellFormed := by
  refine ⟨⟨List.Perm.refl _, List.Perm.refl _, List.Perm.refl _⟩, List.nodup_nil,
    List.nodup_nil, ?_, ?_, List.nodup_nil, List.nodup_nil, List.nodup_nil, ?_⟩ <;>
  · intro e he
    exact absurd he (List.not_mem_nil e)

theorem InsertSlotInternal_wellFormed (o : EqualKeyOrder) (n : Node) (i : Int)
    (cfg : SlotConfiguration) (id : SlotId) (it : Option Cell) (h : n.WellFormed)
    (hf : id ∉ n.slotIds) : (InsertSlotInternal o n i cfg id it).node.WellFormed := by
  rcases InsertSlotInternal_cases o n i cfg id it with ⟨_, h1⟩ | ⟨_, _, h2⟩
  · rw [h1]; exact h
  · rw [h2]; exact emplaceSlot_wellFormed o n i cfg id h hf

theorem mem_slotIds_emplaceSlot (o : EqualKeyOrder) (n : Node) (i : Int)
    (cfg : SlotConfiguration) (id : SlotId) : id ∈ (n.emplaceSlot o i cfg id).slotIds :=
  (slotIds_emplaceSlot o n i cfg id).mem_iff.2 (List.mem_cons_self _ _)

theorem binding_key_fresh {n : Node} (h : n.WellFormed) {id : SlotId} (hf : id ∉ n.slotIds) :
    id ∉ n.m_slotIdVarInfoMap.map Prod.fst := by
  intro hk
  obtain ⟨b, hb, hbk⟩ := List.mem_map.1 hk
  exact hf (hbk ▸ h.bindingSlots b hb)

theorem InsertInputDatumSlotInternal_wellFormed (o : EqualKeyOrder) (reg : VariableRegistry)
    (n : Node) (i : Int) (cfg : SlotConfiguration) (d : Datum) (id : SlotId)
    (vid : VariableId) (it : Option Cell) (h : n.WellFormed) (hf : id ∉ n.slotIds)
    (hv : vid ∉ n.variableIds) :
    (InsertInputDatumSlotInternal o reg n i cfg d id vid it).node.WellFormed := by
  cases hs : (InsertSlotInternal o n i cfg id it).success with
  | false =>
    rw [InsertInputDatumSlotInternal_failure o reg n i cfg d id vid it hs]
    exact InsertSlotInternal_wellFormed o n i cfg id it h hf
  | true =>
    rw [InsertInputDatumSlotInternal_node o reg n i cfg d id vid it h hs]
    have h1 := emplaceSlot_wellFormed o n i cfg id h hf
    have h2 := appendVariable_wellFormed (n.emplaceSlot o i cfg id)
      (n.constructVariable cfg d vid) h1 hv
    have h3 := assignBinding_wellFormed _ id (VariableInfo.ofVariableId reg vid) h2
      (mem_slotIds_emplaceSlot o n i cfg id) (binding_key_fresh h hf)
    exact h3

theorem InsertDataTypeSlotInternal_wellFormed (o : EqualKeyOrder) (n : Node) (i : Int)
    (cfg : SlotConfiguration) (t : DataType) (id : SlotId) (it : Option Cell)
    (h : n.WellFormed) (hf : id ∉ n.slotIds) :
    (InsertDataTypeSlotInternal o n i cfg t id it).node.WellFormed := by
  cases hs : (InsertSlotInternal o n (-1) cfg id it).success with
  | false =>
    rw [InsertDataTypeSlotInternal_failure o n i cfg t id it hs]
    exact h
  | true =>
    rw [InsertDataTypeSlotInternal_node o n i cfg t id it h hs]
    have h1 := emplaceSlot_wellFormed o n (-1) cfg id h hf
    exact assignBinding_wellFormed _ id (VariableInfo.ofDataType t) h1
      (mem_slotIds_emplaceSlot o n (-1) cfg id) (binding_key_fresh h hf)

theorem AddOutputTypeSlot_node (o : EqualKeyOrder) (n : Node) (name toolTip : String)
    (t : DataType) (u : Bool) (id : SlotId) :
    (n.AddOutputTypeSlot o name toolTip t u id).node
      = (InsertDataTypeSlotInternal o n (-1)
          { m_name := name, m_toolTip := toolTip, m_type := SlotType.DataOut,
            m_contractDescs := [], m_addUniqueSlotByNameAndType := u } t id none).node := by
  unfold AddOutputTypeSlot
  simp only []
  split <;> rfl

/-- Every slot mutation with fresh ids keeps a node well formed. -/
theorem SlotOp.apply_wellFormed (o : EqualKeyOrder) (reg : VariableRegistry) (n : Node)
    (op : SlotOp) (h : n.WellFormed) (hf : op.Fresh n) : (op.apply o reg n).WellFormed := by
  cases op with
  | insertSlot index cfg id => exact InsertSlotInternal_wellFormed o n index cfg id none h hf
  | insertInputDatumSlot index cfg d id vid =>
    exact InsertInputDatumSlotInternal_wellFormed o reg n index cfg d id vid none h hf.1 hf.2
  | addInputTypeSlot name toolTip t ct u id =>
    exact InsertDataTypeSlotInternal_wellFormed o n (-1) _ t id none h hf
  | addOutputTypeSlot name toolTip t u id =>
    show (n.AddOutputTypeSlot o name toolTip t u id).node.WellFormed
    rw [AddOutputTypeSlot_node]
    exact InsertDataTypeSlotInternal_wellFormed o n (-1) _ t id none h hf
  | removeSlot g s => exact RemoveSlot_wellFormed n g s h

theorem runOps_wellFormed (o : EqualKeyOrder) (reg : VariableRegistry) (ops : List SlotOp) :
    ∀ (n : Node), n.WellFormed → FreshRun o reg n ops → (runOps o reg n ops).WellFormed := by
  induction ops with
  | nil => intro n h _; exact h
  | cons op ops ih =>
    intro n h hf
    exact ih (op.apply o reg n) (SlotOp.apply_wellFormed o reg n op h hf.1) hf.2

end Node

/-- C1 (index consistency). Starting from an empty node, after every finite sequence of
`InsertSlot`, `InsertInputDatumSlot`, `AddInputTypeSlot`, `AddOutputTypeSlot` and
`RemoveSlot` calls whose generated slot and variable ids are fresh, the id to slot index
holds exactly one entry per slot of the slot list (its id and its iterator), the name to
slot multimap holds exactly one entry per slot (its name and its iterator), and the id to
variable index holds exactly one entry per variable of the variable list. -/
theorem C1_indices_consistent (order : EqualKeyOrder) (reg : VariableRegistry)
    (entity : Option EntityId) (cls : NodeClass) (ops : List Node.SlotOp)
    (hfresh : Node.FreshRun order reg (Node.empty entity cls) ops) :
    (Node.runOps order reg (Node.empty entity cls) ops).IndicesConsistent :=
  (Node.runOps_wellFormed order reg ops _ (Node.empty_wellFormed entity cls) hfresh).indices

/-- Witness of C1: two slots named `x` of different kinds, a datum slot, a rejected
duplicate, a removal and two typed slots, under both multimap orders. -/
theorem C1_indices_consistent_witness :
    Node.FreshRun EqualKeyOrder.oldestFirst [] (Node.empty (some ⟨7⟩) NodeClass.plain)
        [Node.SlotOp.insertSlot (-1) ⟨"x", "", SlotType.DataOut, [], true⟩ ⟨1⟩,
         Node.SlotOp.insertInputDatumSlot 0 ⟨"x", "", SlotType.DataIn, [], true⟩
           ⟨⟨3⟩, 5, "", ⟨0⟩⟩ ⟨2⟩ ⟨100⟩,
         Node.SlotOp.insertSlot 5 ⟨"x", "", SlotType.DataOut, [], true⟩ ⟨3⟩,
         Node.SlotOp.removeSlot none ⟨2⟩,
         Node.SlotOp.addInputTypeSlot "y" "" ⟨3⟩ Node.InputTypeContract.CustomType false ⟨4⟩,
         Node.SlotOp.addOutputTypeSlot "z" "" ⟨3⟩ false ⟨5⟩]
      ∧ (Node.runOps EqualKeyOrder.oldestFirst [] (Node.empty (some ⟨7⟩) NodeClass.plain)
        [Node.SlotOp.insertSlot (-1) ⟨"x", "", SlotType.DataOut, [], true⟩ ⟨1⟩,
         Node.SlotOp.insertInputDatumSlot 0 ⟨"x", "", SlotType.DataIn, [], true⟩
           ⟨⟨3⟩, 5, "", ⟨0⟩⟩ ⟨2⟩ ⟨100⟩,
         Node.SlotOp.insertSlot 5 ⟨"x", "", SlotType.DataOut, [], true⟩ ⟨3⟩,
         Node.SlotOp.removeSlot none ⟨2⟩,
         Node.SlotOp.addInputTypeSlot "y" "" ⟨3⟩ Node.InputTypeContract.CustomType false ⟨4⟩,
         Node.SlotOp.addOutputTypeSlot "z" "" ⟨3⟩ false ⟨5⟩]).IndicesConsistent :=
  ⟨by decide, C1_indices_consistent _ _ _ _ _ (by decide)⟩

/-- C2 (unique-by-name-and-kind dedup), evaluated on the code: four `InsertSlot` calls on an
empty node, all with the unique flag and the name `x`, of kinds `DataOut`, `DataIn`,
`DataIn`, `DataOut`, with fresh ids 1 to 4.  When `find` on the name multimap returns the
oldest entry of the name, the third call does not return the id 2 of the `DataIn` slot but
creates a second `("x", DataIn)` slot; when it returns the newest entry, the fourth call
does not return the id 1 of the `DataOut` slot but creates a second `("x", DataOut)` slot.
Under either order the node ends with two slots of one name and kind. -/
theorem C2_unique_flag_creates_duplicate :
    Node.FreshRun EqualKeyOrder.oldestFirst [] (Node.empty (some ⟨7⟩) NodeClass.plain)
        Node.uniqueInsertions
      ∧ (Node.runOps EqualKeyOrder.oldestFirst [] (Node.empty (some ⟨7⟩) NodeClass.plain)
          Node.uniqueInsertions).slotSummary
        = [(⟨1⟩, "x", SlotType.DataOut), (⟨2⟩, "x", SlotType.DataIn),
           (⟨3⟩, "x", SlotType.DataIn)]
      ∧ ((Node.runOps EqualKeyOrder.oldestFirst [] (Node.empty (some ⟨7⟩) NodeClass.plain)
          (Node.uniqueInsertions.take 2)).InsertSlot EqualKeyOrder.oldestFirst (-1)
            ⟨"x", "", SlotType.DataIn, [], true⟩ ⟨3⟩).slotId = ⟨3⟩
      ∧ Node.FreshRun EqualKeyOrder.newestFirst [] (Node.empty (some ⟨7⟩) NodeClass.plain)
        Node.uniqueInsertions
      ∧ (Node.runOps EqualKeyOrder.newestFirst [] (Node.empty (some ⟨7⟩) NodeClass.plain)
          Node.uniqueInsertions).slotSummary
        = [(⟨1⟩, "x", SlotType.DataOut), (⟨2⟩, "x", SlotType.DataIn),
           (⟨4⟩, "x", SlotType.DataOut)]
      ∧ ((Node.runOps EqualKeyOrder.newestFirst [] (Node.empty (some ⟨7⟩) NodeClass.plain)
          (Node.uniqueInsertions.take 3)).InsertSlot EqualKeyOrder.newestFirst (-1)
            ⟨"x", "", SlotType.DataOut, [], true⟩ ⟨4⟩).slotId = ⟨4⟩ := by
  refine ⟨by decide, by decide, by decide, by decide, by decide, by decide⟩

namespace Node

/-- When `InsertSlotInternal` fails, the name is empty or the unique flag is set and the
name index returned a slot of the requested kind. -/
theorem InsertSlotInternal_failure_iff (o : EqualKeyOrder) (n : Node) (i : Int)
    (cfg : SlotConfiguration) (id : SlotId) (it : Option Cell) :
    (InsertSlotInternal o n i cfg id it).success = false ↔
      (cfg.m_name.isEmpty = true ∨
        (cfg.m_addUniqueSlotByNameAndType = true
          ∧ n.nameIterHasType (mapFind n.m_slotNameMap cfg.m_name) cfg.m_type = true)) := by
  unfold InsertSlotInternal
  by_cases h1 : cfg.m_name.isEmpty = true
  · simp [h1]
  · by_cases h2 : (cfg.m_addUniqueSlotByNameAndType
        && n.nameIterHasType (mapFind n.m_slotNameMap cfg.m_name) cfg.m_type) = true
    · simp only [h1, h2]
      simp only [Bool.and_eq_true] at h2
      simp [h2]
    · simp only [h1, h2]
      simp only [Bool.and_eq_true] at h2
      simp [h2]

end Node

/-- C3 (atomic rejection). Whenever `InsertSlotInternal` fails, which happens exactly for an
empty name or for a duplicate name and kind under the unique flag, `InsertSlot` and
`InsertInputDatumSlot` are both rejected and each leaves the node exactly as it was (slot
list, variable list, the three indices and the binding map, so no variable is created) and
sends no notification. -/
theorem C3_rejection_is_atomic (order : EqualKeyOrder) (reg : VariableRegistry) (n : Node)
    (index : Int) (slotConfig : SlotConfiguration) (initialDatum : Datum) (newSlotId : SlotId)
    (newVarId : VariableId)
    (hrejected : (Node.InsertSlotInternal order n index slotConfig newSlotId none).success
      = false) :
    (slotConfig.m_name.isEmpty = true ∨
        (slotConfig.m_addUniqueSlotByNameAndType = true
          ∧ n.nameIterHasType (mapFind n.m_slotNameMap slotConfig.m_name) slotConfig.m_type
            = true))
      ∧ (n.InsertSlot order index slotConfig newSlotId).node = n
      ∧ (n.InsertSlot order index slotConfig newSlotId).events = []
      ∧ (Node.InsertInputDatumSlotInternal order reg n index slotConfig initialDatum newSlotId
          newVarId none).success = false
      ∧ (n.InsertInputDatumSlot order reg index slotConfig initialDatum newSlotId newVarId).node
          = n
      ∧ (n.InsertInputDatumSlot order reg index slotConfig initialDatum newSlotId
          newVarId).events = [] := by
  have hnode : (Node.InsertSlotInternal order n index slotConfig newSlotId none).node = n := by
    rcases Node.InsertSlotInternal_cases order n index slotConfig newSlotId none with
      ⟨_, h1⟩ | ⟨h0, _⟩
    · exact h1
    · rw [h0] at hrejected; exact absurd hrejected (by decide)
  have hd := Node.InsertInputDatumSlotInternal_failure order reg n index slotConfig
    initialDatum newSlotId newVarId none hrejected
  refine ⟨(Node.InsertSlotInternal_failure_iff order n index slotConfig newSlotId none).1
    hrejected, hnode, ?_, ?_, ?_, ?_⟩
  · unfold Node.InsertSlot
    simp only [hrejected]
    simp
  · rw [hd]; exact hrejected
  · unfold Node.InsertInputDatumSlot
    simp only [hd]
    exact hnode
  · unfold Node.InsertInputDatumSlot
    simp only [hd, hrejected]
    simp

/-- Witness of C3: a second unique `("x", DataOut)` insertion on a node that holds one. -/
theorem C3_rejection_is_atomic_witness :
    (Node.InsertSlotInternal EqualKeyOrder.newestFirst
        (Node.runOps EqualKeyOrder.newestFirst [] (Node.empty (some ⟨7⟩) NodeClass.plain)
          (Node.uniqueInsertions.take 1)) 0 ⟨"x", "", SlotType.DataOut, [], true⟩ ⟨9⟩
        none).success = false
      ∧ ((Node.runOps EqualKeyOrder.newestFirst [] (Node.empty (some ⟨7⟩) NodeClass.plain)
          (Node.uniqueInsertions.take 1)).InsertInputDatumSlot EqualKeyOrder.newestFirst [] 0
            ⟨"x", "", SlotType.DataOut, [], true⟩ ⟨⟨3⟩, 5, "", ⟨0⟩⟩ ⟨9⟩ ⟨100⟩).node
        = Node.runOps EqualKeyOrder.newestFirst [] (Node.empty (some ⟨7⟩) NodeClass.plain)
          (Node.uniqueInsertions.take 1) :=
  ⟨by decide,
   (C3_rejection_is_atomic EqualKeyOrder.newestFirst []
      (Node.runOps EqualKeyOrder.newestFirst [] (Node.empty (some ⟨7⟩) NodeClass.plain)
        (Node.uniqueInsertions.take 1)) 0 ⟨"x", "", SlotType.DataOut, [], true⟩
      ⟨⟨3⟩, 5, "", ⟨0⟩⟩ ⟨9⟩ ⟨100⟩ (by decide)).2.2.2.2.1⟩

theorem cellDeref_some_mem {A : Type} {l : List (Cell × A)} {c : Cell} {a : A}
    (h : cellDeref l c = some a) : (c, a) ∈ l := by
  unfold cellDeref at h
  cases hf : l.find? (fun e => decide (e.1 = c)) with
  | none => rw [hf] at h; exact absurd h (by simp)
  | some x =>
    rw [hf] at h
    have hx : x.2 = a := by simpa using h
    have hc : x.1 = c := by simpa using List.find?_some hf
    have hm := List.mem_of_find?_eq_some hf
    have : x = (c, a) := Prod.ext hc hx
    rw [← this]; exact hm

theorem cellDeref_isSome_of_mem {A : Type} {l : List (Cell × A)} {c : Cell}
    (h : c ∈ l.map Prod.fst) : ∃ a, cellDeref l c = some a := by
  unfold cellDeref
  cases hf : l.find? (fun e => decide (e.1 = c)) with
  | none =>
    rw [List.find?_eq_none] at hf
    obtain ⟨e, he, hec⟩ := List.mem_map.1 h
    exact absurd (decide_eq_true hec) (hf e he)
  | some x => exact ⟨x.2, rfl⟩

namespace Node

/-- The id `InsertSlot` returns for a configuration with a name is the id of a slot of the
node after the call. -/
theorem InsertSlot_slotId_mem (o : EqualKeyOrder) (n : Node) (i : Int)
    (cfg : SlotConfiguration) (id : SlotId) (hname : cfg.m_name.isEmpty = false) :
    (n.InsertSlot o i cfg id).slotId ∈ (n.InsertSlot o i cfg id).node.slotIds := by
  unfold InsertSlot InsertSlotInternal
  simp only [hname]
  by_cases h2 : (cfg.m_addUniqueSlotByNameAndType
      && n.nameIterHasType (mapFind n.m_slotNameMap cfg.m_name) cfg.m_type) = true
  · simp only [h2]
    simp only [Bool.and_eq_true] at h2
    have h3 := h2.2
    unfold nameIterHasType at h3
    cases hf : mapFind n.m_slotNameMap cfg.m_name with
    | none => rw [hf] at h3; exact absurd h3 (by simp)
    | some e =>
      rw [hf] at h3
      cases hd : cellDeref n.m_slots e.2 with
      | none => simp only [hd] at h3; exact absurd h3 (by simp)
      | some s =>
        have hm := cellDeref_some_mem hd
        simp only [Bool.false_eq_true, if_false, if_true, Option.map_some', slotIdAt, hd]
        exact List.mem_map.2 ⟨(e.2, s), hm, rfl⟩
  · simp only [h2]
    have hmem : n.m_nextCell ∈ (emplaceAtIndex n.m_slots i
        (n.m_nextCell, n.constructSlot cfg id)).map Prod.fst :=
      List.mem_map.2 ⟨_, (mem_emplaceAtIndex _ _ _ _).2 (Or.inl rfl), rfl⟩
    obtain ⟨s, hs⟩ := cellDeref_isSome_of_mem hmem
    have hm := cellDeref_some_mem hs
    have hs2 : cellDeref (n.emplaceSlot o i cfg id).m_slots n.m_nextCell = some s := hs
    simp only [Bool.false_eq_true, if_false, slotIdAt, hs2]
    exact List.mem_map.2 ⟨(n.m_nextCell, s), hm, rfl⟩

theorem InsertSlot_slotIds_subset (o : EqualKeyOrder) (n : Node) (i : Int)
    (cfg : SlotConfiguration) (id : SlotId) :
    ∀ x ∈ (n.InsertSlot o i cfg id).node.slotIds, x = id ∨ x ∈ n.slotIds := by
  intro x hx
  have hnode : (n.InsertSlot o i cfg id).node = (InsertSlotInternal o n i cfg id none).node :=
    rfl
  rw [hnode] at hx
  rcases InsertSlotInternal_cases o n i cfg id none with ⟨_, h1⟩ | ⟨_, _, h2⟩
  · rw [h1] at hx; exact Or.inr hx
  · rw [h2] at hx
    exact List.mem_cons.1 ((slotIds_emplaceSlot o n i cfg id).mem_iff.1 hx)

end Node

/-- C4 (empty-name rejection). For every node, index and configuration, `InsertSlot` of a
configuration with an empty name is rejected, leaves the node as it was and returns the
empty `SlotId`.  Conversely, when the ids of the slots of the node and the generated id are
valid, the id `InsertSlot` returns for a configuration with a name is valid, so the empty
`SlotId` is returned only for an empty name; and on a well-formed node a successful
insertion returns the generated id. -/
theorem C4_empty_name_rejected (order : EqualKeyOrder) (n : Node) (index : Int)
    (slotConfig : SlotConfiguration) (newSlotId : SlotId) :
    (slotConfig.m_name.isEmpty = true →
        (Node.InsertSlotInternal order n index slotConfig newSlotId none).success = false
          ∧ (n.InsertSlot order index slotConfig newSlotId).node = n
          ∧ (n.InsertSlot order index slotConfig newSlotId).slotId = SlotId.empty)
      ∧ ((∀ x ∈ n.slotIds, x.IsValid = true) → newSlotId.IsValid = true →
          (slotConfig.m_name.isEmpty = false →
            (n.InsertSlot order index slotConfig newSlotId).slotId.IsValid = true)
          ∧ ((n.InsertSlot order index slotConfig newSlotId).slotId = SlotId.empty →
            slotConfig.m_name.isEmpty = true))
      ∧ (n.WellFormed →
          (Node.InsertSlotInternal order n index slotConfig newSlotId none).success = true →
          (n.InsertSlot order index slotConfig newSlotId).slotId = newSlotId) := by
  refine ⟨?_, ?_, ?_⟩
  · intro hname
    unfold Node.InsertSlot Node.InsertSlotInternal
    simp only [hname, if_true]
    exact ⟨trivial, trivial, rfl⟩
  · intro hvalid hnew
    have hv : slotConfig.m_name.isEmpty = false →
        (n.InsertSlot order index slotConfig newSlotId).slotId.IsValid = true := by
      intro hname
      rcases Node.InsertSlot_slotIds_subset order n index slotConfig newSlotId _
        (Node.InsertSlot_slotId_mem order n index slotConfig newSlotId hname) with h | h
      · rw [h]; exact hnew
      · exact hvalid _ h
    refine ⟨hv, ?_⟩
    intro hempty
    cases hname : slotConfig.m_name.isEmpty with
    | true => rfl
    | false =>
      have h1 := hv hname
      rw [hempty] at h1
      exact absurd h1 (by decide)
  · intro hwf hs
    rcases Node.InsertSlotInternal_cases order n index slotConfig newSlotId none with
      ⟨h0, _⟩ | ⟨_, h1, h2⟩
    · rw [h0] at hs; exact absurd hs (by decide)
    · show (Node.InsertSlotInternal order n index slotConfig newSlotId none).node.slotIdAt
        (Node.InsertSlotInternal order n index slotConfig newSlotId none).iterOut = newSlotId
      rw [h1, h2]
      exact Node.slotIdAt_emplaceSlot order n index slotConfig newSlotId
        (Node.nextCell_not_mem_slots hwf)

/-- Witness of C4: an empty name on the empty node returns the empty id, and a named
configuration returns the valid generated id. -/
theorem C4_empty_name_rejected_witness :
    ((Node.empty (some ⟨7⟩) NodeClass.plain).InsertSlot EqualKeyOrder.oldestFirst 0
        ⟨"", "", SlotType.DataIn, [], false⟩ ⟨1⟩).slotId = SlotId.empty
      ∧ ((Node.empty (some ⟨7⟩) NodeClass.plain).InsertSlot EqualKeyOrder.oldestFirst 0
        ⟨"a", "", SlotType.DataIn, [], false⟩ ⟨1⟩).slotId.IsValid = true
      ∧ ((Node.empty (some ⟨7⟩) NodeClass.plain).InsertSlot EqualKeyOrder.oldestFirst 0
        ⟨"a", "", SlotType.DataIn, [], false⟩ ⟨1⟩).slotId = ⟨1⟩ :=
  ⟨((C4_empty_name_rejected EqualKeyOrder.oldestFirst (Node.empty (some ⟨7⟩) NodeClass.plain)
      0 ⟨"", "", SlotType.DataIn, [], false⟩ ⟨1⟩).1 (by decide)).2.2,
   ((C4_empty_name_rejected EqualKeyOrder.oldestFirst (Node.empty (some ⟨7⟩) NodeClass.plain)
      0 ⟨"a", "", SlotType.DataIn, [], false⟩ ⟨1⟩).2.1 (by decide) (by decide)).1 (by decide),
   (C4_empty_name_rejected EqualKeyOrder.oldestFirst (Node.empty (some ⟨7⟩) NodeClass.plain)
      0 ⟨"a", "", SlotType.DataIn, [], false⟩ ⟨1⟩).2.2
        (Node.empty_wellFormed _ _) (by decide)⟩

/-- C6 (removal of an unknown id). `RemoveSlot` on an id that has no entry in the id to slot
index returns false, leaves the node (slot list, variable list, all indices, the binding
map) and the graph as they were, and sends no notification. -/
theorem C6_remove_unknown_slot (n : Node) (graph : Option Graph) (slotId : SlotId)
    (hunknown : slotId ∉ n.m_slotIdMap.map Prod.fst) :
    n.RemoveSlot graph slotId
      = { removed := false, node := n, graph := graph, events := [] } :=
  Node.RemoveSlot_of_find_none n graph slotId ((mapFind_eq_none_iff _ _).2 hunknown)

/-- Witness of C6: removing id 9 from a node whose slots have ids 1, 2 and 3, with a graph
that has a connection at slot 9. -/
theorem C6_remove_unknown_slot_witness :
    (Node.runOps EqualKeyOrder.oldestFirst [] (Node.empty (some ⟨7⟩) NodeClass.plain)
        Node.uniqueInsertions).RemoveSlot (some ⟨[⟨⟨⟨7⟩, ⟨9⟩⟩, ⟨⟨8⟩, ⟨1⟩⟩⟩]⟩) ⟨9⟩
      = { removed := false
          node := Node.runOps EqualKeyOrder.oldestFirst []
            (Node.empty (some ⟨7⟩) NodeClass.plain) Node.uniqueInsertions
          graph := some ⟨[⟨⟨⟨7⟩, ⟨9⟩⟩, ⟨⟨8⟩, ⟨1⟩⟩⟩]⟩
          events := [] } :=
  C6_remove_unknown_slot _ _ _ (by decide)

/-- C5 (removal of a known slot). On a well-formed node, `RemoveSlot` of the id of a slot of
the node returns true and afterwards: no slot of the list has the id, the id index has no
entry for the id, neither the id index nor the name index holds the iterator of the slot,
the binding map has no entry for the id, and when the owned variable of the binding was
stored on the node no variable of the list has its id and the variable index has no entry
for it.  Every other slot, every other variable and every other binding is still present,
the remaining slots and variables are in their previous relative order, and the indices are
consistent with the remaining lists. -/
theorem C5_remove_known_slot (n : Node) (graph : Option Graph) (slotId : SlotId)
    (hwf : n.WellFormed) (hknown : slotId ∈ n.slotIds) :
    (n.RemoveSlot graph slotId).removed = true
      ∧ slotId ∉ (n.RemoveSlot graph slotId).node.slotIds
      ∧ slotId ∉ (n.RemoveSlot graph slotId).node.m_slotIdMap.map Prod.fst
      ∧ (∀ x ∈ n.m_slots, x.2.m_id = slotId →
          x.1 ∉ (n.RemoveSlot graph slotId).node.m_slotIdMap.map Prod.snd
            ∧ x.1 ∉ (n.RemoveSlot graph slotId).node.m_slotNameMap.map Prod.snd)
      ∧ slotId ∉ (n.RemoveSlot graph slotId).node.m_slotIdVarInfoMap.map Prod.fst
      ∧ (∀ b ∈ n.m_slotIdVarInfoMap, b.1 = slotId →
          b.2.m_ownedVariableId ∈ n.variableIds →
          b.2.m_ownedVariableId ∉ (n.RemoveSlot graph slotId).node.variableIds
            ∧ b.2.m_ownedVariableId ∉
              (n.RemoveSlot graph slotId).node.m_varIdMap.map Prod.fst)
      ∧ (∀ x ∈ n.m_slots, x.2.m_id ≠ slotId → x ∈ (n.RemoveSlot graph slotId).node.m_slots)
      ∧ (n.RemoveSlot graph slotId).node.m_slots.Sublist n.m_slots
      ∧ (∀ v ∈ n.m_varDatums,
          (∀ b ∈ n.m_slotIdVarInfoMap, b.1 = slotId → v.2.m_id ≠ b.2.m_ownedVariableId) →
          v ∈ (n.RemoveSlot graph slotId).node.m_varDatums)
      ∧ (n.RemoveSlot graph slotId).node.m_varDatums.Sublist n.m_varDatums
      ∧ (∀ b ∈ n.m_slotIdVarInfoMap, b.1 ≠ slotId →
          b ∈ (n.RemoveSlot graph slotId).node.m_slotIdVarInfoMap)
      ∧ (n.RemoveSlot graph slotId).node.IndicesConsistent := by
  have hwf2 := Node.RemoveSlot_wellFormed n graph slotId hwf
  have hkey : slotId ∈ n.m_slotIdMap.map Prod.fst :=
    (Node.keys_slotIdMap hwf.indices).mem_iff.2 hknown
  obtain ⟨e, hf⟩ := mapFind_isSome_of_mem hkey
  have hspec := index_find_spec (fun x : Slot => x.m_id) n.m_slots n.m_slotIdMap slotId e
    hwf.indices.slotIdMap hwf.slotCells hwf.slotIdsNodup hf
  have hcell : e.2 ∉ (cellErase n.m_slots e.2).map Prod.fst :=
    cell_not_mem_cellErase n.m_slots e.2 hwf.slotCells
  rw [Node.RemoveSlot_of_find n graph slotId e hf] at hwf2 ⊢
  have hids : slotId ∉ (cellErase n.m_slots e.2).map (fun x => x.2.m_id) := by
    intro hmem
    obtain ⟨x, hx, hxs⟩ := List.mem_map.1 hmem
    have hx0 : x ∈ n.m_slots := (cellErase_sublist _ _).subset hx
    exact hcell (List.mem_map.2 ⟨x, hx, (hspec.2 x hx0).1 hxs⟩)
  have hbind : ∀ b ∈ n.m_slotIdVarInfoMap, b.1 = slotId →
      mapFind n.m_slotIdVarInfoMap slotId = some b := by
    intro b hb hbs
    obtain ⟨b', hb'⟩ := mapFind_isSome_of_mem (List.mem_map.2 ⟨b, hb, hbs⟩)
    have h2 := mapFind_some hb'
    have : b' = b := List.inj_on_of_nodup_map hwf.bindingKeys h2.1 hb (h2.2.trans hbs.symm)
    rw [← this]; exact hb'
  refine ⟨rfl, hids, ?_, ?_, ?_, ?_, ?_, cellErase_sublist _ _, ?_, ?_, ?_, hwf2.indices⟩
  · intro hmem
    exact hids ((Node.keys_slotIdMap hwf2.indices).mem_iff.1 hmem)
  · intro x hx hxs
    have hxc : x.1 = e.2 := (hspec.2 x hx).1 hxs
    rw [hxc]
    constructor
    · intro hmem
      have h1 := (hwf2.indices.slotIdMap.map Prod.snd).mem_iff.1 hmem
      rw [List.map_map] at h1
      exact hcell h1
    · intro hmem
      have h1 := (hwf2.indices.slotNameMap.map Prod.snd).mem_iff.1 hmem
      rw [List.map_map] at h1
      exact hcell h1
  · exact key_not_mem_mapErase _ _ hwf.bindingKeys
  · intro b hb hbs hstored
    have hfb := hbind b hb hbs
    have hvkey : b.2.m_ownedVariableId ∈ n.m_varIdMap.map Prod.fst :=
      (Node.keys_varIdMap hwf.indices).mem_iff.2 hstored
    obtain ⟨v, hv⟩ := mapFind_isSome_of_mem hvkey
    have hov : n.ownedVariableEntry slotId = some v := by
      unfold Node.ownedVariableEntry
      rw [hfb]
      exact hv
    have hv1 : v.1 = b.2.m_ownedVariableId := (mapFind_some hv).2
    have hvspec := index_find_spec (fun x : VariableDatumBase => x.m_id) n.m_varDatums
      n.m_varIdMap b.2.m_ownedVariableId v hwf.indices.varIdMap hwf.varCells
      hwf.variableIdsNodup hv
    have hvcell := cell_not_mem_cellErase n.m_varDatums v.2 hwf.varCells
    have hvids : b.2.m_ownedVariableId ∉
        (cellErase n.m_varDatums v.2).map (fun x => x.2.m_id) := by
      intro hmem
      obtain ⟨x, hx, hxs⟩ := List.mem_map.1 hmem
      have hx0 : x ∈ n.m_varDatums := (cellErase_sublist _ _).subset hx
      exact hvcell (List.mem_map.2 ⟨x, hx, (hvspec.2 x hx0).1 hxs⟩)
    have hvars := Node.keys_varIdMap hwf2.indices
    simp only [Node.variableIds, hov] at hvars ⊢
    exact ⟨hvids, fun hmem => hvids (hvars.mem_iff.1 hmem)⟩
  · intro x hx hxs
    have hxc : x.1 ≠ e.2 := fun hc => hxs ((hspec.2 x hx).2 hc)
    exact (mem_cellErase_of_ne _ _ _ hxc).2 hx
  · intro v hv hother
    show v ∈ (match n.ownedVariableEntry slotId with
      | some w => cellErase n.m_varDatums w.2
      | none => n.m_varDatums)
    cases hov : n.ownedVariableEntry slotId with
    | none => exact hv
    | some w =>
      show v ∈ cellErase n.m_varDatums w.2
      have hw := Node.ownedVariableEntry_find hov
      have hwspec := index_find_spec (fun x : VariableDatumBase => x.m_id) n.m_varDatums
        n.m_varIdMap w.1 w hwf.indices.varIdMap hwf.varCells hwf.variableIdsNodup hw
      unfold Node.ownedVariableEntry at hov
      cases hb : mapFind n.m_slotIdVarInfoMap slotId with
      | none => rw [hb] at hov; exact absurd hov (by simp)
      | some b =>
        rw [hb] at hov
        simp only at hov
        have hb2 := mapFind_some hb
        have hne : v.2.m_id ≠ w.1 := by
          rw [(mapFind_some hov).2]
          exact hother b hb2.1 hb2.2
        have hvc : v.1 ≠ w.2 := fun hc => hne ((hwspec.2 v hv).2 hc)
        exact (mem_cellErase_of_ne _ _ _ hvc).2 hv
  · show (match n.ownedVariableEntry slotId with
      | some w => cellErase n.m_varDatums w.2
      | none => n.m_varDatums).Sublist n.m_varDatums
    cases n.ownedVariableEntry slotId with
    | none => exact List.Sublist.refl _
    | some w => exact cellErase_sublist _ _
  · intro b hb hbs
    exact (mem_mapErase_of_ne _ _ _ hbs).2 hb

namespace Node
theorem sampleNode_wellFormed (order : EqualKeyOrder) : (sampleNode order).WellFormed :=
  runOps_wellFormed order [] sampleInsertions _ (empty_wellFormed _ _)
    (by cases order <;> decide)
end Node

/-- Witness of C5: removing the datum slot with id 2 from the sample node leaves the slots
1 and 3, in this order, and no variable. -/
theorem C5_remove_known_slot_witness :
    (Node.sampleNode EqualKeyOrder.newestFirst).WellFormed
      ∧ (⟨2⟩ : SlotId) ∈ (Node.sampleNode EqualKeyOrder.newestFirst).slotIds
      ∧ ((Node.sampleNode EqualKeyOrder.newestFirst).RemoveSlot none ⟨2⟩).removed = true
      ∧ (⟨2⟩ : SlotId) ∉
          ((Node.sampleNode EqualKeyOrder.newestFirst).RemoveSlot none ⟨2⟩).node.slotIds
      ∧ ((Node.sampleNode EqualKeyOrder.newestFirst).RemoveSlot none ⟨2⟩).node.slotIds
          = [⟨3⟩, ⟨1⟩]
      ∧ ((Node.sampleNode EqualKeyOrder.newestFirst).RemoveSlot none ⟨2⟩).node.m_varDatums
          = [] :=
  ⟨Node.sampleNode_wellFormed _, by decide,
   (C5_remove_known_slot (Node.sampleNode EqualKeyOrder.newestFirst) none ⟨2⟩
      (Node.sampleNode_wellFormed _) (by decide)).1,
   (C5_remove_known_slot (Node.sampleNode EqualKeyOrder.newestFirst) none ⟨2⟩
      (Node.sampleNode_wellFormed _) (by decide)).2.1,
   by decide, by decide⟩

theorem mapFind_append_singleton {K V : Type} [DecidableEq K] (m : List (K × V)) (k : K)
    (v : V) (h : k ∉ m.map Prod.fst) : mapFind (m ++ [(k, v)]) k = some (k, v) := by
  have hnone := (mapFind_eq_none_iff m k).2 h
  unfold mapFind at hnone ⊢
  rw [List.find?_append, hnone]
  simp

theorem eraseP_snd_multimapEmplace {K : Type} (o : EqualKeyOrder) (m : List (K × Cell)) (k : K)
    (c : Cell) (h : c ∉ m.map Prod.snd) :
    (multimapEmplace o m k c).eraseP (fun x => decide (x.2 = c)) = m := by
  cases o with
  | newestFirst => simp [multimapEmplace]
  | oldestFirst =>
    show (m ++ [(k, c)]).eraseP (fun x => decide (x.2 = c)) = m
    rw [List.eraseP_append_right]
    · simp
    · intro e he hc
      exact h (List.mem_map.2 ⟨e, he, by simpa using hc⟩)

theorem cellErase_append_singleton {A : Type} (l : List (Cell × A)) (c : Cell) (x : A)
    (h : c ∉ l.map Prod.fst) : cellErase (l ++ [(c, x)]) c = l :=
  mapErase_append_singleton l c x h

theorem cellDistance_emplaceAtIndex {A : Type} (l : List (Cell × A)) (i : Int) (c : Cell)
    (x : A) (h : c ∉ l.map Prod.fst) :
    cellDistance (emplaceAtIndex l i (c, x)) c
      = if i < 0 ∨ i ≥ (l.length : Int) then l.length else i.toNat := by
  have hno : ∀ (t : List (Cell × A)), (∀ e ∈ t, e ∈ l) →
      t.findIdx (fun e => decide (e.1 = c)) = t.length := by
    intro t ht
    apply List.findIdx_eq_length_of_false
    intro e he
    apply decide_eq_false
    intro hc
    exact h (List.mem_map.2 ⟨e, ht e he, hc⟩)
  unfold emplaceAtIndex cellDistance
  split
  · rw [List.findIdx_append, hno l (fun e he => he)]
    simp [List.findIdx_cons]
  · rename_i hcond
    rw [List.findIdx_append, hno (l.take i.toNat) (fun e he => List.mem_of_mem_take he)]
    simp only [Nat.lt_irrefl, if_false, List.findIdx_cons, decide_True, cond_true, Nat.zero_add,
      List.length_take]
    have h1 : ¬ (i < 0) := fun hh => hcond (Or.inl hh)
    have h2 : ¬ (i ≥ (l.length : Int)) := fun hh => hcond (Or.inr hh)
    omega

namespace Node

theorem nextCell_not_mem_nameMap {n : Node} (h : n.WellFormed) :
    n.m_nextCell ∉ n.m_slotNameMap.map Prod.snd := by
  intro hmem
  have h1 := (h.indices.slotNameMap.map Prod.snd).mem_iff.1 hmem
  rw [List.map_map] at h1
  exact nextCell_not_mem_slots h h1

/-- Round trip: `RemoveSlot` of the slot that `emplaceSlot` just added gives back the node. -/
theorem RemoveSlot_emplaceSlot (o : EqualKeyOrder) (n : Node) (i : Int)
    (cfg : SlotConfiguration) (id : SlotId) (g : Option Graph) (h : n.WellFormed)
    (hf : id ∉ n.slotIds) :
    ((n.emplaceSlot o i cfg id).RemoveSlot g id).removed = true
      ∧ ((n.emplaceSlot o i cfg id).RemoveSlot g id).node
        = { n with m_nextCell := n.m_nextCell + 1 } := by
  have hkey : id ∉ n.m_slotIdMap.map Prod.fst :=
    fun hk => hf ((keys_slotIdMap h.indices).mem_iff.1 hk)
  have hfind : mapFind (n.emplaceSlot o i cfg id).m_slotIdMap id = some (id, n.m_nextCell) := by
    show mapFind (mapEmplace n.m_slotIdMap id n.m_nextCell) id = some (id, n.m_nextCell)
    rw [mapEmplace_of_not_mem _ _ _ hkey]
    exact mapFind_append_singleton _ _ _ hkey
  have hbind : mapFind n.m_slotIdVarInfoMap id = none :=
    (mapFind_eq_none_iff _ _).2 (binding_key_fresh h hf)
  have hov : (n.emplaceSlot o i cfg id).ownedVariableEntry id = none := by
    show (match mapFind n.m_slotIdVarInfoMap id with
      | none => none
      | some b => mapFind n.m_varIdMap b.2.m_ownedVariableId) = none
    rw [hbind]
  rw [RemoveSlot_of_find _ g id _ hfind]
  refine ⟨rfl, ?_⟩
  simp only [hov]
  show ({ n with
      m_slots := cellErase (emplaceAtIndex n.m_slots i (n.m_nextCell, n.constructSlot cfg id))
        n.m_nextCell
      m_slotIdMap := mapErase (mapEmplace n.m_slotIdMap id n.m_nextCell) id
      m_slotNameMap := (multimapEmplace o n.m_slotNameMap cfg.m_name n.m_nextCell).eraseP
        (fun x => decide (x.2 = n.m_nextCell))
      m_slotIdVarInfoMap := mapErase n.m_slotIdVarInfoMap id
      m_nextCell := n.m_nextCell + 1 } : Node) = _
  rw [cellErase_emplaceAtIndex _ _ _ _ (nextCell_not_mem_slots h),
    mapEmplace_of_not_mem _ _ _ hkey, mapErase_append_singleton _ _ _ hkey,
    eraseP_snd_multimapEmplace _ _ _ _ (nextCell_not_mem_nameMap h),
    mapErase_of_find_none _ _ hbind]

end Node

namespace Node

/-- Round trip: `RemoveSlot` of the datum slot that `InsertInputDatumSlotInternal` just added gives back
the node. -/
theorem RemoveSlot_datumSlot (o : EqualKeyOrder) (reg : VariableRegistry) (n : Node) (i : Int)
    (cfg : SlotConfiguration) (d : Datum) (id : SlotId) (vid : VariableId) (it : Option Cell)
    (g : Option Graph) (h : n.WellFormed) (hf : id ∉ n.slotIds) (hv : vid ∉ n.variableIds)
    (hs : (InsertSlotInternal o n i cfg id it).success = true) :
    ((InsertInputDatumSlotInternal o reg n i cfg d id vid it).node.RemoveSlot g id).removed
        = true
      ∧ ((InsertInputDatumSlotInternal o reg n i cfg d id vid it).node.RemoveSlot g id).node
        = { n with m_nextCell := n.m_nextCell + 2 } := by
  have hkey : id ∉ n.m_slotIdMap.map Prod.fst :=
    fun hk => hf ((keys_slotIdMap h.indices).mem_iff.1 hk)
  have hvkey : vid ∉ n.m_varIdMap.map Prod.fst :=
    fun hk => hv ((keys_varIdMap h.indices).mem_iff.1 hk)
  have hbkey := binding_key_fresh h hf
  have hvcell : n.m_nextCell + 1 ∉ n.m_varDatums.map Prod.fst := by
    intro hc
    obtain ⟨e, he, hec⟩ := List.mem_map.1 hc
    have hlt := h.varCellsBelow e he
    rw [hec] at hlt
    exact absurd hlt (by simp)
  rw [InsertInputDatumSlotInternal_node o reg n i cfg d id vid it h hs]
  have hfind : mapFind (mapEmplace n.m_slotIdMap id n.m_nextCell) id
      = some (id, n.m_nextCell) := by
    rw [mapEmplace_of_not_mem _ _ _ hkey]
    exact mapFind_append_singleton _ _ _ hkey
  have hov : Node.ownedVariableEntry
      { n.emplaceSlot o i cfg id with
        m_varDatums := n.m_varDatums ++ [(n.m_nextCell + 1, n.constructVariable cfg d vid)]
        m_varIdMap := mapEmplace n.m_varIdMap vid (n.m_nextCell + 1)
        m_nextCell := n.m_nextCell + 2
        m_slotIdVarInfoMap :=
          mapAssign n.m_slotIdVarInfoMap id (VariableInfo.ofVariableId reg vid) } id
      = some (vid, n.m_nextCell + 1) := by
    show (match mapFind (mapAssign n.m_slotIdVarInfoMap id (VariableInfo.ofVariableId reg vid))
        id with
      | none => none
      | some b => mapFind (mapEmplace n.m_varIdMap vid (n.m_nextCell + 1))
          b.2.m_ownedVariableId) = some (vid, n.m_nextCell + 1)
    rw [mapAssign_of_not_mem _ _ _ hbkey, mapFind_append_singleton _ _ _ hbkey,
      mapEmplace_of_not_mem _ _ _ hvkey]
    exact mapFind_append_singleton _ _ _ hvkey
  rw [RemoveSlot_of_find _ g id (id, n.m_nextCell) hfind]
  refine ⟨rfl, ?_⟩
  simp only [hov]
  show ({ n with
      m_slots := cellErase (emplaceAtIndex n.m_slots i (n.m_nextCell, n.constructSlot cfg id))
        n.m_nextCell
      m_slotIdMap := mapErase (mapEmplace n.m_slotIdMap id n.m_nextCell) id
      m_slotNameMap := (multimapEmplace o n.m_slotNameMap cfg.m_name n.m_nextCell).eraseP
        (fun x => decide (x.2 = n.m_nextCell))
      m_varDatums := cellErase
        (n.m_varDatums ++ [(n.m_nextCell + 1, n.constructVariable cfg d vid)])
        (n.m_nextCell + 1)
      m_varIdMap := mapErase (mapEmplace n.m_varIdMap vid (n.m_nextCell + 1)) vid
      m_slotIdVarInfoMap := mapErase
        (mapAssign n.m_slotIdVarInfoMap id (VariableInfo.ofVariableId reg vid)) id
      m_nextCell := n.m_nextCell + 2 } : Node) = _
  rw [cellErase_emplaceAtIndex _ _ _ _ (nextCell_not_mem_slots h),
    mapEmplace_of_not_mem _ _ _ hkey, mapErase_append_singleton _ _ _ hkey,
    eraseP_snd_multimapEmplace _ _ _ _ (nextCell_not_mem_nameMap h),
    cellErase_append_singleton _ _ _ hvcell,
    mapEmplace_of_not_mem _ _ _ hvkey, mapErase_append_singleton _ _ _ hvkey,
    mapAssign_of_not_mem _ _ _ hbkey, mapErase_append_singleton _ _ _ hbkey]

end Node

/-- C7 (insert/remove round trip). On a well-formed node and with fresh generated ids, when
`InsertSlot` succeeds it returns the generated id `s`, the following `RemoveSlot(s)` returns
true and the node is again as before the insertion in everything but the allocation
counter: slot list, variable list, the three indices and the binding map.  The same holds
for `InsertInputDatumSlot`. -/
theorem C7_insert_remove_round_trip (order : EqualKeyOrder) (reg : VariableRegistry)
    (n : Node) (index : Int) (slotConfig : SlotConfiguration) (initialDatum : Datum)
    (newSlotId : SlotId) (newVarId : VariableId) (graph : Option Graph)
    (hwf : n.WellFormed) (hfresh : newSlotId ∉ n.slotIds)
    (hvfresh : newVarId ∉ n.variableIds)
    (hsuccess : (Node.InsertSlotInternal order n index slotConfig newSlotId none).success
      = true) :
    ((n.InsertSlot order index slotConfig newSlotId).slotId = newSlotId
        ∧ ((n.InsertSlot order index slotConfig newSlotId).node.RemoveSlot graph
            newSlotId).removed = true
        ∧ Node.SameState
            ((n.InsertSlot order index slotConfig newSlotId).node.RemoveSlot graph
              newSlotId).node n)
      ∧ ((n.InsertInputDatumSlot order reg index slotConfig initialDatum newSlotId
            newVarId).slotId = newSlotId
        ∧ ((n.InsertInputDatumSlot order reg index slotConfig initialDatum newSlotId
            newVarId).node.RemoveSlot graph newSlotId).removed = true
        ∧ Node.SameState
            ((n.InsertInputDatumSlot order reg index slotConfig initialDatum newSlotId
              newVarId).node.RemoveSlot graph newSlotId).node n) := by
  rcases Node.InsertSlotInternal_cases order n index slotConfig newSlotId none with
    ⟨h0, _⟩ | ⟨_, h1, h2⟩
  · rw [h0] at hsuccess; exact absurd hsuccess (by decide)
  · have hsid := Node.slotIdAt_emplaceSlot order n index slotConfig newSlotId
      (Node.nextCell_not_mem_slots hwf)
    have hr := Node.RemoveSlot_emplaceSlot order n index slotConfig newSlotId graph hwf hfresh
    have hd := Node.RemoveSlot_datumSlot order reg n index slotConfig initialDatum newSlotId
      newVarId none graph hwf hfresh hvfresh hsuccess
    have hdn := Node.InsertInputDatumSlotInternal_node order reg n index slotConfig
      initialDatum newSlotId newVarId none hwf hsuccess
    have hnode : (n.InsertSlot order index slotConfig newSlotId).node
        = n.emplaceSlot order index slotConfig newSlotId := h2
    have hnode2 : (n.InsertInputDatumSlot order reg index slotConfig initialDatum newSlotId
        newVarId).node = (Node.InsertInputDatumSlotInternal order reg n index slotConfig
          initialDatum newSlotId newVarId none).node := rfl
    have hiter : (Node.InsertInputDatumSlotInternal order reg n index slotConfig
        initialDatum newSlotId newVarId none).iterOut = some n.m_nextCell := by
      unfold Node.InsertInputDatumSlotInternal
      simp only [hsuccess, if_true]
      exact h1
    refine ⟨⟨?_, ?_, ?_⟩, ?_, ?_, ?_⟩
    · show (Node.InsertSlotInternal order n index slotConfig newSlotId none).node.slotIdAt
        (Node.InsertSlotInternal order n index slotConfig newSlotId none).iterOut = newSlotId
      rw [h1, h2]; exact hsid
    · rw [hnode]; exact hr.1
    · rw [hnode, hr.2]; rfl
    · show (Node.InsertInputDatumSlotInternal order reg n index slotConfig initialDatum
          newSlotId newVarId none).node.slotIdAt
        (Node.InsertInputDatumSlotInternal order reg n index slotConfig initialDatum
          newSlotId newVarId none).iterOut = newSlotId
      rw [hiter, hdn]
      exact (Node.slotIdAt_congr _ _ _ rfl).trans hsid
    · rw [hnode2]; exact hd.1
    · rw [hnode2, hd.2]; rfl

/-- Witness of C7 on the empty node: after inserting a datum slot and removing it, the
lists, the three indices and the binding map are empty again. -/
theorem C7_insert_remove_round_trip_witness :
    Node.SameState
        (((Node.empty (some ⟨7⟩) NodeClass.plain).InsertInputDatumSlot
          EqualKeyOrder.newestFirst [] 0 ⟨"y", "", SlotType.DataIn, [], true⟩
          ⟨⟨3⟩, 5, "", ⟨0⟩⟩ ⟨2⟩ ⟨100⟩).node.RemoveSlot none ⟨2⟩).node
        (Node.empty (some ⟨7⟩) NodeClass.plain)
      ∧ (((Node.empty (some ⟨7⟩) NodeClass.plain).InsertInputDatumSlot
          EqualKeyOrder.newestFirst [] 0 ⟨"y", "", SlotType.DataIn, [], true⟩
          ⟨⟨3⟩, 5, "", ⟨0⟩⟩ ⟨2⟩ ⟨100⟩).node.RemoveSlot none ⟨2⟩).node.m_slotIdMap = [] :=
  ⟨(C7_insert_remove_round_trip EqualKeyOrder.newestFirst []
      (Node.empty (some ⟨7⟩) NodeClass.plain) 0 ⟨"y", "", SlotType.DataIn, [], true⟩
      ⟨⟨3⟩, 5, "", ⟨0⟩⟩ ⟨2⟩ ⟨100⟩ none (Node.empty_wellFormed _ _) (by decide) (by decide)
      (by decide)).2.2.2,
   by decide⟩

theorem sublist_emplaceAtIndex {A : Type} (l : List A) (i : Int) (x : A) :
    l.Sublist (emplaceAtIndex l i x) := by
  unfold emplaceAtIndex
  split
  · exact List.sublist_append_left l [x]
  · have h : (l.take i.toNat ++ l.drop i.toNat).Sublist
        (l.take i.toNat ++ x :: l.drop i.toNat) :=
      List.Sublist.append (List.Sublist.refl _) (List.sublist_cons_self x _)
    rwa [List.take_append_drop] at h

/-- C8 (insertion position). On a well-formed node with `n` slots and a fresh generated id,
a successful `InsertSlot(index, config)` returns the generated id; for `0 <= index < n` the
new slot list is the old one with the new slot between its first `index` elements and the
rest, and `FindSlotIndex` of the new id is `index`; for `index < 0` or `index >= n` the new
slot is appended and `FindSlotIndex` of the new id is `n`; the old slot list is a sublist of
the new one, so the previous slots keep their relative order. -/
theorem C8_insertion_position (order : EqualKeyOrder) (n : Node) (index : Int)
    (slotConfig : SlotConfiguration) (newSlotId : SlotId)
    (hwf : n.WellFormed) (hfresh : newSlotId ∉ n.slotIds)
    (hsuccess : (Node.InsertSlotInternal order n index slotConfig newSlotId none).success
      = true) :
    (n.InsertSlot order index slotConfig newSlotId).slotId = newSlotId
      ∧ (0 ≤ index ∧ index < (n.m_slots.length : Int) →
          (n.InsertSlot order index slotConfig newSlotId).node.m_slots
              = n.m_slots.take index.toNat
                ++ (n.m_nextCell, n.constructSlot slotConfig newSlotId)
                  :: n.m_slots.drop index.toNat
            ∧ (n.m_slots.take index.toNat).length = index.toNat
            ∧ (n.InsertSlot order index slotConfig newSlotId).node.FindSlotIndex newSlotId
              = some index)
      ∧ (index < 0 ∨ index ≥ (n.m_slots.length : Int) →
          (n.InsertSlot order index slotConfig newSlotId).node.m_slots
              = n.m_slots ++ [(n.m_nextCell, n.constructSlot slotConfig newSlotId)]
            ∧ (n.InsertSlot order index slotConfig newSlotId).node.FindSlotIndex newSlotId
              = some (n.m_slots.length : Int))
      ∧ n.m_slots.Sublist (n.InsertSlot order index slotConfig newSlotId).node.m_slots := by
  rcases Node.InsertSlotInternal_cases order n index slotConfig newSlotId none with
    ⟨h0, _⟩ | ⟨_, h1, h2⟩
  · rw [h0] at hsuccess; exact absurd hsuccess (by decide)
  · have hkey : newSlotId ∉ n.m_slotIdMap.map Prod.fst :=
      fun hk => hfresh ((Node.keys_slotIdMap hwf.indices).mem_iff.1 hk)
    have hcell := Node.nextCell_not_mem_slots hwf
    have hnode : (n.InsertSlot order index slotConfig newSlotId).node
        = n.emplaceSlot order index slotConfig newSlotId := h2
    have hslots : (n.emplaceSlot order index slotConfig newSlotId).m_slots
        = emplaceAtIndex n.m_slots index
          (n.m_nextCell, n.constructSlot slotConfig newSlotId) := rfl
    have hfind : (n.emplaceSlot order index slotConfig newSlotId).FindSlotIndex newSlotId
        = some ((if index < 0 ∨ index ≥ (n.m_slots.length : Int) then n.m_slots.length
            else index.toNat : Nat) : Int) := by
      show (match mapFind (mapEmplace n.m_slotIdMap newSlotId n.m_nextCell) newSlotId with
        | some slotIdIter =>
          some (cellDistance (emplaceAtIndex n.m_slots index
            (n.m_nextCell, n.constructSlot slotConfig newSlotId)) slotIdIter.2 : Int)
        | none => none) = _
      rw [mapEmplace_of_not_mem _ _ _ hkey, mapFind_append_singleton _ _ _ hkey]
      simp only []
      rw [cellDistance_emplaceAtIndex _ _ _ _ hcell]
    rw [hnode, hslots, hfind]
    refine ⟨?_, ?_, ?_, sublist_emplaceAtIndex _ _ _⟩
    · show (Node.InsertSlotInternal order n index slotConfig newSlotId none).node.slotIdAt
        (Node.InsertSlotInternal order n index slotConfig newSlotId none).iterOut = newSlotId
      rw [h1, h2]
      exact Node.slotIdAt_emplaceSlot order n index slotConfig newSlotId hcell
    · intro hin
      have hcond : ¬ (index < 0 ∨ index ≥ (n.m_slots.length : Int)) := by omega
      refine ⟨?_, ?_, ?_⟩
      · unfold emplaceAtIndex
        rw [if_neg hcond]
      · rw [List.length_take]
        omega
      · rw [if_neg hcond]
        congr 1
        omega
    · intro hout
      refine ⟨?_, ?_⟩
      · unfold emplaceAtIndex
        rw [if_pos hout]
      · rw [if_pos hout]

/-- Witness of C8: on the sample node (three slots) an insertion at index 1 puts the new
slot at position 1 and an insertion at index 3 appends it at position 3. -/
theorem C8_insertion_position_witness :
    ((Node.sampleNode EqualKeyOrder.oldestFirst).InsertSlot EqualKeyOrder.oldestFirst 1
        ⟨"Out", "", SlotType.ExecutionOut, [], false⟩ ⟨4⟩).node.FindSlotIndex ⟨4⟩ = some 1
      ∧ ((Node.sampleNode EqualKeyOrder.oldestFirst).InsertSlot EqualKeyOrder.oldestFirst 3
        ⟨"Out", "", SlotType.ExecutionOut, [], false⟩ ⟨4⟩).node.FindSlotIndex ⟨4⟩
          = some ((Node.sampleNode EqualKeyOrder.oldestFirst).m_slots.length : Int)
      ∧ ((Node.sampleNode EqualKeyOrder.oldestFirst).InsertSlot EqualKeyOrder.oldestFirst 1
        ⟨"Out", "", SlotType.ExecutionOut, [], false⟩ ⟨4⟩).node.slotIds
          = [⟨2⟩, ⟨4⟩, ⟨3⟩, ⟨1⟩] :=
  ⟨((C8_insertion_position EqualKeyOrder.oldestFirst
      (Node.sampleNode EqualKeyOrder.oldestFirst) 1
      ⟨"Out", "", SlotType.ExecutionOut, [], false⟩ ⟨4⟩ (Node.sampleNode_wellFormed _)
      (by decide) (by decide)).2.1 (by decide)).2.2,
   ((C8_insertion_position EqualKeyOrder.oldestFirst
      (Node.sampleNode EqualKeyOrder.oldestFirst) 3
      ⟨"Out", "", SlotType.ExecutionOut, [], false⟩ ⟨4⟩ (Node.sampleNode_wellFormed _)
      (by decide) (by decide)).2.2.1 (by decide)).2,
   by decide⟩

theorem Connection.joins_iff (c : Connection) (b x : Endpoint) :
    c.joins b x = true ↔ (c.touches b = true ∧ c.other b = x) := by
  unfold Connection.joins Connection.touches Connection.other
  simp only [Bool.or_eq_true, Bool.and_eq_true, decide_eq_true_eq]
  by_cases h1 : c.m_sourceEndpoint = b
  · rw [if_pos h1]
    constructor
    · rintro (⟨_, h⟩ | ⟨hsx, htb⟩)
      · exact ⟨Or.inl h1, h⟩
      · exact ⟨Or.inl h1, htb.trans (h1.symm.trans hsx)⟩
    · rintro ⟨_, h⟩
      exact Or.inl ⟨h1, h⟩
  · rw [if_neg h1]
    constructor
    · rintro (⟨h, _⟩ | ⟨hsx, htb⟩)
      · exact absurd h h1
      · exact ⟨Or.inr htb, hsx⟩
    · rintro ⟨h | htb, hsx⟩
      · exact absurd h h1
      · exact Or.inr ⟨hsx, htb⟩

/-- The endpoints connected to `b`, one per connection at `b`, as a function of the list of
connections. -/
theorem GetConnectedEndpoints_cons (c : Connection) (t : List Connection) (b : Endpoint) :
    Graph.GetConnectedEndpoints ⟨c :: t⟩ b
      = if c.touches b = true then c.other b :: Graph.GetConnectedEndpoints ⟨t⟩ b
        else Graph.GetConnectedEndpoints ⟨t⟩ b := by
  unfold Graph.GetConnectedEndpoints
  by_cases h : c.touches b = true
  · simp [List.filter_cons, h]
  · simp [List.filter_cons, h]

/-- Disconnecting `b` from `x` removes one occurrence of `x` from the endpoints connected
to `b`. -/
theorem GetConnectedEndpoints_disconnect (l : List Connection) (b x : Endpoint) :
    (Graph.DisconnectByEndpoint ⟨l⟩ b x).GetConnectedEndpoints b
      = (Graph.GetConnectedEndpoints ⟨l⟩ b).erase x := by
  induction l with
  | nil => rfl
  | cons c t ih =>
    unfold Graph.DisconnectByEndpoint at ih ⊢
    simp only at ih ⊢
    by_cases hj : c.joins b x = true
    · have hj2 := (Connection.joins_iff c b x).1 hj
      have he : List.eraseP (fun c => c.joins b x) (c :: t) = t := by
        simp [List.eraseP_cons, hj]
      rw [he, GetConnectedEndpoints_cons, if_pos hj2.1, hj2.2, List.erase_cons_head]
    · have he : List.eraseP (fun c => c.joins b x) (c :: t)
          = c :: List.eraseP (fun c => c.joins b x) t := by
        simp [List.eraseP_cons, hj]
      rw [he, GetConnectedEndpoints_cons, GetConnectedEndpoints_cons]
      by_cases ht : c.touches b = true
      · have hne : c.other b ≠ x := fun ho => hj ((Connection.joins_iff c b x).2 ⟨ht, ho⟩)
        rw [if_pos ht, if_pos ht, ih, List.erase_cons_tail]
        simpa using hne
      · rw [if_neg ht, if_neg ht, ih]

/-- Disconnecting `b` from `x` keeps every connection that does not touch `b`. -/
theorem filter_not_touches_disconnect (l : List Connection) (b x : Endpoint) :
    (Graph.DisconnectByEndpoint ⟨l⟩ b x).m_connections.filter (fun c => !c.touches b)
      = l.filter (fun c => !c.touches b) := by
  unfold Graph.DisconnectByEndpoint
  simp only
  induction l with
  | nil => rfl
  | cons c t ih =>
    by_cases hj : c.joins b x = true
    · have hj2 := (Connection.joins_iff c b x).1 hj
      have he : List.eraseP (fun c => c.joins b x) (c :: t) = t := by
        simp [List.eraseP_cons, hj]
      rw [he, List.filter_cons]
      simp [hj2.1]
    · have he : List.eraseP (fun c => c.joins b x) (c :: t)
          = c :: List.eraseP (fun c => c.joins b x) t := by
        simp [List.eraseP_cons, hj]
      rw [he, List.filter_cons, List.filter_cons, ih]

/-- The loop of `RemoveSlot` over any enumeration of the endpoints connected to `b` leaves
exactly the connections that do not touch `b`. -/
theorem foldl_disconnect (b : Endpoint) (L : List Endpoint) :
    ∀ (g : Graph), L.Perm (g.GetConnectedEndpoints b) →
      (L.foldl (fun g x => g.DisconnectByEndpoint b x) g)
        = ⟨g.m_connections.filter (fun c => !c.touches b)⟩ := by
  induction L with
  | nil =>
    intro g hperm
    have hnil : g.GetConnectedEndpoints b = [] := List.Perm.nil_eq hperm |>.symm
    unfold Graph.GetConnectedEndpoints at hnil
    have hf : g.m_connections.filter (fun c => c.touches b) = [] := by
      simpa using hnil
    have hall : ∀ c ∈ g.m_connections, (!c.touches b) = true := by
      intro c hc
      have := (List.filter_eq_nil_iff.1 hf) c hc
      simpa using this
    show g = _
    rw [List.filter_eq_self.2 hall]
  | cons x L ih =>
    intro g hperm
    rw [List.foldl_cons]
    have h1 : L.Perm ((g.DisconnectByEndpoint b x).GetConnectedEndpoints b) := by
      have h2 := hperm.erase x
      rw [List.erase_cons_head] at h2
      have h3 := GetConnectedEndpoints_disconnect g.m_connections b x
      exact h2.trans (by rw [← h3])
    rw [ih _ h1]
    have h4 := filter_not_touches_disconnect g.m_connections b x
    exact congrArg Graph.mk h4

theorem disconnectAll_eq (g : Graph) (b : Endpoint) :
    Node.disconnectAll g b = ⟨g.m_connections.filter (fun c => !c.touches b)⟩ :=
  foldl_disconnect b _ g (List.Perm.refl _)

/-- C9 (slot removal disconnects edges). When the graph of the node resolves and the id
index knows the slot `s`, the connections of the graph after `RemoveSlot(s)` are exactly the
connections that did not touch the endpoint `(node, s)`, in their previous order: no
connection with that endpoint at either end is left and every other connection is
unchanged. -/
theorem C9_remove_slot_disconnects (n : Node) (g : Graph) (slotId : SlotId)
    (hknown : slotId ∈ n.m_slotIdMap.map Prod.fst) :
    (n.RemoveSlot (some g) slotId).graph
        = some ⟨g.m_connections.filter (fun c => !c.touches ⟨n.GetEntityId, slotId⟩)⟩
      ∧ (∀ g1, (n.RemoveSlot (some g) slotId).graph = some g1 →
          (∀ c ∈ g1.m_connections, c.touches ⟨n.GetEntityId, slotId⟩ = false)
            ∧ (∀ c ∈ g.m_connections, c.touches ⟨n.GetEntityId, slotId⟩ = false →
                c ∈ g1.m_connections)
            ∧ g1.m_connections.Sublist g.m_connections) := by
  obtain ⟨e, hf⟩ := mapFind_isSome_of_mem hknown
  have hgraph : (n.RemoveSlot (some g) slotId).graph
      = some ⟨g.m_connections.filter (fun c => !c.touches ⟨n.GetEntityId, slotId⟩)⟩ := by
    rw [Node.RemoveSlot_of_find n (some g) slotId e hf]
    show some (Node.disconnectAll g ⟨n.GetEntityId, slotId⟩) = _
    rw [disconnectAll_eq]
  refine ⟨hgraph, ?_⟩
  intro g1 hg1
  rw [hgraph] at hg1
  have hg : g1 = ⟨g.m_connections.filter (fun c => !c.touches ⟨n.GetEntityId, slotId⟩)⟩ :=
    (Option.some.inj hg1).symm
  rw [hg]
  refine ⟨?_, ?_, List.filter_sublist _⟩
  · intro c hc
    have := (List.mem_filter.1 hc).2
    simpa using this
  · intro c hc ht
    exact List.mem_filter.2 ⟨hc, by simp [ht]⟩

/-- Witness of C9: slot 2 of the sample node (entity 7) has two parallel connections to
`(8, 1)` and one from `(9, 3)`; after `RemoveSlot` only the connection that did not touch
`(7, 2)` is left. -/
theorem C9_remove_slot_disconnects_witness :
    ((Node.sampleNode EqualKeyOrder.oldestFirst).RemoveSlot
        (some ⟨[⟨⟨⟨7⟩, ⟨2⟩⟩, ⟨⟨8⟩, ⟨1⟩⟩⟩, ⟨⟨⟨9⟩, ⟨3⟩⟩, ⟨⟨7⟩, ⟨2⟩⟩⟩, ⟨⟨⟨9⟩, ⟨3⟩⟩, ⟨⟨7⟩, ⟨1⟩⟩⟩,
          ⟨⟨⟨7⟩, ⟨2⟩⟩, ⟨⟨8⟩, ⟨1⟩⟩⟩]⟩) ⟨2⟩).graph
      = some ⟨[⟨⟨⟨9⟩, ⟨3⟩⟩, ⟨⟨7⟩, ⟨1⟩⟩⟩]⟩ :=
  (C9_remove_slot_disconnects (Node.sampleNode EqualKeyOrder.oldestFirst)
    ⟨[⟨⟨⟨7⟩, ⟨2⟩⟩, ⟨⟨8⟩, ⟨1⟩⟩⟩, ⟨⟨⟨9⟩, ⟨3⟩⟩, ⟨⟨7⟩, ⟨2⟩⟩⟩, ⟨⟨⟨9⟩, ⟨3⟩⟩, ⟨⟨7⟩, ⟨1⟩⟩⟩,
      ⟨⟨⟨7⟩, ⟨2⟩⟩, ⟨⟨8⟩, ⟨1⟩⟩⟩]⟩ ⟨2⟩ (by decide)).1.trans (by decide)

/-! ## Termination of the traversals -/

theorem filter_length_le_of_imp {A : Type} (l : List A) (p q : A → Bool)
    (himp : ∀ x ∈ l, q x = true → p x = true) :
    (l.filter q).length ≤ (l.filter p).length := by
  induction l with
  | nil => simp
  | cons a t ih =>
    have ht : ∀ x ∈ t, q x = true → p x = true :=
      fun x hx => himp x (List.mem_cons_of_mem a hx)
    have iht := ih ht
    by_cases hq : q a = true
    · have hp : p a = true := himp a (List.mem_cons_self a t) hq
      simp only [List.filter_cons, hq, hp, if_true, List.length_cons]
      omega
    · by_cases hp : p a = true
      · simp only [List.filter_cons, hq, hp, if_true, List.length_cons]
        simp only [Bool.false_eq_true, if_false]
        omega
      · simp only [List.filter_cons, hq, hp]
        simpa using iht

theorem filter_length_lt_of_imp {A : Type} (l : List A) (p q : A → Bool)
    (himp : ∀ x ∈ l, q x = true → p x = true) (a : A) (ha : a ∈ l) (hpa : p a = true)
    (hqa : q a = false) : (l.filter q).length < (l.filter p).length := by
  induction l with
  | nil => exact absurd ha (List.not_mem_nil a)
  | cons c t ih =>
    have ht : ∀ x ∈ t, q x = true → p x = true :=
      fun x hx => himp x (List.mem_cons_of_mem c hx)
    rcases List.mem_cons.1 ha with rfl | hat
    · have hle := filter_length_le_of_imp t p q ht
      simp only [List.filter_cons, hpa, hqa, if_true, List.length_cons]
      simp only [Bool.false_eq_true, if_false]
      omega
    · have iht := ih ht hat
      by_cases hq : q c = true
      · have hp : p c = true := himp c (List.mem_cons_self c t) hq
        simp only [List.filter_cons, hq, hp, if_true, List.length_cons]
        omega
      · by_cases hp : p c = true
        · simp only [List.filter_cons, hq, hp, if_true, List.length_cons]
          simp only [Bool.false_eq_true, if_false]
          omega
        · simp only [List.filter_cons, hq, hp]
          simpa using iht

theorem Runtime.unvisited_le_length (rt : Runtime) (path : Path) :
    rt.unvisited path ≤ rt.m_nodes.length :=
  List.length_filter_le _ _

theorem Runtime.unvisited_mono (rt : Runtime) (p q : Path) (h : ∀ x ∈ p, x ∈ q) :
    rt.unvisited q ≤ rt.unvisited p := by
  unfold Runtime.unvisited
  apply filter_length_le_of_imp
  intro n _ hn
  have hq : n.GetEntityId ∉ q := of_decide_eq_true hn
  exact decide_eq_true (fun hp => hq (h _ hp))

theorem Runtime.unvisited_cons_lt (rt : Runtime) (p : Path) (n : Node) (hn : n ∈ rt.m_nodes)
    (hp : n.GetEntityId ∉ p) : rt.unvisited (n.GetEntityId :: p) < rt.unvisited p := by
  unfold Runtime.unvisited
  apply filter_length_lt_of_imp _ _ _ _ n hn
  · exact decide_eq_true hp
  · exact decide_eq_false (fun h => h (List.mem_cons_self _ _))
  · intro m _ hm
    have hq : m.GetEntityId ∉ n.GetEntityId :: p := of_decide_eq_true hm
    exact decide_eq_true (fun h => hq (List.mem_cons_of_mem _ h))

theorem Runtime.FindNode_mem {rt : Runtime} {id : EntityId} {n : Node}
    (h : rt.FindNode id = some n) : n ∈ rt.m_nodes :=
  List.mem_of_find?_eq_some h

/-- A loop whose visits all return, each with a visited set that contains the one it was
given, returns with a visited set that contains the initial one. -/
theorem anyConnected_returns {A : Type} (visit : A → Path → Option (Bool × Path))
    (items : List A) :
    ∀ (p0 : Path),
      (∀ x ∈ items, ∀ p, (∀ y ∈ p0, y ∈ p) →
        ∃ r, visit x p = some r ∧ ∀ y ∈ p, y ∈ r.2) →
      ∃ r, anyConnected visit items p0 = some r ∧ ∀ y ∈ p0, y ∈ r.2 := by
  induction items with
  | nil => intro p0 _; exact ⟨(false, p0), rfl, fun y hy => hy⟩
  | cons x rest ih =>
    intro p0 h
    obtain ⟨r, hr, hsub⟩ := h x (List.mem_cons_self x rest) p0 (fun y hy => hy)
    obtain ⟨b, p1⟩ := r
    cases b with
    | true =>
      refine ⟨(true, p1), ?_, hsub⟩
      simp only [anyConnected, hr]
    | false =>
      have hrest : ∀ z ∈ rest, ∀ p, (∀ y ∈ p1, y ∈ p) →
          ∃ r, visit z p = some r ∧ ∀ y ∈ p, y ∈ r.2 :=
        fun z hz p hp => h z (List.mem_cons_of_mem x hz) p (fun y hy => hp y (hsub y hy))
      obtain ⟨r2, hr2, hsub2⟩ := ih p1 hrest
      refine ⟨r2, ?_, fun y hy => hsub2 y (hsub y hy)⟩
      simp only [anyConnected, hr]
      exact hr2

/-- A loop returns the same result when every visit that returns is replaced by a visit
that returns the same. -/
theorem anyConnected_mono {A : Type} (visit visit2 : A → Path → Option (Bool × Path))
    (h : ∀ x p r, visit x p = some r → visit2 x p = some r) (items : List A) :
    ∀ (p0 : Path) (r : Bool × Path), anyConnected visit items p0 = some r →
      anyConnected visit2 items p0 = some r := by
  induction items with
  | nil => intro p0 r hr; exact hr
  | cons x rest ih =>
    intro p0 r hr
    simp only [anyConnected] at hr ⊢
    cases hv : visit x p0 with
    | none => rw [hv] at hr; exact absurd hr (by simp)
    | some v =>
      rw [hv] at hr
      rw [h x p0 v hv]
      obtain ⟨b, p1⟩ := v
      cases b with
      | true => exact hr
      | false => exact ih p1 r hr

namespace Node

theorem mem_connectedNodesAndSlots {rt : Runtime} {self : Node} {t : SlotType}
    {x : Node × SlotId} (h : x ∈ self.GetConnectedNodesAndSlotsByType rt t) :
    x.1 ∈ rt.m_nodes := by
  unfold GetConnectedNodesAndSlotsByType at h
  obtain ⟨e, _, he⟩ := List.mem_filterMap.1 h
  cases hf : rt.FindNode e.m_nodeId with
  | none => rw [hf] at he; exact absurd he (by simp)
  | some m =>
    rw [hf] at he
    have : x = (m, e.m_slotId) := by simpa using he.symm
    rw [this]
    exact Runtime.FindNode_mem hf

theorem mem_connectedNodes {rt : Runtime} {self : Node} {t : SlotType} {x : Node}
    (h : x ∈ self.GetConnectedNodesByType rt t) : x ∈ rt.m_nodes := by
  unfold GetConnectedNodesByType at h
  obtain ⟨e, _, he⟩ := List.mem_filterMap.1 h
  exact Runtime.FindNode_mem he

/-- The recursive event-scope search returns for a node of the runtime when the fuel
exceeds the number of unvisited nodes. -/
theorem IsInEventHandlingScopeRec_returns (rt : Runtime) (handler : EntityId)
    (slots : List SlotId) :
    ∀ (fuel : Nat) (self : Node) (conn : SlotId) (path : Path),
      self ∈ rt.m_nodes → rt.unvisited path < fuel →
      ∃ r, IsInEventHandlingScopeRec rt handler slots fuel self conn path = some r
        ∧ ∀ y ∈ path, y ∈ r.2 := by
  intro fuel
  induction fuel with
  | zero => intro self conn path _ h; exact absurd h (Nat.not_lt_zero _)
  | succ f ih =>
    intro self conn path hmem hfuel
    unfold IsInEventHandlingScopeRec
    simp only
    by_cases h1 : self.GetEntityId = handler
    · rw [if_pos h1]; exact ⟨_, rfl, fun y hy => hy⟩
    · rw [if_neg h1]
      by_cases h2 : self.GetEntityId ∈ path
      · rw [if_pos h2]; exact ⟨_, rfl, fun y hy => hy⟩
      · rw [if_neg h2]
        have hlt := Runtime.unvisited_cons_lt rt path self hmem h2
        obtain ⟨r, hr, hsub⟩ := anyConnected_returns
          (fun node p => IsInEventHandlingScopeRec rt handler slots f node.1 node.2 p)
          (self.GetConnectedNodesAndSlotsByType rt SlotType.ExecutionIn)
          (self.GetEntityId :: path)
          (fun x hx p hp => ih x.1 x.2 p (mem_connectedNodesAndSlots hx)
            (by have := Runtime.unvisited_mono rt _ p hp; omega))
        exact ⟨r, hr, fun y hy => hsub y (List.mem_cons_of_mem _ hy)⟩

/-- The recursive event-scope search returns for any node once the fuel exceeds the number
of nodes of the runtime by two. -/
theorem IsInEventHandlingScopeRec_returns_top (rt : Runtime) (handler : EntityId)
    (slots : List SlotId) (fuel : Nat) (self : Node) (conn : SlotId) (path : Path)
    (hfuel : rt.m_nodes.length + 2 ≤ fuel) :
    ∃ r, IsInEventHandlingScopeRec rt handler slots fuel self conn path = some r := by
  obtain ⟨f, rfl⟩ : ∃ f, fuel = f + 1 := ⟨fuel - 1, by omega⟩
  unfold IsInEventHandlingScopeRec
  simp only
  by_cases h1 : self.GetEntityId = handler
  · rw [if_pos h1]; exact ⟨_, rfl⟩
  · rw [if_neg h1]
    by_cases h2 : self.GetEntityId ∈ path
    · rw [if_pos h2]; exact ⟨_, rfl⟩
    · rw [if_neg h2]
      obtain ⟨r, hr, _⟩ := anyConnected_returns
        (fun node p => IsInEventHandlingScopeRec rt handler slots f node.1 node.2 p)
        (self.GetConnectedNodesAndSlotsByType rt SlotType.ExecutionIn)
        (self.GetEntityId :: path)
        (fun x hx p _ => IsInEventHandlingScopeRec_returns rt handler slots f x.1 x.2 p
          (mem_connectedNodesAndSlots hx)
          (by have := Runtime.unvisited_le_length rt p; omega))
      exact ⟨r, hr⟩

/-- More fuel does not change a result of the recursive event-scope search. -/
theorem IsInEventHandlingScopeRec_fuel_succ (rt : Runtime) (handler : EntityId)
    (slots : List SlotId) :
    ∀ (fuel : Nat) (self : Node) (conn : SlotId) (path : Path) (r : Bool × Path),
      IsInEventHandlingScopeRec rt handler slots fuel self conn path = some r →
      IsInEventHandlingScopeRec rt handler slots (fuel + 1) self conn path = some r := by
  intro fuel
  induction fuel with
  | zero =>
    intro self conn path r h
    unfold IsInEventHandlingScopeRec at h
    exact absurd h (by simp)
  | succ f ih =>
    intro self conn path r h
    unfold IsInEventHandlingScopeRec at h ⊢
    simp only at h ⊢
    by_cases h1 : self.GetEntityId = handler
    · rw [if_pos h1] at h ⊢; exact h
    · rw [if_neg h1] at h ⊢
      by_cases h2 : self.GetEntityId ∈ path
      · rw [if_pos h2] at h ⊢; exact h
      · rw [if_neg h2] at h ⊢
        exact anyConnected_mono _ _ (fun x p r hr => ih x.1 x.2 p r hr) _ _ _ h

theorem IsInEventHandlingScopeRec_fuel_le (rt : Runtime) (handler : EntityId)
    (slots : List SlotId) (fuel fuel2 : Nat) (hle : fuel ≤ fuel2) (self : Node)
    (conn : SlotId) (path : Path) (r : Bool × Path)
    (h : IsInEventHandlingScopeRec rt handler slots fuel self conn path = some r) :
    IsInEventHandlingScopeRec rt handler slots fuel2 self conn path = some r := by
  induction hle with
  | refl => exact h
  | step _ ih => exact IsInEventHandlingScopeRec_fuel_succ rt handler slots _ _ _ _ _ ih

/-- Termination: `IsInEventHandlingScope` returns one boolean, the same for every fuel that exceeds the
number of nodes of the runtime by two. -/
theorem IsInEventHandlingScope_returns (rt : Runtime) (self : Node) (handler : EntityId) :
    ∃ b, ∀ fuel, rt.m_nodes.length + 2 ≤ fuel →
      self.IsInEventHandlingScope rt fuel handler = some b := by
  unfold IsInEventHandlingScope
  cases hf : rt.FindNode handler with
  | none => exact ⟨false, fun _ _ => rfl⟩
  | some node =>
    simp only
    cases hc : node.m_class with
    | plain => exact ⟨false, fun _ _ => rfl⟩
    | pureData => exact ⟨false, fun _ _ => rfl⟩
    | eBusEventHandler slots =>
      obtain ⟨r, hr⟩ := IsInEventHandlingScopeRec_returns_top rt handler slots
        (rt.m_nodes.length + 2) self SlotId.empty [] (Nat.le_refl _)
      refine ⟨r.1, fun fuel hfuel => ?_⟩
      simp only
      rw [IsInEventHandlingScopeRec_fuel_le rt handler slots _ fuel hfuel _ _ _ r hr]
      rfl

end Node

namespace Node

/-- The recursive data-flow search returns for a node of the runtime when the fuel exceeds
the number of unvisited nodes and the nested event-scope searches have enough fuel. -/
theorem IsTargetInDataFlowPathRec_returns (rt : Runtime) (scopeFuel : Nat)
    (hscope : rt.m_nodes.length + 2 ≤ scopeFuel) (target : EntityId) :
    ∀ (fuel : Nat) (self : Node) (path : Path),
      self ∈ rt.m_nodes → rt.unvisited path < fuel →
      ∃ r, IsTargetInDataFlowPathRec rt scopeFuel target fuel self path = some r
        ∧ ∀ y ∈ path, y ∈ r.2 := by
  intro fuel
  induction fuel with
  | zero => intro self path _ h; exact absurd h (Nat.not_lt_zero _)
  | succ f ih =>
    intro self path hmem hfuel
    unfold IsTargetInDataFlowPathRec
    simp only
    by_cases h1 : self.GetEntityId = target
    · rw [if_pos h1]; exact ⟨_, rfl, fun y hy => hy⟩
    · rw [if_neg h1]
      obtain ⟨b, hb⟩ := IsInEventHandlingScope_returns rt self target
      rw [hb scopeFuel hscope]
      cases b with
      | true => exact ⟨_, rfl, fun y hy => hy⟩
      | false =>
        simp only
        by_cases h2 : self.GetEntityId ∈ path
        · rw [if_pos h2]; exact ⟨_, rfl, fun y hy => hy⟩
        · rw [if_neg h2]
          have hlt := Runtime.unvisited_cons_lt rt path self hmem h2
          obtain ⟨r, hr, hsub⟩ := anyConnected_returns
            (fun node p => IsTargetInDataFlowPathRec rt scopeFuel target f node p)
            (self.GetConnectedNodesByType rt SlotType.ExecutionOut)
            (self.GetEntityId :: path)
            (fun x hx p hp => ih x p (mem_connectedNodes hx)
              (by have := Runtime.unvisited_mono rt _ p hp; omega))
          exact ⟨r, hr, fun y hy => hsub y (List.mem_cons_of_mem _ hy)⟩

/-- The recursive data-flow search returns for any node once both fuels exceed the number
of nodes of the runtime by two. -/
theorem IsTargetInDataFlowPathRec_returns_top (rt : Runtime) (scopeFuel : Nat)
    (hscope : rt.m_nodes.length + 2 ≤ scopeFuel) (target : EntityId) (fuel : Nat)
    (self : Node) (path : Path) (hfuel : rt.m_nodes.length + 2 ≤ fuel) :
    ∃ r, IsTargetInDataFlowPathRec rt scopeFuel target fuel self path = some r := by
  obtain ⟨f, rfl⟩ : ∃ f, fuel = f + 1 := ⟨fuel - 1, by omega⟩
  unfold IsTargetInDataFlowPathRec
  simp only
  by_cases h1 : self.GetEntityId = target
  · rw [if_pos h1]; exact ⟨_, rfl⟩
  · rw [if_neg h1]
    obtain ⟨b, hb⟩ := IsInEventHandlingScope_returns rt self target
    rw [hb scopeFuel hscope]
    cases b with
    | true => exact ⟨_, rfl⟩
    | false =>
      simp only
      by_cases h2 : self.GetEntityId ∈ path
      · rw [if_pos h2]; exact ⟨_, rfl⟩
      · rw [if_neg h2]
        obtain ⟨r, hr, _⟩ := anyConnected_returns
          (fun node p => IsTargetInDataFlowPathRec rt scopeFuel target f node p)
          (self.GetConnectedNodesByType rt SlotType.ExecutionOut)
          (self.GetEntityId :: path)
          (fun x hx p _ => IsTargetInDataFlowPathRec_returns rt scopeFuel hscope target f x p
            (mem_connectedNodes hx)
            (by have := Runtime.unvisited_le_length rt p; omega))
        exact ⟨r, hr⟩

/-- More fuel does not change a result of the recursive data-flow search. -/
theorem IsTargetInDataFlowPathRec_fuel_succ (rt : Runtime) (scopeFuel : Nat)
    (target : EntityId) :
    ∀ (fuel : Nat) (self : Node) (path : Path) (r : Bool × Path),
      IsTargetInDataFlowPathRec rt scopeFuel target fuel self path = some r →
      IsTargetInDataFlowPathRec rt scopeFuel target (fuel + 1) self path = some r := by
  intro fuel
  induction fuel with
  | zero =>
    intro self path r h
    unfold IsTargetInDataFlowPathRec at h
    exact absurd h (by simp)
  | succ f ih =>
    intro self path r h
    unfold IsTargetInDataFlowPathRec at h ⊢
    simp only at h ⊢
    by_cases h1 : self.GetEntityId = target
    · rw [if_pos h1] at h ⊢; exact h
    · rw [if_neg h1] at h ⊢
      cases hs : self.IsInEventHandlingScope rt scopeFuel target with
      | none => rw [hs] at h; exact absurd h (by simp)
      | some b =>
        rw [hs] at h
        cases b with
        | true => exact h
        | false =>
          simp only at h ⊢
          by_cases h2 : self.GetEntityId ∈ path
          · rw [if_pos h2] at h ⊢; exact h
          · rw [if_neg h2] at h ⊢
            exact anyConnected_mono _ _ (fun x p r hr => ih x p r hr) _ _ _ h

theorem IsTargetInDataFlowPathRec_fuel_le (rt : Runtime) (scopeFuel : Nat)
    (target : EntityId) (fuel fuel2 : Nat) (hle : fuel ≤ fuel2) (self : Node) (path : Path)
    (r : Bool × Path)
    (h : IsTargetInDataFlowPathRec rt scopeFuel target fuel self path = some r) :
    IsTargetInDataFlowPathRec rt scopeFuel target fuel2 self path = some r := by
  induction hle with
  | refl => exact h
  | step _ ih => exact IsTargetInDataFlowPathRec_fuel_succ rt scopeFuel target _ _ _ _ ih

theorem anyConnected_congr {A : Type} (visit visit2 : A → Path → Option (Bool × Path))
    (h : ∀ x p, visit x p = visit2 x p) (items : List A) (p0 : Path) :
    anyConnected visit items p0 = anyConnected visit2 items p0 := by
  have : visit = visit2 := funext (fun x => funext (fun p => h x p))
  rw [this]

/-- The recursive data-flow search does not depend on the fuel of the nested event-scope
searches once that fuel exceeds the number of nodes of the runtime by two. -/
theorem IsTargetInDataFlowPathRec_scopeFuel (rt : Runtime) (s1 s2 : Nat)
    (h1 : rt.m_nodes.length + 2 ≤ s1) (h2 : rt.m_nodes.length + 2 ≤ s2) (target : EntityId) :
    ∀ (fuel : Nat) (self : Node) (path : Path),
      IsTargetInDataFlowPathRec rt s1 target fuel self path
        = IsTargetInDataFlowPathRec rt s2 target fuel self path := by
  intro fuel
  induction fuel with
  | zero => intro self path; rfl
  | succ f ih =>
    intro self path
    unfold IsTargetInDataFlowPathRec
    simp only
    obtain ⟨b, hb⟩ := IsInEventHandlingScope_returns rt self target
    rw [hb s1 h1, hb s2 h2]
    rw [anyConnected_congr _ _ (fun x p => ih x p)]

/-- Termination: `IsTargetInDataFlowPath` returns one boolean, the same for all fuels that exceed the
number of nodes of the runtime by two. -/
theorem IsTargetInDataFlowPath_returns (rt : Runtime) (self : Node) (target : Option Node) :
    ∃ b, ∀ scopeFuel fuel, rt.m_nodes.length + 2 ≤ scopeFuel → rt.m_nodes.length + 2 ≤ fuel →
      self.IsTargetInDataFlowPath rt scopeFuel fuel target = some b := by
  unfold IsTargetInDataFlowPath
  by_cases hp : self.m_class = NodeClass.pureData
  · exact ⟨true, fun _ _ _ _ => by rw [if_pos hp]⟩
  · cases target with
    | none => exact ⟨false, fun _ _ _ _ => by rw [if_neg hp]⟩
    | some t =>
      by_cases ht : t.m_class = NodeClass.pureData
      · exact ⟨true, fun _ _ _ _ => by rw [if_neg hp]; simp only; rw [if_pos ht]⟩
      · obtain ⟨r, hr⟩ := IsTargetInDataFlowPathRec_returns_top rt (rt.m_nodes.length + 2)
          (Nat.le_refl _) t.GetEntityId (rt.m_nodes.length + 2) self [] (Nat.le_refl _)
        refine ⟨r.1, fun scopeFuel fuel hs hf => ?_⟩
        rw [if_neg hp]
        simp only
        rw [if_neg ht, IsTargetInDataFlowPathRec_scopeFuel rt scopeFuel _ hs (Nat.le_refl _),
          IsTargetInDataFlowPathRec_fuel_le rt _ t.GetEntityId _ fuel hf _ _ r hr]
        rfl

end Node

/-- C10 (traversal termination). On every runtime, whatever cycles and self-loops its
execution edges form, `IsInEventHandlingScope` and `IsTargetInDataFlowPath` (with the
`IsInEventHandlingScope` call it makes at every visited node) return a boolean: there is
one boolean that each returns for every fuel that exceeds the number of nodes by two, so
the depth of the recursion is bounded.  The bound holds because a step that does not return
adds a node of the runtime that was not visited to the visited set, which lowers the number
of unvisited nodes. -/
theorem C10_traversals_terminate (rt : Runtime) (self : Node) (possibleEventHandler : EntityId)
    (targetNode : Option Node) :
    (∃ b, ∀ fuel, rt.m_nodes.length + 2 ≤ fuel →
        self.IsInEventHandlingScope rt fuel possibleEventHandler = some b)
      ∧ (∃ b, ∀ scopeFuel fuel,
          rt.m_nodes.length + 2 ≤ scopeFuel → rt.m_nodes.length + 2 ≤ fuel →
          self.IsTargetInDataFlowPath rt scopeFuel fuel targetNode = some b)
      ∧ (∀ (path : Path) (node : Node), node ∈ rt.m_nodes → node.GetEntityId ∉ path →
          rt.unvisited (node.GetEntityId :: path) < rt.unvisited path) :=
  ⟨Node.IsInEventHandlingScope_returns rt self possibleEventHandler,
   Node.IsTargetInDataFlowPath_returns rt self targetNode,
   fun path node hn hp => Runtime.unvisited_cons_lt rt path node hn hp⟩

/-- Witness of C10 on the cyclic sample runtime (three nodes, a cycle between nodes 2 and 3
and a self-loop at node 3): with fuel 5 both traversals return, node 3 is in the event
handling scope of node 1, and the search from node 1 for a node outside the runtime visits
the cycle and returns false. -/
theorem C10_traversals_terminate_witness :
    (∃ b, ((Runtime.cyclicSample.FindNode ⟨3⟩).getD (Node.empty none NodeClass.plain)
        ).IsInEventHandlingScope Runtime.cyclicSample 5 ⟨1⟩ = some b)
      ∧ (∃ b, ((Runtime.cyclicSample.FindNode ⟨1⟩).getD (Node.empty none NodeClass.plain)
        ).IsTargetInDataFlowPath Runtime.cyclicSample 5 5
          (some (Node.empty (some ⟨77⟩) NodeClass.plain)) = some b)
      ∧ ((Runtime.cyclicSample.FindNode ⟨3⟩).getD (Node.empty none NodeClass.plain)
        ).IsInEventHandlingScope Runtime.cyclicSample 5 ⟨1⟩ = some true
      ∧ ((Runtime.cyclicSample.FindNode ⟨1⟩).getD (Node.empty none NodeClass.plain)
        ).IsTargetInDataFlowPath Runtime.cyclicSample 5 5
          (some (Node.empty (some ⟨77⟩) NodeClass.plain)) = some false :=
  ⟨(C10_traversals_terminate Runtime.cyclicSample
      ((Runtime.cyclicSample.FindNode ⟨3⟩).getD (Node.empty none NodeClass.plain)) ⟨1⟩
      none).1.imp (fun _ h => h 5 (by decide)),
   (C10_traversals_terminate Runtime.cyclicSample
      ((Runtime.cyclicSample.FindNode ⟨1⟩).getD (Node.empty none NodeClass.plain)) ⟨1⟩
      (some (Node.empty (some ⟨77⟩) NodeClass.plain))).2.1.imp
        (fun _ h => h 5 5 (by decide) (by decide)),
   by decide, by decide⟩

/-! ## Correctness of the depth-first searches -/

theorem Runtime.ClosedOver_refl (rt : Runtime) (P : Node → Path → Prop) (S : Path) :
    rt.ClosedOver P S S :=
  fun _ _ h1 h2 => absurd h1 h2

theorem Runtime.ClosedOver_trans (rt : Runtime) (P : Node → Path → Prop)
    (hP : ∀ m S S1, P m S → (∀ y ∈ S, y ∈ S1) → P m S1) (S0 S1 S2 : Path)
    (h01 : rt.ClosedOver P S1 S0) (h12 : rt.ClosedOver P S2 S1) (hsub : ∀ y ∈ S1, y ∈ S2) :
    rt.ClosedOver P S2 S0 := by
  intro m hm h2 h0
  by_cases h1 : m.GetEntityId ∈ S1
  · exact hP m S1 S2 (h01 m hm h1 h0) hsub
  · exact h12 m hm h2 h1

/-- The invariant of a search loop: when every visit grows the visited set, ends with true
only at a winning item and ends with false only at a losing item, leaving the visited set
closed, then so does the loop over the items. -/
theorem anyConnected_search {A : Type} (rt : Runtime) (P : Node → Path → Prop)
    (hP : ∀ m S S1, P m S → (∀ y ∈ S, y ∈ S1) → P m S1)
    (Win : A → Prop) (Lose : A → Path → Prop)
    (hLose : ∀ x S S1, Lose x S → (∀ y ∈ S, y ∈ S1) → Lose x S1)
    (visit : A → Path → Option (Bool × Path)) (items : List A) :
    ∀ (S0 : Path),
      (∀ x ∈ items, ∀ S r, (∀ y ∈ S0, y ∈ S) → visit x S = some r →
        (∀ y ∈ S, y ∈ r.2) ∧ (r.1 = true → Win x)
          ∧ (r.1 = false → Lose x r.2 ∧ rt.ClosedOver P r.2 S)) →
      ∀ r, anyConnected visit items S0 = some r →
        (∀ y ∈ S0, y ∈ r.2) ∧ (r.1 = true → ∃ x ∈ items, Win x)
          ∧ (r.1 = false → (∀ x ∈ items, Lose x r.2) ∧ rt.ClosedOver P r.2 S0) := by
  induction items with
  | nil =>
    intro S0 _ r hr
    simp only [anyConnected, Option.some.injEq] at hr
    subst hr
    refine ⟨fun y hy => hy, fun h => absurd h (by simp), fun _ => ⟨?_, ?_⟩⟩
    · intro x hx; exact absurd hx (List.not_mem_nil x)
    · exact rt.ClosedOver_refl P S0
  | cons x rest ih =>
    intro S0 hvisit r hr
    simp only [anyConnected] at hr
    cases hv : visit x S0 with
    | none => rw [hv] at hr; exact absurd hr (by simp)
    | some v =>
      rw [hv] at hr
      obtain ⟨hsub, hwin, hlose⟩ := hvisit x (List.mem_cons_self x rest) S0 v
        (fun y hy => hy) hv
      obtain ⟨b, S1⟩ := v
      cases b with
      | true =>
        simp only [Option.some.injEq] at hr
        subst hr
        exact ⟨hsub, fun _ => ⟨x, List.mem_cons_self x rest, hwin rfl⟩,
          fun h => absurd h (by simp)⟩
      | false =>
        simp only at hr
        obtain ⟨hl, hc⟩ := hlose rfl
        have hrest : ∀ z ∈ rest, ∀ S r, (∀ y ∈ S1, y ∈ S) → visit z S = some r →
            (∀ y ∈ S, y ∈ r.2) ∧ (r.1 = true → Win z)
              ∧ (r.1 = false → Lose z r.2 ∧ rt.ClosedOver P r.2 S) :=
          fun z hz S r hS hzr =>
            hvisit z (List.mem_cons_of_mem x hz) S r (fun y hy => hS y (hsub y hy)) hzr
        obtain ⟨hsub2, hwin2, hlose2⟩ := ih S1 hrest r hr
        refine ⟨fun y hy => hsub2 y (hsub y hy), ?_, ?_⟩
        · intro hb
          obtain ⟨z, hz, hzw⟩ := hwin2 hb
          exact ⟨z, List.mem_cons_of_mem x hz, hzw⟩
        · intro hb
          obtain ⟨hl2, hc2⟩ := hlose2 hb
          refine ⟨?_, rt.ClosedOver_trans P hP S0 S1 r.2 hc hc2 hsub2⟩
          intro z hz
          rcases List.mem_cons.1 hz with rfl | hz
          · exact hLose _ S1 r.2 hl hsub2
          · exact hl2 z hz

theorem Runtime.Resolves_of_FindNode {rt : Runtime} {id : EntityId} {n : Node}
    (h : rt.FindNode id = some n) : rt.Resolves n := by
  have hp : n.m_entity = some id := by
    unfold Runtime.FindNode at h
    simpa using List.find?_some h
  have hid : n.GetEntityId = id := by
    unfold Node.GetEntityId
    rw [hp]; rfl
  unfold Runtime.Resolves
  rw [hid]; exact h

theorem Runtime.Resolves_unique {rt : Runtime} {m n : Node} (hm : rt.Resolves m)
    (hn : rt.Resolves n) (hid : m.GetEntityId = n.GetEntityId) : m = n := by
  unfold Runtime.Resolves at hm hn
  rw [hid, hn] at hm
  exact (Option.some.inj hm).symm

namespace Node

theorem resolves_connectedNodesAndSlots {rt : Runtime} {self : Node} {t : SlotType}
    {x : Node × SlotId} (h : x ∈ self.GetConnectedNodesAndSlotsByType rt t) :
    rt.Resolves x.1 := by
  unfold GetConnectedNodesAndSlotsByType at h
  obtain ⟨e, _, he⟩ := List.mem_filterMap.1 h
  cases hf : rt.FindNode e.m_nodeId with
  | none => rw [hf] at he; exact absurd he (by simp)
  | some m =>
    rw [hf] at he
    have : x = (m, e.m_slotId) := by simpa using he.symm
    rw [this]
    exact Runtime.Resolves_of_FindNode hf

theorem resolves_connectedNodes {rt : Runtime} {self : Node} {t : SlotType} {x : Node}
    (h : x ∈ self.GetConnectedNodesByType rt t) : rt.Resolves x := by
  unfold GetConnectedNodesByType at h
  obtain ⟨e, _, he⟩ := List.mem_filterMap.1 h
  exact Runtime.Resolves_of_FindNode he

theorem resolves_GetConnectedNodes {rt : Runtime} {self : Node} {slot : Slot}
    {x : Node × SlotId} (h : x ∈ self.GetConnectedNodes rt slot) : rt.Resolves x.1 := by
  unfold GetConnectedNodes at h
  obtain ⟨e, _, he⟩ := List.mem_filterMap.1 h
  cases hf : rt.FindNode e.m_nodeId with
  | none => rw [hf] at he; exact absurd he (by simp)
  | some m =>
    rw [hf] at he
    have : x = (m, e.m_slotId) := by simpa using he.symm
    rw [this]
    exact Runtime.Resolves_of_FindNode hf

end Node

theorem EventScopeLose_mono (h : EntityId) (slots : List SlotId) (x : Node × SlotId)
    (S S1 : Path) (hl : EventScopeLose h slots x S) (hsub : ∀ y ∈ S, y ∈ S1) :
    EventScopeLose h slots x S1 :=
  ⟨hl.1, fun hne => hsub _ (hl.2 hne)⟩

theorem EventScopeDone_mono (rt : Runtime) (h : EntityId) (slots : List SlotId) (m : Node)
    (S S1 : Path) (hd : EventScopeDone rt h slots m S) (hsub : ∀ y ∈ S, y ∈ S1) :
    EventScopeDone rt h slots m S1 :=
  fun x hx => EventScopeLose_mono h slots x S S1 (hd x hx) hsub

namespace Node

/-- What a result of the recursive event-scope search means. -/
theorem IsInEventHandlingScopeRec_spec (rt : Runtime) (h : EntityId) (slots : List SlotId) :
    ∀ (fuel : Nat) (self : Node) (conn : SlotId) (S : Path) (r : Bool × Path),
      rt.Resolves self →
      IsInEventHandlingScopeRec rt h slots fuel self conn S = some r →
      (∀ y ∈ S, y ∈ r.2) ∧ (r.1 = true → EventScopeWin rt h slots (self, conn))
        ∧ (r.1 = false → EventScopeLose h slots (self, conn) r.2
            ∧ rt.ClosedOver (EventScopeDone rt h slots) r.2 S) := by
  intro fuel
  induction fuel with
  | zero =>
    intro self conn S r _ hr
    unfold IsInEventHandlingScopeRec at hr
    exact absurd hr (by simp)
  | succ f ih =>
    intro self conn S r hres hr
    unfold IsInEventHandlingScopeRec at hr
    simp only at hr
    by_cases h1 : self.GetEntityId = h
    · rw [if_pos h1] at hr
      simp only [Option.some.injEq] at hr
      subst hr
      refine ⟨fun y hy => hy, ?_, ?_⟩
      · intro hb
        exact Or.inl ⟨h1, of_decide_eq_true hb⟩
      · intro hb
        refine ⟨⟨fun _ => of_decide_eq_false hb, fun hne => absurd h1 hne⟩,
          rt.ClosedOver_refl _ S⟩
    · rw [if_neg h1] at hr
      by_cases h2 : self.GetEntityId ∈ S
      · rw [if_pos h2] at hr
        simp only [Option.some.injEq] at hr
        subst hr
        refine ⟨fun y hy => hy, fun hb => absurd hb (by simp), fun _ => ?_⟩
        exact ⟨⟨fun he => absurd he h1, fun _ => h2⟩, rt.ClosedOver_refl _ S⟩
      · rw [if_neg h2] at hr
        obtain ⟨hsub, hwin, hlose⟩ := anyConnected_search rt (EventScopeDone rt h slots)
          (EventScopeDone_mono rt h slots) (EventScopeWin rt h slots)
          (EventScopeLose h slots) (EventScopeLose_mono h slots)
          (fun node p => IsInEventHandlingScopeRec rt h slots f node.1 node.2 p)
          (self.GetConnectedNodesAndSlotsByType rt SlotType.ExecutionIn)
          (self.GetEntityId :: S)
          (fun x hx S1 r1 _ hr1 =>
            ih x.1 x.2 S1 r1 (resolves_connectedNodesAndSlots hx) hr1) r hr
        refine ⟨fun y hy => hsub y (List.mem_cons_of_mem _ hy), ?_, ?_⟩
        · intro hb
          obtain ⟨x, hx, hxw⟩ := hwin hb
          refine Or.inr ⟨h1, ?_⟩
          rcases hxw with ⟨hxh, hxs⟩ | ⟨_, hxc⟩
          · exact EventChain.arrive self x h1 hx hxh hxs
          · exact EventChain.step self x h1 hx hxc
        · intro hb
          obtain ⟨hl, hc⟩ := hlose hb
          have hself : self.GetEntityId ∈ r.2 := hsub _ (List.mem_cons_self _ _)
          refine ⟨⟨fun he => absurd he h1, fun _ => hself⟩, ?_⟩
          intro m hm hm2 hmS
          by_cases hms : m.GetEntityId = self.GetEntityId
          · have : m = self := Runtime.Resolves_unique hm hres hms
            rw [this]
            exact hl
          · exact hc m hm hm2 (fun hmem => by
              rcases List.mem_cons.1 hmem with h3 | h3
              · exact hms h3
              · exact hmS h3)

/-- No chain starts at a node of a visited set that is closed from the empty set. -/
theorem EventChain_not_of_closed (rt : Runtime) (h : EntityId) (slots : List SlotId)
    (S : Path) (hc : rt.ClosedOver (EventScopeDone rt h slots) S []) :
    ∀ m, EventChain rt h slots m → rt.Resolves m → m.GetEntityId ∉ S := by
  intro m hchain
  induction hchain with
  | arrive m x _ hx hxh hxs =>
    intro hm hmS
    have hl := hc m hm hmS (List.not_mem_nil _) x hx
    exact hl.1 hxh hxs
  | step m x _ hx hxc ih =>
    intro hm hmS
    have hl := hc m hm hmS (List.not_mem_nil _) x hx
    have hxne : x.1.GetEntityId ≠ h := by
      cases hxc with
      | arrive _ _ hne _ _ _ => exact hne
      | step _ _ hne _ _ => exact hne
    exact ih (resolves_connectedNodesAndSlots hx) (hl.2 hxne)

end Node

/-- C11 (event-scope correctness). For a node `n` of the runtime and an id `h` other than
the id of `n`, with enough fuel `n.IsInEventHandlingScope(h)` returns a boolean, and it
returns true if and only if `h` resolves to an event handler and a chain of one or more
execution edges leads backward from an execution-in slot of `n` to `h`, through resolvable
nodes none of which is `h`, the last edge attached to an event slot of `h`.  It returns
false when `h` does not resolve to an event handler. -/
theorem C11_event_scope_correct (rt : Runtime) (n : Node) (h : EntityId) (fuel : Nat)
    (hnode : rt.Resolves n) (hne : n.GetEntityId ≠ h)
    (hfuel : rt.m_nodes.length + 2 ≤ fuel) :
    (n.IsInEventHandlingScope rt fuel h = some true
        ∨ n.IsInEventHandlingScope rt fuel h = some false)
      ∧ (n.IsInEventHandlingScope rt fuel h = some true ↔
          ∃ handler eventSlots, rt.FindNode h = some handler
            ∧ handler.m_class = NodeClass.eBusEventHandler eventSlots
            ∧ EventChain rt h eventSlots n)
      ∧ ((∀ handler eventSlots, rt.FindNode h = some handler →
            handler.m_class ≠ NodeClass.eBusEventHandler eventSlots) →
          n.IsInEventHandlingScope rt fuel h = some false) := by
  obtain ⟨b, hb⟩ := Node.IsInEventHandlingScope_returns rt n h
  have hres := hb fuel hfuel
  have hiff : n.IsInEventHandlingScope rt fuel h = some true ↔
      ∃ handler eventSlots, rt.FindNode h = some handler
        ∧ handler.m_class = NodeClass.eBusEventHandler eventSlots
        ∧ EventChain rt h eventSlots n := by
    unfold Node.IsInEventHandlingScope
    cases hf : rt.FindNode h with
    | none => simp
    | some node =>
      simp only
      cases hc : node.m_class with
      | plain =>
        constructor
        · intro hx; exact absurd hx (by simp)
        · rintro ⟨handler, slots2, hn2, hs2, _⟩
          rw [← Option.some.inj hn2, hc] at hs2
          exact absurd hs2 (by simp)
      | pureData =>
        constructor
        · intro hx; exact absurd hx (by simp)
        · rintro ⟨handler, slots2, hn2, hs2, _⟩
          rw [← Option.some.inj hn2, hc] at hs2
          exact absurd hs2 (by simp)
      | eBusEventHandler slots =>
        simp only
        obtain ⟨r, hr⟩ := Node.IsInEventHandlingScopeRec_returns_top rt h slots fuel n
          SlotId.empty [] hfuel
        obtain ⟨_, hwin, hlose⟩ := Node.IsInEventHandlingScopeRec_spec rt h slots fuel n
          SlotId.empty [] r hnode hr
        rw [hr]
        constructor
        · intro hrt
          have hrt1 : r.1 = true := by simpa using hrt
          rcases hwin hrt1 with ⟨he, _⟩ | ⟨_, hchain⟩
          · exact absurd he hne
          · exact ⟨node, slots, rfl, hc, hchain⟩
        · rintro ⟨node2, slots2, hn2, hs2, hchain⟩
          rw [← Option.some.inj hn2, hc] at hs2
          have hs3 : slots = slots2 := NodeClass.eBusEventHandler.inj hs2
          rw [← hs3] at hchain
          cases hr1 : r.1 with
          | true => simp [hr1]
          | false =>
            obtain ⟨hl, hcl⟩ := hlose hr1
            exact absurd (hl.2 hne)
              (Node.EventChain_not_of_closed rt h slots r.2 hcl n hchain hnode)
  refine ⟨?_, hiff, ?_⟩
  · cases b with
    | true => exact Or.inl hres
    | false => exact Or.inr hres
  · intro hno
    cases b with
    | false => exact hres
    | true =>
      obtain ⟨handler, slots, hf, hc, _⟩ := hiff.1 hres
      exact absurd hc (hno handler slots hf)

/-- Witness of C11 on the cyclic sample runtime: node 3 is not the handler 1, the search
returns true, and a chain leads from node 3 back to an event slot of the handler. -/
theorem C11_event_scope_correct_witness :
    (Runtime.cyclicNode 3).IsInEventHandlingScope Runtime.cyclicSample 5 ⟨1⟩ = some true
      ∧ ∃ handler eventSlots, Runtime.cyclicSample.FindNode ⟨1⟩ = some handler
          ∧ handler.m_class = NodeClass.eBusEventHandler eventSlots
          ∧ EventChain Runtime.cyclicSample ⟨1⟩ eventSlots (Runtime.cyclicNode 3) :=
  ⟨by decide,
   (C11_event_scope_correct Runtime.cyclicSample (Runtime.cyclicNode 3) ⟨1⟩ 5 (by decide)
      (by decide) (by decide)).2.1.1 (by decide)⟩

theorem DataFlowDone_mono (rt : Runtime) (scopeFuel : Nat) (target : EntityId) (m : Node)
    (S S1 : Path) (hd : DataFlowDone rt scopeFuel target m S) (hsub : ∀ y ∈ S, y ∈ S1) :
    DataFlowDone rt scopeFuel target m S1 :=
  ⟨hd.1, fun c hc => ⟨(hd.2 c hc).1, hsub _ (hd.2 c hc).2⟩⟩

namespace Node

/-- What a result of the recursive data-flow search means. -/
theorem IsTargetInDataFlowPathRec_spec (rt : Runtime) (scopeFuel : Nat) (target : EntityId) :
    ∀ (fuel : Nat) (self : Node) (S : Path) (r : Bool × Path),
      rt.Resolves self →
      IsTargetInDataFlowPathRec rt scopeFuel target fuel self S = some r →
      (∀ y ∈ S, y ∈ r.2)
        ∧ (r.1 = true → ∃ k, ExecReach rt self k ∧ DataFlowHit rt scopeFuel target k)
        ∧ (r.1 = false →
            (¬ DataFlowHit rt scopeFuel target self ∧ self.GetEntityId ∈ r.2)
              ∧ rt.ClosedOver (DataFlowDone rt scopeFuel target) r.2 S) := by
  intro fuel
  induction fuel with
  | zero =>
    intro self S r _ hr
    unfold IsTargetInDataFlowPathRec at hr
    exact absurd hr (by simp)
  | succ f ih =>
    intro self S r hres hr
    unfold IsTargetInDataFlowPathRec at hr
    simp only at hr
    by_cases h1 : self.GetEntityId = target
    · rw [if_pos h1] at hr
      simp only [Option.some.injEq] at hr
      subst hr
      exact ⟨fun y hy => hy, fun _ => ⟨self, ExecReach.refl self, Or.inl h1⟩,
        fun hb => absurd hb (by simp)⟩
    · rw [if_neg h1] at hr
      cases hs : self.IsInEventHandlingScope rt scopeFuel target with
      | none => rw [hs] at hr; exact absurd hr (by simp)
      | some b =>
        rw [hs] at hr
        cases b with
        | true =>
          simp only [Option.some.injEq] at hr
          subst hr
          exact ⟨fun y hy => hy, fun _ => ⟨self, ExecReach.refl self, Or.inr hs⟩,
            fun hb => absurd hb (by simp)⟩
        | false =>
          simp only at hr
          have hnohit : ¬ DataFlowHit rt scopeFuel target self := by
            rintro (hh | hh)
            · exact h1 hh
            · rw [hs] at hh; exact absurd hh (by simp)
          by_cases h2 : self.GetEntityId ∈ S
          · rw [if_pos h2] at hr
            simp only [Option.some.injEq] at hr
            subst hr
            exact ⟨fun y hy => hy, fun hb => absurd hb (by simp),
              fun _ => ⟨⟨hnohit, h2⟩, rt.ClosedOver_refl _ S⟩⟩
          · rw [if_neg h2] at hr
            obtain ⟨hsub, hwin, hlose⟩ := anyConnected_search rt
              (DataFlowDone rt scopeFuel target) (DataFlowDone_mono rt scopeFuel target)
              (fun c => ∃ k, ExecReach rt c k ∧ DataFlowHit rt scopeFuel target k)
              (fun c S1 => ¬ DataFlowHit rt scopeFuel target c ∧ c.GetEntityId ∈ S1)
              (fun c S1 S2 hl hsub => ⟨hl.1, hsub _ hl.2⟩)
              (fun node p => IsTargetInDataFlowPathRec rt scopeFuel target f node p)
              (self.GetConnectedNodesByType rt SlotType.ExecutionOut)
              (self.GetEntityId :: S)
              (fun x hx S1 r1 _ hr1 => ih x S1 r1 (resolves_connectedNodes hx) hr1) r hr
            refine ⟨fun y hy => hsub y (List.mem_cons_of_mem _ hy), ?_, ?_⟩
            · intro hb
              obtain ⟨c, hc, k, hck, hk⟩ := hwin hb
              exact ⟨k, ExecReach.step self c k hc hck, hk⟩
            · intro hb
              obtain ⟨hl, hc⟩ := hlose hb
              have hself : self.GetEntityId ∈ r.2 := hsub _ (List.mem_cons_self _ _)
              refine ⟨⟨hnohit, hself⟩, ?_⟩
              intro m hm hm2 hmS
              by_cases hms : m.GetEntityId = self.GetEntityId
              · have : m = self := Runtime.Resolves_unique hm hres hms
                rw [this]
                exact ⟨hnohit, hl⟩
              · exact hc m hm hm2 (fun hmem => by
                  rcases List.mem_cons.1 hmem with h3 | h3
                  · exact hms h3
                  · exact hmS h3)

/-- No node that ends the search is reachable from a node of a visited set that is closed
from the empty set. -/
theorem ExecReach_no_hit_of_closed (rt : Runtime) (scopeFuel : Nat) (target : EntityId)
    (S : Path) (hc : rt.ClosedOver (DataFlowDone rt scopeFuel target) S []) :
    ∀ m k, ExecReach rt m k → rt.Resolves m → m.GetEntityId ∈ S →
      ¬ DataFlowHit rt scopeFuel target k := by
  intro m k hreach
  induction hreach with
  | refl m =>
    intro hm hmS
    exact (hc m hm hmS (List.not_mem_nil _)).1
  | step m c k hcm _ ih =>
    intro hm hmS
    have hd := hc m hm hmS (List.not_mem_nil _)
    exact ih (resolves_connectedNodes hcm) (hd.2 c hcm).2

end Node

/-- C12 (data-flow reachability). For a source node `s` of the runtime and a target node
`t`, neither of the pure-data class, with enough fuel `s.IsTargetInDataFlowPath(t)` returns
a boolean, and it returns true if and only if some node `m` reachable from `s` by zero or
more execution-out edges, through resolvable nodes, has the id of `t` or lies in the event
handling scope of `t` (`m.IsInEventHandlingScope(t)` returns true). -/
theorem C12_data_flow_reachability (rt : Runtime) (s t : Node) (scopeFuel fuel : Nat)
    (hnode : rt.Resolves s) (hs : s.m_class ≠ NodeClass.pureData)
    (ht : t.m_class ≠ NodeClass.pureData)
    (hscope : rt.m_nodes.length + 2 ≤ scopeFuel) (hfuel : rt.m_nodes.length + 2 ≤ fuel) :
    (s.IsTargetInDataFlowPath rt scopeFuel fuel (some t) = some true
        ∨ s.IsTargetInDataFlowPath rt scopeFuel fuel (some t) = some false)
      ∧ (s.IsTargetInDataFlowPath rt scopeFuel fuel (some t) = some true ↔
          ∃ m, ExecReach rt s m
            ∧ (m.GetEntityId = t.GetEntityId
                ∨ m.IsInEventHandlingScope rt scopeFuel t.GetEntityId = some true)) := by
  obtain ⟨r, hr⟩ := Node.IsTargetInDataFlowPathRec_returns_top rt scopeFuel hscope
    t.GetEntityId fuel s [] hfuel
  obtain ⟨_, hwin, hlose⟩ := Node.IsTargetInDataFlowPathRec_spec rt scopeFuel t.GetEntityId
    fuel s [] r hnode hr
  have hval : s.IsTargetInDataFlowPath rt scopeFuel fuel (some t) = some r.1 := by
    unfold Node.IsTargetInDataFlowPath
    rw [if_neg hs]
    simp only
    rw [if_neg ht, hr]
    rfl
  rw [hval]
  refine ⟨?_, ?_⟩
  · cases r.1 with
    | true => exact Or.inl rfl
    | false => exact Or.inr rfl
  · constructor
    · intro h1
      exact hwin (Option.some.inj h1)
    · rintro ⟨m, hreach, hhit⟩
      cases hr1 : r.1 with
      | true => rfl
      | false =>
        obtain ⟨hl, hcl⟩ := hlose hr1
        exact absurd hhit
          (Node.ExecReach_no_hit_of_closed rt scopeFuel t.GetEntityId r.2 hcl s m hreach
            hnode hl.2)

/-- Witness of C12 on the cyclic sample runtime: from node 2 the search for node 3 returns
true and node 3 is reachable from node 2. -/
theorem C12_data_flow_reachability_witness :
    (Runtime.cyclicNode 2).IsTargetInDataFlowPath Runtime.cyclicSample 5 5
        (some (Runtime.cyclicNode 3)) = some true
      ∧ ∃ m, ExecReach Runtime.cyclicSample (Runtime.cyclicNode 2) m
          ∧ (m.GetEntityId = (Runtime.cyclicNode 3).GetEntityId
              ∨ m.IsInEventHandlingScope Runtime.cyclicSample 5
                  (Runtime.cyclicNode 3).GetEntityId = some true) :=
  ⟨by decide,
   (C12_data_flow_reachability Runtime.cyclicSample (Runtime.cyclicNode 2)
      (Runtime.cyclicNode 3) 5 5 (by decide) (by decide) (by decide) (by decide)
      (by decide)).2.1 (by decide)⟩

/-- C13 (self-target). For every node `B` in every runtime, `B.IsTargetInDataFlowPath(B)`
returns true for every positive fuel, and for a node that is not of the pure-data class the
recursive search returns true at its first check: with fuel for one call, no fuel for the
nested event-scope search, and an empty visited set left behind, so no other node is
visited. -/
theorem C13_self_target (rt : Runtime) (B : Node) (scopeFuel fuel : Nat) :
    B.IsTargetInDataFlowPath rt scopeFuel (fuel + 1) (some B) = some true
      ∧ Node.IsTargetInDataFlowPathRec rt 0 B.GetEntityId 1 B [] = some (true, []) := by
  constructor
  · unfold Node.IsTargetInDataFlowPath
    by_cases hp : B.m_class = NodeClass.pureData
    · rw [if_pos hp]
    · rw [if_neg hp]
      simp only
      rw [if_neg hp]
      unfold Node.IsTargetInDataFlowPathRec
      simp
  · unfold Node.IsTargetInDataFlowPathRec
    simp

/-- C14, the claim as stated fails.  Node 2 of the constant sample has no execution pin, its
only slot is a data-out slot, so it is a pure-data node in the words of the specification
and `IsPureData` returns true for it; it is not of the `PureData` class.  With node 2 as
the source and with node 2 as the target `IsTargetInDataFlowPath` makes the traversal and
returns false. -/
theorem C14_no_pins_not_short_circuited :
    (Runtime.constantNode 2).HasNoExecutionPins = true
      ∧ (Runtime.constantNode 2).IsPureData = true
      ∧ (Runtime.constantNode 2).IsTargetInDataFlowPath Runtime.constantSample 4 4
          (some (Runtime.constantNode 1)) = some false
      ∧ (Runtime.constantNode 1).IsTargetInDataFlowPath Runtime.constantSample 4 4
          (some (Runtime.constantNode 2)) = some false := by
  refine ⟨by decide, by decide, by decide, by decide⟩

/-- C14 as amended (short-circuit on the `PureData` class). For every source `s`, target
`t` and runtime: when `s` or `t` is of the `PureData` class (the test
`azrtti_cast<const PureData*>` of the source), `IsTargetInDataFlowPath` returns true
whatever the edges of the graph and for every fuel, also for no fuel at all, so no
traversal is made; a true answer without traversal is given in that case only; and when
neither is of the class the answer is the one of the traversal from `s`, with or without
execution pins on `s` and `t`. -/
theorem C14_pure_data_short_circuit (s t : Node) (rt : Runtime) :
    ((s.m_class = NodeClass.pureData ∨ t.m_class = NodeClass.pureData) →
        ∀ scopeFuel fuel : Nat,
          s.IsTargetInDataFlowPath rt scopeFuel fuel (some t) = some true)
      ∧ (∀ scopeFuel : Nat, s.IsTargetInDataFlowPath rt scopeFuel 0 (some t) = some true →
          s.m_class = NodeClass.pureData ∨ t.m_class = NodeClass.pureData)
      ∧ (¬ (s.m_class = NodeClass.pureData ∨ t.m_class = NodeClass.pureData) →
          ∀ scopeFuel fuel : Nat,
            s.IsTargetInDataFlowPath rt scopeFuel fuel (some t)
              = (Node.IsTargetInDataFlowPathRec rt scopeFuel t.GetEntityId fuel s []).map
                  Prod.fst) := by
  refine ⟨?_, ?_, ?_⟩
  · intro hpure a b
    unfold Node.IsTargetInDataFlowPath
    by_cases hs : s.m_class = NodeClass.pureData
    · rw [if_pos hs]
    · rw [if_neg hs]
      simp only
      rcases hpure with hp | hp
      · exact absurd hp hs
      · rw [if_pos hp]
  · intro a h
    by_cases hs : s.m_class = NodeClass.pureData
    · exact Or.inl hs
    · by_cases ht : t.m_class = NodeClass.pureData
      · exact Or.inr ht
      · unfold Node.IsTargetInDataFlowPath at h
        rw [if_neg hs] at h
        simp only at h
        rw [if_neg ht] at h
        unfold Node.IsTargetInDataFlowPathRec at h
        simp at h
  · intro hnot a b
    unfold Node.IsTargetInDataFlowPath
    rw [if_neg (fun hs => hnot (Or.inl hs))]
    simp only
    rw [if_neg (fun ht => hnot (Or.inr ht))]

/-- Witness of C14 as amended: a node of the `PureData` class without slots is in the data
flow path of node 3 of the cyclic sample runtime; node 3 gets a true answer without
traversal with that node as target; and for the plain nodes 2 and 1 of the constant sample
the answer is the one of the traversal. -/
theorem C14_pure_data_short_circuit_witness :
    (Node.empty (some ⟨9⟩) NodeClass.pureData).IsTargetInDataFlowPath Runtime.cyclicSample
        5 5 (some (Runtime.cyclicNode 3)) = some true
      ∧ ((Runtime.cyclicNode 3).m_class = NodeClass.pureData
          ∨ (Node.empty (some ⟨9⟩) NodeClass.pureData).m_class = NodeClass.pureData)
      ∧ (Runtime.constantNode 2).IsTargetInDataFlowPath Runtime.constantSample 4 4
          (some (Runtime.constantNode 1))
        = (Node.IsTargetInDataFlowPathRec Runtime.constantSample 4
            (Runtime.constantNode 1).GetEntityId 4 (Runtime.constantNode 2) []).map Prod.fst :=
  ⟨(C14_pure_data_short_circuit (Node.empty (some ⟨9⟩) NodeClass.pureData)
      (Runtime.cyclicNode 3) Runtime.cyclicSample).1 (Or.inl (by decide)) 5 5,
   (C14_pure_data_short_circuit (Runtime.cyclicNode 3)
      (Node.empty (some ⟨9⟩) NodeClass.pureData) Runtime.cyclicSample).2.1 5 (by decide),
   (C14_pure_data_short_circuit (Runtime.constantNode 2) (Runtime.constantNode 1)
      Runtime.constantSample).2.2 (by decide) 4 4⟩

theorem PureDataDone_mono (rt : Runtime) (m : Node) (S S1 : Path)
    (hd : PureDataDone rt m S) (hsub : ∀ y ∈ S, y ∈ S1) : PureDataDone rt m S1 := by
  rcases hd with h | ⟨h1, h2⟩
  · exact Or.inl h
  · exact Or.inr ⟨h1, fun c hc => hsub _ (h2 c hc)⟩

namespace Node

theorem mem_GetConnectedNodes {rt : Runtime} {self : Node} {slot : Slot}
    {x : Node × SlotId} (h : x ∈ self.GetConnectedNodes rt slot) : x.1 ∈ rt.m_nodes := by
  unfold GetConnectedNodes at h
  obtain ⟨e, _, he⟩ := List.mem_filterMap.1 h
  cases hf : rt.FindNode e.m_nodeId with
  | none => rw [hf] at he; exact absurd he (by simp)
  | some m =>
    rw [hf] at he
    have : x = (m, e.m_slotId) := by simpa using he.symm
    rw [this]
    exact Runtime.FindNode_mem hf

/-- The pure-data search returns for a node of the runtime when the fuel exceeds the number
of unvisited nodes. -/
theorem IsOnPureDataThreadHelper_returns (rt : Runtime) :
    ∀ (fuel : Nat) (self : Node) (path : Path),
      self ∈ rt.m_nodes → rt.unvisited path < fuel →
      ∃ r, IsOnPureDataThreadHelper rt fuel self path = some r ∧ ∀ y ∈ path, y ∈ r.2 := by
  intro fuel
  induction fuel with
  | zero => intro self path _ h; exact absurd h (Nat.not_lt_zero _)
  | succ f ih =>
    intro self path hmem hfuel
    unfold IsOnPureDataThreadHelper
    by_cases h1 : self.GetEntityId ∈ path
    · rw [if_pos h1]; exact ⟨_, rfl, fun y hy => hy⟩
    · rw [if_neg h1]
      by_cases h2 : self.IsEventHandler = true
      · rw [if_pos h2]; exact ⟨_, rfl, fun y hy => List.mem_cons_of_mem _ hy⟩
      · rw [if_neg h2]
        by_cases h3 : self.IsPureData = true
        · rw [if_pos h3]; exact ⟨_, rfl, fun y hy => List.mem_cons_of_mem _ hy⟩
        · rw [if_neg h3]
          have hlt := Runtime.unvisited_cons_lt rt path self hmem h1
          obtain ⟨r, hr, hsub⟩ := anyConnected_returns
            (fun node p => IsOnPureDataThreadHelper rt f node p)
            (self.GetConnectedNodesByType rt SlotType.DataIn)
            (self.GetEntityId :: path)
            (fun x hx p hp => ih x p (mem_connectedNodes hx)
              (by have := Runtime.unvisited_mono rt _ p hp; omega))
          exact ⟨r, hr, fun y hy => hsub y (List.mem_cons_of_mem _ hy)⟩

/-- With fuel above the number of nodes `IsOnPureDataThread` returns a boolean. -/
theorem IsOnPureDataThread_returns (rt : Runtime) (fuel : Nat) (self : Node)
    (slotId : SlotId) (hfuel : rt.m_nodes.length + 1 ≤ fuel) :
    ∃ b, self.IsOnPureDataThread rt fuel slotId = some b := by
  unfold IsOnPureDataThread
  cases self.GetSlot slotId with
  | none => exact ⟨false, rfl⟩
  | some slot =>
    simp only
    by_cases ht : slot.m_type = SlotType.DataIn
    · rw [if_pos ht]
      obtain ⟨r, hr, _⟩ := anyConnected_returns
        (fun (node : Node × SlotId) p => IsOnPureDataThreadHelper rt fuel node.1 p)
        (self.GetConnectedNodes rt slot) [self.GetEntityId]
        (fun x hx p _ => IsOnPureDataThreadHelper_returns rt fuel x.1 p
          (mem_GetConnectedNodes hx)
          (by have := Runtime.unvisited_le_length rt p; omega))
      exact ⟨r.1, by rw [hr]; rfl⟩
    · rw [if_neg ht]; exact ⟨false, rfl⟩

/-- What a result of the pure-data search means, for a visited set that holds `start`. -/
theorem IsOnPureDataThreadHelper_spec (rt : Runtime) (start : EntityId) :
    ∀ (fuel : Nat) (self : Node) (S : Path) (r : Bool × Path),
      start ∈ S → rt.Resolves self →
      IsOnPureDataThreadHelper rt fuel self S = some r →
      (∀ y ∈ S, y ∈ r.2) ∧ (r.1 = true → PureDataPathAvoiding rt start self)
        ∧ (r.1 = false → self.GetEntityId ∈ r.2 ∧ rt.ClosedOver (PureDataDone rt) r.2 S) := by
  intro fuel
  induction fuel with
  | zero =>
    intro self S r _ _ hr
    unfold IsOnPureDataThreadHelper at hr
    exact absurd hr (by simp)
  | succ f ih =>
    intro self S r hstart hres hr
    unfold IsOnPureDataThreadHelper at hr
    by_cases h1 : self.GetEntityId ∈ S
    · rw [if_pos h1] at hr
      simp only [Option.some.injEq] at hr
      subst hr
      exact ⟨fun y hy => hy, fun hb => absurd hb (by simp),
        fun _ => ⟨h1, rt.ClosedOver_refl _ S⟩⟩
    · rw [if_neg h1] at hr
      have hne : self.GetEntityId ≠ start := fun he => h1 (he ▸ hstart)
      have hclosedSelf : ∀ (S1 : Path), PureDataDone rt self S1 →
          ∀ m, rt.Resolves m → m.GetEntityId ∈ self.GetEntityId :: S →
            m.GetEntityId ∉ S → PureDataDone rt m S1 := by
        intro S1 hd m hm hm2 hmS
        rcases List.mem_cons.1 hm2 with h3 | h3
        · have : m = self := Runtime.Resolves_unique hm hres h3
          rw [this]; exact hd
        · exact absurd h3 hmS
      by_cases h2 : self.IsEventHandler = true
      · rw [if_pos h2] at hr
        simp only [Option.some.injEq] at hr
        subst hr
        refine ⟨fun y hy => List.mem_cons_of_mem _ hy, fun hb => absurd hb (by simp),
          fun _ => ⟨List.mem_cons_self _ _, ?_⟩⟩
        exact fun m hm hm2 hmS => hclosedSelf _ (Or.inl h2) m hm hm2 hmS
      · rw [if_neg h2] at hr
        have h2f : self.IsEventHandler = false := by simpa using h2
        by_cases h3 : self.IsPureData = true
        · rw [if_pos h3] at hr
          simp only [Option.some.injEq] at hr
          subst hr
          exact ⟨fun y hy => List.mem_cons_of_mem _ hy,
            fun _ => PureDataPathAvoiding.here self hne h2f h3,
            fun hb => absurd hb (by simp)⟩
        · rw [if_neg h3] at hr
          have h3f : self.IsPureData = false := by simpa using h3
          obtain ⟨hsub, hwin, hlose⟩ := anyConnected_search rt (PureDataDone rt)
            (PureDataDone_mono rt) (fun c => PureDataPathAvoiding rt start c)
            (fun c S1 => c.GetEntityId ∈ S1) (fun c S1 S2 hl hsub => hsub _ hl)
            (fun node p => IsOnPureDataThreadHelper rt f node p)
            (self.GetConnectedNodesByType rt SlotType.DataIn)
            (self.GetEntityId :: S)
            (fun x hx S1 r1 hS1 hr1 =>
              ih x S1 r1 (hS1 _ (List.mem_cons_of_mem _ hstart))
                (resolves_connectedNodes hx) hr1) r hr
          refine ⟨fun y hy => hsub y (List.mem_cons_of_mem _ hy), ?_, ?_⟩
          · intro hb
            obtain ⟨c, hc, hcw⟩ := hwin hb
            exact PureDataPathAvoiding.step self c hne h2f hc hcw
          · intro hb
            obtain ⟨hl, hc⟩ := hlose hb
            refine ⟨hsub _ (List.mem_cons_self _ _), ?_⟩
            intro m hm hm2 hmS
            by_cases hms : m.GetEntityId = self.GetEntityId
            · have : m = self := Runtime.Resolves_unique hm hres hms
              rw [this]
              exact Or.inr ⟨h3f, hl⟩
            · exact hc m hm hm2 (fun hmem => by
                rcases List.mem_cons.1 hmem with h4 | h4
                · exact hms h4
                · exact hmS h4)

/-- No pure-data path that avoids `start` begins at a node of a visited set that is closed
from the set that holds only `start`. -/
theorem PureDataPathAvoiding_not_of_closed (rt : Runtime) (start : EntityId) (S : Path)
    (hc : rt.ClosedOver (PureDataDone rt) S [start]) :
    ∀ v, PureDataPathAvoiding rt start v → rt.Resolves v → v.GetEntityId ∉ S := by
  intro v hpath
  induction hpath with
  | here v hne hh hp =>
    intro hv hvS
    rcases hc v hv hvS (by simpa using hne) with h | ⟨h, _⟩
    · rw [hh] at h; exact absurd h (by simp)
    · rw [hp] at h; exact absurd h (by simp)
  | step v p hne hh hpv _ ih =>
    intro hv hvS
    rcases hc v hv hvS (by simpa using hne) with h | ⟨_, h⟩
    · rw [hh] at h; exact absurd h (by simp)
    · exact ih (resolves_connectedNodes hpv) (h p hpv)

/-- For a known data-in slot, `IsOnPureDataThread` returns true exactly when a pure-data
path that avoids the node itself begins at a producer connected to the slot. -/
theorem IsOnPureDataThread_iff (rt : Runtime) (fuel : Nat) (self : Node) (slotId : SlotId)
    (slot : Slot) (hslot : self.GetSlot slotId = some slot)
    (htype : slot.m_type = SlotType.DataIn) (hfuel : rt.m_nodes.length + 1 ≤ fuel) :
    self.IsOnPureDataThread rt fuel slotId = some true ↔
      ∃ x ∈ self.GetConnectedNodes rt slot,
        PureDataPathAvoiding rt self.GetEntityId x.1 := by
  obtain ⟨r, hr, _⟩ := anyConnected_returns
    (fun (node : Node × SlotId) p => IsOnPureDataThreadHelper rt fuel node.1 p)
    (self.GetConnectedNodes rt slot) [self.GetEntityId]
    (fun x hx p _ => IsOnPureDataThreadHelper_returns rt fuel x.1 p
      (mem_GetConnectedNodes hx)
      (by have := Runtime.unvisited_le_length rt p; omega))
  obtain ⟨_, hwin, hlose⟩ := anyConnected_search rt (PureDataDone rt)
    (PureDataDone_mono rt)
    (fun (x : Node × SlotId) => PureDataPathAvoiding rt self.GetEntityId x.1)
    (fun (x : Node × SlotId) S1 => x.1.GetEntityId ∈ S1) (fun c S1 S2 hl hsub => hsub _ hl)
    (fun (node : Node × SlotId) p => IsOnPureDataThreadHelper rt fuel node.1 p)
    (self.GetConnectedNodes rt slot) [self.GetEntityId]
    (fun x hx S1 r1 hS1 hr1 =>
      IsOnPureDataThreadHelper_spec rt self.GetEntityId fuel x.1 S1 r1
        (hS1 _ (List.mem_singleton.2 rfl)) (resolves_GetConnectedNodes hx) hr1) r hr
  have hval : self.IsOnPureDataThread rt fuel slotId = some r.1 := by
    unfold IsOnPureDataThread
    rw [hslot]
    simp only
    rw [if_pos htype, hr]
    rfl
  rw [hval]
  constructor
  · intro h1
    exact hwin (Option.some.inj h1)
  · rintro ⟨x, hx, hpath⟩
    cases hr1 : r.1 with
    | true => rfl
    | false =>
      obtain ⟨hl, hcl⟩ := hlose hr1
      exact absurd (hl x hx)
        (PureDataPathAvoiding_not_of_closed rt self.GetEntityId r.2 hcl x.1 hpath
          (resolves_GetConnectedNodes hx))

end Node

/-- C15, the claim as stated fails on the data cycle sample runtime.  Slot 10 of node 1 is
a known data-in slot; its producer is node 2, whose producer is node 1, whose producer (at
slot 12) is node 3, which has no execution-out slot and is no event handler: a backward
path along data-in connections from a producer of the slot to a pure-data node, without an
event handler.  Yet `IsOnPureDataThread` returns false for slot 10, with fuel above the
number of nodes: the path passes through node 1 itself, which is in the visited set from
the start. -/
theorem C15_path_through_queried_node :
    (∃ slot, (Runtime.dataCycleNode 1).GetSlot ⟨10⟩ = some slot
        ∧ slot.m_type = SlotType.DataIn
        ∧ ∃ x ∈ (Runtime.dataCycleNode 1).GetConnectedNodes Runtime.dataCycleSample slot,
            PureDataPath Runtime.dataCycleSample x.1)
      ∧ Runtime.dataCycleSample.m_nodes.length + 1 ≤ 4
      ∧ (Runtime.dataCycleNode 1).IsOnPureDataThread Runtime.dataCycleSample 4 ⟨10⟩
          = some false := by
  refine ⟨⟨(Runtime.dataCycleNode 1).slotById ⟨10⟩, by decide, by decide,
    (Runtime.dataCycleNode 2, ⟨21⟩), by decide, ?_⟩, by decide, by decide⟩
  exact PureDataPath.step (Runtime.dataCycleNode 2) (Runtime.dataCycleNode 1) (by decide)
    (by decide)
    (PureDataPath.step (Runtime.dataCycleNode 1) (Runtime.dataCycleNode 3) (by decide)
      (by decide) (PureDataPath.here (Runtime.dataCycleNode 3) (by decide) (by decide)))

/-- C15 as amended (pure-data provenance). For every runtime, node `n` and known data-in
slot `s` of `n`, with fuel above the number of nodes `n.IsOnPureDataThread(s)` returns a
boolean, and it returns true if and only if a backward path along data-in connections,
starting at a producer connected to `s`, reaches a node for which `IsPureData` holds, no
node of the path up to and including that node being an event handler or `n` itself. -/
theorem C15_pure_data_provenance (rt : Runtime) (fuel : Nat) (n : Node) (slotId : SlotId)
    (slot : Slot) (hslot : n.GetSlot slotId = some slot)
    (htype : slot.m_type = SlotType.DataIn) (hfuel : rt.m_nodes.length + 1 ≤ fuel) :
    (n.IsOnPureDataThread rt fuel slotId = some true
        ∨ n.IsOnPureDataThread rt fuel slotId = some false)
      ∧ (n.IsOnPureDataThread rt fuel slotId = some true ↔
          ∃ x ∈ n.GetConnectedNodes rt slot,
            PureDataPathAvoiding rt n.GetEntityId x.1) := by
  refine ⟨?_, Node.IsOnPureDataThread_iff rt fuel n slotId slot hslot htype hfuel⟩
  obtain ⟨b, hb⟩ := Node.IsOnPureDataThread_returns rt fuel n slotId hfuel
  cases b with
  | true => exact Or.inl hb
  | false => exact Or.inr hb

/-- Witness of C15 as amended on the data cycle sample runtime: slot 12 of node 1 is fed by
node 3, so the search returns true and a path that avoids node 1 exists. -/
theorem C15_pure_data_provenance_witness :
    (Runtime.dataCycleNode 1).IsOnPureDataThread Runtime.dataCycleSample 4 ⟨12⟩ = some true
      ∧ ∃ x ∈ (Runtime.dataCycleNode 1).GetConnectedNodes Runtime.dataCycleSample
            ((Runtime.dataCycleNode 1).slotById ⟨12⟩),
          PureDataPathAvoiding Runtime.dataCycleSample (Runtime.dataCycleNode 1).GetEntityId
            x.1 :=
  ⟨by decide,
   (C15_pure_data_provenance Runtime.dataCycleSample 4 (Runtime.dataCycleNode 1) ⟨12⟩
      ((Runtime.dataCycleNode 1).slotById ⟨12⟩) (by decide) (by decide)
      (by decide)).2.1 (by decide)⟩

/-- C16, the claim as stated fails on the self loop sample runtime.  Slot 10 of the node is
a known data-in slot and its connected producer is the node itself, which has no execution
slot (`IsPureData` holds) and is no event handler; `IsOnPureDataThread` returns false,
because the node is in the visited set from the start. -/
theorem C16_producer_is_queried_node :
    (∃ slot, Runtime.selfLoopNode.GetSlot ⟨10⟩ = some slot
        ∧ slot.m_type = SlotType.DataIn
        ∧ ∃ x ∈ Runtime.selfLoopNode.GetConnectedNodes Runtime.selfLoopSample slot,
            x.1.IsPureData = true ∧ x.1.IsEventHandler = false)
      ∧ Runtime.selfLoopSample.m_nodes.length + 1 ≤ 2
      ∧ Runtime.selfLoopNode.IsOnPureDataThread Runtime.selfLoopSample 2 ⟨10⟩
          = some false := by
  refine ⟨⟨Runtime.selfLoopNode.slotById ⟨10⟩, by decide, by decide,
    (Runtime.selfLoopNode, ⟨11⟩), by decide, by decide, by decide⟩, by decide, by decide⟩

/-- C16 as amended. `IsOnPureDataThread(s)` returns false when the node does not know `s`,
when `s` is not a data-in slot and when `s` has no connected producer node.  With fuel
above the number of nodes it returns true when `s` is a data-in slot with a connected
producer, other than the node itself, for which `IsPureData` holds and which is no event
handler. -/
theorem C16_pure_data_thread_cases (rt : Runtime) (fuel : Nat) (n : Node) (slotId : SlotId) :
    (n.GetSlot slotId = none → n.IsOnPureDataThread rt fuel slotId = some false)
      ∧ (∀ slot, n.GetSlot slotId = some slot → slot.m_type ≠ SlotType.DataIn →
          n.IsOnPureDataThread rt fuel slotId = some false)
      ∧ (∀ slot, n.GetSlot slotId = some slot → n.GetConnectedNodes rt slot = [] →
          n.IsOnPureDataThread rt fuel slotId = some false)
      ∧ (∀ slot x, n.GetSlot slotId = some slot → slot.m_type = SlotType.DataIn →
          rt.m_nodes.length + 1 ≤ fuel → x ∈ n.GetConnectedNodes rt slot →
          x.1.GetEntityId ≠ n.GetEntityId → x.1.IsPureData = true →
          x.1.IsEventHandler = false →
          n.IsOnPureDataThread rt fuel slotId = some true) := by
  refine ⟨?_, ?_, ?_, ?_⟩
  · intro h
    unfold Node.IsOnPureDataThread
    rw [h]
  · intro slot h ht
    unfold Node.IsOnPureDataThread
    rw [h]
    simp only
    rw [if_neg ht]
  · intro slot h hc
    unfold Node.IsOnPureDataThread
    rw [h]
    simp only
    by_cases ht : slot.m_type = SlotType.DataIn
    · rw [if_pos ht, hc]
      rfl
    · rw [if_neg ht]
  · intro slot x h ht hfuel hx hne hp hh
    exact (Node.IsOnPureDataThread_iff rt fuel n slotId slot h ht hfuel).2
      ⟨x, hx, PureDataPathAvoiding.here x.1 hne hh hp⟩

/-- Witness of C16 as amended, the scenario of the specification: the constant node 1 feeds
the data-in slot 22 of node 2, so `IsOnPureDataThread` of that slot returns true. -/
theorem C16_pure_data_thread_cases_witness :
    (Runtime.scenarioNode 2).IsOnPureDataThread Runtime.scenarioSample 4 ⟨22⟩ = some true
      ∧ (Runtime.scenarioNode 2).IsOnPureDataThread Runtime.scenarioSample 4 ⟨23⟩
          = some false :=
  ⟨(C16_pure_data_thread_cases Runtime.scenarioSample 4 (Runtime.scenarioNode 2) ⟨22⟩).2.2.2
      (Runtime.scenarioSlot 22) (Runtime.scenarioNode 1, ⟨11⟩) (by decide) (by decide)
      (by decide) (by decide) (by decide) (by decide) (by decide),
   (C16_pure_data_thread_cases Runtime.scenarioSample 4 (Runtime.scenarioNode 2) ⟨23⟩).2.1
      (Runtime.scenarioSlot 23) (by decide) (by decide)⟩

/-! ## Type acceptance -/

namespace Node

/-- In a well-formed node the slot that `GetSlot` returns for an id has that id. -/
theorem GetSlot_id {n : Node} (h : n.WellFormed) {slotId : SlotId} {slot : Slot}
    (hs : n.GetSlot slotId = some slot) : slot.m_id = slotId := by
  unfold GetSlot at hs
  by_cases hv : slotId.IsValid = true
  · rw [if_pos hv] at hs
    unfold FindSlotIterator at hs
    cases hf : mapFind n.m_slotIdMap slotId with
    | none => rw [hf] at hs; exact absurd hs (by simp)
    | some e =>
      rw [hf] at hs
      simp only [Option.map_some'] at hs
      have hmem := cellDeref_some_mem hs
      have hspec := (index_find_spec (fun s : Slot => s.m_id) n.m_slots n.m_slotIdMap slotId e
        h.indices.slotIdMap h.slotCells (by simpa [slotIds] using h.slotIdsNodup) hf).2
      exact (hspec (e.2, slot) hmem).2 rfl
  · rw [if_neg hv] at hs
    exact absurd hs (by simp)

/-- When the binding of a slot resolves a datum, the data type of the slot is the type of
that datum. -/
theorem GetSlotDataType_of_datum (reg : VariableRegistry) (n : Node) (slotId : SlotId)
    (varDatum : VariableDatumBase) (h : n.GetActiveVariableDatum reg slotId = some varDatum) :
    n.GetSlotDataType reg slotId = varDatum.m_data.m_type := by
  unfold GetSlotDataType
  cases hf : mapFind n.m_slotIdVarInfoMap slotId with
  | none =>
    exfalso
    unfold GetActiveVariableDatum GetVariableId at h
    rw [hf] at h
    simp only at h
    rw [if_neg (by decide)] at h
    exact absurd h (by simp)
  | some e =>
    simp only
    rw [h]

end Node

/-- C17, the code departs from the claim.  The data-in slot 40 of `Node.datumSample` and the
data-in slot 50 of `Node.typedSample` both have the resolved input type 1, the first through
the datum of its active variable, the second as its declared type.  In the type algebra
where type 2 is-a type 1 and nothing converts, the first accepts type 2 and the second
rejects it: with a datum the code tests `Data::IS_A(T, datum type)`, the candidate against
the resolved type, while its sibling branch tests `Data::IS_A(input type, T)`.  Acceptance
by the datum branch is not "the resolved type is-a T or is convertible from T", which is
false for resolved type 1 and T = 2. -/
theorem C17_datum_branch_tests_candidate :
    (∃ slot, Node.datumSample.GetSlot ⟨40⟩ = some slot ∧ slot.m_type = SlotType.DataIn)
      ∧ (∃ slot, Node.typedSample.GetSlot ⟨50⟩ = some slot ∧ slot.m_type = SlotType.DataIn)
      ∧ Node.datumSample.GetSlotDataType [] ⟨40⟩ = ⟨1⟩
      ∧ Node.typedSample.GetSlotDataType [] ⟨50⟩ = ⟨1⟩
      ∧ Data.IS_A TypeAlgebra.oneSubtype ⟨1⟩ ⟨2⟩ = false
      ∧ TypeAlgebra.oneSubtype.IsConvertibleFrom ⟨1⟩ ⟨2⟩ = false
      ∧ Node.datumSample.SlotAcceptsType TypeAlgebra.oneSubtype [] ⟨40⟩ ⟨2⟩ = true
      ∧ Node.typedSample.SlotAcceptsType TypeAlgebra.oneSubtype [] ⟨50⟩ ⟨2⟩ = false := by
  refine ⟨⟨Node.datumSample.slotById ⟨40⟩, by decide, by decide⟩,
    ⟨Node.typedSample.slotById ⟨50⟩, by decide, by decide⟩,
    by decide, by decide, by decide, by decide, by decide, by decide⟩

/-- The two data-in branches of `SlotAcceptsType`, behind the finding for C17. For every
well-formed node, known data-in slot `s` and type `T`: when
the active variable of the slot resolves a datum, the resolved type `R` of the slot is the
type of that datum and `SlotAcceptsType(s, T)` is true if and only if `T` is-a `R`
(`Data::IS_A(T, R)`) or `R` is convertible from `T`; when no datum resolves,
`SlotAcceptsType(s, T)` is true if and only if the data type `R` of the slot is valid and
`R` is-a `T` (`Data::IS_A(R, T)`) or `R` is convertible from `T`. -/
theorem C17_data_in_acceptance (alg : TypeAlgebra) (reg : VariableRegistry) (n : Node)
    (slotID : SlotId) (slot : Slot) (T : DataType) (hwf : n.WellFormed)
    (hslot : n.GetSlot slotID = some slot) (htype : slot.m_type = SlotType.DataIn) :
    (∀ varDatum, n.GetActiveVariableDatum reg slotID = some varDatum →
        n.GetSlotDataType reg slotID = varDatum.m_data.m_type
          ∧ (n.SlotAcceptsType alg reg slotID T = true ↔
              Data.IS_A alg T (n.GetSlotDataType reg slotID) = true
                ∨ alg.IsConvertibleFrom (n.GetSlotDataType reg slotID) T = true))
      ∧ (n.GetActiveVariableDatum reg slotID = none →
          (n.SlotAcceptsType alg reg slotID T = true ↔
            (n.GetSlotDataType reg slotID).IsValid = true
              ∧ (Data.IS_A alg (n.GetSlotDataType reg slotID) T = true
                  ∨ alg.IsConvertibleFrom (n.GetSlotDataType reg slotID) T = true))) := by
  have hid : slot.m_id = slotID := Node.GetSlot_id hwf hslot
  constructor
  · intro varDatum hv
    have hR := Node.GetSlotDataType_of_datum reg n slotID varDatum hv
    refine ⟨hR, ?_⟩
    unfold Node.SlotAcceptsType
    rw [hslot]
    simp only
    rw [if_pos htype]
    unfold Node.GetInput
    rw [hv, hR]
    simp [Datum.IsConvertibleFrom]
  · intro hv
    unfold Node.SlotAcceptsType
    rw [hslot]
    simp only
    rw [if_pos htype]
    unfold Node.GetInput
    rw [hv]
    simp [Node.slotGetDataType, hid]

/-- The datum branch on slot 40 of `Node.datumSample`, which resolves a datum of type 1 and
accepts type 2, which is-a type 1. -/
theorem C17_data_in_acceptance_witness :
    Node.datumSample.SlotAcceptsType TypeAlgebra.oneSubtype [] ⟨40⟩ ⟨2⟩ = true :=
  (((C17_data_in_acceptance TypeAlgebra.oneSubtype [] Node.datumSample ⟨40⟩
      (Node.datumSample.slotById ⟨40⟩) ⟨2⟩
      (Node.runOps_wellFormed EqualKeyOrder.newestFirst [] _ _ (Node.empty_wellFormed _ _)
        (by decide))
      (by decide) (by decide)).1
    ((Node.datumSample.GetActiveVariableDatum [] ⟨40⟩).getD ⟨⟨0⟩, ⟨⟨0⟩, 0, "", ⟨0⟩⟩⟩)
    (by decide)).2).2 (Or.inl (by decide))

/-- C18, the claim as stated fails.  The data-out slot 11 of node 1 of the scenario has the
declared type 1; in the type algebra where type 2 is-a type 1 and nothing converts, the
candidate type 2 is-a the declared type, yet `SlotAcceptsType` rejects it, because the code
tests `Data::IS_A(O, T)`, the declared type against the candidate.  And the data-out slot
23 of node 2 has the invalid declared type; with is-a as equality of types the invalid
candidate type is-a the declared type, yet `SlotAcceptsType` rejects it, because the code
requires a valid declared type. -/
theorem C18_declared_type_tested_against_candidate :
    (∃ slot, (Runtime.scenarioNode 1).GetSlot ⟨11⟩ = some slot
        ∧ slot.m_type = SlotType.DataOut)
      ∧ (Runtime.scenarioNode 1).GetSlotDataType [] ⟨11⟩ = ⟨1⟩
      ∧ Data.IS_A TypeAlgebra.oneSubtype ⟨2⟩ ⟨1⟩ = true
      ∧ (Runtime.scenarioNode 1).SlotAcceptsType TypeAlgebra.oneSubtype [] ⟨11⟩ ⟨2⟩ = false
      ∧ (∃ slot, (Runtime.scenarioNode 2).GetSlot ⟨23⟩ = some slot
          ∧ slot.m_type = SlotType.DataOut)
      ∧ (Runtime.scenarioNode 2).GetSlotDataType [] ⟨23⟩ = DataType.Invalid
      ∧ Data.IS_A TypeAlgebra.exact DataType.Invalid DataType.Invalid = true
      ∧ (Runtime.scenarioNode 2).SlotAcceptsType TypeAlgebra.exact [] ⟨23⟩ DataType.Invalid
          = false := by
  refine ⟨⟨(Runtime.scenarioNode 1).slotById ⟨11⟩, by decide, by decide⟩,
    by decide, by decide, by decide,
    ⟨(Runtime.scenarioNode 2).slotById ⟨23⟩, by decide, by decide⟩,
    by decide, by decide, by decide⟩

/-- C18 as amended. For every well-formed node, known data-out slot `s` with data type `O`
and type `T`, `SlotAcceptsType(s, T)` is true if and only if `O` is valid and `O` is-a `T`
(`Data::IS_A(O, T)`) or `O` is convertible to `T`. -/
theorem C18_data_out_acceptance (alg : TypeAlgebra) (reg : VariableRegistry) (n : Node)
    (slotID : SlotId) (slot : Slot) (T : DataType) (hwf : n.WellFormed)
    (hslot : n.GetSlot slotID = some slot) (htype : slot.m_type = SlotType.DataOut) :
    n.SlotAcceptsType alg reg slotID T = true ↔
      (n.GetSlotDataType reg slotID).IsValid = true
        ∧ (Data.IS_A alg (n.GetSlotDataType reg slotID) T = true
            ∨ alg.IsConvertibleTo (n.GetSlotDataType reg slotID) T = true) := by
  have hid : slot.m_id = slotID := Node.GetSlot_id hwf hslot
  have hne : ¬ slot.m_type = SlotType.DataIn := by rw [htype]; decide
  unfold Node.SlotAcceptsType
  rw [hslot]
  simp only
  rw [if_neg hne]
  simp [Node.slotGetDataType, hid]

/-- Witness of C18 as amended: the data-out slot 11 of node 1 of the scenario, of declared
type 1, accepts type 1. -/
theorem C18_data_out_acceptance_witness :
    (Runtime.scenarioNode 1).SlotAcceptsType TypeAlgebra.oneSubtype [] ⟨11⟩ ⟨1⟩ = true :=
  (C18_data_out_acceptance TypeAlgebra.oneSubtype [] (Runtime.scenarioNode 1) ⟨11⟩
      ((Runtime.scenarioNode 1).slotById ⟨11⟩) ⟨1⟩
      (Node.runOps_wellFormed EqualKeyOrder.newestFirst [] _ _ (Node.empty_wellFormed _ _)
        (by decide))
      (by decide) (by decide)).2 ⟨by decide, Or.inl (by decide)⟩

/-! ## Dynamic slots -/

namespace Node

/-- When `DynamicSlotAcceptsType` is asked about the id of a slot of the input group and
answers true, `DynamicSlotInputAcceptsType` answered true for every slot of the group. -/
theorem DynamicSlotAcceptsType_group (alg : TypeAlgebra) (reg : VariableRegistry)
    (rt : Runtime) (n : Node) (slotID : SlotId) (type : DataType) (arity : DynamicTypeArity)
    (outputSlot : Slot) (inputSlots : List Slot) (s : Slot) (hs : s ∈ inputSlots)
    (hid : s.m_id = slotID)
    (h : n.DynamicSlotAcceptsType alg reg rt slotID type arity outputSlot inputSlots = true) :
    ∀ slot ∈ inputSlots,
      n.DynamicSlotInputAcceptsType alg reg rt slotID type arity slot = true := by
  have hany : inputSlots.any (fun slot => decide (slot.m_id = slotID)) = true :=
    List.any_eq_true.2 ⟨s, hs, decide_eq_true hid⟩
  unfold DynamicSlotAcceptsType at h
  by_cases hv : type.IsValid = true
  · rw [if_pos hv] at h
    simp only [hany, if_true] at h
    by_cases hg : inputSlots.all (fun slot =>
        n.DynamicSlotInputAcceptsType alg reg rt slotID type arity slot) = true
    · exact fun slot hslot => List.all_eq_true.1 hg slot hslot
    · rw [if_neg hg] at h
      exact absurd h (by simp)
  · rw [if_neg hv] at h
    exact absurd h (by simp)

end Node

/-- C19 (dynamic Single-arity exclusivity). For every node, every slot `s` of the supplied
input-slot group whose id is the queried id, and every candidate type, if `s` has at least
one connected upstream node then `DynamicSlotAcceptsType` with arity Single returns
false. -/
theorem C19_single_arity_exclusive (alg : TypeAlgebra) (reg : VariableRegistry) (rt : Runtime)
    (n : Node) (slotID : SlotId) (T : DataType) (outputSlot : Slot) (inputSlots : List Slot)
    (s : Slot) (hs : s ∈ inputSlots) (hid : s.m_id = slotID)
    (hconn : n.GetConnectedNodes rt s ≠ []) :
    n.DynamicSlotAcceptsType alg reg rt slotID T DynamicTypeArity.Single outputSlot inputSlots
      = false := by
  cases hres : n.DynamicSlotAcceptsType alg reg rt slotID T DynamicTypeArity.Single outputSlot
      inputSlots with
  | false => rfl
  | true =>
    have hall := Node.DynamicSlotAcceptsType_group alg reg rt n slotID T
      DynamicTypeArity.Single outputSlot inputSlots s hs hid hres s hs
    unfold Node.DynamicSlotInputAcceptsType at hall
    rw [if_pos (And.intro rfl hconn)] at hall
    exact absurd hall (by simp)

/-- Witness of C19, the scenario of the specification: slot 22 of node 2 is connected to the
constant node 1, so a second proposal of type 1 for the slot is rejected under arity
Single. -/
theorem C19_single_arity_exclusive_witness :
    (Runtime.scenarioNode 2).DynamicSlotAcceptsType TypeAlgebra.exact [] Runtime.scenarioSample
      ⟨22⟩ ⟨1⟩ DynamicTypeArity.Single (Runtime.scenarioSlot 23) [Runtime.scenarioSlot 22]
      = false :=
  C19_single_arity_exclusive TypeAlgebra.exact [] Runtime.scenarioSample
    (Runtime.scenarioNode 2) ⟨22⟩ ⟨1⟩ (Runtime.scenarioSlot 23) [Runtime.scenarioSlot 22]
    (Runtime.scenarioSlot 22) (by decide) (by decide) (by decide)

/-- C20 (dynamic mutual compatibility). For every slot `s` of the supplied input-slot group
whose id is the queried id and every candidate type `T`, if `DynamicSlotAcceptsType`
returns true then for every upstream node connected to `s`, with the data type `U` of its
connected slot, `U` is-a `T` or `T` is-a `U`. -/
theorem C20_mutual_compatibility (alg : TypeAlgebra) (reg : VariableRegistry) (rt : Runtime)
    (n : Node) (slotID : SlotId) (T : DataType) (arity : DynamicTypeArity) (outputSlot : Slot)
    (inputSlots : List Slot) (s : Slot) (hs : s ∈ inputSlots) (hid : s.m_id = slotID)
    (h : n.DynamicSlotAcceptsType alg reg rt slotID T arity outputSlot inputSlots = true) :
    ∀ x ∈ n.GetConnectedNodes rt s,
      alg.IS_A (x.1.GetSlotDataType reg x.2) T = true
        ∨ alg.IS_A T (x.1.GetSlotDataType reg x.2) = true := by
  have hall := Node.DynamicSlotAcceptsType_group alg reg rt n slotID T arity outputSlot
    inputSlots s hs hid h s hs
  unfold Node.DynamicSlotInputAcceptsType at hall
  simp only at hall
  intro x hx
  by_cases hc : arity = DynamicTypeArity.Single ∧ n.GetConnectedNodes rt s ≠ []
  · rw [if_pos hc] at hall
    exact absurd hall (by simp)
  · rw [if_neg hc] at hall
    have := List.all_eq_true.1 hall x hx
    simpa using this

/-- Witness of C20 on the scenario of the specification with arity Multiple: the proposal
of type 1 for slot 22 of node 2 is accepted, and the type of the connected slot of the
constant node 1 is-a type 1. -/
theorem C20_mutual_compatibility_witness :
    (Runtime.scenarioNode 2).DynamicSlotAcceptsType TypeAlgebra.exact [] Runtime.scenarioSample
        ⟨22⟩ ⟨1⟩ DynamicTypeArity.Multiple (Runtime.scenarioSlot 23) [Runtime.scenarioSlot 22]
        = true
      ∧ (TypeAlgebra.exact.IS_A ((Runtime.scenarioNode 1).GetSlotDataType [] ⟨11⟩) ⟨1⟩ = true
          ∨ TypeAlgebra.exact.IS_A ⟨1⟩ ((Runtime.scenarioNode 1).GetSlotDataType [] ⟨11⟩)
              = true) :=
  ⟨by decide,
   C20_mutual_compatibility TypeAlgebra.exact [] Runtime.scenarioSample
    (Runtime.scenarioNode 2) ⟨22⟩ ⟨1⟩ DynamicTypeArity.Multiple (Runtime.scenarioSlot 23)
    [Runtime.scenarioSlot 22] (Runtime.scenarioSlot 22) (by decide) (by decide) (by decide)
    (Runtime.scenarioNode 1, ⟨11⟩) (by decide)⟩

namespace Node

/-- A true answer of `DynamicSlotAcceptsType` has passed the loop over the nodes connected
to the output slot. -/
theorem DynamicSlotAcceptsType_outputs (alg : TypeAlgebra) (reg : VariableRegistry)
    (rt : Runtime) (n : Node) (slotID : SlotId) (type : DataType) (arity : DynamicTypeArity)
    (outputSlot : Slot) (inputSlots : List Slot)
    (h : n.DynamicSlotAcceptsType alg reg rt slotID type arity outputSlot inputSlots = true) :
    (n.GetConnectedNodes rt outputSlot).all (fun output =>
      alg.IS_A type (output.1.GetSlotDataType reg output.2)) = true := by
  cases hA : (n.GetConnectedNodes rt outputSlot).all (fun output =>
      alg.IS_A type (output.1.GetSlotDataType reg output.2)) with
  | true => rfl
  | false =>
    unfold DynamicSlotAcceptsType at h
    simp only [hA] at h
    simp at h

end Node

/-- C21 (dynamic downstream acceptance). For every queried slot id, in particular the id of
the output slot, and every candidate type `T`: if `DynamicSlotAcceptsType` returns true then
for every downstream consumer connected to the output slot, with the data type `D` of its
connected slot, `T` is-a `D`; and one connected consumer for which `T` is-a `D` is false
forces the result false. -/
theorem C21_downstream_acceptance (alg : TypeAlgebra) (reg : VariableRegistry) (rt : Runtime)
    (n : Node) (slotID : SlotId) (T : DataType) (arity : DynamicTypeArity) (outputSlot : Slot)
    (inputSlots : List Slot) :
    (n.DynamicSlotAcceptsType alg reg rt slotID T arity outputSlot inputSlots = true →
        ∀ x ∈ n.GetConnectedNodes rt outputSlot,
          alg.IS_A T (x.1.GetSlotDataType reg x.2) = true)
      ∧ (∀ x ∈ n.GetConnectedNodes rt outputSlot,
          alg.IS_A T (x.1.GetSlotDataType reg x.2) = false →
          n.DynamicSlotAcceptsType alg reg rt slotID T arity outputSlot inputSlots
            = false) := by
  constructor
  · intro h x hx
    exact List.all_eq_true.1
      (Node.DynamicSlotAcceptsType_outputs alg reg rt n slotID T arity outputSlot inputSlots h)
      x hx
  · intro x hx hno
    cases hres : n.DynamicSlotAcceptsType alg reg rt slotID T arity outputSlot inputSlots with
    | false => rfl
    | true =>
      have := List.all_eq_true.1
        (Node.DynamicSlotAcceptsType_outputs alg reg rt n slotID T arity outputSlot inputSlots
          hres) x hx
      rw [hno] at this
      exact absurd this (by simp)

/-- Witness of C21 on the typed chain sample: the output slot 11 of node 1 feeds a slot of
declared type 1; the candidate type 1 is accepted and is-a the consumer type, the candidate
type 2 is not and is rejected. -/
theorem C21_downstream_acceptance_witness :
    TypeAlgebra.exact.IS_A ⟨1⟩ ((Runtime.typedChainNode 5).GetSlotDataType [] ⟨50⟩) = true
      ∧ (Runtime.typedChainNode 1).DynamicSlotAcceptsType TypeAlgebra.exact []
          Runtime.typedChainSample ⟨11⟩ ⟨2⟩ DynamicTypeArity.Single
          ((Runtime.typedChainNode 1).slotById ⟨11⟩) [] = false :=
  ⟨(C21_downstream_acceptance TypeAlgebra.exact [] Runtime.typedChainSample
      (Runtime.typedChainNode 1) ⟨11⟩ ⟨1⟩ DynamicTypeArity.Single
      ((Runtime.typedChainNode 1).slotById ⟨11⟩) []).1 (by decide)
      (Runtime.typedChainNode 5, ⟨50⟩) (by decide),
   (C21_downstream_acceptance TypeAlgebra.exact [] Runtime.typedChainSample
      (Runtime.typedChainNode 1) ⟨11⟩ ⟨2⟩ DynamicTypeArity.Single
      ((Runtime.typedChainNode 1).slotById ⟨11⟩) []).2
      (Runtime.typedChainNode 5, ⟨50⟩) (by decide) (by decide)⟩

/-! ## Bindings of slots -/

theorem mapFind_mapAssign_self {K V : Type} [DecidableEq K] (m : List (K × V)) (k : K)
    (v : V) : mapFind (mapAssign m k v) k = some (k, v) := by
  induction m with
  | nil => simp [mapAssign, mapFind]
  | cons e t ih =>
    by_cases h : e.1 = k
    · simp [mapAssign, mapFind, h]
    · have ih1 : List.find? (fun e => decide (e.1 = k)) (mapAssign t k v) = some (k, v) := ih
      simp [mapAssign, mapFind, h, ih1]

theorem cellDeref_append_singleton {A : Type} (l : List (Cell × A)) (c : Cell) (x : A)
    (h : c ∉ l.map Prod.fst) : cellDeref (l ++ [(c, x)]) c = some x := by
  unfold cellDeref
  rw [List.find?_append]
  have hnone : l.find? (fun e => decide (e.1 = c)) = none := by
    rw [List.find?_eq_none]
    intro e he hc
    exact h (List.mem_map.2 ⟨e, he, of_decide_eq_true hc⟩)
  rw [hnone]
  simp

theorem emplaceAtIndex_neg_one {A : Type} (l : List A) (x : A) :
    emplaceAtIndex l (-1) x = l ++ [x] := by
  unfold emplaceAtIndex
  rw [if_pos (Or.inl (by decide))]

namespace Node

theorem succ_nextCell_not_mem_vars {n : Node} (h : n.WellFormed) :
    n.m_nextCell + 1 ∉ n.m_varDatums.map Prod.fst := by
  intro hc
  obtain ⟨e, he, hec⟩ := List.mem_map.1 hc
  have hlt := h.varCellsBelow e he
  rw [hec] at hlt
  exact absurd hlt (by simp)

end Node

/-- C22 (binding of `AddInputDatumSlot`). For every well-formed node, every configuration
of kind DataIn that `InsertSlotInternal` accepts, every initial datum `d` and freshly
generated ids, `AddInputDatumSlot` returns the new slot id and sends one slot-added
notification; the slot list is the old one with exactly one new DataIn slot at the end;
the variable list is the old one with exactly one new variable at the end, which holds `d`
(type and value of `d`, labelled with the slot name); the id to variable index resolves
the new id to that variable; the binding of the new slot has owned id and active id equal
to the new variable id, so `GetSlotVariableId` of the new slot is that id and `GetInput`
of the new slot is the stored datum. -/
theorem C22_add_input_datum_slot (order : EqualKeyOrder) (reg : VariableRegistry) (n : Node)
    (cfg : SlotConfiguration) (d : Datum) (newSlotId : SlotId) (newVarId : VariableId)
    (hwf : n.WellFormed) (hkind : cfg.m_type = SlotType.DataIn)
    (hvar : newVarId ∉ n.variableIds)
    (hvalid : newVarId.IsValid = true)
    (hacc : (n.InsertSlotInternal order (-1) cfg newSlotId none).success = true) :
    (n.AddInputDatumSlot order reg cfg d newSlotId newVarId).slotId = newSlotId
      ∧ (n.AddInputDatumSlot order reg cfg d newSlotId newVarId).events
          = [NodeNotification.OnSlotAdded n.notificationAddress newSlotId]
      ∧ (n.AddInputDatumSlot order reg cfg d newSlotId newVarId).node.m_slots
          = n.m_slots ++ [(n.m_nextCell, n.constructSlot cfg newSlotId)]
      ∧ (n.constructSlot cfg newSlotId).m_id = newSlotId
      ∧ (n.constructSlot cfg newSlotId).m_type = SlotType.DataIn
      ∧ (n.AddInputDatumSlot order reg cfg d newSlotId newVarId).node.m_varDatums
          = n.m_varDatums ++ [(n.m_nextCell + 1, n.constructVariable cfg d newVarId)]
      ∧ (n.constructVariable cfg d newVarId).m_id = newVarId
      ∧ (n.constructVariable cfg d newVarId).m_data
          = { d with m_label := cfg.m_name, m_notificationId := n.GetEntityId }
      ∧ mapFind (n.AddInputDatumSlot order reg cfg d newSlotId newVarId).node.m_varIdMap
          newVarId = some (newVarId, n.m_nextCell + 1)
      ∧ (∃ info,
          mapFind (n.AddInputDatumSlot order reg cfg d newSlotId newVarId).node.m_slotIdVarInfoMap
              newSlotId = some (newSlotId, info)
            ∧ info.m_ownedVariableId = newVarId ∧ info.m_currentVariableId = newVarId)
      ∧ (n.AddInputDatumSlot order reg cfg d newSlotId newVarId).node.GetSlotVariableId
          newSlotId = newVarId
      ∧ (n.AddInputDatumSlot order reg cfg d newSlotId newVarId).node.GetInput reg newSlotId
          = some (n.constructVariable cfg d newVarId).m_data := by
  have hnode := Node.InsertInputDatumSlotInternal_node order reg n (-1) cfg d newSlotId
    newVarId none hwf hacc
  have hsucc : (Node.InsertInputDatumSlotInternal order reg n (-1) cfg d newSlotId newVarId
      none).success = true := by
    unfold Node.InsertInputDatumSlotInternal
    simp only [hacc, if_true]
  have hiter : (Node.InsertInputDatumSlotInternal order reg n (-1) cfg d newSlotId newVarId
      none).iterOut = some n.m_nextCell := by
    rcases Node.InsertSlotInternal_cases order n (-1) cfg newSlotId none with ⟨h0, _⟩ | ⟨_, h1, _⟩
    · rw [h0] at hacc; exact absurd hacc (by decide)
    · unfold Node.InsertInputDatumSlotInternal
      simp only [hacc, if_true, h1]
  have hslots : (Node.InsertInputDatumSlotInternal order reg n (-1) cfg d newSlotId newVarId
      none).node.m_slots = n.m_slots ++ [(n.m_nextCell, n.constructSlot cfg newSlotId)] := by
    rw [hnode]
    exact emplaceAtIndex_neg_one _ _
  have hsid : (Node.InsertInputDatumSlotInternal order reg n (-1) cfg d newSlotId newVarId
      none).node.slotIdAt (some n.m_nextCell) = newSlotId := by
    rw [Node.slotIdAt_congr _ (n.emplaceSlot order (-1) cfg newSlotId) _ (by rw [hnode])]
    exact Node.slotIdAt_emplaceSlot order n (-1) cfg newSlotId (Node.nextCell_not_mem_slots hwf)
  have haddr : (Node.InsertInputDatumSlotInternal order reg n (-1) cfg d newSlotId newVarId
      none).node.notificationAddress = n.notificationAddress := by
    rw [hnode]; rfl
  have hkey : newVarId ∉ n.m_varIdMap.map Prod.fst := fun hk =>
    hvar ((Node.keys_varIdMap hwf.indices).mem_iff.1 hk)
  have hidx : mapFind (Node.InsertInputDatumSlotInternal order reg n (-1) cfg d newSlotId
      newVarId none).node.m_varIdMap newVarId = some (newVarId, n.m_nextCell + 1) := by
    rw [hnode]
    show mapFind (mapEmplace n.m_varIdMap newVarId (n.m_nextCell + 1)) newVarId = _
    rw [mapEmplace_of_not_mem _ _ _ hkey]
    exact mapFind_append_singleton _ _ _ hkey
  have hbind : mapFind (Node.InsertInputDatumSlotInternal order reg n (-1) cfg d newSlotId
      newVarId none).node.m_slotIdVarInfoMap newSlotId
        = some (newSlotId, VariableInfo.ofVariableId reg newVarId) := by
    rw [hnode]
    exact mapFind_mapAssign_self _ _ _
  have hvars : (Node.InsertInputDatumSlotInternal order reg n (-1) cfg d newSlotId newVarId
      none).node.m_varDatums
        = n.m_varDatums ++ [(n.m_nextCell + 1, n.constructVariable cfg d newVarId)] := by
    rw [hnode]
  have hgsv : (Node.InsertInputDatumSlotInternal order reg n (-1) cfg d newSlotId newVarId
      none).node.GetSlotVariableId newSlotId = newVarId := by
    unfold Node.GetSlotVariableId
    rw [hbind]
    rfl
  have hinput : (Node.InsertInputDatumSlotInternal order reg n (-1) cfg d newSlotId newVarId
      none).node.GetInput reg newSlotId = some (n.constructVariable cfg d newVarId).m_data := by
    unfold Node.GetInput Node.GetActiveVariableDatum Node.GetVariableId
    rw [hbind]
    simp only
    have hcur : (VariableInfo.ofVariableId reg newVarId).m_currentVariableId = newVarId := rfl
    rw [hcur, if_pos hvalid, hidx]
    simp only
    rw [hvars, cellDeref_append_singleton _ _ _ (Node.succ_nextCell_not_mem_vars hwf)]
    rfl
  have hres : n.AddInputDatumSlot order reg cfg d newSlotId newVarId
      = { slotId := newSlotId
          node := (Node.InsertInputDatumSlotInternal order reg n (-1) cfg d newSlotId newVarId
            none).node
          events := [NodeNotification.OnSlotAdded n.notificationAddress newSlotId] } := by
    unfold Node.AddInputDatumSlot Node.InsertInputDatumSlot
    simp only [hsucc, if_true, hiter, hsid, haddr]
  rw [hres]
  refine ⟨rfl, rfl, hslots, rfl, hkind, hvars, rfl, rfl, hidx,
    ⟨VariableInfo.ofVariableId reg newVarId, hbind, rfl, rfl⟩, hgsv, hinput⟩

/-- Witness of C22: a DataIn slot `z` with a datum of type 3 and value 7 is added to the
sample node. -/
theorem C22_add_input_datum_slot_witness :
    ((Node.sampleNode EqualKeyOrder.newestFirst).AddInputDatumSlot EqualKeyOrder.newestFirst []
        ⟨"z", "", SlotType.DataIn, [], true⟩ ⟨⟨3⟩, 7, "", ⟨0⟩⟩ ⟨9⟩ ⟨900⟩).node.GetSlotVariableId
        ⟨9⟩ = ⟨900⟩
      ∧ ((Node.sampleNode EqualKeyOrder.newestFirst).AddInputDatumSlot
          EqualKeyOrder.newestFirst [] ⟨"z", "", SlotType.DataIn, [], true⟩ ⟨⟨3⟩, 7, "", ⟨0⟩⟩
          ⟨9⟩ ⟨900⟩).node.GetInput [] ⟨9⟩ = some ⟨⟨3⟩, 7, "z", ⟨7⟩⟩ :=
  ⟨(C22_add_input_datum_slot EqualKeyOrder.newestFirst [] (Node.sampleNode
      EqualKeyOrder.newestFirst) ⟨"z", "", SlotType.DataIn, [], true⟩ ⟨⟨3⟩, 7, "", ⟨0⟩⟩ ⟨9⟩
      ⟨900⟩ (Node.sampleNode_wellFormed _) rfl (by decide) (by decide) (by decide)).2.2.2.2.2.2.2.2.2.2.1,
   (C22_add_input_datum_slot EqualKeyOrder.newestFirst [] (Node.sampleNode
      EqualKeyOrder.newestFirst) ⟨"z", "", SlotType.DataIn, [], true⟩ ⟨⟨3⟩, 7, "", ⟨0⟩⟩ ⟨9⟩
      ⟨900⟩ (Node.sampleNode_wellFormed _) rfl (by decide) (by decide) (by decide)).2.2.2.2.2.2.2.2.2.2.2⟩

theorem mapFind_mapModify_self {K V : Type} [DecidableEq K] (m : List (K × V)) (k : K)
    (f : V → V) (e : K × V) (h : mapFind m k = some e) :
    mapFind (mapModify m k f) k = some (e.1, f e.2) := by
  induction m with
  | nil => simp [mapFind] at h
  | cons a t ih =>
    by_cases ha : a.1 = k
    · have : a = e := by simpa [mapFind, ha] using h
      subst this
      simp [mapModify, mapFind, ha]
    · have ht : mapFind t k = some e := by simpa [mapFind, ha] using h
      have ih1 : List.find? (fun e => decide (e.1 = k)) (mapModify t k f)
          = some (e.1, f e.2) := ih ht
      simp [mapModify, mapFind, ha, ih1]

theorem mapFind_mapModify_ne {K V : Type} [DecidableEq K] (m : List (K × V)) (k k' : K)
    (f : V → V) (h : k' ≠ k) : mapFind (mapModify m k f) k' = mapFind m k' := by
  induction m with
  | nil => rfl
  | cons a t ih =>
    by_cases ha : a.1 = k
    · have ha' : ¬ a.1 = k' := fun hc => h (hc.symm.trans ha)
      have hk : ¬ k = k' := fun hc => h hc.symm
      simp [mapModify, mapFind, ha, ha', hk]
    · have ih1 : List.find? (fun e => decide (e.1 = k')) (mapModify t k f)
          = List.find? (fun e => decide (e.1 = k')) t := ih
      by_cases hb : a.1 = k'
      · simp [mapModify, mapFind, ha, hb, h]
      · simp [mapModify, mapFind, ha, hb, ih1]

namespace Node

/-- What `SetSlotVariableId` does when the slot has a binding with another active id. -/
theorem SetSlotVariableId_of_ne (n : Node) (s : SlotId) (v : VariableId)
    (e : SlotId × VariableInfo) (he : mapFind n.m_slotIdVarInfoMap s = some e)
    (hne : e.2.m_currentVariableId ≠ v) :
    n.SetSlotVariableId s v
      = { node :=
            { n with
              m_slotIdVarInfoMap :=
                mapModify n.m_slotIdVarInfoMap s
                  (fun info => { info with m_currentVariableId := v }) }
          events :=
            [NodeNotification.OnSlotActiveVariableChanged n.notificationAddress s
              e.2.m_currentVariableId v] } := by
  unfold SetSlotVariableId
  rw [he]
  simp only
  rw [if_pos hne]

/-- What `SetSlotVariableId` does when the active id of the binding is the given id. -/
theorem SetSlotVariableId_of_eq (n : Node) (s : SlotId) (v : VariableId)
    (e : SlotId × VariableInfo) (he : mapFind n.m_slotIdVarInfoMap s = some e)
    (heq : e.2.m_currentVariableId = v) :
    n.SetSlotVariableId s v = { node := n, events := [] } := by
  unfold SetSlotVariableId
  rw [he]
  simp only
  rw [if_neg (fun hc => hc heq)]

/-- What `SetSlotVariableId` does for a slot without a binding. -/
theorem SetSlotVariableId_of_none (n : Node) (s : SlotId) (v : VariableId)
    (he : mapFind n.m_slotIdVarInfoMap s = none) :
    n.SetSlotVariableId s v = { node := n, events := [] } := by
  unfold SetSlotVariableId
  rw [he]

/-- After `SetSlotVariableId` every slot that had a binding has one with the same owned
id. -/
theorem SetSlotVariableId_owned (n : Node) (s : SlotId) (v : VariableId) (s' : SlotId)
    (e : SlotId × VariableInfo) (he : mapFind n.m_slotIdVarInfoMap s' = some e) :
    ∃ e', mapFind (n.SetSlotVariableId s v).node.m_slotIdVarInfoMap s' = some e'
      ∧ e'.2.m_ownedVariableId = e.2.m_ownedVariableId := by
  cases hf : mapFind n.m_slotIdVarInfoMap s with
  | none =>
    rw [SetSlotVariableId_of_none n s v hf]
    exact ⟨e, he, rfl⟩
  | some b =>
    by_cases hb : b.2.m_currentVariableId = v
    · rw [SetSlotVariableId_of_eq n s v b hf hb]
      exact ⟨e, he, rfl⟩
    · rw [SetSlotVariableId_of_ne n s v b hf hb]
      by_cases hs : s' = s
      · subst hs
        rw [hf] at he
        have hbe : b = e := Option.some.inj he
        subst hbe
        exact ⟨_, mapFind_mapModify_self _ _ _ _ hf, rfl⟩
      · refine ⟨e, ?_, rfl⟩
        show mapFind (mapModify n.m_slotIdVarInfoMap s _) s' = some e
        rw [mapFind_mapModify_ne _ _ _ _ hs]
        exact he

/-- After a sequence of redirections every slot that had a binding has one with the same
owned id. -/
theorem redirect_owned (calls : List (SlotId × VariableId)) :
    ∀ (n : Node) (s : SlotId) (e : SlotId × VariableInfo),
      mapFind n.m_slotIdVarInfoMap s = some e →
      ∃ e', mapFind (n.redirect calls).m_slotIdVarInfoMap s = some e'
        ∧ e'.2.m_ownedVariableId = e.2.m_ownedVariableId := by
  induction calls with
  | nil => intro n s e he; exact ⟨e, he, rfl⟩
  | cons c t ih =>
    intro n s e he
    obtain ⟨e1, h1, ho1⟩ := SetSlotVariableId_owned n c.1 c.2 s e he
    obtain ⟨e2, h2, ho2⟩ := ih (n.SetSlotVariableId c.1 c.2).node s e1 h1
    exact ⟨e2, h2, ho2.trans ho1⟩

/-- After `ResetSlotVariableId` of a slot with a binding, the binding has the same owned id
and its active id is the owned id. -/
theorem ResetSlotVariableId_binding (n : Node) (s : SlotId) (e : SlotId × VariableInfo)
    (he : mapFind n.m_slotIdVarInfoMap s = some e) :
    ∃ e', mapFind (n.ResetSlotVariableId s).node.m_slotIdVarInfoMap s = some e'
      ∧ e'.2.m_ownedVariableId = e.2.m_ownedVariableId
      ∧ e'.2.m_currentVariableId = e.2.m_ownedVariableId := by
  unfold ResetSlotVariableId
  rw [he]
  simp only
  by_cases hc : e.2.m_currentVariableId = e.2.m_ownedVariableId
  · rw [SetSlotVariableId_of_eq n s _ e he hc]
    exact ⟨e, he, rfl, hc⟩
  · rw [SetSlotVariableId_of_ne n s _ e he hc]
    exact ⟨_, mapFind_mapModify_self _ _ _ _ he, rfl, rfl⟩

end Node

/-- C23 (`SetSlotVariableId`). For every node, slot `s` and variable id `v`: if `s` has a
binding whose active id differs from `v`, then afterwards `GetSlotVariableId(s)` is `v` and
exactly one active-variable-changed notification, carrying `s`, the old active id and `v`,
is sent; if the active id is `v` already, or `s` has no binding, the node is unchanged and
nothing is sent; the bindings of all other slots are unchanged in every case. -/
theorem C23_set_slot_variable_id (n : Node) (s : SlotId) (v : VariableId) :
    (∀ e, mapFind n.m_slotIdVarInfoMap s = some e → e.2.m_currentVariableId ≠ v →
        (n.SetSlotVariableId s v).node.GetSlotVariableId s = v
          ∧ (n.SetSlotVariableId s v).events
              = [NodeNotification.OnSlotActiveVariableChanged n.notificationAddress s
                  e.2.m_currentVariableId v])
      ∧ (∀ e, mapFind n.m_slotIdVarInfoMap s = some e → e.2.m_currentVariableId = v →
          n.SetSlotVariableId s v = { node := n, events := [] })
      ∧ (mapFind n.m_slotIdVarInfoMap s = none →
          n.SetSlotVariableId s v = { node := n, events := [] })
      ∧ (∀ s', s' ≠ s →
          mapFind (n.SetSlotVariableId s v).node.m_slotIdVarInfoMap s'
            = mapFind n.m_slotIdVarInfoMap s') := by
  refine ⟨?_, ?_, ?_, ?_⟩
  · intro e he hne
    rw [Node.SetSlotVariableId_of_ne n s v e he hne]
    refine ⟨?_, rfl⟩
    unfold Node.GetSlotVariableId
    simp only
    rw [mapFind_mapModify_self _ _ _ _ he]
  · intro e he heq
    exact Node.SetSlotVariableId_of_eq n s v e he heq
  · intro he
    exact Node.SetSlotVariableId_of_none n s v he
  · intro s' hs
    cases hf : mapFind n.m_slotIdVarInfoMap s with
    | none => rw [Node.SetSlotVariableId_of_none n s v hf]
    | some b =>
      by_cases hb : b.2.m_currentVariableId = v
      · rw [Node.SetSlotVariableId_of_eq n s v b hf hb]
      · rw [Node.SetSlotVariableId_of_ne n s v b hf hb]
        exact mapFind_mapModify_ne _ _ _ _ hs

/-- Witness of C23: the binding of slot 40 of `Node.datumSample`, whose active variable is
400, is redirected to the variable 7. -/
theorem C23_set_slot_variable_id_witness :
    (Node.datumSample.SetSlotVariableId ⟨40⟩ ⟨7⟩).node.GetSlotVariableId ⟨40⟩ = ⟨7⟩
      ∧ (Node.datumSample.SetSlotVariableId ⟨40⟩ ⟨7⟩).events
          = [NodeNotification.OnSlotActiveVariableChanged ⟨4⟩ ⟨40⟩ ⟨400⟩ ⟨7⟩] :=
  (C23_set_slot_variable_id Node.datumSample ⟨40⟩ ⟨7⟩).1
    (⟨40⟩, ⟨⟨400⟩, ⟨400⟩, DataType.Invalid⟩) (by decide) (by decide)

/-- C24 (`ResetSlotVariableId`). For every node and slot `s` with a binding, after any
sequence of `SetSlotVariableId` redirections (of any slots), `ResetSlotVariableId(s)`
leaves a binding of `s` whose owned id is the original owned id and whose active id is the
owned id, so `GetSlotVariableId(s)` is the owned id; a second `ResetSlotVariableId(s)`
changes nothing and sends nothing; for a slot without a binding the operation changes
nothing and sends nothing. -/
theorem C24_reset_slot_variable_id (n : Node) (s : SlotId)
    (calls : List (SlotId × VariableId)) :
    (∀ e, mapFind n.m_slotIdVarInfoMap s = some e →
        ((n.redirect calls).ResetSlotVariableId s).node.GetSlotVariableId s
            = e.2.m_ownedVariableId
          ∧ ∃ e', mapFind ((n.redirect calls).ResetSlotVariableId s).node.m_slotIdVarInfoMap s
                = some e'
              ∧ e'.2.m_ownedVariableId = e.2.m_ownedVariableId
              ∧ e'.2.m_currentVariableId = e'.2.m_ownedVariableId)
      ∧ (n.ResetSlotVariableId s).node.ResetSlotVariableId s
          = { node := (n.ResetSlotVariableId s).node, events := [] }
      ∧ (mapFind n.m_slotIdVarInfoMap s = none →
          n.ResetSlotVariableId s = { node := n, events := [] }) := by
  refine ⟨?_, ?_, ?_⟩
  · intro e he
    obtain ⟨e1, h1, ho1⟩ := Node.redirect_owned calls n s e he
    obtain ⟨e2, h2, ho2, hc2⟩ := Node.ResetSlotVariableId_binding (n.redirect calls) s e1 h1
    refine ⟨?_, e2, h2, ho2.trans ho1, hc2.trans ho2.symm⟩
    unfold Node.GetSlotVariableId
    rw [h2]
    exact hc2.trans ho1
  · cases hf : mapFind n.m_slotIdVarInfoMap s with
    | none =>
      have h0 : n.ResetSlotVariableId s = { node := n, events := [] } := by
        unfold Node.ResetSlotVariableId
        rw [hf]
      rw [h0]
      exact h0
    | some e =>
      obtain ⟨e2, h2, ho2, hc2⟩ := Node.ResetSlotVariableId_binding n s e hf
      show Node.ResetSlotVariableId (n.ResetSlotVariableId s).node s = _
      generalize (n.ResetSlotVariableId s).node = m at h2
      unfold Node.ResetSlotVariableId
      rw [h2]
      simp only
      exact Node.SetSlotVariableId_of_eq m s _ e2 h2 (hc2.trans ho2.symm)
  · intro hf
    unfold Node.ResetSlotVariableId
    rw [hf]

/-- Witness of C24: after two redirections of slot 40 of `Node.datumSample` and one of an
unknown slot, the reset restores the owned variable 400. -/
theorem C24_reset_slot_variable_id_witness :
    ((Node.datumSample.redirect [(⟨40⟩, ⟨7⟩), (⟨41⟩, ⟨9⟩), (⟨40⟩, ⟨8⟩)]).ResetSlotVariableId
        ⟨40⟩).node.GetSlotVariableId ⟨40⟩ = ⟨400⟩ :=
  ((C24_reset_slot_variable_id Node.datumSample ⟨40⟩
      [(⟨40⟩, ⟨7⟩), (⟨41⟩, ⟨9⟩), (⟨40⟩, ⟨8⟩)]).1
    (⟨40⟩, ⟨⟨400⟩, ⟨400⟩, DataType.Invalid⟩) (by decide)).1

/-! ## Resolution of types and queries about unknown slots -/

theorem cellDeref_of_mem {A : Type} {l : List (Cell × A)} {c : Cell} {a : A}
    (hnd : (l.map Prod.fst).Nodup) (h : (c, a) ∈ l) : cellDeref l c = some a := by
  obtain ⟨a', ha'⟩ := cellDeref_isSome_of_mem (List.mem_map.2 ⟨(c, a), h, rfl⟩)
  have hm := cellDeref_some_mem ha'
  have : (c, a') = (c, a) := List.inj_on_of_nodup_map hnd hm h rfl
  rw [ha', (Prod.mk.inj this).2]

namespace Node

/-- In a well-formed node the id to variable index resolves the id of a variable of the
node to that variable. -/
theorem variable_of_index {n : Node} (h : n.WellFormed) {id : VariableId}
    (hid : id ∈ n.variableIds) :
    ∃ e v, mapFind n.m_varIdMap id = some e ∧ cellDeref n.m_varDatums e.2 = some v
      ∧ (e.2, v) ∈ n.m_varDatums ∧ v.m_id = id := by
  obtain ⟨e, he⟩ := mapFind_isSome_of_mem
    ((keys_varIdMap h.indices).mem_iff.2 hid : id ∈ n.m_varIdMap.map Prod.fst)
  obtain ⟨x, hx, hx1, hx2⟩ := (index_find_spec (fun v : VariableDatumBase => v.m_id)
    n.m_varDatums n.m_varIdMap id e h.indices.varIdMap h.varCells
    (by simpa [variableIds] using h.variableIdsNodup) he).1
  have hmem : (e.2, x.2) ∈ n.m_varDatums := by rw [← hx1]; exact hx
  exact ⟨e, x.2, he, cellDeref_of_mem h.varCells hmem, hmem, hx2⟩

/-- In a well-formed node a slot id that no slot has is in no index and has no binding. -/
theorem unknown_slot {n : Node} (h : n.WellFormed) {slotId : SlotId}
    (hs : slotId ∉ n.slotIds) :
    mapFind n.m_slotIdMap slotId = none ∧ mapFind n.m_slotIdVarInfoMap slotId = none :=
  ⟨(mapFind_eq_none_iff _ _).2 (fun hk => hs ((keys_slotIdMap h.indices).mem_iff.1 hk)),
   (mapFind_eq_none_iff _ _).2 (binding_key_fresh h hs)⟩

/-- In a well-formed node a name that no slot has is not a key of the name index. -/
theorem unknown_name {n : Node} (h : n.WellFormed) {slotName : String}
    (hs : slotName ∉ n.m_slots.map (fun e => e.2.m_name)) :
    slotName ∉ n.m_slotNameMap.map Prod.fst := by
  intro hk
  obtain ⟨e, he, hek⟩ := List.mem_map.1 hk
  obtain ⟨x, hx, hxe⟩ := List.mem_map.1 (h.indices.slotNameMap.mem_iff.1 he)
  apply hs
  refine List.mem_map.2 ⟨x, hx, ?_⟩
  rw [← hek, ← hxe]

end Node

/-- C25 (resolution of `GetSlotDataType`). For every well-formed node and slot id `s`:
if `s` has a binding whose active variable id is valid and is the id of a variable of the
node, the result is the type of the datum of that variable; if the active id is valid, is
not the id of a variable of the node and the external registry answers with a variable,
the result is the type of the datum of that variable; if `s` has a binding and the active
id is not valid, or is found neither on the node nor in the registry, the result is the
declared type of the binding; if `s` has no binding the result is the invalid type.  A
slot that `AddOutputTypeSlot` has created with type `T` reports `T`. -/
theorem C25_slot_data_type_resolution (reg : VariableRegistry) (n : Node) (s : SlotId)
    (hwf : n.WellFormed) :
    (∀ e, mapFind n.m_slotIdVarInfoMap s = some e →
        e.2.m_currentVariableId.IsValid = true → e.2.m_currentVariableId ∈ n.variableIds →
        ∃ c v, (c, v) ∈ n.m_varDatums ∧ v.m_id = e.2.m_currentVariableId
          ∧ n.GetSlotDataType reg s = v.m_data.m_type)
      ∧ (∀ e v, mapFind n.m_slotIdVarInfoMap s = some e →
          e.2.m_currentVariableId.IsValid = true → e.2.m_currentVariableId ∉ n.variableIds →
          reg.GetVariableDatum e.2.m_currentVariableId = some v →
          n.GetSlotDataType reg s = v.m_data.m_type)
      ∧ (∀ e, mapFind n.m_slotIdVarInfoMap s = some e →
          (e.2.m_currentVariableId.IsValid = false
            ∨ (e.2.m_currentVariableId ∉ n.variableIds
                ∧ reg.GetVariableDatum e.2.m_currentVariableId = none)) →
          n.GetSlotDataType reg s = e.2.m_dataType)
      ∧ (mapFind n.m_slotIdVarInfoMap s = none → n.GetSlotDataType reg s = DataType.Invalid)
      ∧ (∀ (order : EqualKeyOrder) (name toolTip : String) (T : DataType) (unique : Bool),
          (n.InsertSlotInternal order (-1) ⟨name, toolTip, SlotType.DataOut, [], unique⟩ s
            none).success = true →
          (n.AddOutputTypeSlot order name toolTip T unique s).node.GetSlotDataType reg s
            = T) := by
  have hnokey : ∀ id : VariableId, id ∉ n.variableIds → mapFind n.m_varIdMap id = none :=
    fun id hid => (mapFind_eq_none_iff _ _).2
      (fun hk => hid ((Node.keys_varIdMap hwf.indices).mem_iff.1 hk))
  refine ⟨?_, ?_, ?_, ?_, ?_⟩
  · intro e he hv hmem
    obtain ⟨c, v, hc, hd, hcv, hvid⟩ := Node.variable_of_index hwf hmem
    refine ⟨c.2, v, hcv, hvid, ?_⟩
    unfold Node.GetSlotDataType Node.GetActiveVariableDatum Node.GetVariableId
    rw [he]
    simp only
    rw [if_pos hv, hc]
    simp only
    rw [hd]
  · intro e v he hv hmem hreg
    unfold Node.GetSlotDataType Node.GetActiveVariableDatum Node.GetVariableId
    rw [he]
    simp only
    rw [if_pos hv, hnokey _ hmem]
    simp only
    rw [hreg]
  · intro e he hcase
    unfold Node.GetSlotDataType Node.GetActiveVariableDatum Node.GetVariableId
    rw [he]
    simp only
    rcases hcase with hv | ⟨hmem, hreg⟩
    · rw [if_neg (by rw [hv]; decide)]
    · by_cases hv : e.2.m_currentVariableId.IsValid = true
      · rw [if_pos hv, hnokey _ hmem]
        simp only
        rw [hreg]
      · rw [if_neg hv]
  · intro he
    unfold Node.GetSlotDataType
    rw [he]
  · intro order name toolTip T unique hacc
    rw [Node.AddOutputTypeSlot_node,
      Node.InsertDataTypeSlotInternal_node order n (-1) _ T s none hwf hacc]
    unfold Node.GetSlotDataType Node.GetActiveVariableDatum Node.GetVariableId
    simp only
    rw [mapFind_mapAssign_self]
    simp only
    have hcur : (VariableInfo.ofDataType T).m_currentVariableId = VariableId.empty := rfl
    rw [hcur, if_neg (by decide)]
    rfl

/-- Witness of C25: slot 40 of `Node.datumSample` resolves through its variable of type 1,
and the slot that `AddOutputTypeSlot` adds to it with type 2 reports type 2. -/
theorem C25_slot_data_type_resolution_witness :
    (∃ c v, (c, v) ∈ Node.datumSample.m_varDatums ∧ v.m_id = ⟨400⟩
        ∧ Node.datumSample.GetSlotDataType [] ⟨40⟩ = v.m_data.m_type)
      ∧ (Node.datumSample.AddOutputTypeSlot EqualKeyOrder.newestFirst "Out" "" ⟨2⟩ false
          ⟨41⟩).node.GetSlotDataType [] ⟨41⟩ = ⟨2⟩ :=
  ⟨(C25_slot_data_type_resolution [] Node.datumSample ⟨40⟩
      (Node.runOps_wellFormed EqualKeyOrder.newestFirst [] _ _ (Node.empty_wellFormed _ _)
        (by decide))).1
      (⟨40⟩, ⟨⟨400⟩, ⟨400⟩, DataType.Invalid⟩) (by decide) (by decide) (by decide),
   (C25_slot_data_type_resolution [] Node.datumSample ⟨41⟩
      (Node.runOps_wellFormed EqualKeyOrder.newestFirst [] _ _ (Node.empty_wellFormed _ _)
        (by decide))).2.2.2.2
      EqualKeyOrder.newestFirst "Out" "" ⟨2⟩ false (by decide)⟩

/-- C26 (invalid queries return sentinels). For every well-formed node: for a slot id that
no slot of the node has, `GetSlotDataType` returns the invalid type, `GetSlotVariableId`
and `GetVariableId` return the empty variable id, `GetSlotName` returns the empty string,
`GetSlot` returns null and `SlotAcceptsType` returns false; for a name that no slot of the
node has, `GetSlotId` and `GetSlotIdByType` return the empty slot id. -/
theorem C26_invalid_queries (alg : TypeAlgebra) (reg : VariableRegistry) (n : Node)
    (slotId : SlotId) (slotName : String) (slotType : SlotType) (T : DataType)
    (hwf : n.WellFormed) :
    (slotId ∉ n.slotIds →
        n.GetSlotDataType reg slotId = DataType.Invalid
          ∧ n.GetSlotVariableId slotId = VariableId.empty
          ∧ n.GetVariableId slotId = VariableId.empty
          ∧ n.GetSlotName slotId = ""
          ∧ n.GetSlot slotId = none
          ∧ n.SlotAcceptsType alg reg slotId T = false)
      ∧ (slotName ∉ n.m_slots.map (fun e => e.2.m_name) →
          n.GetSlotId slotName = SlotId.empty
            ∧ n.GetSlotIdByType slotName slotType = SlotId.empty) := by
  constructor
  · intro hs
    obtain ⟨hidx, hbind⟩ := Node.unknown_slot hwf hs
    have hslot : n.GetSlot slotId = none := by
      unfold Node.GetSlot Node.FindSlotIterator
      rw [hidx]
      simp
    refine ⟨?_, ?_, ?_, ?_, hslot, ?_⟩
    · unfold Node.GetSlotDataType
      rw [hbind]
    · unfold Node.GetSlotVariableId
      rw [hbind]
    · unfold Node.GetVariableId
      rw [hbind]
    · unfold Node.GetSlotName
      rw [hslot]
      simp
    · unfold Node.SlotAcceptsType
      rw [hslot]
  · intro hs
    have hkey := Node.unknown_name hwf hs
    constructor
    · unfold Node.GetSlotId
      rw [(mapFind_eq_none_iff _ _).2 hkey]
    · unfold Node.GetSlotIdByType
      have hempty : multimapEqualRange n.m_slotNameMap slotName = [] := by
        unfold multimapEqualRange
        rw [List.filter_eq_nil_iff]
        intro e he hc
        exact hkey (List.mem_map.2 ⟨e, he, of_decide_eq_true hc⟩)
      simp only [hempty, List.find?_nil]

/-- Witness of C26 on the sample node, for the unknown slot id 99 and the unknown name
`nope`. -/
theorem C26_invalid_queries_witness :
    ((Node.sampleNode EqualKeyOrder.newestFirst).GetSlotDataType [] ⟨99⟩ = DataType.Invalid
        ∧ (Node.sampleNode EqualKeyOrder.newestFirst).GetSlotVariableId ⟨99⟩
            = VariableId.empty
        ∧ (Node.sampleNode EqualKeyOrder.newestFirst).GetVariableId ⟨99⟩ = VariableId.empty
        ∧ (Node.sampleNode EqualKeyOrder.newestFirst).GetSlotName ⟨99⟩ = ""
        ∧ (Node.sampleNode EqualKeyOrder.newestFirst).GetSlot ⟨99⟩ = none
        ∧ (Node.sampleNode EqualKeyOrder.newestFirst).SlotAcceptsType TypeAlgebra.exact []
            ⟨99⟩ ⟨3⟩ = false)
      ∧ ((Node.sampleNode EqualKeyOrder.newestFirst).GetSlotId "nope" = SlotId.empty
          ∧ (Node.sampleNode EqualKeyOrder.newestFirst).GetSlotIdByType "nope"
              SlotType.DataIn = SlotId.empty) :=
  ⟨(C26_invalid_queries TypeAlgebra.exact [] (Node.sampleNode EqualKeyOrder.newestFirst)
      ⟨99⟩ "nope" SlotType.DataIn ⟨3⟩ (Node.sampleNode_wellFormed _)).1 (by decide),
   (C26_invalid_queries TypeAlgebra.exact [] (Node.sampleNode EqualKeyOrder.newestFirst)
      ⟨99⟩ "nope" SlotType.DataIn ⟨3⟩ (Node.sampleNode_wellFormed _)).2 (by decide)⟩

/-! ## Execution signalling -/

theorem ExecutionRequest.pushes_append (a b : List ExecutionRequest) :
    ExecutionRequest.pushes (a ++ b) = ExecutionRequest.pushes a ++ ExecutionRequest.pushes b := by
  induction a with
  | nil => rfl
  | cons r t ih =>
    cases r with
    | AddToExecutionStack node slotId =>
      show (node, slotId) :: ExecutionRequest.pushes (t ++ b) = _
      rw [ih]; rfl
    | Execute =>
      show ExecutionRequest.pushes (t ++ b) = _
      rw [ih]; rfl

theorem ExecutionRequest.pushes_map (l : List (Node × SlotId)) :
    ExecutionRequest.pushes (l.map (fun p => ExecutionRequest.AddToExecutionStack p.1 p.2))
      = l := by
  induction l with
  | nil => rfl
  | cons p t ih =>
    show (p.1, p.2) :: ExecutionRequest.pushes (t.map _) = p :: t
    rw [ih]

namespace Node

/-- The destinations of `SignalOutput` that resolve, each with its slot, in the order of
the endpoints. -/
theorem signalEndpoint_foldl (rt : Runtime) (endpoints : List Endpoint) :
    ∀ st : SignalState,
      (endpoints.foldl (signalEndpoint rt) st).requests
          = st.requests ++ (endpoints.filterMap (fun e =>
              (rt.FindNode e.m_nodeId).map (fun c => (c, e.m_slotId)))).map
                (fun p => ExecutionRequest.AddToExecutionStack p.1 p.2)
        ∧ (endpoints.foldl (signalEndpoint rt) st).executionCheckRequired
            = (st.executionCheckRequired
                || !(endpoints.filterMap (fun e =>
                    (rt.FindNode e.m_nodeId).map (fun c => (c, e.m_slotId)))).isEmpty) := by
  induction endpoints with
  | nil => intro st; simp
  | cons e t ih =>
    intro st
    rw [List.foldl_cons]
    obtain ⟨h1, h2⟩ := ih (signalEndpoint rt st e)
    rw [h1, h2]
    cases hf : rt.FindNode e.m_nodeId with
    | none => simp [signalEndpoint, hf, List.filterMap_cons]
    | some c => simp [signalEndpoint, hf, List.filterMap_cons]

/-- The requests of `SignalOutput` for a node that is not in the error state and a valid
slot id in the id index. -/
theorem SignalOutput_known (rt : Runtime) (n : Node) (slotId : SlotId)
    (hv : slotId.IsValid = true) (hk : (mapFind n.m_slotIdMap slotId).isSome = true) :
    n.SignalOutput rt false slotId
      = ((rt.GetConnectedEndpoints ⟨n.GetEntityId, slotId⟩).filterMap (fun e =>
            (rt.FindNode e.m_nodeId).map (fun c => (c, e.m_slotId)))).map
              (fun p => ExecutionRequest.AddToExecutionStack p.1 p.2)
          ++ (if ((rt.GetConnectedEndpoints ⟨n.GetEntityId, slotId⟩).filterMap (fun e =>
                (rt.FindNode e.m_nodeId).map (fun c => (c, e.m_slotId)))).isEmpty then []
              else [ExecutionRequest.Execute]) := by
  obtain ⟨h1, h2⟩ := signalEndpoint_foldl rt (rt.GetConnectedEndpoints ⟨n.GetEntityId, slotId⟩)
    { requests := [], executionCheckRequired := false }
  unfold SignalOutput
  simp only [hv, hk, if_true, Bool.false_eq_true, if_false]
  rw [h1, h2]
  cases ((rt.GetConnectedEndpoints ⟨n.GetEntityId, slotId⟩).filterMap (fun e =>
      (rt.FindNode e.m_nodeId).map (fun c => (c, e.m_slotId)))).isEmpty <;> simp

/-- The requests of `SignalOutput` in the error state, for an invalid slot id and for a slot
id that is not in the id index: none. -/
theorem SignalOutput_nothing (rt : Runtime) (isInErrorState : Bool) (n : Node)
    (slotId : SlotId)
    (h : isInErrorState = true ∨ slotId.IsValid = false
      ∨ mapFind n.m_slotIdMap slotId = none) :
    n.SignalOutput rt isInErrorState slotId = [] := by
  unfold SignalOutput
  rcases h with h | h | h
  · simp [h]
  · cases isInErrorState <;> simp [h]
  · cases isInErrorState <;> simp [h]

/-- The resolved destinations pair up, in order, with the endpoints that resolve. -/
theorem resolved_pairs (rt : Runtime) (endpoints : List Endpoint) :
    List.Forall₂
      (fun (p : Node × SlotId) (e : Endpoint) =>
        rt.FindNode e.m_nodeId = some p.1 ∧ p.2 = e.m_slotId)
      (endpoints.filterMap (fun e => (rt.FindNode e.m_nodeId).map (fun c => (c, e.m_slotId))))
      (endpoints.filter (fun e => (rt.FindNode e.m_nodeId).isSome)) := by
  induction endpoints with
  | nil => exact List.Forall₂.nil
  | cons e t ih =>
    cases hf : rt.FindNode e.m_nodeId with
    | none =>
      simp only [List.filterMap_cons, hf, Option.map_none', List.filter_cons, Option.isSome_none,
        Bool.false_eq_true, if_false]
      exact ih
    | some c =>
      simp only [List.filterMap_cons, hf, Option.map_some', List.filter_cons, Option.isSome_some,
        if_true]
      exact List.Forall₂.cons ⟨hf, rfl⟩ ih

end Node

/-- C27 (push order of `SignalOutput`). For a well-formed node that is not in the error
state and a valid slot id of a slot of the node, the entries `SignalOutput` appends to the
execution stack pair up, in order, with the connected endpoints the runtime returns whose
node resolves: each entry is the resolved node of its endpoint with the slot of the
endpoint; an endpoint whose node does not resolve is skipped and the later endpoints are
still processed.  For an invalid slot id, and for a slot id of no slot of the node, nothing
is appended; in the error state nothing is sent. -/
theorem C27_signal_output_push_order (rt : Runtime) (n : Node) (slotId : SlotId)
    (hwf : n.WellFormed) :
    (slotId.IsValid = true → slotId ∈ n.slotIds →
        List.Forall₂
          (fun (p : Node × SlotId) (e : Endpoint) =>
            rt.FindNode e.m_nodeId = some p.1 ∧ p.2 = e.m_slotId)
          (ExecutionRequest.pushes (n.SignalOutput rt false slotId))
          ((rt.GetConnectedEndpoints ⟨n.GetEntityId, slotId⟩).filter
            (fun e => (rt.FindNode e.m_nodeId).isSome)))
      ∧ ((slotId.IsValid = false ∨ slotId ∉ n.slotIds) →
          ExecutionRequest.pushes (n.SignalOutput rt false slotId) = [])
      ∧ n.SignalOutput rt true slotId = [] := by
  refine ⟨?_, ?_, ?_⟩
  · intro hv hk
    obtain ⟨e, he⟩ := mapFind_isSome_of_mem
      ((Node.keys_slotIdMap hwf.indices).mem_iff.2 hk : slotId ∈ n.m_slotIdMap.map Prod.fst)
    rw [Node.SignalOutput_known rt n slotId hv (by rw [he]; rfl),
      ExecutionRequest.pushes_append, ExecutionRequest.pushes_map]
    have htail : ExecutionRequest.pushes
        (if ((rt.GetConnectedEndpoints ⟨n.GetEntityId, slotId⟩).filterMap (fun e =>
            (rt.FindNode e.m_nodeId).map (fun c => (c, e.m_slotId)))).isEmpty then []
          else [ExecutionRequest.Execute]) = [] := by
      split <;> rfl
    rw [htail, List.append_nil]
    exact Node.resolved_pairs rt _
  · intro h
    rw [Node.SignalOutput_nothing rt false n slotId]
    · rfl
    · rcases h with h | h
      · exact Or.inr (Or.inl h)
      · exact Or.inr (Or.inr (Node.unknown_slot hwf h).1)
  · exact Node.SignalOutput_nothing rt true n slotId (Or.inl rfl)

/-- Witness of C27 on the signal sample: of the three endpoints connected to slot 11 of
node 1 the second does not resolve; the entries appended are node 2 with slot 20 and node 1
with slot 10, in this order. -/
theorem C27_signal_output_push_order_witness :
    List.Forall₂
        (fun (p : Node × SlotId) (e : Endpoint) =>
          Runtime.signalSample.FindNode e.m_nodeId = some p.1 ∧ p.2 = e.m_slotId)
        (ExecutionRequest.pushes
          ((Runtime.signalNode 1).SignalOutput Runtime.signalSample false ⟨11⟩))
        ((Runtime.signalSample.GetConnectedEndpoints ⟨(Runtime.signalNode 1).GetEntityId, ⟨11⟩⟩).filter
          (fun e => (Runtime.signalSample.FindNode e.m_nodeId).isSome))
      ∧ ExecutionRequest.pushes
          ((Runtime.signalNode 1).SignalOutput Runtime.signalSample false ⟨11⟩)
          = [(Runtime.signalNode 2, ⟨20⟩), (Runtime.signalNode 1, ⟨10⟩)] :=
  ⟨(C27_signal_output_push_order Runtime.signalSample (Runtime.signalNode 1) ⟨11⟩
      (Node.runOps_wellFormed EqualKeyOrder.newestFirst [] _ _ (Node.empty_wellFormed _ _)
        (by decide))).1 (by decide) (by decide),
   by decide⟩

/-- C28 (execute request of `SignalOutput`). Within one `SignalOutput` call: if at least one
entry is appended to the execution stack, the requests sent are the appends followed by
exactly one `Execute`, which comes last; if no entry is appended (no connection, only
destinations that do not resolve, an invalid slot id, a slot id that is not in the id
index, or the error state) no request is sent at all. -/
theorem C28_signal_output_execute (rt : Runtime) (isInErrorState : Bool) (n : Node)
    (slotId : SlotId) :
    (ExecutionRequest.pushes (n.SignalOutput rt isInErrorState slotId) ≠ [] →
        n.SignalOutput rt isInErrorState slotId
            = (ExecutionRequest.pushes (n.SignalOutput rt isInErrorState slotId)).map
                (fun p => ExecutionRequest.AddToExecutionStack p.1 p.2)
              ++ [ExecutionRequest.Execute]
          ∧ (n.SignalOutput rt isInErrorState slotId).count ExecutionRequest.Execute = 1)
      ∧ (ExecutionRequest.pushes (n.SignalOutput rt isInErrorState slotId) = [] →
          n.SignalOutput rt isInErrorState slotId = [])
      ∧ ((isInErrorState = true ∨ slotId.IsValid = false
            ∨ mapFind n.m_slotIdMap slotId = none) →
          n.SignalOutput rt isInErrorState slotId = []) := by
  have hcount : ∀ l : List (Node × SlotId),
      (l.map (fun p => ExecutionRequest.AddToExecutionStack p.1 p.2)).count
        ExecutionRequest.Execute = 0 := by
    intro l
    rw [List.count_eq_zero]
    intro hm
    obtain ⟨p, _, hp⟩ := List.mem_map.1 hm
    exact absurd hp (by simp)
  by_cases hcase : isInErrorState = true ∨ slotId.IsValid = false
      ∨ mapFind n.m_slotIdMap slotId = none
  · have h0 := Node.SignalOutput_nothing rt isInErrorState n slotId hcase
    rw [h0]
    exact ⟨fun h => absurd rfl h, fun _ => rfl, fun _ => rfl⟩
  · have he : isInErrorState = false := by
      cases isInErrorState
      · rfl
      · exact absurd (Or.inl rfl) hcase
    have hv : slotId.IsValid = true := by
      cases hvv : slotId.IsValid
      · exact absurd (Or.inr (Or.inl hvv)) hcase
      · rfl
    have hk : (mapFind n.m_slotIdMap slotId).isSome = true := by
      cases hkk : mapFind n.m_slotIdMap slotId
      · exact absurd (Or.inr (Or.inr hkk)) hcase
      · rfl
    subst he
    rw [Node.SignalOutput_known rt n slotId hv hk]
    generalize (rt.GetConnectedEndpoints ⟨n.GetEntityId, slotId⟩).filterMap (fun e =>
      (rt.FindNode e.m_nodeId).map (fun c => (c, e.m_slotId))) = l
    refine ⟨?_, ?_, fun h => absurd h hcase⟩
    · intro hne
      cases l with
      | nil => exact absurd rfl hne
      | cons p t =>
        simp only [List.isEmpty_cons, Bool.false_eq_true, if_false]
        rw [ExecutionRequest.pushes_append, ExecutionRequest.pushes_map]
        refine ⟨by simp [ExecutionRequest.pushes], ?_⟩
        rw [List.count_append, hcount]
        rfl
    · intro hnil
      cases l with
      | nil => rfl
      | cons p t =>
        rw [ExecutionRequest.pushes_append, ExecutionRequest.pushes_map] at hnil
        exact absurd hnil (by simp)

/-- Witness of C28 on the signal sample: signalling slot 11 of node 1 appends two entries
and then requests `Execute` once; signalling slot 15, whose only endpoint does not resolve,
sends nothing. -/
theorem C28_signal_output_execute_witness :
    ((Runtime.signalNode 1).SignalOutput Runtime.signalSample false ⟨11⟩
        = [ExecutionRequest.AddToExecutionStack (Runtime.signalNode 2) ⟨20⟩,
           ExecutionRequest.AddToExecutionStack (Runtime.signalNode 1) ⟨10⟩,
           ExecutionRequest.Execute])
      ∧ (Runtime.signalNode 1).SignalOutput Runtime.signalSample false ⟨15⟩ = [] :=
  ⟨((C28_signal_output_execute Runtime.signalSample false (Runtime.signalNode 1) ⟨11⟩).1
      (by decide)).1.trans (by decide),
   (C28_signal_output_execute Runtime.signalSample false (Runtime.signalNode 1) ⟨15⟩).2.1
      (by decide)⟩

/-! ## Stale inputs -/

theorem mem_setInsert {K : Type} [DecidableEq K] (s : List K) (k x : K) :
    x ∈ setInsert s k ↔ x ∈ s ∨ x = k := by
  unfold setInsert
  by_cases h : k ∈ s
  · rw [if_pos h]
    constructor
    · exact Or.inl
    · rintro (hx | hx)
      · exact hx
      · rw [hx]; exact h
  · rw [if_neg h]
    simp

theorem setInsert_nodup {K : Type} [DecidableEq K] (s : List K) (k : K) (h : s.Nodup) :
    (setInsert s k).Nodup := by
  unfold setInsert
  by_cases hk : k ∈ s
  · rw [if_pos hk]; exact h
  · rw [if_neg hk]
    rw [List.nodup_append]
    refine ⟨h, List.nodup_singleton k, ?_⟩
    intro a ha hb
    rw [List.mem_singleton] at hb
    exact hk (hb ▸ ha)

namespace Node

/-- One step of the loop of `MarkDefaultableInput`: the entry is flagged exactly when its
iterator points to a slot that is possibly stale. -/
theorem mem_markDefaultableEntry (rt : Runtime) (n : Node) (stale : List SlotId)
    (e : SlotId × Cell) (s : SlotId) :
    s ∈ markDefaultableEntry rt n stale e ↔
      s ∈ stale ∨ (s = e.1 ∧ ∃ slot, cellDeref n.m_slots e.2 = some slot
        ∧ n.MarksSlot rt slot) := by
  unfold markDefaultableEntry
  cases hd : cellDeref n.m_slots e.2 with
  | none => simp
  | some slot =>
    simp only
    by_cases ht : slot.m_type = SlotType.DataIn
    · rw [if_pos ht]
      by_cases hc : n.GetConnectedNodes rt slot ≠ []
      · rw [if_pos hc]
        by_cases hp : (n.GetConnectedNodes rt slot).any (fun nodePtrSlotId =>
            decide (nodePtrSlotId.1.m_class = NodeClass.pureData)) = true
        · rw [if_pos hp]
          constructor
          · exact Or.inl
          · rintro (h | ⟨_, slot', hs', _, _, hall⟩)
            · exact h
            · exfalso
              have : slot' = slot := (Option.some.inj hs').symm
              subst this
              obtain ⟨x, hx, hxp⟩ := List.any_eq_true.1 hp
              exact hall x hx (of_decide_eq_true hxp)
        · rw [if_neg hp, mem_setInsert]
          constructor
          · rintro (h | h)
            · exact Or.inl h
            · refine Or.inr ⟨h, slot, rfl, ht, hc, ?_⟩
              intro x hx hcls
              exact hp (List.any_eq_true.2 ⟨x, hx, decide_eq_true hcls⟩)
          · rintro (h | ⟨h, _⟩)
            · exact Or.inl h
            · exact Or.inr h
      · rw [if_neg hc]
        constructor
        · exact Or.inl
        · rintro (h | ⟨_, slot', hs', _, hne, _⟩)
          · exact h
          · exfalso
            have : slot' = slot := (Option.some.inj hs').symm
            subst this
            exact hc hne
    · rw [if_neg ht]
      constructor
      · exact Or.inl
      · rintro (h | ⟨_, slot', hs', ht', _, _⟩)
        · exact h
        · exfalso
          have : slot' = slot := (Option.some.inj hs').symm
          subst this
          exact ht ht'

theorem markDefaultableEntry_nodup (rt : Runtime) (n : Node) (stale : List SlotId)
    (e : SlotId × Cell) (h : stale.Nodup) : (markDefaultableEntry rt n stale e).Nodup := by
  unfold markDefaultableEntry
  cases cellDeref n.m_slots e.2 with
  | none => exact h
  | some slot =>
    simp only
    split
    · split
      · split
        · exact h
        · exact setInsert_nodup _ _ h
      · exact h
    · exact h

/-- The loop of `MarkDefaultableInput` over a list of index entries. -/
theorem mem_markDefaultable_foldl (rt : Runtime) (n : Node) (entries : List (SlotId × Cell))
    (s : SlotId) :
    ∀ stale : List SlotId,
      s ∈ entries.foldl (markDefaultableEntry rt n) stale ↔
        s ∈ stale ∨ ∃ e ∈ entries, s = e.1 ∧ ∃ slot, cellDeref n.m_slots e.2 = some slot
          ∧ n.MarksSlot rt slot := by
  induction entries with
  | nil => intro stale; simp
  | cons a t ih =>
    intro stale
    rw [List.foldl_cons, ih, mem_markDefaultableEntry]
    constructor
    · rintro ((h | h) | ⟨e, he, h⟩)
      · exact Or.inl h
      · exact Or.inr ⟨a, List.mem_cons_self a t, h⟩
      · exact Or.inr ⟨e, List.mem_cons_of_mem a he, h⟩
    · rintro (h | ⟨e, he, h⟩)
      · exact Or.inl (Or.inl h)
      · rcases List.mem_cons.1 he with hea | het
        · subst hea; exact Or.inl (Or.inr h)
        · exact Or.inr ⟨e, het, h⟩

theorem markDefaultable_foldl_nodup (rt : Runtime) (n : Node)
    (entries : List (SlotId × Cell)) :
    ∀ stale : List SlotId, stale.Nodup →
      (entries.foldl (markDefaultableEntry rt n) stale).Nodup := by
  induction entries with
  | nil => intro stale h; exact h
  | cons a t ih =>
    intro stale h
    rw [List.foldl_cons]
    exact ih _ (markDefaultableEntry_nodup rt n stale a h)

end Node

/-- C29, the claim as stated fails on node 1 of the constant sample.  Its data-in slot 11
has one connection, from node 2, which has no execution pin and so is a pure-data node in
the words of the specification (`IsPureData` and `IsOnPureDataThread` agree), yet
`MarkDefaultableInput` flags the slot, because node 2 is not of the `PureData` class.  Its
data-in slot 12 has one connection, from an entity that resolves to no node, so the slot
has an upstream connection that is not pure-data-sourced, yet it is not flagged, because
`GetConnectedNodes` returns no node for it. -/
theorem C29_class_test_not_pin_test :
    ((Runtime.constantNode 1).MarkDefaultableInput Runtime.constantSample).m_possiblyStaleInput
        = [⟨11⟩]
      ∧ (Runtime.constantNode 2).HasNoExecutionPins = true
      ∧ (Runtime.constantNode 2).IsPureData = true
      ∧ (Runtime.constantNode 1).IsOnPureDataThread Runtime.constantSample 3 ⟨11⟩ = some true
      ∧ ¬ (Runtime.constantNode 1).PossiblyStale Runtime.constantSample
          ((Runtime.constantNode 1).slotById ⟨11⟩)
      ∧ (Runtime.constantNode 1).PossiblyStale Runtime.constantSample
          ((Runtime.constantNode 1).slotById ⟨12⟩)
      ∧ ((Runtime.constantNode 1).slotById ⟨11⟩).m_id = ⟨11⟩
      ∧ ((Runtime.constantNode 1).slotById ⟨12⟩).m_id = ⟨12⟩ := by
  refine ⟨by decide, by decide, by decide, by decide, by decide, by decide, by decide,
    by decide⟩

/-- C29 as amended (`MarkDefaultableInput` tests the class of the connected nodes). Run on a
well-formed node whose possibly-stale set is empty, it leaves a set (no id twice) whose
members are exactly the ids of the slots of the node that are data-in slots for which
`GetConnectedNodes` returns at least one node and no node of the `PureData` class; slots
of other kinds, data-in slots without a connected node that resolves and data-in slots with
a connected node of the `PureData` class are not flagged. -/
theorem C29_mark_defaultable_input (rt : Runtime) (n : Node) (hwf : n.WellFormed)
    (hempty : n.m_possiblyStaleInput = []) :
    (n.MarkDefaultableInput rt).m_possiblyStaleInput.Nodup
      ∧ ∀ s, s ∈ (n.MarkDefaultableInput rt).m_possiblyStaleInput ↔
          ∃ x ∈ n.m_slots, x.2.m_id = s ∧ n.MarksSlot rt x.2 := by
  constructor
  · show (n.m_slotIdMap.foldl (Node.markDefaultableEntry rt n) n.m_possiblyStaleInput).Nodup
    rw [hempty]
    exact Node.markDefaultable_foldl_nodup rt n _ [] List.nodup_nil
  · intro s
    show s ∈ n.m_slotIdMap.foldl (Node.markDefaultableEntry rt n) n.m_possiblyStaleInput ↔ _
    rw [hempty, Node.mem_markDefaultable_foldl]
    constructor
    · rintro (h | ⟨e, he, hs, slot, hd, hp⟩)
      · exact absurd h (List.not_mem_nil s)
      · obtain ⟨x, hx, hxe⟩ := List.mem_map.1 (hwf.indices.slotIdMap.mem_iff.1 he)
        have hcell : e.2 = x.1 := by rw [← hxe]
        have hid : e.1 = x.2.m_id := by rw [← hxe]
        have hdx : cellDeref n.m_slots x.1 = some x.2 := cellDeref_of_mem hwf.slotCells
          (by exact hx)
        rw [hcell, hdx] at hd
        have hslot : x.2 = slot := Option.some.inj hd
        refine ⟨x, hx, ?_, ?_⟩
        · rw [hs, hid]
        · rw [hslot]; exact hp
    · rintro ⟨x, hx, hs, hp⟩
      refine Or.inr ⟨(x.2.m_id, x.1), ?_, hs.symm, x.2, ?_, hp⟩
      · exact hwf.indices.slotIdMap.mem_iff.2 (List.mem_map.2 ⟨x, hx, rfl⟩)
      · exact cellDeref_of_mem hwf.slotCells (by exact hx)

/-- Witness of C29 as amended on the signal sample: of the data-in slots of node 1 only
slot 12, fed by the plain node 2, is flagged; slot 13 is fed by a node of the `PureData`
class, slot 14 is not connected and the only endpoint of slot 15 resolves to no node. -/
theorem C29_mark_defaultable_input_witness :
    ((Runtime.signalNode 1).MarkDefaultableInput Runtime.signalSample).m_possiblyStaleInput
        = [⟨12⟩]
      ∧ ∃ x ∈ (Runtime.signalNode 1).m_slots, x.2.m_id = ⟨12⟩
          ∧ (Runtime.signalNode 1).MarksSlot Runtime.signalSample x.2 :=
  ⟨by decide,
   ((C29_mark_defaultable_input Runtime.signalSample (Runtime.signalNode 1)
      (Node.runOps_wellFormed EqualKeyOrder.newestFirst [] _ _ (Node.empty_wellFormed _ _)
        (by decide)) (by decide)).2 ⟨12⟩).1 (by decide)⟩

/-! ## Contracts of a new slot -/

namespace Node

/-- The slot list after an accepted `InsertSlotInternal`. -/
theorem InsertSlotInternal_slots (o : EqualKeyOrder) (n : Node) (i : Int)
    (cfg : SlotConfiguration) (id : SlotId) (it : Option Cell)
    (hs : (InsertSlotInternal o n i cfg id it).success = true) :
    (InsertSlotInternal o n i cfg id it).node.m_slots
      = emplaceAtIndex n.m_slots i (n.m_nextCell, n.constructSlot cfg id) := by
  rcases InsertSlotInternal_cases o n i cfg id it with ⟨h0, _⟩ | ⟨_, _, h2⟩
  · rw [h0] at hs; exact absurd hs (by decide)
  · rw [h2]; rfl

/-- The slot list after an accepted `InsertInputDatumSlotInternal`. -/
theorem InsertInputDatumSlotInternal_slots (o : EqualKeyOrder) (reg : VariableRegistry)
    (n : Node) (i : Int) (cfg : SlotConfiguration) (d : Datum) (id : SlotId)
    (vid : VariableId) (it : Option Cell)
    (hs : (InsertSlotInternal o n i cfg id it).success = true) :
    (InsertInputDatumSlotInternal o reg n i cfg d id vid it).node.m_slots
      = emplaceAtIndex n.m_slots i (n.m_nextCell, n.constructSlot cfg id) := by
  rw [← InsertSlotInternal_slots o n i cfg id it hs]
  unfold InsertInputDatumSlotInternal
  simp only [hs, if_true]

/-- The slot list after an accepted `InsertDataTypeSlotInternal`. -/
theorem InsertDataTypeSlotInternal_slots (o : EqualKeyOrder) (n : Node) (i : Int)
    (cfg : SlotConfiguration) (t : DataType) (id : SlotId) (it : Option Cell)
    (hs : (InsertSlotInternal o n (-1) cfg id it).success = true) :
    (InsertDataTypeSlotInternal o n i cfg t id it).node.m_slots
      = emplaceAtIndex n.m_slots (-1) (n.m_nextCell, n.constructSlot cfg id) := by
  rw [← InsertSlotInternal_slots o n (-1) cfg id it hs]
  unfold InsertDataTypeSlotInternal
  simp only [hs, if_true]

/-- The slot list after an accepted slot insertion of any of the four kinds of call: the
old slots and one new slot, built from the configuration. -/
theorem SlotOp.apply_slots (o : EqualKeyOrder) (reg : VariableRegistry) (n : Node)
    (op : SlotOp) (cfg : SlotConfiguration) (id : SlotId)
    (h : SlotOp.insertion o n op = some (cfg, id, true)) :
    ((op.apply o reg n).m_slots).Perm ((n.m_nextCell, n.constructSlot cfg id) :: n.m_slots) := by
  cases op with
  | insertSlot index slotConfig newSlotId =>
    simp only [SlotOp.insertion, Option.some.injEq, Prod.mk.injEq] at h
    obtain ⟨h1, h2, h3⟩ := h
    subst h1; subst h2
    show ((InsertSlotInternal o n index slotConfig newSlotId none).node.m_slots).Perm _
    rw [InsertSlotInternal_slots o n index slotConfig newSlotId none h3]
    exact emplaceAtIndex_perm _ _ _
  | insertInputDatumSlot index slotConfig initialDatum newSlotId newVarId =>
    simp only [SlotOp.insertion, Option.some.injEq, Prod.mk.injEq] at h
    obtain ⟨h1, h2, h3⟩ := h
    subst h1; subst h2
    show ((InsertInputDatumSlotInternal o reg n index slotConfig initialDatum newSlotId
      newVarId none).node.m_slots).Perm _
    rw [InsertInputDatumSlotInternal_slots o reg n index slotConfig initialDatum newSlotId
      newVarId none h3]
    exact emplaceAtIndex_perm _ _ _
  | addInputTypeSlot name toolTip type contractType unique newSlotId =>
    simp only [SlotOp.insertion, Option.some.injEq, Prod.mk.injEq] at h
    obtain ⟨h1, h2, h3⟩ := h
    subst h1; subst h2
    show ((InsertDataTypeSlotInternal o n (-1) _ type newSlotId none).node.m_slots).Perm _
    rw [InsertDataTypeSlotInternal_slots o n (-1) _ type newSlotId none h3]
    exact emplaceAtIndex_perm _ _ _
  | addOutputTypeSlot name toolTip type unique newSlotId =>
    simp only [SlotOp.insertion, Option.some.injEq, Prod.mk.injEq] at h
    obtain ⟨h1, h2, h3⟩ := h
    subst h1; subst h2
    show ((n.AddOutputTypeSlot o name toolTip type unique newSlotId).node.m_slots).Perm _
    rw [AddOutputTypeSlot_node, InsertDataTypeSlotInternal_slots o n (-1) _ type newSlotId none h3]
    exact emplaceAtIndex_perm _ _ _
  | removeSlot graph slotId =>
    simp [SlotOp.insertion] at h

end Node

/-- C30 (implicit exclusivity contract). For every slot insertion (`InsertSlot`,
`InsertInputDatumSlot`, `AddInputTypeSlot`, `AddOutputTypeSlot`) whose configuration
`InsertSlotInternal` accepts, the slot list afterwards is the old one with exactly one new
slot, of the id generated and of the kind of the configuration, whose contract list is the
contract list of the configuration followed by one exclusive-pure-data contract when the
kind is DataIn, and is the contract list of the configuration when the kind is DataOut,
ExecutionIn or ExecutionOut. -/
theorem C30_implicit_exclusivity (order : EqualKeyOrder) (reg : VariableRegistry) (n : Node)
    (op : Node.SlotOp) (cfg : SlotConfiguration) (newSlotId : SlotId)
    (hins : Node.SlotOp.insertion order n op = some (cfg, newSlotId, true)) :
    ∃ slot : Slot,
      ((op.apply order reg n).m_slots).Perm ((n.m_nextCell, slot) :: n.m_slots)
        ∧ slot.m_id = newSlotId ∧ slot.m_type = cfg.m_type
        ∧ (cfg.m_type = SlotType.DataIn →
            slot.m_contracts
              = cfg.m_contractDescs ++ [ContractDescriptor.exclusivePureDataContract])
        ∧ ((cfg.m_type = SlotType.DataOut ∨ cfg.m_type = SlotType.ExecutionIn
              ∨ cfg.m_type = SlotType.ExecutionOut) →
            slot.m_contracts = cfg.m_contractDescs) := by
  refine ⟨n.constructSlot cfg newSlotId, Node.SlotOp.apply_slots order reg n op cfg newSlotId
    hins, rfl, rfl, ?_, ?_⟩
  · intro hk
    show (if cfg.m_type = SlotType.DataIn then _ else _) = _
    rw [if_pos hk]
  · intro hk
    have hne : ¬ cfg.m_type = SlotType.DataIn := by
      rcases hk with hk | hk | hk <;> rw [hk] <;> decide
    show (if cfg.m_type = SlotType.DataIn then _ else _) = _
    rw [if_neg hne]

/-- Witness of C30: an `AddInputTypeSlot` call with a custom type contract on the sample
node; the new data-in slot has the type contract followed by the exclusive-pure-data
contract. -/
theorem C30_implicit_exclusivity_witness :
    ∃ slot : Slot,
      ((Node.SlotOp.apply EqualKeyOrder.newestFirst []
          (Node.sampleNode EqualKeyOrder.newestFirst)
          (Node.SlotOp.addInputTypeSlot "E" "" ⟨3⟩ Node.InputTypeContract.CustomType false
            ⟨9⟩)).m_slots).Perm
          (((Node.sampleNode EqualKeyOrder.newestFirst).m_nextCell, slot)
            :: (Node.sampleNode EqualKeyOrder.newestFirst).m_slots)
        ∧ slot.m_id = ⟨9⟩
        ∧ slot.m_contracts
            = [ContractDescriptor.typeContract (some ⟨3⟩),
               ContractDescriptor.exclusivePureDataContract] := by
  obtain ⟨slot, hperm, hid, _, hin, _⟩ := C30_implicit_exclusivity EqualKeyOrder.newestFirst []
    (Node.sampleNode EqualKeyOrder.newestFirst)
    (Node.SlotOp.addInputTypeSlot "E" "" ⟨3⟩ Node.InputTypeContract.CustomType false ⟨9⟩)
    ⟨"E", "", SlotType.DataIn, [ContractDescriptor.typeContract (some ⟨3⟩)], false⟩ ⟨9⟩
    (by decide)
  exact ⟨slot, hperm, hid, hin rfl⟩

/-! ## Pure data and the dynamic input group -/

/-- C33, the claim as stated fails: `Node.executionInSample` has an execution-in slot, so it
has an execution pin, and `IsPureData` returns true, because the loop of `IsPureData` tests
only `IsExecutionOut`. -/
theorem C33_execution_in_is_pure_data :
    (∃ e ∈ Node.executionInSample.m_slots, e.2.m_type = SlotType.ExecutionIn)
      ∧ Node.executionInSample.IsPureData = true :=
  ⟨⟨(0, Node.executionInSample.slotById ⟨60⟩), by decide, by decide⟩, by decide⟩

/-- C33 as amended (pure-data classification). For every node, `IsPureData` returns true if
and only if the slot list of the node contains no execution-out slot; execution-in slots
do not matter. -/
theorem C33_pure_data_classification (n : Node) :
    n.IsPureData = true ↔ ∀ e ∈ n.m_slots, e.2.m_type ≠ SlotType.ExecutionOut := by
  unfold Node.IsPureData
  rw [List.all_eq_true]
  constructor
  · intro h e he hc
    have := h e he
    simp [Node.IsExecutionOut, hc] at this
  · intro h e he
    simp [Node.IsExecutionOut, h e he]

/-- C35 (Single arity over the whole input group). When a slot of the supplied input-slot
group has the queried id and the arity is Single, `DynamicSlotAcceptsType` returns false
as soon as any slot of the group has a connected upstream node, whether or not the queried
slot itself is connected. -/
theorem C35_single_arity_whole_group (alg : TypeAlgebra) (reg : VariableRegistry)
    (rt : Runtime) (n : Node) (slotID : SlotId) (T : DataType) (outputSlot : Slot)
    (inputSlots : List Slot) (s other : Slot) (hs : s ∈ inputSlots) (hid : s.m_id = slotID)
    (hother : other ∈ inputSlots) (hconn : n.GetConnectedNodes rt other ≠ []) :
    n.DynamicSlotAcceptsType alg reg rt slotID T DynamicTypeArity.Single outputSlot inputSlots
      = false := by
  cases hres : n.DynamicSlotAcceptsType alg reg rt slotID T DynamicTypeArity.Single outputSlot
      inputSlots with
  | false => rfl
  | true =>
    have hall := Node.DynamicSlotAcceptsType_group alg reg rt n slotID T
      DynamicTypeArity.Single outputSlot inputSlots s hs hid hres other hother
    unfold Node.DynamicSlotInputAcceptsType at hall
    rw [if_pos (And.intro rfl hconn)] at hall
    exact absurd hall (by simp)

/-- Witness of C35 on the signal sample: the group is the data-in slots 14 and 12 of node
1; the queried slot 14 has no connection, slot 12 is fed by node 2, and the proposal is
rejected. -/
theorem C35_single_arity_whole_group_witness :
    (Runtime.signalNode 1).GetConnectedNodes Runtime.signalSample
        ((Runtime.signalNode 1).slotById ⟨14⟩) = []
      ∧ (Runtime.signalNode 1).DynamicSlotAcceptsType TypeAlgebra.exact []
          Runtime.signalSample ⟨14⟩ ⟨1⟩ DynamicTypeArity.Single
          ((Runtime.signalNode 1).slotById ⟨11⟩)
          [(Runtime.signalNode 1).slotById ⟨14⟩, (Runtime.signalNode 1).slotById ⟨12⟩]
          = false :=
  ⟨by decide,
   C35_single_arity_whole_group TypeAlgebra.exact [] Runtime.signalSample
    (Runtime.signalNode 1) ⟨14⟩ ⟨1⟩ ((Runtime.signalNode 1).slotById ⟨11⟩)
    [(Runtime.signalNode 1).slotById ⟨14⟩, (Runtime.signalNode 1).slotById ⟨12⟩]
    ((Runtime.signalNode 1).slotById ⟨14⟩) ((Runtime.signalNode 1).slotById ⟨12⟩)
    (by decide) (by decide) (by decide) (by decide)⟩

namespace Node

/-- A true answer of `DynamicSlotAcceptsType` for the id of the output slot, when no slot of
the input group has that id, has passed the loop over the nodes connected to the input
group, and the type is valid. -/
theorem DynamicSlotAcceptsType_output_candidate (alg : TypeAlgebra) (reg : VariableRegistry)
    (rt : Runtime) (n : Node) (slotID : SlotId) (type : DataType) (arity : DynamicTypeArity)
    (outputSlot : Slot) (inputSlots : List Slot)
    (hnot : ∀ s ∈ inputSlots, s.m_id ≠ slotID) (hid : slotID = outputSlot.m_id)
    (h : n.DynamicSlotAcceptsType alg reg rt slotID type arity outputSlot inputSlots = true) :
    type.IsValid = true
      ∧ inputSlots.all (fun inputSlot =>
          (n.GetConnectedNodes rt inputSlot).all (fun input =>
            alg.IS_A (input.1.GetSlotDataType reg input.2) type)) = true := by
  have hany : inputSlots.any (fun slot => decide (slot.m_id = slotID)) = false := by
    rw [List.any_eq_false]
    intro s hs
    simpa using hnot s hs
  unfold DynamicSlotAcceptsType at h
  by_cases hv : type.IsValid = true
  · refine ⟨hv, ?_⟩
    rw [if_pos hv] at h
    simp only [hany, Bool.false_eq_true, if_false, if_pos hid] at h
    cases hA : inputSlots.all (fun inputSlot =>
        (n.GetConnectedNodes rt inputSlot).all (fun input =>
          alg.IS_A (input.1.GetSlotDataType reg input.2) type)) with
    | true => rfl
    | false =>
      simp only [hA] at h
      simp at h
  · rw [if_neg hv] at h
    exact absurd h (by simp)

end Node

/-- C36 (output candidate against existing inputs). When the queried slot id is the id of
the output slot and no slot of the input-slot group has it, a true result of
`DynamicSlotAcceptsType` implies that `T` is a valid type and that for every upstream node
connected to any slot of the group, with the data type `U` of its connected slot, `U` is-a
`T`; one connected input for which `U` is-a `T` is false forces the result false. -/
theorem C36_output_candidate_inputs (alg : TypeAlgebra) (reg : VariableRegistry)
    (rt : Runtime) (n : Node) (slotID : SlotId) (T : DataType) (arity : DynamicTypeArity)
    (outputSlot : Slot) (inputSlots : List Slot)
    (hnot : ∀ s ∈ inputSlots, s.m_id ≠ slotID) (hid : slotID = outputSlot.m_id) :
    (n.DynamicSlotAcceptsType alg reg rt slotID T arity outputSlot inputSlots = true →
        T.IsValid = true
          ∧ ∀ s ∈ inputSlots, ∀ x ∈ n.GetConnectedNodes rt s,
              alg.IS_A (x.1.GetSlotDataType reg x.2) T = true)
      ∧ (∀ s ∈ inputSlots, ∀ x ∈ n.GetConnectedNodes rt s,
          alg.IS_A (x.1.GetSlotDataType reg x.2) T = false →
          n.DynamicSlotAcceptsType alg reg rt slotID T arity outputSlot inputSlots
            = false) := by
  have key : n.DynamicSlotAcceptsType alg reg rt slotID T arity outputSlot inputSlots = true →
      T.IsValid = true
        ∧ ∀ s ∈ inputSlots, ∀ x ∈ n.GetConnectedNodes rt s,
            alg.IS_A (x.1.GetSlotDataType reg x.2) T = true := by
    intro h
    obtain ⟨hv, hall⟩ := Node.DynamicSlotAcceptsType_output_candidate alg reg rt n slotID T
      arity outputSlot inputSlots hnot hid h
    exact ⟨hv, fun s hs x hx => List.all_eq_true.1 (List.all_eq_true.1 hall s hs) x hx⟩
  refine ⟨key, ?_⟩
  intro s hs x hx hno
  cases hres : n.DynamicSlotAcceptsType alg reg rt slotID T arity outputSlot inputSlots with
  | false => rfl
  | true =>
    have := (key hres).2 s hs x hx
    rw [hno] at this
    exact absurd this (by simp)

/-- Witness of C36 on the scenario of the specification: the output slot 23 of node 2 is the
candidate, the input group is slot 22, fed by the constant of type 1; the candidate type 1
is accepted, the candidate type 2 is rejected. -/
theorem C36_output_candidate_inputs_witness :
    (⟨1⟩ : DataType).IsValid = true
      ∧ (Runtime.scenarioNode 2).DynamicSlotAcceptsType TypeAlgebra.exact []
          Runtime.scenarioSample ⟨23⟩ ⟨2⟩ DynamicTypeArity.Multiple (Runtime.scenarioSlot 23)
          [Runtime.scenarioSlot 22] = false :=
  ⟨((C36_output_candidate_inputs TypeAlgebra.exact [] Runtime.scenarioSample
      (Runtime.scenarioNode 2) ⟨23⟩ ⟨1⟩ DynamicTypeArity.Multiple (Runtime.scenarioSlot 23)
      [Runtime.scenarioSlot 22] (by decide) (by decide)).1 (by decide)).1,
   (C36_output_candidate_inputs TypeAlgebra.exact [] Runtime.scenarioSample
      (Runtime.scenarioNode 2) ⟨23⟩ ⟨2⟩ DynamicTypeArity.Multiple (Runtime.scenarioSlot 23)
      [Runtime.scenarioSlot 22] (by decide) (by decide)).2
      (Runtime.scenarioSlot 22) (by decide) (Runtime.scenarioNode 1, ⟨11⟩) (by decide)
      (by decide)⟩

/-! ## Lookup of the slot of a variable, and writing an input -/

theorem mapModify_map_fst {K V : Type} [DecidableEq K] (m : List (K × V)) (k : K)
    (f : V → V) : (mapModify m k f).map Prod.fst = m.map Prod.fst := by
  induction m with
  | nil => rfl
  | cons e t ih =>
    by_cases h : e.1 = k
    · simp [mapModify, h]
    · simp [mapModify, h, ih]

theorem mapModify_map_of_preserved {K V B : Type} [DecidableEq K] (g : K × V → B)
    (m : List (K × V)) (k : K) (f : V → V) (hg : ∀ e : K × V, g (e.1, f e.2) = g e) :
    (mapModify m k f).map g = m.map g := by
  induction m with
  | nil => rfl
  | cons e t ih =>
    by_cases h : e.1 = k
    · have := hg e
      rw [h] at this
      simp [mapModify, h, this]
    · simp [mapModify, h, ih]

theorem find_unique_some {A : Type} (p : A → Bool) (l : List A) (a : A) (ha : a ∈ l)
    (hp : p a = true) (huniq : ∀ x ∈ l, p x = true → x = a) : l.find? p = some a := by
  cases hf : l.find? p with
  | none =>
    rw [List.find?_eq_none] at hf
    exact absurd hp (hf a ha)
  | some x =>
    rw [huniq x (List.mem_of_find?_eq_some hf) (List.find?_some hf)]

theorem cellModify_map_fst {A : Type} (l : List (Cell × A)) (c : Cell) (f : A → A) :
    (cellModify l c f).map Prod.fst = l.map Prod.fst := by
  induction l with
  | nil => rfl
  | cons e t ih =>
    by_cases h : e.1 = c
    · simp [cellModify, h]
    · simp [cellModify, h, ih]

theorem cellModify_eq_map {A : Type} (l : List (Cell × A)) (c : Cell) (f : A → A)
    (hnd : (l.map Prod.fst).Nodup) :
    cellModify l c f = l.map (fun x => if x.1 = c then (x.1, f x.2) else x) := by
  induction l with
  | nil => rfl
  | cons e t ih =>
    have hnd' : (t.map Prod.fst).Nodup := (List.nodup_cons.1 (by simpa using hnd)).2
    by_cases h : e.1 = c
    · have hnot : c ∉ t.map Prod.fst := by
        rw [← h]; exact (List.nodup_cons.1 (by simpa using hnd)).1
      have htail : t.map (fun x => if x.1 = c then (x.1, f x.2) else x) = t := by
        conv_rhs => rw [← List.map_id t]
        apply List.map_congr_left
        intro x hx
        have : x.1 ≠ c := fun hc => hnot (List.mem_map.2 ⟨x, hx, hc⟩)
        simp [this]
      simp [cellModify, h, htail]
    · simp [cellModify, h, ih hnd']

theorem cellDeref_map {A : Type} (l : List (Cell × A)) (c : Cell) (g : A → A) (P : A → Prop)
    [DecidablePred P] :
    cellDeref (l.map (fun x => if P x.2 then (x.1, g x.2) else x)) c
      = (cellDeref l c).map (fun v => if P v then g v else v) := by
  unfold cellDeref
  induction l with
  | nil => rfl
  | cons e t ih =>
    by_cases hp : P e.2
    · by_cases hc : e.1 = c
      · simp [List.find?_cons, hp, hc]
      · simp only [List.map_cons, if_pos hp, List.find?_cons, hc, decide_False]
        exact ih
    · by_cases hc : e.1 = c
      · simp [List.find?_cons, hp, hc]
      · simp only [List.map_cons, if_neg hp, List.find?_cons, hc, decide_False]
        exact ih

namespace Node

/-- A sequence of redirections changes neither the keys nor the owned ids of the binding
map. -/
theorem redirect_keys_owned (calls : List (SlotId × VariableId)) :
    ∀ n : Node,
      (n.redirect calls).m_slotIdVarInfoMap.map (fun e => (e.1, e.2.m_ownedVariableId))
        = n.m_slotIdVarInfoMap.map (fun e => (e.1, e.2.m_ownedVariableId)) := by
  induction calls with
  | nil => intro n; rfl
  | cons c t ih =>
    intro n
    show ((n.SetSlotVariableId c.1 c.2).node.redirect t).m_slotIdVarInfoMap.map _ = _
    rw [ih]
    unfold SetSlotVariableId
    cases hf : mapFind n.m_slotIdVarInfoMap c.1 with
    | none => rfl
    | some b =>
      simp only
      by_cases hb : b.2.m_currentVariableId ≠ c.2
      · rw [if_pos hb]
        exact mapModify_map_of_preserved _ _ _ _ (fun _ => rfl)
      · rw [if_neg hb]

/-- With pairwise distinct valid owned ids, `GetSlotId(const VariableId&)` finds the
binding that owns a valid id, whatever the active ids are and however many bindings have
the empty owned id. -/
theorem GetSlotIdForVariable_owned (n : Node) (e : SlotId × VariableInfo)
    (he : e ∈ n.m_slotIdVarInfoMap) (hv : e.2.m_ownedVariableId.IsValid = true)
    (hd : (n.ownedIds.filter (fun id => id.IsValid)).Nodup) :
    n.GetSlotIdForVariable e.2.m_ownedVariableId = e.1 := by
  unfold GetSlotIdForVariable
  rw [find_unique_some _ _ e he (by simp)]
  intro x hx hpx
  have hxo : x.2.m_ownedVariableId = e.2.m_ownedVariableId := (of_decide_eq_true hpx).symm
  have hd' : ((n.m_slotIdVarInfoMap.filter
      (fun b => b.2.m_ownedVariableId.IsValid)).map (fun b => b.2.m_ownedVariableId)).Nodup := by
    have hfm : (n.m_slotIdVarInfoMap.filter
        (fun b => b.2.m_ownedVariableId.IsValid)).map (fun b => b.2.m_ownedVariableId)
        = n.ownedIds.filter (fun id => id.IsValid) := by
      unfold ownedIds
      rw [List.filter_map]
      rfl
    rw [hfm]
    exact hd
  exact List.inj_on_of_nodup_map hd'
    (List.mem_filter.2 ⟨hx, by rw [hxo]; exact hv⟩) (List.mem_filter.2 ⟨he, hv⟩) hxo

end Node

/-- C37 (round trip of the lookup by variable). For every node whose bindings have pairwise
distinct owned variable ids, the empty id of the bindings without an owned variable apart,
and every binding of a slot `s` that owns a variable, after any sequence of redirections
of active bindings (also of other slots to the owned variable of `s`),
`GetSlotId(owned variable id of s)` is `s`: a match on an owned id takes precedence over a
match on an active id.  For a variable id that is neither the owned nor the active id of
any binding, `GetSlotId` returns the empty slot id. -/
theorem C37_variable_lookup_round_trip (n : Node) (calls : List (SlotId × VariableId))
    (hdistinct : (n.ownedIds.filter (fun id => id.IsValid)).Nodup) :
    (∀ e ∈ n.m_slotIdVarInfoMap, e.2.m_ownedVariableId.IsValid = true →
        (n.redirect calls).GetSlotIdForVariable e.2.m_ownedVariableId = e.1)
      ∧ (∀ v : VariableId,
          (∀ e ∈ (n.redirect calls).m_slotIdVarInfoMap,
            e.2.m_ownedVariableId ≠ v ∧ e.2.m_currentVariableId ≠ v) →
          (n.redirect calls).GetSlotIdForVariable v = SlotId.empty) := by
  have hko := Node.redirect_keys_owned calls n
  constructor
  · intro e he hvalid
    have hmem : (e.1, e.2.m_ownedVariableId)
        ∈ (n.redirect calls).m_slotIdVarInfoMap.map (fun e => (e.1, e.2.m_ownedVariableId)) := by
      rw [hko]; exact List.mem_map.2 ⟨e, he, rfl⟩
    obtain ⟨e', he', hee⟩ := List.mem_map.1 hmem
    have h1 : e'.1 = e.1 := (Prod.mk.inj hee).1
    have h2 : e'.2.m_ownedVariableId = e.2.m_ownedVariableId := (Prod.mk.inj hee).2
    have hd' : ((n.redirect calls).ownedIds.filter (fun id => id.IsValid)).Nodup := by
      have : (n.redirect calls).ownedIds = n.ownedIds := by
        unfold Node.ownedIds
        have := congrArg (List.map Prod.snd) hko
        simpa [List.map_map, Function.comp] using this
      rw [this]; exact hdistinct
    rw [← h2, ← h1]
    exact Node.GetSlotIdForVariable_owned (n.redirect calls) e' he' (h2 ▸ hvalid) hd'
  · intro v hv
    unfold Node.GetSlotIdForVariable
    have h1 : (n.redirect calls).m_slotIdVarInfoMap.find? (fun slotIdVarIdPair =>
        decide (v = slotIdVarIdPair.2.m_ownedVariableId)) = none := by
      rw [List.find?_eq_none]
      intro x hx hc
      exact (hv x hx).1 (of_decide_eq_true hc).symm
    have h2 : (n.redirect calls).m_slotIdVarInfoMap.find? (fun slotIdVarIdPair =>
        decide (v = slotIdVarIdPair.2.m_currentVariableId)) = none := by
      rw [List.find?_eq_none]
      intro x hx hc
      exact (hv x hx).2 (of_decide_eq_true hc).symm
    rw [h1, h2]

/-- Witness of C37 on `Node.mixedSample`, whose typed slots 42 and 43 both have the empty
owned id: the active bindings of the slots 40 and 42, which precede slot 41 in the binding
map, are redirected to the variable 410 that slot 41 owns; the lookup of 410 still answers
slot 41. -/
theorem C37_variable_lookup_round_trip_witness :
    ¬ Node.mixedSample.ownedIds.Nodup
      ∧ (Node.mixedSample.redirect [(⟨40⟩, ⟨410⟩), (⟨42⟩, ⟨410⟩)]).GetSlotVariableId ⟨40⟩
          = ⟨410⟩
      ∧ (Node.mixedSample.redirect [(⟨40⟩, ⟨410⟩), (⟨42⟩, ⟨410⟩)]).GetSlotVariableId ⟨42⟩
          = ⟨410⟩
      ∧ (Node.mixedSample.redirect [(⟨40⟩, ⟨410⟩), (⟨42⟩, ⟨410⟩)]).GetSlotIdForVariable ⟨410⟩
          = ⟨41⟩ :=
  ⟨by decide, by decide, by decide,
   (C37_variable_lookup_round_trip Node.mixedSample [(⟨40⟩, ⟨410⟩), (⟨42⟩, ⟨410⟩)]
      (by decide)).1
    (⟨41⟩, ⟨⟨410⟩, ⟨410⟩, DataType.Invalid⟩) (by decide) (by decide)⟩

namespace Node

/-- In a well-formed node the cell the id to variable index gives for an id holds the
variable with that id, and only that cell does. -/
theorem variable_cell_spec {n : Node} (h : n.WellFormed) {id : VariableId}
    {c : VariableId × Cell} (hc : mapFind n.m_varIdMap id = some c) :
    ∀ y ∈ n.m_varDatums, (y.2.m_id = id ↔ y.1 = c.2) :=
  (index_find_spec (fun v : VariableDatumBase => v.m_id) n.m_varDatums n.m_varIdMap id c
    h.indices.varIdMap h.varCells (by simpa [variableIds] using h.variableIdsNodup) hc).2

/-- In a well-formed node, assignment through the iterator of the variable `id` changes
exactly the variable with that id. -/
theorem cellModify_variable {n : Node} (h : n.WellFormed) {id : VariableId}
    {c : VariableId × Cell} (hc : mapFind n.m_varIdMap id = some c)
    (f : VariableDatumBase → VariableDatumBase) :
    cellModify n.m_varDatums c.2 f
      = n.m_varDatums.map (fun x => if x.2.m_id = id then (x.1, f x.2) else x) := by
  rw [cellModify_eq_map _ _ _ h.varCells]
  apply List.map_congr_left
  intro x hx
  have hiff := variable_cell_spec h hc x hx
  by_cases hx1 : x.1 = c.2
  · rw [if_pos hx1, if_pos (hiff.2 hx1)]
  · rw [if_neg hx1, if_neg (fun hid => hx1 (hiff.1 hid))]

/-- Assignment through an iterator of the binding map keeps the node well formed. -/
theorem modifyBinding_wellFormed (n : Node) (k : SlotId) (f : VariableInfo → VariableInfo)
    (h : n.WellFormed) :
    ({ n with m_slotIdVarInfoMap := mapModify n.m_slotIdVarInfoMap k f } : Node).WellFormed := by
  refine ⟨⟨h.indices.slotIdMap, h.indices.slotNameMap, h.indices.varIdMap⟩, h.slotCells,
    h.varCells, h.slotCellsBelow, h.varCellsBelow, h.slotIdsNodup, h.variableIdsNodup, ?_, ?_⟩
  · show ((mapModify n.m_slotIdVarInfoMap k f).map Prod.fst).Nodup
    rw [mapModify_map_fst]
    exact h.bindingKeys
  · intro e he
    show e.1 ∈ n.slotIds
    have : e.1 ∈ (mapModify n.m_slotIdVarInfoMap k f).map Prod.fst :=
      List.mem_map.2 ⟨e, he, rfl⟩
    rw [mapModify_map_fst] at this
    obtain ⟨e0, he0, h0⟩ := List.mem_map.1 this
    rw [← h0]
    exact h.bindingSlots e0 he0

/-- Assignment through an iterator of the variable list that keeps the id of the variable
keeps the node well formed. -/
theorem modifyVariable_wellFormed (n : Node) (c : Cell)
    (f : VariableDatumBase → VariableDatumBase) (hf : ∀ v, (f v).m_id = v.m_id)
    (h : n.WellFormed) :
    ({ n with m_varDatums := cellModify n.m_varDatums c f } : Node).WellFormed := by
  have hpairs : (cellModify n.m_varDatums c f).map (fun e => (e.2.m_id, e.1))
      = n.m_varDatums.map (fun e => (e.2.m_id, e.1)) := by
    rw [cellModify_eq_map _ _ _ h.varCells, List.map_map]
    apply List.map_congr_left
    intro x _
    by_cases hx : x.1 = c
    · simp [hx, hf]
    · simp [hx]
  have hcells : (cellModify n.m_varDatums c f).map Prod.fst = n.m_varDatums.map Prod.fst :=
    cellModify_map_fst _ _ _
  have hids : (cellModify n.m_varDatums c f).map (fun e => e.2.m_id)
      = n.m_varDatums.map (fun e => e.2.m_id) := by
    have := congrArg (List.map Prod.fst) hpairs
    simpa [List.map_map, Function.comp] using this
  refine ⟨⟨h.indices.slotIdMap, h.indices.slotNameMap, ?_⟩, h.slotCells, ?_, h.slotCellsBelow,
    ?_, h.slotIdsNodup, ?_, h.bindingKeys, h.bindingSlots⟩
  · show n.m_varIdMap.Perm ((cellModify n.m_varDatums c f).map (fun e => (e.2.m_id, e.1)))
    rw [hpairs]
    exact h.indices.varIdMap
  · show ((cellModify n.m_varDatums c f).map Prod.fst).Nodup
    rw [hcells]
    exact h.varCells
  · intro e he
    show e.1 < n.m_nextCell
    have : e.1 ∈ (cellModify n.m_varDatums c f).map Prod.fst := List.mem_map.2 ⟨e, he, rfl⟩
    rw [hcells] at this
    obtain ⟨e0, he0, h0⟩ := List.mem_map.1 this
    rw [← h0]
    exact h.varCellsBelow e0 he0
  · show ((cellModify n.m_varDatums c f).map (fun e => e.2.m_id)).Nodup
    rw [hids]
    exact h.variableIdsNodup

theorem SetSlotVariableId_wellFormed (n : Node) (s : SlotId) (v : VariableId)
    (h : n.WellFormed) : (n.SetSlotVariableId s v).node.WellFormed := by
  unfold SetSlotVariableId
  cases hf : mapFind n.m_slotIdVarInfoMap s with
  | none => exact h
  | some b =>
    simp only
    by_cases hb : b.2.m_currentVariableId ≠ v
    · rw [if_pos hb]
      exact modifyBinding_wellFormed n s _ h
    · rw [if_neg hb]
      exact h

theorem ResetSlotVariableId_wellFormed (n : Node) (s : SlotId) (h : n.WellFormed) :
    (n.ResetSlotVariableId s).node.WellFormed := by
  unfold ResetSlotVariableId
  cases hf : mapFind n.m_slotIdVarInfoMap s with
  | none => exact h
  | some b => exact SetSlotVariableId_wellFormed n s _ h

theorem redirect_wellFormed (calls : List (SlotId × VariableId)) :
    ∀ n : Node, n.WellFormed → (n.redirect calls).WellFormed := by
  induction calls with
  | nil => intro n h; exact h
  | cons c t ih =>
    intro n h
    exact ih _ (SetSlotVariableId_wellFormed n c.1 c.2 h)

theorem SetInput_wellFormed (n : Node) (d : Datum) (s : SlotId) (h : n.WellFormed) :
    (n.SetInput d s).WellFormed := by
  unfold SetInput
  cases hf : mapFind n.m_slotIdVarInfoMap s with
  | none => exact h
  | some b =>
    simp only
    cases hv : mapFind n.m_varIdMap b.2.m_ownedVariableId with
    | none => exact h
    | some c => exact modifyVariable_wellFormed n c.2 _ (fun _ => rfl) h

theorem SetDefault_wellFormed (n : Node) (s : SlotId) (h : n.WellFormed) :
    (n.SetDefault s).WellFormed := by
  unfold SetDefault
  simp only
  split
  · cases hv : mapFind n.m_varIdMap (n.GetVariableId s) with
    | none => exact h
    | some c => exact modifyVariable_wellFormed n c.2 _ (fun _ => rfl) h
  · exact h

theorem SetDefault_foldl_wellFormed (slots : List SlotId) :
    ∀ n : Node, n.WellFormed →
      (slots.foldl (fun n slotID => n.SetDefault slotID) n).WellFormed := by
  induction slots with
  | nil => intro n h; exact h
  | cons a t ih => intro n h; exact ih _ (SetDefault_wellFormed n a h)

theorem SignalInput_wellFormed (n : Node) (s : SlotId) (h : n.WellFormed) :
    (n.SignalInput s).WellFormed :=
  SetDefault_foldl_wellFormed _ n h

theorem NodeOp.apply_keeps_wellFormed (o : EqualKeyOrder) (n : Node) (op : NodeOp)
    (h : n.WellFormed) (hf : op.Fresh n) : (op.apply o n).WellFormed := by
  cases op with
  | slotOp reg op => exact SlotOp.apply_wellFormed o reg n op h hf
  | setSlotVariableId s v => exact SetSlotVariableId_wellFormed n s v h
  | resetSlotVariableId s => exact ResetSlotVariableId_wellFormed n s h
  | setInput d s => exact SetInput_wellFormed n d s h
  | signalInput s => exact SignalInput_wellFormed n s h

theorem runNodeOps_wellFormed (o : EqualKeyOrder) (ops : List NodeOp) :
    ∀ n : Node, n.WellFormed → FreshNodeRun o n ops → (runNodeOps o n ops).WellFormed := by
  induction ops with
  | nil => intro n h _; exact h
  | cons op t ih =>
    intro n h hf
    exact ih _ (NodeOp.apply_keeps_wellFormed o n op h hf.1) hf.2

end Node

/-- C34 (`SetInput` writes only node-owned storage). For every well-formed node, slot `s`
and datum `d`: when `s` has a binding whose owned variable is stored on the node,
`SetInput(d, s)` changes nothing but the variable list, in which the variable with the
owned id holds `d` and every other variable is unchanged; the datum that the active
variable of any slot resolves to is unchanged when that active id is not the owned id of
`s`, in particular for `s` itself after a redirection; when `s` has no binding, or its
owned variable is not stored on the node, the node is unchanged. -/
theorem C34_set_input_owned_storage (reg : VariableRegistry) (n : Node) (d : Datum)
    (s : SlotId) (hwf : n.WellFormed) :
    (∀ e, mapFind n.m_slotIdVarInfoMap s = some e → e.2.m_ownedVariableId ∈ n.variableIds →
        n.SetInput d s
            = { n with
                m_varDatums :=
                  n.m_varDatums.map (fun x =>
                    if x.2.m_id = e.2.m_ownedVariableId then (x.1, { x.2 with m_data := d })
                    else x) }
          ∧ ∀ s', n.GetVariableId s' ≠ e.2.m_ownedVariableId →
              (n.SetInput d s).GetActiveVariableDatum reg s' = n.GetActiveVariableDatum reg s')
      ∧ (∀ e, mapFind n.m_slotIdVarInfoMap s = some e →
          e.2.m_ownedVariableId ∉ n.variableIds → n.SetInput d s = n)
      ∧ (mapFind n.m_slotIdVarInfoMap s = none → n.SetInput d s = n) := by
  refine ⟨?_, ?_, ?_⟩
  · intro e he hmem
    obtain ⟨c, v, hc, _, _, _⟩ := Node.variable_of_index hwf hmem
    have hset : n.SetInput d s
        = { n with
            m_varDatums :=
              n.m_varDatums.map (fun x =>
                if x.2.m_id = e.2.m_ownedVariableId then (x.1, { x.2 with m_data := d })
                else x) } := by
      unfold Node.SetInput
      rw [he]
      simp only
      rw [hc]
      simp only
      rw [Node.cellModify_variable hwf hc]
      rfl
    refine ⟨hset, ?_⟩
    intro s' hs'
    rw [hset]
    unfold Node.GetActiveVariableDatum
    have hvid : Node.GetVariableId
        { n with
          m_varDatums :=
            n.m_varDatums.map (fun x =>
              if x.2.m_id = e.2.m_ownedVariableId then (x.1, { x.2 with m_data := d })
              else x) } s' = n.GetVariableId s' := rfl
    simp only [hvid]
    by_cases hv : (n.GetVariableId s').IsValid = true
    · rw [if_pos hv, if_pos hv]
      cases hf : mapFind n.m_varIdMap (n.GetVariableId s') with
      | none => rfl
      | some c' =>
        simp only
        rw [cellDeref_map n.m_varDatums c'.2 (fun v => { v with m_data := d })
          (fun v => v.m_id = e.2.m_ownedVariableId)]
        cases hd : cellDeref n.m_varDatums c'.2 with
        | none => rfl
        | some w =>
          have hw := cellDeref_some_mem hd
          have hwid : w.m_id = n.GetVariableId s' :=
            (Node.variable_cell_spec hwf hf (c'.2, w) hw).2 rfl
          have hne : ¬ w.m_id = e.2.m_ownedVariableId := by rw [hwid]; exact hs'
          simp [hne]
    · rw [if_neg hv, if_neg hv]
  · intro e he hmem
    have hnone : mapFind n.m_varIdMap e.2.m_ownedVariableId = none :=
      (mapFind_eq_none_iff _ _).2
        (fun hk => hmem ((Node.keys_varIdMap hwf.indices).mem_iff.1 hk))
    unfold Node.SetInput
    rw [he]
    simp only
    rw [hnone]
  · intro he
    unfold Node.SetInput
    rw [he]

/-- Witness of C34 on `Node.twoDatumSample`: the active binding of slot 40 is redirected to
the variable 410; `SetInput` on slot 40 then writes the owned variable 400, and the datum
the active variable of slot 40 resolves to is unchanged. -/
theorem C34_set_input_owned_storage_witness :
    ((Node.twoDatumSample.redirect [(⟨40⟩, ⟨410⟩)]).SetInput ⟨⟨1⟩, 9, "", ⟨0⟩⟩
        ⟨40⟩).GetActiveVariableDatum [] ⟨40⟩
      = (Node.twoDatumSample.redirect [(⟨40⟩, ⟨410⟩)]).GetActiveVariableDatum [] ⟨40⟩ :=
  ((C34_set_input_owned_storage [] (Node.twoDatumSample.redirect [(⟨40⟩, ⟨410⟩)])
      ⟨⟨1⟩, 9, "", ⟨0⟩⟩ ⟨40⟩
      (Node.redirect_wellFormed _ _
        (Node.runOps_wellFormed EqualKeyOrder.newestFirst [] _ _ (Node.empty_wellFormed _ _)
          (by decide)))).1
    (⟨40⟩, ⟨⟨410⟩, ⟨400⟩, DataType.Invalid⟩) (by decide) (by decide)).2 ⟨40⟩ (by decide)

/-! ## Bindings under sequences of operations -/

theorem mapFind_append_of_some {K V : Type} [DecidableEq K] (m t : List (K × V)) (k : K)
    (e : K × V) (h : mapFind m k = some e) : mapFind (m ++ t) k = some e := by
  unfold mapFind at h ⊢
  rw [List.find?_append, h]
  rfl

theorem mapFind_mapErase_ne {K V : Type} [DecidableEq K] (m : List (K × V)) (k k' : K)
    (h : k' ≠ k) : mapFind (mapErase m k) k' = mapFind m k' := by
  unfold mapErase mapFind
  induction m with
  | nil => rfl
  | cons a t ih =>
    by_cases ha : a.1 = k
    · have ha' : ¬ a.1 = k' := fun hc => h (hc.symm.trans ha)
      have h1 : (a :: t).eraseP (fun e => decide (e.1 = k)) = t := by
        simp [List.eraseP_cons, ha]
      rw [h1, List.find?_cons]
      simp [ha']
    · have h1 : (a :: t).eraseP (fun e => decide (e.1 = k))
          = a :: t.eraseP (fun e => decide (e.1 = k)) := by
        simp [List.eraseP_cons, ha]
      rw [h1, List.find?_cons, List.find?_cons, ih]

theorem mapFind_mapErase_self {K V : Type} [DecidableEq K] (m : List (K × V)) (k : K)
    (hk : (m.map Prod.fst).Nodup) : mapFind (mapErase m k) k = none :=
  (mapFind_eq_none_iff _ _).2 (key_not_mem_mapErase m k hk)

namespace Node

/-- The bindings and the variables after `InsertDataTypeSlotInternal` on a well-formed
node with a fresh id: unchanged after a rejection, one binding without an owned variable
appended otherwise. -/
theorem InsertDataTypeSlotInternal_grown (o : EqualKeyOrder) (n : Node) (i : Int)
    (cfg : SlotConfiguration) (t : DataType) (id : SlotId) (it : Option Cell)
    (h : n.WellFormed) (hf : id ∉ n.slotIds) :
    n.Grown (InsertDataTypeSlotInternal o n i cfg t id it).node := by
  cases hs : (InsertSlotInternal o n (-1) cfg id it).success with
  | false =>
    rw [InsertDataTypeSlotInternal_failure o n i cfg t id it hs]
    exact Or.inl ⟨rfl, rfl⟩
  | true =>
    rw [InsertDataTypeSlotInternal_node o n i cfg t id it h hs]
    exact Or.inr (Or.inr ⟨id, VariableInfo.ofDataType t, hf, rfl,
      mapAssign_of_not_mem _ _ _ (binding_key_fresh h hf), rfl⟩)

/-- The bindings and the variables after a slot mutation on a well-formed node with fresh
ids: grown as `Grown` says, or, for a removal, the binding of the removed slot and its
owned variable erased. -/
theorem SlotOp.apply_shape (o : EqualKeyOrder) (reg : VariableRegistry) (n : Node)
    (op : SlotOp) (h : n.WellFormed) (hf : op.Fresh n) :
    n.Grown (op.apply o reg n)
      ∨ (∃ g s, op = SlotOp.removeSlot g s
          ∧ (op.apply o reg n).m_slotIdVarInfoMap = mapErase n.m_slotIdVarInfoMap s
          ∧ (op.apply o reg n).m_varDatums
              = (match n.ownedVariableEntry s with
                 | some v => cellErase n.m_varDatums v.2
                 | none => n.m_varDatums)) := by
  cases op with
  | insertSlot index cfg id =>
    left
    show n.Grown (InsertSlotInternal o n index cfg id none).node
    rcases InsertSlotInternal_cases o n index cfg id none with ⟨_, h1⟩ | ⟨_, _, h2⟩
    · rw [h1]; exact Or.inl ⟨rfl, rfl⟩
    · rw [h2]; exact Or.inl ⟨rfl, rfl⟩
  | insertInputDatumSlot index cfg d id vid =>
    left
    show n.Grown (InsertInputDatumSlotInternal o reg n index cfg d id vid none).node
    cases hs : (InsertSlotInternal o n index cfg id none).success with
    | false =>
      rw [InsertInputDatumSlotInternal_failure o reg n index cfg d id vid none hs]
      rcases InsertSlotInternal_cases o n index cfg id none with ⟨_, h1⟩ | ⟨h0, _⟩
      · rw [h1]; exact Or.inl ⟨rfl, rfl⟩
      · rw [h0] at hs; exact absurd hs (by decide)
    | true =>
      rw [InsertInputDatumSlotInternal_node o reg n index cfg d id vid none h hs]
      exact Or.inr (Or.inl ⟨id, VariableInfo.ofVariableId reg vid, n.m_nextCell + 1,
        n.constructVariable cfg d vid, hf.1, hf.2, rfl,
        mapAssign_of_not_mem _ _ _ (binding_key_fresh h hf.1), rfl⟩)
  | addInputTypeSlot name toolTip t ct u id =>
    left
    have hf' : id ∉ n.slotIds := hf
    cases ct
    · exact InsertDataTypeSlotInternal_grown o n (-1)
        ⟨name, toolTip, SlotType.DataIn, [ContractDescriptor.typeContract (some t)], u⟩ t id
        none h hf'
    · exact InsertDataTypeSlotInternal_grown o n (-1)
        ⟨name, toolTip, SlotType.DataIn, [ContractDescriptor.typeContract none], u⟩ t id
        none h hf'
    · exact InsertDataTypeSlotInternal_grown o n (-1)
        ⟨name, toolTip, SlotType.DataIn, [], u⟩ t id none h hf'
  | addOutputTypeSlot name toolTip t u id =>
    left
    have hf' : id ∉ n.slotIds := hf
    show n.Grown (n.AddOutputTypeSlot o name toolTip t u id).node
    rw [AddOutputTypeSlot_node]
    exact InsertDataTypeSlotInternal_grown o n (-1) _ t id none h hf'
  | removeSlot g s =>
    cases hfind : mapFind n.m_slotIdMap s with
    | none =>
      left
      show n.Grown (n.RemoveSlot g s).node
      rw [RemoveSlot_of_find_none n g s hfind]
      exact Or.inl ⟨rfl, rfl⟩
    | some e =>
      right
      refine ⟨g, s, rfl, ?_, ?_⟩
      · show (n.RemoveSlot g s).node.m_slotIdVarInfoMap = _
        rw [RemoveSlot_of_find n g s e hfind]
      · show (n.RemoveSlot g s).node.m_varDatums = _
        rw [RemoveSlot_of_find n g s e hfind]

/-- What `SetSlotVariableId` leaves alone: the variables and their index. -/
theorem SetSlotVariableId_frame (n : Node) (s : SlotId) (v : VariableId) :
    (n.SetSlotVariableId s v).node.m_varDatums = n.m_varDatums
      ∧ (n.SetSlotVariableId s v).node.m_varIdMap = n.m_varIdMap
      ∧ (n.SetSlotVariableId s v).node.ownedIds = n.ownedIds := by
  unfold SetSlotVariableId
  cases hf : mapFind n.m_slotIdVarInfoMap s with
  | none => exact ⟨rfl, rfl, rfl⟩
  | some b =>
    simp only
    by_cases hb : b.2.m_currentVariableId ≠ v
    · rw [if_pos hb]
      refine ⟨rfl, rfl, ?_⟩
      exact mapModify_map_of_preserved _ _ _ _ (fun _ => rfl)
    · rw [if_neg hb]
      exact ⟨rfl, rfl, rfl⟩

theorem ResetSlotVariableId_frame (n : Node) (s : SlotId) :
    (n.ResetSlotVariableId s).node.m_varDatums = n.m_varDatums
      ∧ (n.ResetSlotVariableId s).node.m_varIdMap = n.m_varIdMap
      ∧ (n.ResetSlotVariableId s).node.ownedIds = n.ownedIds := by
  unfold ResetSlotVariableId
  cases hf : mapFind n.m_slotIdVarInfoMap s with
  | none => exact ⟨rfl, rfl, rfl⟩
  | some b => exact SetSlotVariableId_frame n s _

theorem cellModify_variableIds (l : List (Cell × VariableDatumBase)) (c : Cell)
    (f : VariableDatumBase → VariableDatumBase) (hf : ∀ v, (f v).m_id = v.m_id) :
    (cellModify l c f).map (fun e => e.2.m_id) = l.map (fun e => e.2.m_id) := by
  induction l with
  | nil => rfl
  | cons e t ih =>
    by_cases h : e.1 = c
    · simp [cellModify, h, hf]
    · simp [cellModify, h, ih]

/-- What `SetInput` leaves alone: the bindings and the ids of the variables. -/
theorem SetInput_frame (n : Node) (d : Datum) (s : SlotId) :
    (n.SetInput d s).m_slotIdVarInfoMap = n.m_slotIdVarInfoMap
      ∧ (n.SetInput d s).variableIds = n.variableIds := by
  unfold SetInput
  cases hf : mapFind n.m_slotIdVarInfoMap s with
  | none => exact ⟨rfl, rfl⟩
  | some b =>
    simp only
    cases hv : mapFind n.m_varIdMap b.2.m_ownedVariableId with
    | none => exact ⟨rfl, rfl⟩
    | some c => exact ⟨rfl, cellModify_variableIds _ _ _ (fun _ => rfl)⟩

theorem SetDefault_frame (n : Node) (s : SlotId) :
    (n.SetDefault s).m_slotIdVarInfoMap = n.m_slotIdVarInfoMap
      ∧ (n.SetDefault s).variableIds = n.variableIds := by
  unfold SetDefault
  simp only
  split
  · cases hv : mapFind n.m_varIdMap (n.GetVariableId s) with
    | none => exact ⟨rfl, rfl⟩
    | some c => exact ⟨rfl, cellModify_variableIds _ _ _ (fun _ => rfl)⟩
  · exact ⟨rfl, rfl⟩

/-- What `SignalInput` leaves alone: the bindings and the ids of the variables. -/
theorem SignalInput_frame (n : Node) (s : SlotId) :
    (n.SignalInput s).m_slotIdVarInfoMap = n.m_slotIdVarInfoMap
      ∧ (n.SignalInput s).variableIds = n.variableIds := by
  have key : ∀ (slots : List SlotId) (m : Node),
      (slots.foldl (fun n slotID => n.SetDefault slotID) m).m_slotIdVarInfoMap
          = m.m_slotIdVarInfoMap
        ∧ (slots.foldl (fun n slotID => n.SetDefault slotID) m).variableIds
          = m.variableIds := by
    intro slots
    induction slots with
    | nil => intro m; exact ⟨rfl, rfl⟩
    | cons a t ih =>
      intro m
      obtain ⟨h1, h2⟩ := ih (m.SetDefault a)
      obtain ⟨h3, h4⟩ := SetDefault_frame m a
      exact ⟨h1.trans h3, h2.trans h4⟩
  exact key n.m_possiblyStaleInput n

/-- One operation that is not the removal of the slot `s` keeps the binding of `s` and its
owned id. -/
theorem NodeOp.apply_binding (o : EqualKeyOrder) (n : Node) (op : NodeOp) (s : SlotId)
    (e : SlotId × VariableInfo) (h : n.WellFormed) (hf : op.Fresh n) (hk : ¬ op.Removes s)
    (he : mapFind n.m_slotIdVarInfoMap s = some e) :
    ∃ e', mapFind (op.apply o n).m_slotIdVarInfoMap s = some e'
      ∧ e'.2.m_ownedVariableId = e.2.m_ownedVariableId := by
  cases op with
  | slotOp reg op =>
    show ∃ e', mapFind (op.apply o reg n).m_slotIdVarInfoMap s = some e' ∧ _
    rcases SlotOp.apply_shape o reg n op h hf with
      (⟨hb, _⟩ | ⟨id, info, _, _, _, _, _, hb, _⟩ | ⟨id, info, _, _, hb, _⟩) | ⟨g, s', hop, hb, _⟩
    · rw [hb]; exact ⟨e, he, rfl⟩
    · rw [hb]; exact ⟨e, mapFind_append_of_some _ _ _ _ he, rfl⟩
    · rw [hb]; exact ⟨e, mapFind_append_of_some _ _ _ _ he, rfl⟩
    · rw [hb]
      have hne : s ≠ s' := by
        intro hc
        apply hk
        rw [hop]
        exact hc.symm
      rw [mapFind_mapErase_ne _ _ _ hne]
      exact ⟨e, he, rfl⟩
  | setSlotVariableId s' v => exact SetSlotVariableId_owned n s' v s e he
  | resetSlotVariableId s' =>
    show ∃ e', mapFind (n.ResetSlotVariableId s').node.m_slotIdVarInfoMap s = some e' ∧ _
    unfold ResetSlotVariableId
    cases hf' : mapFind n.m_slotIdVarInfoMap s' with
    | none => exact ⟨e, he, rfl⟩
    | some b => exact SetSlotVariableId_owned n s' _ s e he
  | setInput d s' =>
    show ∃ e', mapFind (n.SetInput d s').m_slotIdVarInfoMap s = some e' ∧ _
    rw [(SetInput_frame n d s').1]
    exact ⟨e, he, rfl⟩
  | signalInput s' =>
    show ∃ e', mapFind (n.SignalInput s').m_slotIdVarInfoMap s = some e' ∧ _
    rw [(SignalInput_frame n s').1]
    exact ⟨e, he, rfl⟩

/-- A sequence of operations without a removal of the slot `s` keeps the binding of `s` and
its owned id. -/
theorem runNodeOps_binding (o : EqualKeyOrder) (ops : List NodeOp) (s : SlotId) :
    ∀ (n : Node) (e : SlotId × VariableInfo), n.WellFormed → FreshNodeRun o n ops →
      (∀ op ∈ ops, ¬ op.Removes s) → mapFind n.m_slotIdVarInfoMap s = some e →
      ∃ e', mapFind (runNodeOps o n ops).m_slotIdVarInfoMap s = some e'
        ∧ e'.2.m_ownedVariableId = e.2.m_ownedVariableId := by
  induction ops with
  | nil => intro n e _ _ _ he; exact ⟨e, he, rfl⟩
  | cons op t ih =>
    intro n e h hf hk he
    obtain ⟨e1, h1, ho1⟩ := NodeOp.apply_binding o n op s e h hf.1
      (hk op (List.mem_cons_self op t)) he
    obtain ⟨e2, h2, ho2⟩ := ih (op.apply o n) e1
      (NodeOp.apply_keeps_wellFormed o n op h hf.1) hf.2
      (fun x hx => hk x (List.mem_cons_of_mem op hx)) h1
    exact ⟨e2, h2, ho2.trans ho1⟩

end Node

/-- C31 (the owned variable is never reassigned). For every well-formed node and binding
of a slot `s`, after every sequence of slot insertions with fresh ids, removals of other
slots, `SetSlotVariableId`, `ResetSlotVariableId`, `SetInput` and `SignalInput` calls, `s`
still has a binding and its owned variable id is the one recorded at the start; the
removal of `s` itself ends the binding. -/
theorem C31_owned_variable_never_reassigned (order : EqualKeyOrder) (n : Node)
    (ops : List Node.NodeOp) (s : SlotId) (e : SlotId × VariableInfo) (hwf : n.WellFormed)
    (hfresh : Node.FreshNodeRun order n ops) (hkeep : ∀ op ∈ ops, ¬ op.Removes s)
    (he : mapFind n.m_slotIdVarInfoMap s = some e) :
    (∃ e', mapFind (Node.runNodeOps order n ops).m_slotIdVarInfoMap s = some e'
        ∧ e'.2.m_ownedVariableId = e.2.m_ownedVariableId)
      ∧ ∀ graph : Option Graph,
          ((Node.runNodeOps order n ops).RemoveSlot graph s).removed = true
            ∧ mapFind ((Node.runNodeOps order n ops).RemoveSlot graph s).node.m_slotIdVarInfoMap
                s = none := by
  have hbind := Node.runNodeOps_binding order ops s n e hwf hfresh hkeep he
  refine ⟨hbind, ?_⟩
  intro graph
  have hwf' := Node.runNodeOps_wellFormed order ops n hwf hfresh
  obtain ⟨e', he', _⟩ := hbind
  have hmem : s ∈ (Node.runNodeOps order n ops).slotIds := by
    have := hwf'.bindingSlots e' (mapFind_some he').1
    rw [(mapFind_some he').2] at this
    exact this
  obtain ⟨c, hc⟩ := mapFind_isSome_of_mem
    ((Node.keys_slotIdMap hwf'.indices).mem_iff.2 hmem :
      s ∈ (Node.runNodeOps order n ops).m_slotIdMap.map Prod.fst)
  rw [Node.RemoveSlot_of_find _ graph s c hc]
  exact ⟨rfl, mapFind_mapErase_self _ _ hwf'.bindingKeys⟩

/-- Witness of C31 on `Node.twoDatumSample`: slot 40 is redirected, the other slot is
removed, an input is written, an input is signalled, a slot is inserted and slot 40 is
reset; the owned variable of slot 40 is still 400. -/
theorem C31_owned_variable_never_reassigned_witness :
    ∃ e', mapFind (Node.runNodeOps EqualKeyOrder.newestFirst Node.twoDatumSample
          [Node.NodeOp.setSlotVariableId ⟨40⟩ ⟨410⟩,
           Node.NodeOp.slotOp [] (Node.SlotOp.removeSlot none ⟨41⟩),
           Node.NodeOp.setInput ⟨⟨1⟩, 9, "", ⟨0⟩⟩ ⟨40⟩,
           Node.NodeOp.signalInput ⟨40⟩,
           Node.NodeOp.slotOp []
             (Node.SlotOp.insertSlot (-1) ⟨"Out", "", SlotType.ExecutionOut, [], false⟩ ⟨50⟩),
           Node.NodeOp.resetSlotVariableId ⟨40⟩]).m_slotIdVarInfoMap ⟨40⟩ = some e'
      ∧ e'.2.m_ownedVariableId = ⟨400⟩ :=
  (C31_owned_variable_never_reassigned EqualKeyOrder.newestFirst Node.twoDatumSample
    [Node.NodeOp.setSlotVariableId ⟨40⟩ ⟨410⟩,
     Node.NodeOp.slotOp [] (Node.SlotOp.removeSlot none ⟨41⟩),
     Node.NodeOp.setInput ⟨⟨1⟩, 9, "", ⟨0⟩⟩ ⟨40⟩,
     Node.NodeOp.signalInput ⟨40⟩,
     Node.NodeOp.slotOp []
       (Node.SlotOp.insertSlot (-1) ⟨"Out", "", SlotType.ExecutionOut, [], false⟩ ⟨50⟩),
     Node.NodeOp.resetSlotVariableId ⟨40⟩]
    ⟨40⟩ (⟨40⟩, ⟨⟨400⟩, ⟨400⟩, DataType.Invalid⟩)
    (Node.runOps_wellFormed EqualKeyOrder.newestFirst [] _ _ (Node.empty_wellFormed _ _)
      (by decide))
    (by decide) (by decide) (by decide)).1

/-! ## The owned variable of a binding stays on the node -/

namespace Node

theorem variableIds_eq_of_varDatums {n n' : Node} (h : n'.m_varDatums = n.m_varDatums) :
    n'.variableIds = n.variableIds := by
  unfold variableIds
  rw [h]

theorem ownedIds_eq_of_bindings {n n' : Node}
    (h : n'.m_slotIdVarInfoMap = n.m_slotIdVarInfoMap) : n'.ownedIds = n.ownedIds := by
  unfold ownedIds
  rw [h]

theorem live_congr {n n' : Node} (h1 : n'.ownedIds = n.ownedIds)
    (h2 : n'.variableIds = n.variableIds) (hl : n.OwnedVariablesLive) :
    n'.OwnedVariablesLive := by
  refine ⟨?_, ?_⟩
  · intro id hid hv
    rw [h2]
    rw [h1] at hid
    exact hl.present id hid hv
  · rw [h1]
    exact hl.distinct

/-- The empty node has no binding, so its owned variables are in place. -/
theorem empty_live (entity : Option EntityId) (cls : NodeClass) :
    (empty entity cls).OwnedVariablesLive :=
  ⟨fun _ hid _ => absurd hid (List.not_mem_nil _), List.nodup_nil⟩

theorem live_of_grown {n n' : Node} (hl : n.OwnedVariablesLive) (hg : n.Grown n') :
    n'.OwnedVariablesLive := by
  rcases hg with ⟨hb, hv⟩ | ⟨id, info, cell, var, _, hvar, hown, hb, hv⟩
    | ⟨id, info, _, hown, hb, hv⟩
  · exact live_congr (ownedIds_eq_of_bindings hb) (variableIds_eq_of_varDatums hv) hl
  · have ho : n'.ownedIds = n.ownedIds ++ [var.m_id] := by
      unfold ownedIds
      rw [hb, List.map_append, List.map_singleton, hown]
    have hi : n'.variableIds = n.variableIds ++ [var.m_id] := by
      unfold variableIds
      rw [hv, List.map_append, List.map_singleton]
    refine ⟨?_, ?_⟩
    · intro x hx hxv
      rw [hi]
      rw [ho] at hx
      rcases List.mem_append.1 hx with hx | hx
      · exact List.mem_append_left _ (hl.present x hx hxv)
      · exact List.mem_append_right _ hx
    · rw [ho, List.filter_append]
      refine List.Nodup.append hl.distinct ((List.nodup_singleton var.m_id).sublist
        (List.filter_sublist _)) ?_
      intro a ha hb'
      have ha1 : a ∈ n.ownedIds := List.mem_of_mem_filter ha
      have ha2 : a.IsValid = true := by simpa using (List.mem_filter.1 ha).2
      have ha3 : a = var.m_id := by
        have := List.mem_of_mem_filter hb'
        simpa using this
      exact hvar (ha3 ▸ hl.present a ha1 ha2)
  · have ho : n'.ownedIds = n.ownedIds ++ [VariableId.empty] := by
      unfold ownedIds
      rw [hb, List.map_append, List.map_singleton, hown]
    have hi : n'.variableIds = n.variableIds := variableIds_eq_of_varDatums hv
    refine ⟨?_, ?_⟩
    · intro x hx hxv
      rw [hi]
      rw [ho] at hx
      rcases List.mem_append.1 hx with hx | hx
      · exact hl.present x hx hxv
      · rw [List.mem_singleton] at hx
        rw [hx] at hxv
        exact absurd hxv (by decide)
    · rw [ho, List.filter_append]
      have : List.filter (fun id : VariableId => id.IsValid) [VariableId.empty] = [] := by
        decide
      rw [this, List.append_nil]
      exact hl.distinct

/-- The removal of a slot erases its binding and its owned variable and leaves the owned
variables of the other bindings in place. -/
theorem live_of_removal {n n' : Node} (s : SlotId) (hwf : n.WellFormed)
    (hl : n.OwnedVariablesLive)
    (hb : n'.m_slotIdVarInfoMap = mapErase n.m_slotIdVarInfoMap s)
    (hv : n'.m_varDatums
      = (match n.ownedVariableEntry s with
         | some v => cellErase n.m_varDatums v.2
         | none => n.m_varDatums)) :
    n'.OwnedVariablesLive := by
  have hsub : n'.ownedIds.Sublist n.ownedIds := by
    unfold ownedIds
    rw [hb]
    exact (mapErase_sublist _ _).map _
  refine ⟨?_, hl.distinct.sublist (hsub.filter _)⟩
  intro id hid hvalid
  have hin : id ∈ n.variableIds := hl.present id (hsub.subset hid) hvalid
  cases hov : n.ownedVariableEntry s with
  | none =>
    rw [hov] at hv
    rw [variableIds_eq_of_varDatums hv]
    exact hin
  | some v =>
    rw [hov] at hv
    simp only at hv
    -- the binding of the removed slot and the variable it owns
    have hov' := hov
    unfold ownedVariableEntry at hov'
    cases hfb : mapFind n.m_slotIdVarInfoMap s with
    | none => rw [hfb] at hov'; exact absurd hov' (by simp)
    | some b =>
      rw [hfb] at hov'
      simp only at hov'
      have hne : id ≠ b.2.m_ownedVariableId := by
        intro hc
        have hpb : (fun e : SlotId × VariableInfo => decide (e.1 = s)) b = true := by
          simpa using (mapFind_some hfb).2
        obtain ⟨a, l1, l2, hl1, hpa, hm, he⟩ :=
          List.exists_of_eraseP (p := fun e : SlotId × VariableInfo => decide (e.1 = s))
            (mapFind_some hfb).1 hpb
        have hab : a = b := by
          have hfind : mapFind n.m_slotIdVarInfoMap s = some a := by
            unfold mapFind
            rw [hm, List.find?_append]
            have : l1.find? (fun e => decide (e.1 = s)) = none := by
              rw [List.find?_eq_none]
              intro x hx
              exact hl1 x hx
            rw [this]
            simp [List.find?_cons, hpa]
          rw [hfb] at hfind
          exact (Option.some.inj hfind).symm
        have hd := hl.distinct
        unfold ownedIds at hd hid
        have he' : mapErase n.m_slotIdVarInfoMap s = l1 ++ l2 := he
        rw [hb, he'] at hid
        rw [hm, hab] at hd
        simp only [List.map_append, List.map_cons, List.filter_append] at hd hid
        have hbv : b.2.m_ownedVariableId.IsValid = true := hc ▸ hvalid
        rw [List.filter_cons_of_pos (by simpa using hbv)] at hd
        have hnot := (List.nodup_cons.1 (List.nodup_middle.1 hd)).1
        apply hnot
        rw [← hc]
        rcases List.mem_append.1 hid with h1 | h2
        · exact List.mem_append_left _ (List.mem_filter.2 ⟨h1, by simpa using hvalid⟩)
        · exact List.mem_append_right _ (List.mem_filter.2 ⟨h2, by simpa using hvalid⟩)
      obtain ⟨x, hx, hxid⟩ := List.mem_map.1 (show id ∈ n.m_varDatums.map (fun e => e.2.m_id)
        from hin)
      have hcell : x.1 ≠ v.2 := by
        intro hc
        exact hne (((variable_cell_spec hwf hov' x hx).2 hc) ▸ hxid.symm)
      have hx' : x ∈ cellErase n.m_varDatums v.2 :=
        (mem_cellErase_of_ne _ _ x hcell).2 hx
      show id ∈ n'.m_varDatums.map (fun e => e.2.m_id)
      rw [hv]
      exact List.mem_map.2 ⟨x, hx', hxid⟩

/-- One operation with fresh ids keeps the owned variables in place. -/
theorem NodeOp.apply_live (o : EqualKeyOrder) (n : Node) (op : NodeOp) (h : n.WellFormed)
    (hl : n.OwnedVariablesLive) (hf : op.Fresh n) : (op.apply o n).OwnedVariablesLive := by
  cases op with
  | slotOp reg op =>
    show (op.apply o reg n).OwnedVariablesLive
    rcases SlotOp.apply_shape o reg n op h hf with hg | ⟨g, s, _, hb, hv⟩
    · exact live_of_grown hl hg
    · exact live_of_removal s h hl hb
        (hv.trans (by cases n.ownedVariableEntry s <;> rfl))
  | setSlotVariableId s v =>
    obtain ⟨h1, _, h3⟩ := SetSlotVariableId_frame n s v
    exact live_congr h3 (variableIds_eq_of_varDatums h1) hl
  | resetSlotVariableId s =>
    obtain ⟨h1, _, h3⟩ := ResetSlotVariableId_frame n s
    exact live_congr h3 (variableIds_eq_of_varDatums h1) hl
  | setInput d s =>
    obtain ⟨h1, h2⟩ := SetInput_frame n d s
    exact live_congr (ownedIds_eq_of_bindings h1) h2 hl
  | signalInput s =>
    obtain ⟨h1, h2⟩ := SignalInput_frame n s
    exact live_congr (ownedIds_eq_of_bindings h1) h2 hl

theorem runNodeOps_live (o : EqualKeyOrder) (ops : List NodeOp) :
    ∀ n : Node, n.WellFormed → n.OwnedVariablesLive → FreshNodeRun o n ops →
      (runNodeOps o n ops).OwnedVariablesLive := by
  induction ops with
  | nil => intro n _ hl _; exact hl
  | cons op t ih =>
    intro n h hl hf
    exact ih _ (NodeOp.apply_keeps_wellFormed o n op h hf.1)
      (NodeOp.apply_live o n op h hl hf.1) hf.2

/-- In a well-formed node, a binding whose active id is the valid id of a variable of the
node resolves to that variable. -/
theorem GetActiveVariableDatum_of_mem (reg : VariableRegistry) {n : Node} (h : n.WellFormed)
    {s : SlotId} {e : SlotId × VariableInfo} (he : mapFind n.m_slotIdVarInfoMap s = some e)
    (hv : e.2.m_currentVariableId.IsValid = true)
    (hmem : e.2.m_currentVariableId ∈ n.variableIds) :
    ∃ c v, (c, v) ∈ n.m_varDatums ∧ v.m_id = e.2.m_currentVariableId
      ∧ n.GetActiveVariableDatum reg s = some v := by
  obtain ⟨c, v, hc, hd, hcv, hvid⟩ := variable_of_index h hmem
  refine ⟨c.2, v, hcv, hvid, ?_⟩
  unfold GetActiveVariableDatum GetVariableId
  rw [he]
  simp only
  rw [if_pos hv, hc]
  simp only
  exact hd

end Node
/-- C32, the claim fails on `Node.twoDatumSample`, whose slots 40 and 41 are created by
`AddInputDatumSlot` and own the variables 400 and 410.  `SetSlotVariableId(40, 7)` makes
the valid id 7 the active id of slot 40 although no variable of the node or of the empty
registry has it, and `GetActiveVariableDatum` returns null.  `SetSlotVariableId(40, 410)`
makes the variable of slot 41 the active variable of slot 40, which resolves; removing the
other slot 41 erases that variable, and `GetActiveVariableDatum` returns null for slot 40. -/
theorem C32_redirection_not_checked :
    (VariableId.mk 7).IsValid = true
      ∧ (Node.runNodeOps EqualKeyOrder.newestFirst Node.twoDatumSample
          [Node.NodeOp.setSlotVariableId ⟨40⟩ ⟨7⟩]).GetActiveVariableDatum [] ⟨40⟩ = none
      ∧ ((Node.runNodeOps EqualKeyOrder.newestFirst Node.twoDatumSample
          [Node.NodeOp.setSlotVariableId ⟨40⟩ ⟨410⟩]).GetActiveVariableDatum [] ⟨40⟩).isSome
          = true
      ∧ (Node.runNodeOps EqualKeyOrder.newestFirst Node.twoDatumSample
          [Node.NodeOp.setSlotVariableId ⟨40⟩ ⟨410⟩,
           Node.NodeOp.slotOp [] (Node.SlotOp.removeSlot none ⟨41⟩)]).GetActiveVariableDatum
            [] ⟨40⟩ = none
      ∧ Node.FreshNodeRun EqualKeyOrder.newestFirst Node.twoDatumSample
          [Node.NodeOp.setSlotVariableId ⟨40⟩ ⟨410⟩,
           Node.NodeOp.slotOp [] (Node.SlotOp.removeSlot none ⟨41⟩)]
      ∧ ¬ (Node.NodeOp.slotOp [] (Node.SlotOp.removeSlot none ⟨41⟩)).Removes ⟨40⟩ := by
  refine ⟨by decide, by decide, by decide, by decide, by decide, by decide⟩

/-- C32 (amended: the owned variable of a binding stays resolvable). For every well-formed
node whose owned variables are in place, every slot `s` whose binding owns a valid
variable id (as `AddInputDatumSlot` creates it) and every run of slot insertions, slot
removals other than of `s`, `SetSlotVariableId`, `ResetSlotVariableId`, `SetInput` and
`SignalInput` calls with fresh ids: after the run `s` has a binding with the same owned id
and the variable list of the node holds a variable `v` with that id; `GetActiveVariableDatum`
returns `v` whenever the active id of the binding is the owned id, and it returns `v` after
`ResetSlotVariableId(s)`, whatever the registry holds. -/
theorem C32_owned_variable_resolves (order : EqualKeyOrder) (reg : VariableRegistry)
    (n : Node) (ops : List Node.NodeOp) (s : SlotId) (e : SlotId × VariableInfo)
    (hwf : n.WellFormed) (hlive : n.OwnedVariablesLive)
    (hfresh : Node.FreshNodeRun order n ops) (hkeep : ∀ op ∈ ops, ¬ op.Removes s)
    (he : mapFind n.m_slotIdVarInfoMap s = some e)
    (hvalid : e.2.m_ownedVariableId.IsValid = true) :
    ∃ e' c v, mapFind (Node.runNodeOps order n ops).m_slotIdVarInfoMap s = some e'
      ∧ e'.2.m_ownedVariableId = e.2.m_ownedVariableId
      ∧ (c, v) ∈ (Node.runNodeOps order n ops).m_varDatums
      ∧ v.m_id = e.2.m_ownedVariableId
      ∧ (e'.2.m_currentVariableId = e.2.m_ownedVariableId →
          (Node.runNodeOps order n ops).GetActiveVariableDatum reg s = some v)
      ∧ ((Node.runNodeOps order n ops).ResetSlotVariableId s).node.GetActiveVariableDatum reg s
          = some v := by
  have hwf' := Node.runNodeOps_wellFormed order ops n hwf hfresh
  have hlive' := Node.runNodeOps_live order ops n hwf hlive hfresh
  obtain ⟨e', he', hown⟩ := Node.runNodeOps_binding order ops s n e hwf hfresh hkeep he
  have hmem : e.2.m_ownedVariableId ∈ (Node.runNodeOps order n ops).variableIds := by
    refine hlive'.present _ ?_ hvalid
    rw [← hown]
    exact List.mem_map.2 ⟨e', (mapFind_some he').1, rfl⟩
  obtain ⟨c, v, hc, hd, hcv, hvid⟩ := Node.variable_of_index hwf' hmem
  refine ⟨e', c.2, v, he', hown, hcv, hvid, ?_, ?_⟩
  · intro hcur
    unfold Node.GetActiveVariableDatum Node.GetVariableId
    rw [he']
    simp only
    rw [hcur, if_pos hvalid, hc]
    simp only
    exact hd
  · obtain ⟨e'', he'', _, hcur⟩ :=
      Node.ResetSlotVariableId_binding (Node.runNodeOps order n ops) s e' he'
    obtain ⟨hv1, hv2, _⟩ := Node.ResetSlotVariableId_frame (Node.runNodeOps order n ops) s
    unfold Node.GetActiveVariableDatum Node.GetVariableId
    rw [he'']
    simp only
    rw [hcur, hown, if_pos hvalid, hv2, hc, hv1]
    simp only
    exact hd

theorem C32_owned_variable_resolves_witness :
    ∃ e' c v, mapFind (Node.runNodeOps EqualKeyOrder.newestFirst Node.twoDatumSample
          [Node.NodeOp.setSlotVariableId ⟨40⟩ ⟨410⟩,
           Node.NodeOp.slotOp [] (Node.SlotOp.removeSlot none ⟨41⟩)]).m_slotIdVarInfoMap ⟨40⟩
          = some e'
      ∧ e'.2.m_ownedVariableId = ⟨400⟩
      ∧ (c, v) ∈ (Node.runNodeOps EqualKeyOrder.newestFirst Node.twoDatumSample
          [Node.NodeOp.setSlotVariableId ⟨40⟩ ⟨410⟩,
           Node.NodeOp.slotOp [] (Node.SlotOp.removeSlot none ⟨41⟩)]).m_varDatums
      ∧ v.m_id = ⟨400⟩
      ∧ (e'.2.m_currentVariableId = ⟨400⟩ →
          (Node.runNodeOps EqualKeyOrder.newestFirst Node.twoDatumSample
            [Node.NodeOp.setSlotVariableId ⟨40⟩ ⟨410⟩,
             Node.NodeOp.slotOp [] (Node.SlotOp.removeSlot none ⟨41⟩)]).GetActiveVariableDatum
              [] ⟨40⟩ = some v)
      ∧ ((Node.runNodeOps EqualKeyOrder.newestFirst Node.twoDatumSample
            [Node.NodeOp.setSlotVariableId ⟨40⟩ ⟨410⟩,
             Node.NodeOp.slotOp [] (Node.SlotOp.removeSlot none ⟨41⟩)]).ResetSlotVariableId
              ⟨40⟩).node.GetActiveVariableDatum [] ⟨40⟩ = some v :=
  C32_owned_variable_resolves EqualKeyOrder.newestFirst [] Node.twoDatumSample
    [Node.NodeOp.setSlotVariableId ⟨40⟩ ⟨410⟩,
     Node.NodeOp.slotOp [] (Node.SlotOp.removeSlot none ⟨41⟩)]
    ⟨40⟩ (⟨40⟩, ⟨⟨400⟩, ⟨400⟩, DataType.Invalid⟩)
    (Node.runOps_wellFormed EqualKeyOrder.newestFirst [] _ _ (Node.empty_wellFormed _ _)
      (by decide))
    ⟨by decide, by decide⟩ (by decide) (by decide) (by decide) (by decide)

end ScriptCanvas

namespace GraphCanvas

/-- C38, the bookkeeping invariant fails on `equalValuesRun`: two setters push the value 5
and the first releases its state.  Then the setter 2 still holds the value 5 in the setter
to value mapping, but the value set is empty, because `OnReleaseState` erases the value by
key and so erases both copies: `HasState` returns false although a setter holds a state. -/
theorem C38_release_erases_equal_values :
    (PrioritizedStateController.run PrioritizedStateController.less
        PrioritizedStateController.empty
        PrioritizedStateController.equalValuesRun).m_valueMapping = [(2, 5)]
      ∧ (PrioritizedStateController.run PrioritizedStateController.less
          PrioritizedStateController.empty
          PrioritizedStateController.equalValuesRun).m_valueSet = []
      ∧ (PrioritizedStateController.run PrioritizedStateController.less
          PrioritizedStateController.empty
          PrioritizedStateController.equalValuesRun).HasState = false := by
  refine ⟨by decide, by decide, by decide⟩

/-- C39, the priority rule fails on `priorityRun`: two setters push the value 5, a third
pushes 7 and the first releases its state.  The setter 2 still holds 5, which precedes 7,
but `GetCalculatedState` returns 7, because the release has erased both copies of 5 from
the value set.  On `equalValuesRun` the value set is empty while a setter holds a state,
so `GetCalculatedState` has no element to return. -/
theorem C39_calculated_state_not_least :
    (PrioritizedStateController.run PrioritizedStateController.less
        PrioritizedStateController.empty
        PrioritizedStateController.priorityRun).m_valueMapping = [(2, 5), (3, 7)]
      ∧ PrioritizedStateController.less 5 7 = true
      ∧ (PrioritizedStateController.run PrioritizedStateController.less
          PrioritizedStateController.empty
          PrioritizedStateController.priorityRun).GetCalculatedState = some 7
      ∧ (PrioritizedStateController.run PrioritizedStateController.less
          PrioritizedStateController.empty
          PrioritizedStateController.equalValuesRun).GetCalculatedState = none := by
  refine ⟨by decide, by decide, by decide, by decide⟩

end GraphCanvas

namespace CloudGemFramework

theorem c_str_length_le (s : AzString) : (c_str s).length ≤ s.length := by
  unfold c_str
  exact (List.takeWhile_sublist _).length_le

theorem c_str_of_noZero (s : AzString) (h : MultipartFormData.NoZero s) : c_str s = s := by
  unfold c_str
  rw [List.takeWhile_eq_self_iff]
  intro c hc
  simpa using h c hc

theorem foldl_append_eq {A : Type} (f : A → AzString) (l : List A) :
    ∀ init : AzString,
      l.foldl (fun content x => content ++ f x) init = init ++ (l.map f).flatten := by
  induction l with
  | nil => intro init; simp
  | cons a t ih => intro init; simp [ih, List.append_assoc]

theorem foldl_sizes_exact {A : Type} (g : A → Nat) (M : Nat) (l : List A) :
    ∀ init : Nat, init + (l.map g).sum < M →
      l.foldl (fun size x => (size + g x % M) % M) init = init + (l.map g).sum := by
  induction l with
  | nil => intro init _; simp
  | cons a t ih =>
    intro init h
    simp only [List.map_cons, List.sum_cons] at h
    have h1 : g a % M = g a := Nat.mod_eq_of_lt (by omega)
    have h2 : (init + g a) % M = init + g a := Nat.mod_eq_of_lt (by omega)
    rw [List.foldl_cons, h1, h2, ih (init + g a) (by omega)]
    simp only [List.map_cons, List.sum_cons]
    omega

namespace MultipartFormData

theorem format_field (b n : AzString) :
    format Detail.FIELD_HEADER_FMT [b, n]
      = "--".toList ++ (c_str b ++ ("\r\nContent-Disposition: form-data; name=\"".toList
          ++ (c_str n ++ "\"\r\n\r\n".toList))) := rfl

theorem format_file (b n f : AzString) :
    format Detail.FILE_HEADER_FMT [b, n, f]
      = "--".toList ++ (c_str b ++ ("\r\nContent-Disposition: form-data; name=\"".toList
          ++ (c_str n ++ ("\"; filename=\"".toList ++ (c_str f ++ "\"\r\n\r\n".toList))))) :=
  rfl

theorem format_footer (b : AzString) :
    format Detail.FOOTER_FMT [b] = "--".toList ++ (c_str b ++ "--\r\n".toList) := rfl

theorem separator_chars : c_str Detail.ENTRY_SEPARATOR.toList = "\r\n".toList := by decide

/-- The content `ComposeForm` builds, for a boundary that is not empty. -/
theorem ComposeForm_eq (self : MultipartFormData) (generated : AzString)
    (hne : self.m_boundary ≠ []) :
    self.ComposeForm generated
      = (self.m_fields.map (fun field =>
            format Detail.FIELD_HEADER_FMT [self.m_boundary, field.m_fieldName]
              ++ field.m_value ++ "\r\n".toList)).flatten
        ++ (self.m_fileFields.map (fun fileField =>
            format Detail.FILE_HEADER_FMT
                [self.m_boundary, fileField.m_fieldName, fileField.m_fileName]
              ++ fileField.m_fileData ++ "\r\n".toList)).flatten
        ++ format Detail.FOOTER_FMT [self.m_boundary] := by
  have hp : self.Prepare generated = self := by
    unfold Prepare
    rw [if_neg hne]
  unfold ComposeForm
  simp only [hp, separator_chars]
  have e1 : ∀ (init : AzString) (l : List Field),
      l.foldl (fun content field =>
        ((content ++ format Detail.FIELD_HEADER_FMT [self.m_boundary, field.m_fieldName])
          ++ field.m_value) ++ "\r\n".toList) init
      = init ++ (l.map (fun field =>
          format Detail.FIELD_HEADER_FMT [self.m_boundary, field.m_fieldName]
            ++ field.m_value ++ "\r\n".toList)).flatten := by
    intro init l
    rw [← foldl_append_eq]
    congr 1
    funext content field
    simp only [List.append_assoc]
  have e2 : ∀ (init : AzString) (l : List FileField),
      l.foldl (fun content fileField =>
        ((content ++ format Detail.FILE_HEADER_FMT
            [self.m_boundary, fileField.m_fieldName, fileField.m_fileName])
          ++ fileField.m_fileData) ++ "\r\n".toList) init
      = init ++ (l.map (fun fileField =>
          format Detail.FILE_HEADER_FMT
              [self.m_boundary, fileField.m_fieldName, fileField.m_fileName]
            ++ fileField.m_fileData ++ "\r\n".toList)).flatten := by
    intro init l
    rw [← foldl_append_eq]
    congr 1
    funext content fileField
    simp only [List.append_assoc]
  rw [e1, e2]
  simp

theorem literal_sizes :
    sizeofLiteral Detail.FIELD_HEADER_FMT = 52 ∧ sizeofLiteral Detail.FILE_HEADER_FMT = 67
      ∧ sizeofLiteral Detail.FOOTER_FMT = 9 ∧ sizeofLiteral Detail.ENTRY_SEPARATOR = 3 := by
  decide

/-- A loop of `EstimateBodySize` in the arithmetic of `size_t`, when the exact sum fits:
`base` is the base size of an entry before its reduction. -/
theorem foldl_entries_exact {A : Type} (base : Nat) (g : A → Nat) (l : List A) (init : Nat)
    (h : init + (l.map (fun x => base + g x)).sum < sizeRange) :
    l.foldl (fun size x => (size + (base % sizeRange + g x) % sizeRange) % sizeRange) init
      = init + (l.map (fun x => base + g x)).sum := by
  cases l with
  | nil => simp
  | cons a t =>
    have hbase : base % sizeRange = base := by
      apply Nat.mod_eq_of_lt
      simp only [List.map_cons, List.sum_cons] at h
      omega
    rw [hbase]
    exact foldl_sizes_exact (fun x => base + g x) sizeRange (a :: t) init h

/-- Without overflow `EstimateBodySize` returns the exact sum. -/
theorem EstimateBodySize_exact (self : MultipartFormData) (hfit : self.estimateExact < sizeRange) :
    self.EstimateBodySize = self.estimateExact := by
  unfold estimateExact at hfit
  have e1 := foldl_entries_exact
    (self.m_boundary.length + sizeofLiteral Detail.FIELD_HEADER_FMT
      + sizeofLiteral Detail.ENTRY_SEPARATOR)
    (fun field : Field => field.m_fieldName.length + field.m_value.length) self.m_fields
    (sizeofLiteral Detail.FOOTER_FMT + self.m_boundary.length)
    (by simp only [← Nat.add_assoc]; omega)
  have e2 := foldl_entries_exact
    (self.m_boundary.length + sizeofLiteral Detail.FILE_HEADER_FMT
      + sizeofLiteral Detail.ENTRY_SEPARATOR)
    (fun fileField : FileField => fileField.m_fieldName.length + fileField.m_fileName.length
      + fileField.m_fileData.length) self.m_fileFields
    (sizeofLiteral Detail.FOOTER_FMT + self.m_boundary.length
      + (self.m_fields.map (fun field : Field =>
          self.m_boundary.length + sizeofLiteral Detail.FIELD_HEADER_FMT
            + sizeofLiteral Detail.ENTRY_SEPARATOR
            + (field.m_fieldName.length + field.m_value.length))).sum)
    (by simp only [← Nat.add_assoc]; omega)
  have hfoot : (sizeofLiteral Detail.FOOTER_FMT + self.m_boundary.length) % sizeRange
      = sizeofLiteral Detail.FOOTER_FMT + self.m_boundary.length :=
    Nat.mod_eq_of_lt (by omega)
  unfold EstimateBodySize estimateExact
  simp only [hfoot, ← Nat.add_assoc] at e1 e2 ⊢
  rw [e1, e2]

theorem sum_map_le {A : Type} (f g : A → Nat) (l : List A) (h : ∀ x ∈ l, f x ≤ g x) :
    (l.map f).sum ≤ (l.map g).sum := by
  induction l with
  | nil => simp
  | cons a t ih =>
    simp only [List.map_cons, List.sum_cons]
    have h1 := h a (List.mem_cons_self a t)
    have h2 := ih (fun x hx => h x (List.mem_cons_of_mem a hx))
    omega

theorem format_field_length (b n : AzString) :
    (format Detail.FIELD_HEADER_FMT [b, n]).length = 47 + (c_str b).length + (c_str n).length := by
  rw [format_field]
  simp only [List.length_append]
  have h1 : "--".toList.length = 2 := by decide
  have h2 : "\r\nContent-Disposition: form-data; name=\"".toList.length = 40 := by decide
  have h3 : "\"\r\n\r\n".toList.length = 5 := by decide
  omega

theorem format_file_length (b n f : AzString) :
    (format Detail.FILE_HEADER_FMT [b, n, f]).length
      = 60 + (c_str b).length + (c_str n).length + (c_str f).length := by
  rw [format_file]
  simp only [List.length_append]
  have h1 : "--".toList.length = 2 := by decide
  have h2 : "\r\nContent-Disposition: form-data; name=\"".toList.length = 40 := by decide
  have h3 : "\"; filename=\"".toList.length = 13 := by decide
  have h4 : "\"\r\n\r\n".toList.length = 5 := by decide
  omega

theorem format_footer_length (b : AzString) :
    (format Detail.FOOTER_FMT [b]).length = 6 + (c_str b).length := by
  rw [format_footer]
  simp only [List.length_append]
  have h1 : "--".toList.length = 2 := by decide
  have h2 : "--\r\n".toList.length = 4 := by decide
  omega

/-- The length of the content `ComposeForm` builds is at most the exact estimate. -/
theorem ComposeForm_length_le (self : MultipartFormData) (generated : AzString)
    (hne : self.m_boundary ≠ []) :
    (self.ComposeForm generated).length ≤ self.estimateExact := by
  rw [ComposeForm_eq self generated hne]
  unfold estimateExact
  obtain ⟨s1, s2, s3, s4⟩ := literal_sizes
  rw [s1, s2, s3, s4]
  simp only [List.length_append, List.length_flatten, List.map_map, format_footer_length]
  have hb := c_str_length_le self.m_boundary
  have hf : ((self.m_fields.map (List.length ∘ fun field =>
      format Detail.FIELD_HEADER_FMT [self.m_boundary, field.m_fieldName]
        ++ field.m_value ++ "\r\n".toList)).sum)
      ≤ (self.m_fields.map (fun field : Field =>
          self.m_boundary.length + 52 + 3 + field.m_fieldName.length
            + field.m_value.length)).sum := by
    apply sum_map_le
    intro field _
    simp only [Function.comp, List.length_append, format_field_length]
    have h1 := c_str_length_le field.m_fieldName
    have h2 : "\r\n".toList.length = 2 := by decide
    omega
  have hg : ((self.m_fileFields.map (List.length ∘ fun fileField =>
      format Detail.FILE_HEADER_FMT
          [self.m_boundary, fileField.m_fieldName, fileField.m_fileName]
        ++ fileField.m_fileData ++ "\r\n".toList)).sum)
      ≤ (self.m_fileFields.map (fun fileField : FileField =>
          self.m_boundary.length + 67 + 3 + fileField.m_fieldName.length
            + fileField.m_fileName.length + fileField.m_fileData.length)).sum := by
    apply sum_map_le
    intro fileField _
    simp only [Function.comp, List.length_append, format_file_length]
    have h1 := c_str_length_le fileField.m_fieldName
    have h2 := c_str_length_le fileField.m_fileName
    have h3 : "\r\n".toList.length = 2 := by decide
    omega
  omega

/-- The content `ComposeForm` builds is the body in the words of the specification, when
the boundary and the names have no zero char. -/
theorem ComposeForm_body (self : MultipartFormData) (generated : AzString)
    (hne : self.m_boundary ≠ []) (hb : NoZero self.m_boundary)
    (hf : ∀ field ∈ self.m_fields, NoZero field.m_fieldName)
    (hg : ∀ fileField ∈ self.m_fileFields,
      NoZero fileField.m_fieldName ∧ NoZero fileField.m_fileName) :
    self.ComposeForm generated = self.bodyInWords := by
  rw [ComposeForm_eq self generated hne]
  unfold bodyInWords
  have l1 : "\r\nContent-Disposition: form-data; name=\"".toList
      = "\r\n".toList ++ "Content-Disposition: form-data; name=\"".toList := by decide
  have l2 : "\"\r\n\r\n".toList = "\"".toList ++ "\r\n\r\n".toList := by decide
  have l3 : "--\r\n".toList = "--".toList ++ "\r\n".toList := by decide
  have e1 : self.m_fields.map (fun field =>
      format Detail.FIELD_HEADER_FMT [self.m_boundary, field.m_fieldName]
        ++ field.m_value ++ "\r\n".toList) = self.m_fields.map (fieldPart self.m_boundary) := by
    apply List.map_congr_left
    intro field hfield
    rw [format_field, c_str_of_noZero _ hb, c_str_of_noZero _ (hf field hfield), l1, l2]
    unfold fieldPart
    simp only [List.append_assoc]
  have e2 : self.m_fileFields.map (fun fileField =>
      format Detail.FILE_HEADER_FMT
          [self.m_boundary, fileField.m_fieldName, fileField.m_fileName]
        ++ fileField.m_fileData ++ "\r\n".toList)
      = self.m_fileFields.map (filePart self.m_boundary) := by
    apply List.map_congr_left
    intro fileField hfile
    rw [format_file, c_str_of_noZero _ hb, c_str_of_noZero _ (hg fileField hfile).1,
      c_str_of_noZero _ (hg fileField hfile).2, l1, l2]
    unfold filePart
    simp only [List.append_assoc]
  rw [e1, e2, format_footer, c_str_of_noZero _ hb, l3]
  simp only [List.append_assoc]

end MultipartFormData

end CloudGemFramework

namespace CloudGemFramework

/-- C40 (the size estimate is an upper bound). For every boundary that is not empty and
every list of fields and file fields, when the sum the estimate forms fits `size_t`,
`EstimateBodySize` is at least the length of the body `ComposeForm` builds; and when the
boundary and the names have no zero char that body is, in insertion order, one part per
field, then one part per file field, then the footer, as the specification words them. -/
theorem C40_estimate_is_upper_bound (self : MultipartFormData) (generated : AzString)
    (hne : self.m_boundary ≠ []) (hfit : self.estimateExact < MultipartFormData.sizeRange) :
    (self.ComposeForm generated).length ≤ self.EstimateBodySize
      ∧ (MultipartFormData.NoZero self.m_boundary →
          (∀ field ∈ self.m_fields, MultipartFormData.NoZero field.m_fieldName) →
          (∀ fileField ∈ self.m_fileFields,
            MultipartFormData.NoZero fileField.m_fieldName
              ∧ MultipartFormData.NoZero fileField.m_fileName) →
          self.ComposeForm generated = self.bodyInWords) := by
  constructor
  · rw [MultipartFormData.EstimateBodySize_exact self hfit]
    exact MultipartFormData.ComposeForm_length_le self generated hne
  · intro hb hf hg
    exact MultipartFormData.ComposeForm_body self generated hne hb hf hg

/-- Witness of C40 on the sample form: the body has 148 chars and the estimate is 165. -/
theorem C40_estimate_is_upper_bound_witness :
    (MultipartFormData.sample.ComposeForm []).length ≤ MultipartFormData.sample.EstimateBodySize
      ∧ (MultipartFormData.sample.ComposeForm []).length = 148
      ∧ MultipartFormData.sample.EstimateBodySize = 165 :=
  ⟨(C40_estimate_is_upper_bound MultipartFormData.sample [] (by decide)
      (show MultipartFormData.sample.estimateExact < MultipartFormData.sizeRange by
        have h : MultipartFormData.sample.estimateExact = 165 := by rfl
        rw [h]
        decide)).1,
   by rfl, by rfl⟩

end CloudGemFramework
